import Mathlib

/-!
The parsing-and-static-execution engine of toycc.

A shallow embedding of `src/parser/parser.c` (with the types of
`src/lexer/lexer.h` and `src/parser/parser.h`), of
`src/codegen/codegen.c` and of the lexer `src/copy/lexer.c`, and theorems
about them.  The tokenizer `src/lexer/lexer.c` that `main.c` calls is not
among the sources; `src/copy/lexer.c` is an earlier copy of it, and the
keywords of the tokenizer are modelled from the specification
(`word_token_type`).

Modelling conventions.

* `int` is a mathematical integer kept in the signed 32-bit range by
  `wrap32`; every arithmetic result is reduced explicitly.
* The operators `/` and `%` on `int` have no value for a zero divisor and
  for -2147483648 divided by -1; the division instruction raises `SIGFPE`
  there and the process stops, which is the distinguished error
  `Err.arithmeticTrap`.
* The reference arithmetic of the specification (`int32`, `bits32`,
  `binop_by_spec`, `assigned_by_spec`) is written without `wrap32` and the
  operator functions `c_add` ... `c_shr` of the embedding.
* A `Node *` is a value of type `Node`; the null pointer is `Node.NULL`.
  A pointer into a sibling chain is the number of `right` links that lead
  to it from the head of the chain.
* `exit(1)` is the result `Except.error e`, where `e` records which
  diagnostic the code printed.  Diagnostic output itself is not modelled,
  and allocation is assumed to succeed.
* The file `generate_code` writes is the list of the strings it prints, in
  order; opening the file is assumed to succeed.
* Loops and recursive descent take a `fuel` argument; running out of it is
  the distinguished error `Err.outOfFuel`, which no code path of the C
  program produces.
* Reading `value.str_val` of a token whose type is `INT` is undefined in C;
  it is the distinguished error `Err.invalidRead`.
* The file the lexer reads is the list of its characters, all ASCII, and
  the end of the list is `EOF`; `char` is signed, so that `ungetc` of a
  character read at the end of the file changes nothing.
* `free_ast` is the list of the nodes it releases, in the order of release.
-/

namespace Toycc



deriving instance DecidableEq for Except

/-! ## Tokens (`lexer.h`) -/

inductive TokenType
  | INT
  | KEYWORD
  | SEPARATOR
  | IDENTIFIER
  | OPERATOR
  | STRING_LITERAL
  deriving DecidableEq, Repr

/-- A token: `int_val` is meaningful when `type = INT`, `str_val` otherwise. -/
structure Token where
  type : TokenType
  int_val : Int
  str_val : String
  line : Int
  col : Int
  deriving DecidableEq, Repr

/-- Sample tokens at line 1, column 1, for concrete programs. -/
def tInt (v : Int) : Token := ⟨.INT, v, "", 1, 1⟩

def tOp (s : String) : Token := ⟨.OPERATOR, 0, s, 1, 1⟩

def tSep (s : String) : Token := ⟨.SEPARATOR, 0, s, 1, 1⟩

def tKw (s : String) : Token := ⟨.KEYWORD, 0, s, 1, 1⟩

def tId (s : String) : Token := ⟨.IDENTIFIER, 0, s, 1, 1⟩

/-! ## Fatal errors -/

/-- The diagnostics after which the program calls `exit(1)`. -/
inductive Err
  | endOfInput
  | undefinedVariable (name : String)
  | expected (what : String)
  | unexpectedToken
  | divisionByZero
  | moduloByZero
  | cannotEvaluate
  | unknownOperator (op : String)
  | elseWithoutIf
  | unsupportedStatement
  | variableNotFound (name : String)
  | popEmptyScopeStack
  | invalidRead
  | arithmeticTrap
  | outOfFuel
  deriving DecidableEq, Repr

/-- The error classes of the specification. -/
inductive ErrKind
  | structural
  | unresolvedReference
  | arithmetic
  | exhaustedInput
  | undefinedBehaviour
  | noFuel
  deriving DecidableEq, Repr

def Err.kind : Err → ErrKind
  | .endOfInput => .exhaustedInput
  | .undefinedVariable _ => .unresolvedReference
  | .variableNotFound _ => .unresolvedReference
  | .divisionByZero => .arithmetic
  | .moduloByZero => .arithmetic
  | .invalidRead => .undefinedBehaviour
  | .arithmeticTrap => .undefinedBehaviour
  | .outOfFuel => .noFuel
  | _ => .structural

/-- The string field of a token, as `strcmp(tok.value.str_val, ...)` reads it. -/
def Token.str (t : Token) : Except Err String :=
  if t.type = TokenType.INT then .error .invalidRead else .ok t.str_val

/-! ## 32-bit arithmetic -/

/-- Reduction of an integer into the signed 32-bit range. -/
def wrap32 (x : Int) : Int := (x + 2147483648) % 4294967296 - 2147483648

/-- The unsigned 32-bit pattern of an integer. -/
def toU32 (x : Int) : Nat := (x % 4294967296).toNat

def c_bool (b : Bool) : Int := if b then 1 else 0

def c_add (l r : Int) : Int := wrap32 (l + r)

def c_sub (l r : Int) : Int := wrap32 (l - r)

def c_mul (l r : Int) : Int := wrap32 (l * r)

/-- Truncating division, as `/` on `int`.  A zero divisor and the quotient
`INT_MIN / -1`, which is no `int`, are undefined in C: the `idiv`
instruction raises `SIGFPE` for both and the process stops, which is the
distinguished error `Err.arithmeticTrap`. -/
def c_div (l r : Int) : Except Err Int :=
  if r = 0 ∨ (l = -2147483648 ∧ r = -1) then .error .arithmeticTrap
  else .ok (wrap32 (Int.tdiv l r))

/-- Remainder of truncating division, as `%` on `int`; it is computed by
the same `idiv` instruction and stops the process for the same operands. -/
def c_mod (l r : Int) : Except Err Int :=
  if r = 0 ∨ (l = -2147483648 ∧ r = -1) then .error .arithmeticTrap
  else .ok (wrap32 (Int.tmod l r))

def c_and (l r : Int) : Int := wrap32 (Int.ofNat (Nat.land (toU32 l) (toU32 r)))

def c_or (l r : Int) : Int := wrap32 (Int.ofNat (Nat.lor (toU32 l) (toU32 r)))

def c_xor (l r : Int) : Int := wrap32 (Int.ofNat (Nat.xor (toU32 l) (toU32 r)))

/-- Left shift; the count is taken modulo 32 as the x86 shift instructions do. -/
def c_shl (l r : Int) : Int := wrap32 (l * 2 ^ (r % 32).toNat)

/-- Arithmetic right shift; the count is taken modulo 32. -/
def c_shr (l r : Int) : Int := wrap32 (l / 2 ^ (r % 32).toNat)

/-! ## Symbol tables and the scope stack (`parser.h`, `parser.c` 45-202) -/

inductive VarType
  | VAR_INT
  deriving DecidableEq, Repr

structure Symbol where
  name : String
  type : VarType
  value : Int
  line : Int
  col : Int
  deriving DecidableEq, Repr

/-- The array `symbols[0 .. size)`. -/
abbrev SymbolTable := List Symbol

/-- The array `tables[0 .. size)`: outermost table first, innermost last. -/
abbrev ScopeStack := List SymbolTable

def create_symbol_table : SymbolTable := []

def add_symbol (table : SymbolTable) (name : String) (type : VarType)
    (value line col : Int) : SymbolTable :=
  table ++ [{ name := name, type := type, value := value, line := line, col := col }]

def update_symbol : SymbolTable → String → Int → Except Err SymbolTable
  | [], name, _ => .error (.variableNotFound name)
  | s :: rest, name, value =>
    if s.name = name then .ok ({ s with value := value } :: rest)
    else
      match update_symbol rest name value with
      | .ok rest' => .ok (s :: rest')
      | .error e => .error e

def find_symbol : SymbolTable → String → Option Symbol
  | [], _ => none
  | s :: rest, name => if s.name = name then some s else find_symbol rest name

def create_scope_stack : ScopeStack := []

def push_scope (stack : ScopeStack) (table : SymbolTable) : ScopeStack :=
  stack ++ [table]

def pop_scope (stack : ScopeStack) : Except Err ScopeStack :=
  if stack.length = 0 then .error .popEmptyScopeStack else .ok stack.dropLast

def current_scope (stack : ScopeStack) : Option SymbolTable := stack.getLast?

/-- The loop `for (i = size - 1; i >= 0; i--)`: the tables after the head
are searched before the head. -/
def find_symbol_in_scope_stack : ScopeStack → String → Option Symbol
  | [], _ => none
  | table :: inner, name =>
    match find_symbol_in_scope_stack inner name with
    | some sym => some sym
    | none => find_symbol table name

/-- The index of `target_table` in `parse_assignment_statement`: the last
table that holds the name. -/
def find_target_table : ScopeStack → String → Option Nat
  | [], _ => none
  | table :: inner, name =>
    match find_target_table inner name with
    | some j => some (j + 1)
    | none => if (find_symbol table name).isSome then some 0 else none

/-- The call `update_symbol(target_table, name, value)` for the table at index `j`. -/
def update_symbol_at (stack : ScopeStack) (j : Nat) (name : String) (value : Int) :
    Except Err ScopeStack :=
  match stack[j]? with
  | none => .error .invalidRead
  | some table =>
    match update_symbol table name value with
    | .ok table' => .ok (stack.set j table')
    | .error e => .error e

/-- The call `add_symbol(current_table, ...)` where `current_table` is the top table. -/
def add_symbol_current (stack : ScopeStack) (name : String) (value line col : Int) :
    ScopeStack :=
  match stack.getLast? with
  | none => stack
  | some table => stack.dropLast ++ [add_symbol table name .VAR_INT value line col]

/-! ## Tree nodes (`parser.h`, `parser.c` 204-307) -/

inductive NodeType
  | NODE_LITERAL_INT
  | NODE_BINARY_EXPR
  | NODE_EXIT_CALL
  | NODE_IF_STATEMENT
  | NODE_ELSE_IF_STATEMENT
  | NODE_ELSE_STATEMENT
  | NODE_WHILE_STATEMENT
  | NODE_DO_WHILE_STATEMENT
  | NODE_IDENTIFIER
  | NODE_STATEMENT_END
  | NODE_UNKNOWN
  | NODE_BEGIN
  | NODE_VAR_DECL
  | NODE_TYPE_SPECIFIER
  | NODE_ASSIGNMENT
  | NODE_BLOCK
  deriving DecidableEq, Repr

/-- The union `value` of a node. -/
inductive NodeValue
  | int_val (v : Int)
  | str_val (s : Option String)
  deriving DecidableEq, Repr

/-- A possibly null pointer to a node that owns its `left` (first child)
and `right` (next sibling) subtrees. -/
inductive Node
  | NULL
  | mk (type : NodeType) (value : NodeValue) (line col : Int) (left right : Node)
  deriving DecidableEq, Repr

def Node.is_null : Node → Bool
  | .NULL => true
  | .mk .. => false

/-- The test `node->type == t` on a non-null node. -/
def Node.has_type : Node → NodeType → Bool
  | .NULL, _ => false
  | .mk type _ _ _ _ _, t => decide (type = t)

def Node.get_int : Node → Int
  | .mk _ (.int_val v) _ _ _ _ => v
  | _ => 0

def Node.get_str : Node → Option String
  | .mk _ (.str_val s) _ _ _ _ => s
  | _ => none

def Node.get_left : Node → Node
  | .NULL => .NULL
  | .mk _ _ _ _ left _ => left

def Node.get_right : Node → Node
  | .NULL => .NULL
  | .mk _ _ _ _ _ right => right

def Node.get_line : Node → Int
  | .NULL => 0
  | .mk _ _ line _ _ _ => line

def Node.get_col : Node → Int
  | .NULL => 0
  | .mk _ _ _ col _ _ => col

/-- The assignment `node->value.int_val = v`. -/
def Node.set_int : Node → Int → Node
  | .NULL, _ => .NULL
  | .mk type _ line col left right, v => .mk type (.int_val v) line col left right

/-- The assignment `node->left = l`. -/
def Node.set_left : Node → Node → Node
  | .NULL, _ => .NULL
  | .mk type value line col _ right, l => .mk type value line col l right

/-- The assignment `node->right = r`. -/
def Node.set_right : Node → Node → Node
  | .NULL, _ => .NULL
  | .mk type value line col left _, r => .mk type value line col left r

/-- The assignment `p->right = r` for the node `p` reached from the head of
a sibling chain by `d` links `right`. -/
def Node.set_right_at : Node → Nat → Node → Node
  | .NULL, _, _ => .NULL
  | .mk type value line col left _, 0, r => .mk type value line col left r
  | .mk type value line col left right, d + 1, r =>
    .mk type value line col left (Node.set_right_at right d r)

/-- The number of `right` links from a node to the end of its sibling chain. -/
def Node.chain_depth : Node → Nat
  | .NULL => 0
  | .mk _ _ _ _ _ .NULL => 0
  | .mk _ _ _ _ _ right => Node.chain_depth right + 1

def digit_value (c : Char) : Int := Int.ofNat (c.toNat - 48)

/-- The library function `atoi` on the characters of a string: blanks, an
optional sign, then decimal digits. -/
def atoi_digits : List Char → Int → Int
  | [], acc => acc
  | c :: cs, acc => if c.isDigit then atoi_digits cs (acc * 10 + digit_value c) else acc

def atoi_signed : List Char → Int
  | [] => 0
  | c :: cs =>
    if c = '-' then - atoi_digits cs 0
    else if c = '+' then atoi_digits cs 0
    else atoi_digits (c :: cs) 0

def atoi (s : String) : Int :=
  wrap32 (atoi_signed (s.toList.dropWhile Char.isWhitespace))

def createNode (type : NodeType) (value : Option String) (line col : Int) : Node :=
  if type = .NODE_LITERAL_INT then
    .mk type (.int_val (match value with
      | some s => atoi s
      | none => 0)) line col .NULL .NULL
  else
    .mk type (.str_val value) line col .NULL .NULL

def createNodeFromToken (token : Token) : Node :=
  match token.type with
  | .INT => .mk .NODE_LITERAL_INT (.int_val token.int_val) token.line token.col .NULL .NULL
  | .IDENTIFIER => createNode .NODE_IDENTIFIER (some token.str_val) token.line token.col
  | .KEYWORD =>
    createNode
      (if token.str_val = "exit" then .NODE_EXIT_CALL
       else if token.str_val = "if" then .NODE_IF_STATEMENT
       else if token.str_val = "int" then .NODE_TYPE_SPECIFIER
       else .NODE_UNKNOWN)
      (some token.str_val) token.line token.col
  | .OPERATOR =>
    createNode (if token.str_val = "=" then .NODE_ASSIGNMENT else .NODE_BINARY_EXPR)
      (some token.str_val) token.line token.col
  | .SEPARATOR =>
    createNode (if token.str_val = ";" then .NODE_STATEMENT_END else .NODE_UNKNOWN)
      (some token.str_val) token.line token.col
  | .STRING_LITERAL => createNode .NODE_UNKNOWN none token.line token.col

/-- A literal node without child and sibling. -/
def lit_node (v line col : Int) : Node :=
  .mk .NODE_LITERAL_INT (.int_val v) line col .NULL .NULL

/-! ## Constant folding (`parser.c` 309-448) -/

/-- The operator dispatch of `evaluate_constant_expression`. -/
def eval_binary (op : String) (left right : Int) : Except Err Int :=
  if op = "+" then .ok (c_add left right)
  else if op = "-" then .ok (c_sub left right)
  else if op = "*" then .ok (c_mul left right)
  else if op = "/" then
    (if right = 0 then .error .divisionByZero else c_div left right)
  else if op = "%" then
    (if right = 0 then .error .moduloByZero else c_mod left right)
  else if op = "&" then .ok (c_and left right)
  else if op = "|" then .ok (c_or left right)
  else if op = "^" then .ok (c_xor left right)
  else if op = "<<" then .ok (c_shl left right)
  else if op = ">>" then .ok (c_shr left right)
  else if op = "==" then .ok (c_bool (decide (left = right)))
  else if op = "<" then .ok (c_bool (decide (left < right)))
  else if op = "<=" then .ok (c_bool (decide (left ≤ right)))
  else if op = ">" then .ok (c_bool (decide (left > right)))
  else if op = ">=" then .ok (c_bool (decide (left ≥ right)))
  else if op = "!=" then .ok (c_bool (decide (left ≠ right)))
  else if op = "&&" then .ok (c_bool (decide (left ≠ 0 ∧ right ≠ 0)))
  else if op = "||" then .ok (c_bool (decide (left ≠ 0 ∨ right ≠ 0)))
  else .error (.unknownOperator op)

def evaluate_constant_expression : Node → Except Err Int
  | .NULL => .ok 0
  | .mk .NODE_LITERAL_INT value _ _ _ _ =>
    .ok (match value with
      | .int_val v => v
      | .str_val _ => 0)
  | .mk .NODE_IDENTIFIER _ _ _ _ _ => .error .cannotEvaluate
  | .mk .NODE_BINARY_EXPR value _ _ left right =>
    if left.is_null ∨ right.is_null then .error .cannotEvaluate
    else
      match evaluate_constant_expression left with
      | .error e => .error e
      | .ok l =>
        match evaluate_constant_expression right with
        | .error e => .error e
        | .ok r =>
          match value with
          | .str_val (some op) => eval_binary op l r
          | _ => .error .cannotEvaluate
  | .mk _ _ _ _ _ _ => .error .cannotEvaluate

def get_precedence (op : String) : Int :=
  if op = "*" ∨ op = "/" ∨ op = "%" then 9
  else if op = "+" ∨ op = "-" then 8
  else if op = "<<" ∨ op = ">>" then 7
  else if op = "<" ∨ op = "<=" ∨ op = ">" ∨ op = ">=" then 6
  else if op = "==" ∨ op = "!=" then 5
  else if op = "&" then 4
  else if op = "^" then 3
  else if op = "|" then 2
  else if op = "&&" then 1
  else if op = "||" then 0
  else -1

/-! ## The expression parser (`parser.c` 450-602) -/

mutual

def parse_primary : Nat → List Token → Nat → ScopeStack → Except Err (Node × Nat)
  | 0, _, _, _ => .error .outOfFuel
  | fuel + 1, tokens, i, scope_stack =>
    match tokens[i]? with
    | none => .error .endOfInput
    | some token =>
      if token.type = .INT ∨ token.type = .IDENTIFIER then
        if token.type = .IDENTIFIER then
          match find_symbol_in_scope_stack scope_stack token.str_val with
          | none => .error (.undefinedVariable token.str_val)
          | some sym =>
            if sym.type = .VAR_INT then
              .ok ((createNode .NODE_LITERAL_INT none token.line token.col).set_int sym.value,
                   i + 1)
            else .ok (createNodeFromToken token, i + 1)
        else .ok (createNodeFromToken token, i + 1)
      else if token.type = .SEPARATOR ∧ token.str_val = "(" then
        match parse_expression fuel tokens (i + 1) scope_stack 0 with
        | .error e => .error e
        | .ok (expr, i1) =>
          match tokens[i1]? with
          | none => .error (.expected ")")
          | some t =>
            match t.str with
            | .error e => .error e
            | .ok s => if s = ")" then .ok (expr, i1 + 1) else .error (.expected ")")
      else .error .unexpectedToken

def parse_expression : Nat → List Token → Nat → ScopeStack → Int → Except Err (Node × Nat)
  | 0, _, _, _, _ => .error .outOfFuel
  | fuel + 1, tokens, i, scope_stack, min_precedence =>
    match parse_primary fuel tokens i scope_stack with
    | .error e => .error e
    | .ok (left, i1) =>
      parse_expression_loop fuel tokens i1 scope_stack min_precedence left

/-- The loop `while (*i < num_tokens)` of `parse_expression`, entered with
the operand parsed so far in `left`. -/
def parse_expression_loop :
    Nat → List Token → Nat → ScopeStack → Int → Node → Except Err (Node × Nat)
  | 0, _, _, _, _, _ => .error .outOfFuel
  | fuel + 1, tokens, i, scope_stack, min_precedence, left =>
    match tokens[i]? with
    | none => .ok (left, i)
    | some op_token =>
      if op_token.type ≠ .OPERATOR then .ok (left, i)
      else if get_precedence op_token.str_val < min_precedence then .ok (left, i)
      else
        match parse_expression fuel tokens (i + 1) scope_stack
            (get_precedence op_token.str_val + 1) with
        | .error e => .error e
        | .ok (right, i1) =>
          if left.has_type .NODE_LITERAL_INT ∧ right.has_type .NODE_LITERAL_INT then
            match evaluate_constant_expression
                (((createNodeFromToken op_token).set_left left).set_right right) with
            | .error e => .error e
            | .ok result =>
              parse_expression_loop fuel tokens i1 scope_stack min_precedence
                ((createNode .NODE_LITERAL_INT none op_token.line op_token.col).set_int result)
          else
            parse_expression_loop fuel tokens i1 scope_stack min_precedence
              (((createNodeFromToken op_token).set_left left).set_right right)

end

/-! ## Token tests shared by the statement parsers -/

/-- The guard `*i >= num_tokens || strcmp(tokens[*i].value.str_val, s) != 0`
that precedes a fatal error `err`; the string is read without a type test. -/
def expect_str (tokens : List Token) (i : Nat) (s : String) (err : Err) : Except Err Unit :=
  match tokens[i]? with
  | none => .error err
  | some t =>
    match t.str with
    | .error e => .error e
    | .ok v => if v = s then .ok () else .error err

/-- The pair of guards `if (i >= num_tokens) fatal(end of input)` and
`if (strcmp(tokens[i].value.str_val, s) != 0) fatal(err)`. -/
def expect_str_or_end (tokens : List Token) (i : Nat) (s : String) (err : Err) :
    Except Err Unit :=
  match tokens[i]? with
  | none => .error .endOfInput
  | some t =>
    match t.str with
    | .error e => .error e
    | .ok v => if v = s then .ok () else .error err

/-- The test `*i < num_tokens && strcmp(tokens[*i].value.str_val, s) == 0`. -/
def peek_str (tokens : List Token) (i : Nat) (s : String) : Except Err Bool :=
  match tokens[i]? with
  | none => .ok false
  | some t =>
    match t.str with
    | .error e => .error e
    | .ok v => .ok (decide (v = s))

/-- The test `*i < num_tokens && tokens[*i].type == ty &&
strcmp(tokens[*i].value.str_val, s) == 0`. -/
def peek_typed (tokens : List Token) (i : Nat) (ty : TokenType) (s : String) : Bool :=
  match tokens[i]? with
  | none => false
  | some t => decide (t.type = ty) && decide (t.str_val = s)

/-- The value a condition node gives to `condition_active`: a literal by
its value, an identifier by its symbol (`unresolved` without one), any
other node leaves the flag at `otherwise`. -/
def eval_condition (condition : Node) (scope_stack : ScopeStack)
    (otherwise unresolved : Bool) : Bool :=
  if condition.has_type .NODE_LITERAL_INT then decide (condition.get_int ≠ 0)
  else if condition.has_type .NODE_IDENTIFIER then
    match condition.get_str with
    | none => unresolved
    | some name =>
      match find_symbol_in_scope_stack scope_stack name with
      | some sym => decide (sym.value ≠ 0)
      | none => unresolved
  else otherwise

/-- What a statement parser hands back: the node, the position of
`*last_node_out` in the sibling chain of that node, the cursor and the
scope stack. -/
structure Parsed where
  node : Node
  last : Nat
  i : Nat
  scope_stack : ScopeStack
  deriving DecidableEq, Repr

/-! ## Declarations (`parser.c` 604-728) -/

/-- The value of `initial_value` for a parsed initialiser. -/
def initial_value_of (init_expr : Node) (scope_stack : ScopeStack) : Int :=
  if init_expr.has_type .NODE_LITERAL_INT then init_expr.get_int
  else if init_expr.has_type .NODE_IDENTIFIER then
    match init_expr.get_str with
    | none => 0
    | some name =>
      match find_symbol_in_scope_stack scope_stack name with
      | some sym => sym.value
      | none => 0
  else 0

/-- The loop `while (*i < num_tokens)` of `parse_variable_declaration`;
`first_decl` heads the chain built so far and `current_decl` is the
position of its last node. -/
def parse_variable_declaration_loop :
    Nat → List Token → Nat → ScopeStack → Bool → Node → Nat → Except Err Parsed
  | 0, _, _, _, _, _, _ => .error .outOfFuel
  | fuel + 1, tokens, i, scope_stack, condition_active, first_decl, current_decl =>
    match tokens[i]? with
    | none => .ok ⟨first_decl, current_decl, i, scope_stack⟩
    | some id_token =>
      if id_token.type ≠ .IDENTIFIER then .error (.expected "identifier")
      else
        match peek_str tokens (i + 1) "=" with
        | .error e => .error e
        | .ok has_init =>
          match (if has_init then parse_expression fuel tokens (i + 2) scope_stack 0
                 else .ok (Node.NULL, i + 1)) with
          | .error e => .error e
          | .ok (init_expr, i1) =>
            match tokens[i1]? with
            | none => .error .endOfInput
            | some t =>
              match t.str with
              | .error e => .error e
              | .ok sep =>
                if sep = ";" then
                  .ok ⟨(if first_decl.is_null then
                          (createNode .NODE_VAR_DECL (some id_token.str_val)
                            id_token.line id_token.col).set_left init_expr
                        else
                          first_decl.set_right_at current_decl
                            ((createNode .NODE_VAR_DECL (some id_token.str_val)
                              id_token.line id_token.col).set_left init_expr)),
                       (if first_decl.is_null then 0 else current_decl + 1),
                       i1 + 1,
                       (if condition_active then
                          add_symbol_current scope_stack id_token.str_val
                            (initial_value_of init_expr scope_stack) id_token.line id_token.col
                        else scope_stack)⟩
                else if sep = "," then
                  parse_variable_declaration_loop fuel tokens (i1 + 1)
                    (if condition_active then
                       add_symbol_current scope_stack id_token.str_val
                         (initial_value_of init_expr scope_stack) id_token.line id_token.col
                     else scope_stack)
                    condition_active
                    (if first_decl.is_null then
                       (createNode .NODE_VAR_DECL (some id_token.str_val)
                         id_token.line id_token.col).set_left init_expr
                     else
                       first_decl.set_right_at current_decl
                         ((createNode .NODE_VAR_DECL (some id_token.str_val)
                           id_token.line id_token.col).set_left init_expr))
                    (if first_decl.is_null then 0 else current_decl + 1)
                else .error (.expected ", or ;")

def parse_variable_declaration (fuel : Nat) (tokens : List Token) (i : Nat)
    (scope_stack : ScopeStack) (condition_active : Bool) : Except Err Parsed :=
  if peek_typed tokens i .KEYWORD "int" then
    parse_variable_declaration_loop fuel tokens (i + 1) scope_stack condition_active .NULL 0
  else .error (.expected "int")

/-! ## Assignments (`parser.c` 730-950) -/

def is_assignment_operator (s : String) : Bool :=
  decide (s = "=" ∨ s = "+=" ∨ s = "-=" ∨ s = "*=" ∨ s = "/=" ∨ s = "%=" ∨
    s = "<<=" ∨ s = ">>=")

/-- The test `*i < num_tokens && tokens[*i].type == OPERATOR &&` one of the
eight assignment operators. -/
def peek_assignment_operator (tokens : List Token) (i : Nat) : Bool :=
  match tokens[i]? with
  | none => false
  | some next => decide (next.type = .OPERATOR) && is_assignment_operator next.str_val

/-- The operator string with its final `=` removed (`strncpy` of
`strlen - 1` characters). -/
def strip_assign (s : String) : String := String.mk s.toList.dropLast

/-- The value `rhs_value` read from the parsed right-hand side. -/
def rhs_value_of (expr : Node) (scope_stack : ScopeStack) : Int :=
  if expr.has_type .NODE_LITERAL_INT then expr.get_int
  else if expr.has_type .NODE_IDENTIFIER then
    match expr.get_str with
    | none => 0
    | some name =>
      match find_symbol_in_scope_stack scope_stack name with
      | some sym => sym.value
      | none => 0
  else 0

/-- The chain `if (op && strcmp(op, "+") == 0) ... else if ...` that
computes `result` from `current_value` and `rhs_value`. -/
def compound_result (op : Option String) (current_value rhs_value : Int) : Except Err Int :=
  match op with
  | none => .ok current_value
  | some op =>
    if op = "+" then .ok (c_add current_value rhs_value)
    else if op = "-" then .ok (c_sub current_value rhs_value)
    else if op = "*" then .ok (c_mul current_value rhs_value)
    else if op = "/" ∧ rhs_value ≠ 0 then c_div current_value rhs_value
    else if op = "%" ∧ rhs_value ≠ 0 then c_mod current_value rhs_value
    else if op = "<<" then .ok (c_shl current_value rhs_value)
    else if op = ">>" then .ok (c_shr current_value rhs_value)
    else .ok current_value

/-- The value `current_value`: the value of the symbol `name` in the
target table, 0 without one. -/
def current_value_at (scope_stack : ScopeStack) (target_table : Nat) (name : String) : Int :=
  match scope_stack[target_table]? with
  | none => 0
  | some table =>
    match find_symbol table name with
    | some sym => sym.value
    | none => 0

/-- The block `if (condition_active && target_table)` of
`parse_assignment_statement`: the symbol update and the replacement of the
right-hand side by a literal. -/
def apply_assignment (scope_stack : ScopeStack) (target_table : Nat) (name : String)
    (assign_node value_to_store expr : Node) : Except Err (Node × ScopeStack) :=
  if value_to_store.has_type .NODE_LITERAL_INT then
    match update_symbol_at scope_stack target_table name value_to_store.get_int with
    | .error e => .error e
    | .ok scope_stack1 => .ok (assign_node, scope_stack1)
  else if value_to_store.has_type .NODE_IDENTIFIER then
    match value_to_store.get_str with
    | none => .ok (assign_node, scope_stack)
    | some src =>
      match find_symbol_in_scope_stack scope_stack src with
      | none => .ok (assign_node, scope_stack)
      | some src_sym =>
        match update_symbol_at scope_stack target_table name src_sym.value with
        | .error e => .error e
        | .ok scope_stack1 => .ok (assign_node, scope_stack1)
  else if value_to_store.has_type .NODE_BINARY_EXPR then
    match compound_result value_to_store.get_str
        (current_value_at scope_stack target_table name)
        (rhs_value_of expr scope_stack) with
    | .error e => .error e
    | .ok result =>
      match update_symbol_at scope_stack target_table name result with
      | .error e => .error e
      | .ok scope_stack1 =>
        .ok (assign_node.set_right
              ((createNode .NODE_LITERAL_INT none value_to_store.get_line
                  value_to_store.get_col).set_int result),
             scope_stack1)
  else .ok (assign_node, scope_stack)

def parse_assignment_statement (fuel : Nat) (tokens : List Token) (i : Nat)
    (scope_stack : ScopeStack) (condition_active : Bool) : Except Err Parsed :=
  match tokens[i]? with
  | none => .error .invalidRead
  | some id_token =>
    if id_token.type ≠ .IDENTIFIER then .error (.expected "identifier")
    else
      match find_target_table scope_stack id_token.str_val with
      | none => .error (.undefinedVariable id_token.str_val)
      | some target_table =>
        match tokens[i + 1]? with
        | none => .error (.expected "assignment operator")
        | some op_token =>
          if op_token.type ≠ .OPERATOR ∨ ¬ is_assignment_operator op_token.str_val then
            .error (.expected "assignment operator")
          else
            match parse_expression fuel tokens (i + 2) scope_stack 0 with
            | .error e => .error e
            | .ok (expr, i1) =>
              match expect_str tokens i1 ";" (.expected ";") with
              | .error e => .error e
              | .ok _ =>
                if condition_active then
                  match apply_assignment scope_stack target_table id_token.str_val
                      (((createNode .NODE_ASSIGNMENT (some "=") id_token.line
                          id_token.col).set_left
                        (createNode .NODE_IDENTIFIER (some id_token.str_val) id_token.line
                          id_token.col)).set_right
                        (if op_token.str_val ≠ "=" then
                           ((createNode .NODE_BINARY_EXPR (some (strip_assign op_token.str_val))
                              op_token.line op_token.col).set_left
                             (createNode .NODE_IDENTIFIER (some id_token.str_val) id_token.line
                               id_token.col)).set_right expr
                         else expr))
                      (if op_token.str_val ≠ "=" then
                         ((createNode .NODE_BINARY_EXPR (some (strip_assign op_token.str_val))
                            op_token.line op_token.col).set_left
                           (createNode .NODE_IDENTIFIER (some id_token.str_val) id_token.line
                             id_token.col)).set_right expr
                       else expr)
                      expr with
                  | .error e => .error e
                  | .ok (assign_node, scope_stack1) => .ok ⟨assign_node, 0, i1 + 1, scope_stack1⟩
                else
                  .ok ⟨((createNode .NODE_ASSIGNMENT (some "=") id_token.line
                          id_token.col).set_left
                        (createNode .NODE_IDENTIFIER (some id_token.str_val) id_token.line
                          id_token.col)).set_right
                        (if op_token.str_val ≠ "=" then
                           ((createNode .NODE_BINARY_EXPR (some (strip_assign op_token.str_val))
                              op_token.line op_token.col).set_left
                             (createNode .NODE_IDENTIFIER (some id_token.str_val) id_token.line
                               id_token.col)).set_right expr
                         else expr),
                       0, i1 + 1, scope_stack⟩

/-! ## `exit` (`parser.c` 952-1038) -/

/-- The test `arg->type == NODE_IDENTIFIER` followed by a failed lookup. -/
def exit_arg_unresolved (arg : Node) (scope_stack : ScopeStack) : Bool :=
  arg.has_type .NODE_IDENTIFIER &&
    (match arg.get_str with
     | none => true
     | some name => (find_symbol_in_scope_stack scope_stack name).isNone)

def parse_exit_statement (fuel : Nat) (tokens : List Token) (i : Nat)
    (scope_stack : ScopeStack) : Except Err Parsed :=
  match tokens[i]? with
  | none => .error .invalidRead
  | some exit_token =>
    match expect_str tokens (i + 1) "(" (.expected "(") with
    | .error e => .error e
    | .ok _ =>
      match parse_expression fuel tokens (i + 2) scope_stack 0 with
      | .error e => .error e
      | .ok (arg, i1) =>
        if exit_arg_unresolved arg scope_stack then
          .error (.undefinedVariable (arg.get_str.getD ""))
        else
          match expect_str tokens i1 ")" (.expected ")") with
          | .error e => .error e
          | .ok _ =>
            match expect_str tokens (i1 + 1) ";" (.expected ";") with
            | .error e => .error e
            | .ok _ =>
              .ok ⟨(createNode .NODE_EXIT_CALL (some "exit") exit_token.line
                      exit_token.col).set_left arg,
                   0, i1 + 2, scope_stack⟩

/-! ## Control flow (`parser.c` 1174-2140) -/

/-- The loop `while (current)` of `parse_else_statement` that folds the
conditions of the `else if` nodes of a chain into `any_condition_active`. -/
def chain_any_active : Node → ScopeStack → Bool → Bool
  | .NULL, _, any_condition_active => any_condition_active
  | .mk type _ _ _ left right, scope_stack, any_condition_active =>
    chain_any_active right scope_stack
      (if type = .NODE_ELSE_IF_STATEMENT ∧ ¬ left.is_null then
         any_condition_active || eval_condition left scope_stack false false
       else any_condition_active)

mutual

def parse_if_statement : Nat → List Token → Nat → ScopeStack → Except Err Parsed
  | 0, _, _, _ => .error .outOfFuel
  | fuel + 1, tokens, i, scope_stack =>
    match tokens[i]? with
    | none => .error .invalidRead
    | some if_token =>
      match expect_str tokens (i + 1) "(" (.expected "(") with
      | .error e => .error e
      | .ok _ =>
        match parse_expression fuel tokens (i + 2) scope_stack 0 with
        | .error e => .error e
        | .ok (condition, i1) =>
          match expect_str tokens i1 ")" (.expected ")") with
          | .error e => .error e
          | .ok _ =>
            match parse_block fuel tokens (i1 + 1) scope_stack
                (eval_condition condition scope_stack true true) with
            | .error e => .error e
            | .ok then_block =>
              .ok ⟨(createNode .NODE_IF_STATEMENT (some "if") if_token.line
                      if_token.col).set_left (condition.set_right then_block.node),
                   0, then_block.i, then_block.scope_stack⟩
termination_by structural fuel => fuel

/-- The loop of `parse_else_if_statements`; `last_else_if` is the position
of that node in the sibling chain of `if_node`, `none` for a null pointer.
The result carries `if_node` with the chain grown. -/
def parse_else_if_statements :
    Nat → List Token → Nat → ScopeStack → Node → Bool → Option Nat →
      Except Err (Node × Option Nat × Nat × ScopeStack)
  | 0, _, _, _, _, _, _ => .error .outOfFuel
  | fuel + 1, tokens, i, scope_stack, if_node, any_condition_active, last_else_if =>
    if peek_typed tokens i .KEYWORD "else" && peek_typed tokens (i + 1) .KEYWORD "if" then
      match tokens[i]? with
      | none => .error .invalidRead
      | some else_token =>
        match expect_str tokens (i + 2) "(" (.expected "(") with
        | .error e => .error e
        | .ok _ =>
          match parse_expression fuel tokens (i + 3) scope_stack 0 with
          | .error e => .error e
          | .ok (condition, i1) =>
            match expect_str tokens i1 ")" (.expected ")") with
            | .error e => .error e
            | .ok _ =>
              match parse_block fuel tokens (i1 + 1) scope_stack
                  (!any_condition_active && eval_condition condition scope_stack true true) with
              | .error e => .error e
              | .ok else_if_block =>
                if if_node.get_right.is_null then
                  parse_else_if_statements fuel tokens else_if_block.i else_if_block.scope_stack
                    (if_node.set_right
                      ((createNode .NODE_ELSE_IF_STATEMENT (some "else if") else_token.line
                        else_token.col).set_left (condition.set_right else_if_block.node)))
                    (any_condition_active ||
                      (!any_condition_active && eval_condition condition scope_stack true true))
                    (some 1)
                else
                  match last_else_if with
                  | none => .error .invalidRead
                  | some d =>
                    parse_else_if_statements fuel tokens else_if_block.i
                      else_if_block.scope_stack
                      (if_node.set_right_at d
                        ((createNode .NODE_ELSE_IF_STATEMENT (some "else if") else_token.line
                          else_token.col).set_left (condition.set_right else_if_block.node)))
                      (any_condition_active ||
                        (!any_condition_active &&
                          eval_condition condition scope_stack true true))
                      (some (d + 1))
    else .ok (if_node, last_else_if, i, scope_stack)
termination_by structural fuel => fuel

def parse_else_statement : Nat → List Token → Nat → ScopeStack → Except Err Parsed
  | 0, _, _, _ => .error .outOfFuel
  | fuel + 1, tokens, i, scope_stack =>
    if peek_typed tokens i .KEYWORD "else" then .error .elseWithoutIf
    else
      match parse_if_statement fuel tokens i scope_stack with
      | .error e => .error e
      | .ok if_stmt =>
        match parse_else_if_statements fuel tokens if_stmt.i if_stmt.scope_stack if_stmt.node
            (eval_condition if_stmt.node.get_left if_stmt.scope_stack false false) none with
        | .error e => .error e
        | .ok (if_node, last_else_if, i2, scope_stack2) =>
          if peek_typed tokens i2 .KEYWORD "else" then
            match tokens[i2]? with
            | none => .error .invalidRead
            | some else_token =>
              match parse_block fuel tokens (i2 + 1) scope_stack2
                  (!(match last_else_if with
                     | none =>
                       eval_condition if_stmt.node.get_left if_stmt.scope_stack false false
                     | some _ =>
                       chain_any_active if_node.get_right scope_stack2
                         (eval_condition if_stmt.node.get_left if_stmt.scope_stack
                           false false))) with
              | .error e => .error e
              | .ok else_block =>
                .ok ⟨(if if_node.get_right.is_null then
                        if_node.set_right
                          ((createNode .NODE_ELSE_STATEMENT (some "else") else_token.line
                            else_token.col).set_left else_block.node)
                      else
                        if_node.set_right_at if_node.chain_depth
                          ((createNode .NODE_ELSE_STATEMENT (some "else") else_token.line
                            else_token.col).set_left else_block.node)),
                     if_node.chain_depth + 1, else_block.i, else_block.scope_stack⟩
          else .ok ⟨if_node, last_else_if.getD 0, i2, scope_stack2⟩
termination_by structural fuel => fuel

/-- The loop `do ... while (condition_active)` of `parse_do_while_statement`. -/
def parse_do_while_loop :
    Nat → List Token → Nat → ScopeStack → Node → Node → Bool →
      Except Err (Node × Node × ScopeStack)
  | 0, _, _, _, _, _, _ => .error .outOfFuel
  | fuel + 1, tokens, block_start_pos, scope_stack, first_block, first_condition,
      first_iteration =>
    match parse_block fuel tokens block_start_pos scope_stack true with
    | .error e => .error e
    | .ok block =>
      match tokens[block.i]? with
      | none => .error .endOfInput
      | some while_token =>
        if while_token.type ≠ .KEYWORD ∨ while_token.str_val ≠ "while" then
          .error (.expected "while")
        else
          match expect_str_or_end tokens (block.i + 1) "(" (.expected "(") with
          | .error e => .error e
          | .ok _ =>
            match parse_expression fuel tokens (block.i + 2) block.scope_stack 0 with
            | .error e => .error e
            | .ok (condition, i1) =>
              match expect_str_or_end tokens i1 ")" (.expected ")") with
              | .error e => .error e
              | .ok _ =>
                match expect_str_or_end tokens (i1 + 1) ";" (.expected ";") with
                | .error e => .error e
                | .ok _ =>
                  if eval_condition condition block.scope_stack true false then
                    parse_do_while_loop fuel tokens block_start_pos block.scope_stack
                      (if first_iteration then block.node else first_block)
                      (if first_iteration then condition else first_condition)
                      false
                  else
                    .ok ((if first_iteration then block.node else first_block),
                         (if first_iteration then condition else first_condition),
                         block.scope_stack)
termination_by structural fuel => fuel

def parse_do_while_statement : Nat → List Token → Nat → ScopeStack → Except Err Parsed
  | 0, _, _, _ => .error .outOfFuel
  | fuel + 1, tokens, i, scope_stack =>
    match tokens[i]? with
    | none => .error .invalidRead
    | some do_token =>
      match parse_do_while_loop fuel tokens (i + 1) scope_stack .NULL .NULL true with
      | .error e => .error e
      | .ok (first_block, first_condition, scope_stack1) =>
        match parse_block fuel tokens (i + 1) scope_stack1 false with
        | .error e => .error e
        | .ok temp_block =>
          match parse_expression fuel tokens
              ((if peek_typed tokens temp_block.i .KEYWORD "while" then temp_block.i + 1
                else temp_block.i) +
               (if peek_typed tokens
                    (if peek_typed tokens temp_block.i .KEYWORD "while" then temp_block.i + 1
                     else temp_block.i) .SEPARATOR "(" then 1 else 0))
              temp_block.scope_stack 0 with
          | .error e => .error e
          | .ok (_, i3) =>
            .ok ⟨(createNode .NODE_DO_WHILE_STATEMENT (some "do") do_token.line
                    do_token.col).set_left (first_block.set_right first_condition),
                 0,
                 (if peek_typed tokens i3 .SEPARATOR ")" then i3 + 1 else i3) +
                   (if peek_typed tokens
                        (if peek_typed tokens i3 .SEPARATOR ")" then i3 + 1 else i3)
                        .SEPARATOR ";" then 1 else 0),
                 temp_block.scope_stack⟩
termination_by structural fuel => fuel

/-- The loop `while (condition_active)` of `parse_while_statement`. -/
def parse_while_loop :
    Nat → List Token → Nat → ScopeStack → Node → Node → Bool →
      Except Err (Node × Node × ScopeStack)
  | 0, _, _, _, _, _, _ => .error .outOfFuel
  | fuel + 1, tokens, loop_start_pos, scope_stack, first_condition, first_block,
      first_iteration =>
    match parse_expression fuel tokens loop_start_pos scope_stack 0 with
    | .error e => .error e
    | .ok (condition, i1) =>
      match expect_str tokens i1 ")" (.expected ")") with
      | .error e => .error e
      | .ok _ =>
        if eval_condition condition scope_stack true false then
          match parse_block fuel tokens (i1 + 1) scope_stack true with
          | .error e => .error e
          | .ok block =>
            parse_while_loop fuel tokens loop_start_pos block.scope_stack
              (if first_iteration then condition else first_condition)
              (if first_iteration then block.node else first_block)
              false
        else .ok (first_condition, first_block, scope_stack)
termination_by structural fuel => fuel

def parse_while_statement : Nat → List Token → Nat → ScopeStack → Except Err Parsed
  | 0, _, _, _ => .error .outOfFuel
  | fuel + 1, tokens, i, scope_stack =>
    match tokens[i]? with
    | none => .error .invalidRead
    | some while_token =>
      match expect_str tokens (i + 1) "(" (.expected "(") with
      | .error e => .error e
      | .ok _ =>
        match parse_while_loop fuel tokens (i + 2) scope_stack .NULL .NULL true with
        | .error e => .error e
        | .ok (first_condition, first_block, scope_stack1) =>
          match parse_expression fuel tokens (i + 2) scope_stack1 0 with
          | .error e => .error e
          | .ok (_, i1) =>
            match peek_str tokens i1 ")" with
            | .error e => .error e
            | .ok closing =>
              match parse_block fuel tokens (if closing then i1 + 1 else i1) scope_stack1
                  false with
              | .error e => .error e
              | .ok temp_block =>
                .ok ⟨(createNode .NODE_WHILE_STATEMENT (some "while") while_token.line
                        while_token.col).set_left (first_condition.set_right first_block),
                     0, temp_block.i, temp_block.scope_stack⟩
termination_by structural fuel => fuel

def parse_statement : Nat → List Token → Nat → ScopeStack → Bool → Except Err Parsed
  | 0, _, _, _, _ => .error .outOfFuel
  | fuel + 1, tokens, i, scope_stack, condition_active =>
    match tokens[i]? with
    | none => .ok ⟨.NULL, 0, i, scope_stack⟩
    | some token =>
      if token.type = .KEYWORD ∧ token.str_val = "int" then
        parse_variable_declaration fuel tokens i scope_stack condition_active
      else if token.type = .KEYWORD ∧ token.str_val = "exit" then
        parse_exit_statement fuel tokens i scope_stack
      else if token.type = .KEYWORD ∧ (token.str_val = "if" ∨ token.str_val = "else") then
        parse_else_statement fuel tokens i scope_stack
      else if token.type = .KEYWORD ∧ token.str_val = "while" then
        parse_while_statement fuel tokens i scope_stack
      else if token.type = .KEYWORD ∧ token.str_val = "do" then
        parse_do_while_statement fuel tokens i scope_stack
      else if token.type = .SEPARATOR ∧ token.str_val = "\x7b" then
        parse_block fuel tokens i scope_stack condition_active
      else if token.type = .IDENTIFIER ∧ peek_assignment_operator tokens (i + 1) then
        parse_assignment_statement fuel tokens i scope_stack condition_active
      else .error .unsupportedStatement
termination_by structural fuel => fuel

def parse_block : Nat → List Token → Nat → ScopeStack → Bool → Except Err Parsed
  | 0, _, _, _, _ => .error .outOfFuel
  | fuel + 1, tokens, i, scope_stack, condition_active =>
    match tokens[i]? with
    | none => .error .endOfInput
    | some token =>
      if token.type ≠ .SEPARATOR ∨ token.str_val ≠ "\x7b" then .error (.expected "\x7b")
      else
        parse_block_loop fuel tokens (i + 1) (push_scope scope_stack create_symbol_table)
          condition_active (createNode .NODE_BLOCK (some "\x7b") token.line token.col) 0
termination_by structural fuel => fuel

/-- The loop `while (*i < num_tokens)` of `parse_block`; `current_stmt` is
the position of that node in the sibling chain of `block_node->left`. -/
def parse_block_loop :
    Nat → List Token → Nat → ScopeStack → Bool → Node → Nat → Except Err Parsed
  | 0, _, _, _, _, _, _ => .error .outOfFuel
  | fuel + 1, tokens, i, scope_stack, condition_active, block_node, current_stmt =>
    match tokens[i]? with
    | none => .error .endOfInput
    | some token =>
      if token.type = .SEPARATOR ∧ token.str_val = "\x7d" then
        match pop_scope scope_stack with
        | .error e => .error e
        | .ok scope_stack1 => .ok ⟨block_node, 0, i + 1, scope_stack1⟩
      else
        match parse_statement fuel tokens i scope_stack condition_active with
        | .error e => .error e
        | .ok stmt =>
          if stmt.node.is_null then
            parse_block_loop fuel tokens stmt.i stmt.scope_stack condition_active
              block_node current_stmt
          else if block_node.get_left.is_null then
            parse_block_loop fuel tokens stmt.i stmt.scope_stack condition_active
              (block_node.set_left stmt.node) stmt.last
          else
            parse_block_loop fuel tokens stmt.i stmt.scope_stack condition_active
              (block_node.set_left (block_node.get_left.set_right_at current_stmt stmt.node))
              (current_stmt + 1 + stmt.last)
termination_by structural fuel => fuel

end

/-! ## The main parser (`parser.c` 2142-2204) -/

/-- The loop `for (size_t i = 0; i < num_tokens;)` of `parse`; `current`
is the position of that node in the sibling chain of `root->left`, `none`
for a null pointer.  The result is the value `parse` returns together with
the scope stack as it is when the loop is left, before it is released. -/
def parse_loop :
    Nat → List Token → Nat → ScopeStack → Node → Option Nat → Except Err (Node × ScopeStack)
  | 0, _, _, _, _, _ => .error .outOfFuel
  | fuel + 1, tokens, i, scope_stack, root, current =>
    if i < tokens.length then
      match parse_statement fuel tokens i scope_stack true with
      | .error e => .error e
      | .ok stmt =>
        if stmt.node.is_null then .ok (.NULL, stmt.scope_stack)
        else
          match current with
          | none =>
            parse_loop fuel tokens stmt.i stmt.scope_stack (root.set_left stmt.node)
              (some stmt.last)
          | some c =>
            parse_loop fuel tokens stmt.i stmt.scope_stack
              (root.set_left (root.get_left.set_right_at c stmt.node))
              (some (c + 1 + stmt.last))
    else .ok (root, scope_stack)

/-- The function `parse`, returning also the scope stack it is about to release. -/
def parse_with_scopes (fuel : Nat) (tokens : List Token) : Except Err (Node × ScopeStack) :=
  if tokens.length = 0 then .ok (.NULL, [])
  else
    parse_loop fuel tokens 0 (push_scope create_scope_stack create_symbol_table)
      (createNode .NODE_BEGIN (some "program") 0 0) none

def parse (fuel : Nat) (tokens : List Token) : Except Err Node :=
  match parse_with_scopes fuel tokens with
  | .error e => .error e
  | .ok (root, _) => .ok root

/-! ## Reference arithmetic

The value of the binary operators in the words of the specification,
written without the operator functions of the code. -/

/-- The `int` a mathematical integer denotes in 32-bit two's complement:
the representative of its class modulo 2^32 between -2147483648 and
2147483647. -/
def int32 (x : Int) : Int := Int.bmod x 4294967296

/-- The 32 bits of an `int`. -/
def bits32 (x : Int) : BitVec 32 := BitVec.ofInt 32 x

/-- The value of `l op r` for an operator of the precedence table: sum,
difference and product in 32-bit two's complement, the truncating quotient
and its remainder, the bitwise operators on the 32 bits, the shifts by the
count modulo 32 (the right shift keeps the sign), and 1 or 0 for the
comparisons and the logical operators.  It is `none` for a division or
modulo by zero, for the division or modulo of -2147483648 by -1, whose
quotient is no `int`, and for a string that is no operator of the table. -/
def binop_by_spec (op : String) (l r : Int) : Option Int :=
  if op = "+" then some (int32 (l + r))
  else if op = "-" then some (int32 (l - r))
  else if op = "*" then some (int32 (l * r))
  else if op = "/" then
    (if r = 0 ∨ (l = -2147483648 ∧ r = -1) then none else some (int32 (Int.tdiv l r)))
  else if op = "%" then
    (if r = 0 ∨ (l = -2147483648 ∧ r = -1) then none else some (int32 (Int.tmod l r)))
  else if op = "&" then some (bits32 l &&& bits32 r).toInt
  else if op = "|" then some (bits32 l ||| bits32 r).toInt
  else if op = "^" then some (bits32 l ^^^ bits32 r).toInt
  else if op = "<<" then some (bits32 l <<< (r % 32).toNat).toInt
  else if op = ">>" then some (int32 (l >>> (r % 32).toNat))
  else if op = "==" then some (if l = r then 1 else 0)
  else if op = "<" then some (if l < r then 1 else 0)
  else if op = "<=" then some (if l ≤ r then 1 else 0)
  else if op = ">" then some (if r < l then 1 else 0)
  else if op = ">=" then some (if r ≤ l then 1 else 0)
  else if op = "!=" then some (if l = r then 0 else 1)
  else if op = "&&" then some (if l = 0 ∨ r = 0 then 0 else 1)
  else if op = "||" then some (if l = 0 ∧ r = 0 then 0 else 1)
  else none

/-! ## Reference grammar and evaluation of expressions -/

/-- Expressions as the specification reads them: integer literals,
identifiers, parentheses and binary operators. -/
inductive Expr
  | lit (v : Int)
  | var (name : String)
  | paren (e : Expr)
  | bin (op : String) (l r : Expr)
  deriving DecidableEq, Repr

/-- Reference evaluation: the operands left to right, then the operator. -/
def Expr.eval (ss : ScopeStack) : Expr → Except Err Int
  | .lit v => .ok v
  | .var x =>
    match find_symbol_in_scope_stack ss x with
    | some sym => .ok sym.value
    | none => .error (.undefinedVariable x)
  | .paren e => e.eval ss
  | .bin op l r =>
    match l.eval ss with
    | .error x => .error x
    | .ok a =>
      match r.eval ss with
      | .error x => .error x
      | .ok b => eval_binary op a b

/-- The binding strength of the outermost operator; 10 for an operand. -/
def Expr.top : Expr → Int
  | .bin op _ _ => get_precedence op
  | _ => 10

/-- The tree groups its operators by the precedence table: the left
operand of an operator binds at least as tightly as the operator (equal
precedence groups to the left), the right operand strictly tighter. -/
def Expr.PrecOk : Expr → Prop
  | .lit _ => True
  | .var _ => True
  | .paren e => e.PrecOk
  | .bin op l r =>
    0 ≤ get_precedence op ∧ get_precedence op ≤ l.top ∧ get_precedence op < r.top ∧
      l.PrecOk ∧ r.PrecOk

def Expr.literal_only : Expr → Prop
  | .lit _ => True
  | .var _ => False
  | .paren e => e.literal_only
  | .bin _ l r => l.literal_only ∧ r.literal_only

/-- The token sequences that spell an expression. -/
inductive Spells : Expr → List Token → Prop
  | lit (t : Token) : t.type = .INT → Spells (.lit t.int_val) [t]
  | var (t : Token) : t.type = .IDENTIFIER → Spells (.var t.str_val) [t]
  | paren (o c : Token) (e : Expr) (ts : List Token) :
      o.type = .SEPARATOR → o.str_val = "(" → c.type = .SEPARATOR → c.str_val = ")" →
      Spells e ts → Spells (.paren e) (o :: ts ++ [c])
  | bin (t : Token) (l r : Expr) (tl tr : List Token) :
      t.type = .OPERATOR → Spells l tl → Spells r tr →
      Spells (.bin t.str_val l r) (tl ++ t :: tr)

/-- The token after an expression does not continue it above strength `p`. -/
def RestOk (p : Int) (rest : List Token) : Prop :=
  ∀ t r, rest = t :: r → t.type = .OPERATOR → get_precedence t.str_val ≤ p

/-- A node is a literal without child and sibling. -/
def Node.is_literal_leaf (n : Node) : Prop := ∃ v ln cl, n = lit_node v ln cl

/-- The node `parse_expression` folds for an operator token and two literal operands. -/
def binary_node (op : Token) (a b : Int) : Node :=
  ((createNodeFromToken op).set_left (lit_node a 1 1)).set_right (lit_node b 1 1)

/-! ## Reference semantics of assignments and blocks of assignments -/

/-- An assignment statement `name op rhs ;` with `op` one of the eight
assignment operators. -/
structure Assign where
  name : String
  op : String
  rhs : Expr
  deriving DecidableEq, Repr

/-- The value an assignment stores: the right-hand side for `=`, the
combination with the current value for a compound operator. -/
def assigned_value (op : String) (current r : Int) : Except Err Int :=
  if op = "=" then .ok r else compound_result (some (strip_assign op)) current r

/-- The effect of one assignment statement: the target must be declared
and the right-hand side must evaluate; the symbol of the innermost table
holding the name is updated when the statement is active. -/
def Assign.exec (active : Bool) (ss : ScopeStack) (a : Assign) : Except Err ScopeStack :=
  match find_target_table ss a.name with
  | none => .error (.undefinedVariable a.name)
  | some j =>
    match a.rhs.eval ss with
    | .error x => .error x
    | .ok r =>
      if active then
        match assigned_value a.op (current_value_at ss j a.name) r with
        | .error x => .error x
        | .ok v => update_symbol_at ss j a.name v
      else .ok ss

/-- The effect of a sequence of assignment statements. -/
def exec_assigns (active : Bool) : ScopeStack → List Assign → Except Err ScopeStack
  | ss, [] => .ok ss
  | ss, a :: rest =>
    match a.exec active ss with
    | .error x => .error x
    | .ok ss1 => exec_assigns active ss1 rest

/-- The token sequences that spell an assignment statement. -/
inductive SpellsAssign : Assign → List Token → Prop
  | mk (id op semi : Token) (rhs : Expr) (ts : List Token) :
      id.type = .IDENTIFIER → op.type = .OPERATOR → is_assignment_operator op.str_val = true →
      Spells rhs ts → rhs.PrecOk → semi.type = .SEPARATOR → semi.str_val = ";" →
      SpellsAssign ⟨id.str_val, op.str_val, rhs⟩ (id :: op :: ts ++ [semi])

/-- The token sequences that spell a sequence of assignment statements. -/
inductive SpellsAssigns : List Assign → List Token → Prop
  | nil : SpellsAssigns [] []
  | cons (a : Assign) (ta : List Token) (rest : List Assign) (tr : List Token) :
      SpellsAssign a ta → SpellsAssigns rest tr → SpellsAssigns (a :: rest) (ta ++ tr)

/-- The token sequences that spell a block `{ ... }` of assignment statements. -/
inductive SpellsBody : List Assign → List Token → Prop
  | mk (lb rb : Token) (body : List Assign) (ts : List Token) :
      lb.type = .SEPARATOR → lb.str_val = "\x7b" → rb.type = .SEPARATOR → rb.str_val = "\x7d" →
      SpellsAssigns body ts → SpellsBody body (lb :: ts ++ [rb])

/-- The cursor and the scope stack of a parse result. -/
def Parsed.state (r : Parsed) : Nat × ScopeStack := (r.i, r.scope_stack)

/-- The cursor and scope stack a statement parser ends with, or its fatal error. -/
def state_of (r : Except Err Parsed) : Except Err (Nat × ScopeStack) :=
  match r with
  | .error e => .error e
  | .ok p => .ok p.state

/-- The expected outcome: the cursor `i` with the scope stack of `r`. -/
def at_cursor (i : Nat) (r : Except Err ScopeStack) : Except Err (Nat × ScopeStack) :=
  match r with
  | .error e => .error e
  | .ok ss => .ok (i, ss)

/-! ## Reference semantics of `if` / `else if` / `else` chains -/

/-- A branch of a chain: its condition and its block of assignments. -/
structure Branch where
  cond : Expr
  body : List Assign
  deriving DecidableEq, Repr

/-- The token sequences `if ( cond ) { body }`. -/
inductive SpellsIf : Branch → List Token → Prop
  | mk (kw lp rp : Token) (c : Expr) (body : List Assign) (cts bts : List Token) :
      kw.type = .KEYWORD → kw.str_val = "if" → lp.type = .SEPARATOR → lp.str_val = "(" →
      rp.type = .SEPARATOR → rp.str_val = ")" → Spells c cts → c.PrecOk →
      SpellsBody body bts → SpellsIf ⟨c, body⟩ (kw :: lp :: cts ++ rp :: bts)

/-- The token sequences `else if ( cond ) { body }`. -/
inductive SpellsElseIf : Branch → List Token → Prop
  | mk (kwe kwi lp rp : Token) (c : Expr) (body : List Assign) (cts bts : List Token) :
      kwe.type = .KEYWORD → kwe.str_val = "else" → kwi.type = .KEYWORD → kwi.str_val = "if" →
      lp.type = .SEPARATOR → lp.str_val = "(" →
      rp.type = .SEPARATOR → rp.str_val = ")" → Spells c cts → c.PrecOk →
      SpellsBody body bts → SpellsElseIf ⟨c, body⟩ (kwe :: kwi :: lp :: cts ++ rp :: bts)

/-- The token sequences that spell a run of `else if` clauses. -/
inductive SpellsElseIfs : List Branch → List Token → Prop
  | nil : SpellsElseIfs [] []
  | cons (b : Branch) (tb : List Token) (rest : List Branch) (tr : List Token) :
      SpellsElseIf b tb → SpellsElseIfs rest tr → SpellsElseIfs (b :: rest) (tb ++ tr)

/-- The token sequences `else { body }`. -/
inductive SpellsElse : List Assign → List Token → Prop
  | mk (kwe : Token) (body : List Assign) (bts : List Token) :
      kwe.type = .KEYWORD → kwe.str_val = "else" → SpellsBody body bts →
      SpellsElse body (kwe :: bts)

/-- The first branch of a chain whose condition evaluates to a nonzero
value in the scope stack `ss`: the branch the specification calls active. -/
def first_true (ss : ScopeStack) : List Branch → Option Branch
  | [] => none
  | b :: rest =>
    match b.cond.eval ss with
    | .ok v => if v ≠ 0 then some b else first_true ss rest
    | .error _ => none

/-- The resolver's pass over the `else if` clauses: each condition is
evaluated in the current scope stack, each block is resolved, active when
no earlier condition was nonzero and its own is.  The result carries the
flag "some condition so far was nonzero". -/
def else_ifs_run : Bool → ScopeStack → List Branch → Except Err (Bool × ScopeStack)
  | any, ss, [] => .ok (any, ss)
  | any, ss, b :: rest =>
    match b.cond.eval ss with
    | .error x => .error x
    | .ok v =>
      match exec_assigns (!any && decide (v ≠ 0)) ss b.body with
      | .error x => .error x
      | .ok ss1 => else_ifs_run (any || (!any && decide (v ≠ 0))) ss1 rest

/-- The sibling chain of an `if` node and the pointer `last_else_if` agree:
either there is no sibling and the pointer is null, or the pointer is the
last node of the chain. -/
def ChainInv (if_node : Node) (last_else_if : Option Nat) : Prop :=
  if_node.is_null = false ∧
    ((last_else_if = none ∧ if_node.get_right = .NULL) ∨
     (∃ d, last_else_if = some (d + 1) ∧ if_node.get_right.is_null = false ∧
        if_node.get_right.chain_depth = d))

/-- The resolver's pass over a whole chain: the `if`, the `else if`
clauses, then the `else` block, which is active when no condition was
nonzero. -/
def chain_run (ss : ScopeStack) (first : Branch) (elifs : List Branch)
    (els : Option (List Assign)) : Except Err ScopeStack :=
  match first.cond.eval ss with
  | .error x => .error x
  | .ok v =>
    match exec_assigns (decide (v ≠ 0)) ss first.body with
    | .error x => .error x
    | .ok ss1 =>
      match else_ifs_run (decide (v ≠ 0)) ss1 elifs with
      | .error x => .error x
      | .ok (any, ss2) =>
        match els with
        | none => .ok ss2
        | some body => exec_assigns (!any) ss2 body

/-- The token sequences that spell a chain, with or without a final `else`. -/
inductive SpellsChain : Branch → List Branch → Option (List Assign) → List Token → Prop
  | without_else (first : Branch) (elifs : List Branch) (tif tes : List Token) :
      SpellsIf first tif → SpellsElseIfs elifs tes →
      SpellsChain first elifs none (tif ++ tes)
  | with_else (first : Branch) (elifs : List Branch) (body : List Assign)
      (tif tes tel : List Token) :
      SpellsIf first tif → SpellsElseIfs elifs tes → SpellsElse body tel →
      SpellsChain first elifs (some body) (tif ++ tes ++ tel)

/-! ## Reference semantics of `while` -/

/-- Repeated execution of the body while the condition is nonzero; the
first argument bounds the number of condition evaluations. -/
def while_run : Nat → ScopeStack → Expr → List Assign → Except Err ScopeStack
  | 0, _, _, _ => .error .outOfFuel
  | k + 1, ss, c, body =>
    match c.eval ss with
    | .error x => .error x
    | .ok v =>
      if v ≠ 0 then
        match exec_assigns true ss body with
        | .error x => .error x
        | .ok ss1 => while_run k ss1 c body
      else .ok ss

/-- The token sequences `while ( cond ) { body }`. -/
inductive SpellsWhile : Expr → List Assign → List Token → Prop
  | mk (kw lp rp : Token) (c : Expr) (body : List Assign) (cts bts : List Token) :
      kw.type = .KEYWORD → kw.str_val = "while" → lp.type = .SEPARATOR → lp.str_val = "(" →
      rp.type = .SEPARATOR → rp.str_val = ")" → Spells c cts → c.PrecOk →
      SpellsBody body bts → SpellsWhile c body (kw :: lp :: cts ++ rp :: bts)

/-- The scope stack the execution loop of a `while` ends with, or its fatal error. -/
def loop_scopes (r : Except Err (Node × Node × ScopeStack)) : Except Err ScopeStack :=
  match r with
  | .error e => .error e
  | .ok (_, _, ss) => .ok ss

/-- The program `int i = 0; while (i < n) { i = i + 1; }`. -/
def while_count_program (n : Int) : List Token :=
  [tKw "int", tId "i", tOp "=", tInt 0, tSep ";",
   tKw "while", tSep "(", tId "i", tOp "<", tInt n, tSep ")",
   tSep "\x7b", tId "i", tOp "=", tId "i", tOp "+", tInt 1, tSep ";", tSep "\x7d"]

/-- The scope stack that binds `i` to `v`, as the declaration `int i` at
line 1, column 1 creates it. -/
def scope_i (v : Int) : ScopeStack := [[⟨"i", .VAR_INT, v, 1, 1⟩]]

/-! ## Observing symbol values, and programs with nested control flow -/

/-- The names and values of the symbols of a scope stack. -/
def symbol_values (ss : ScopeStack) : List (List (String × Int)) :=
  ss.map (fun table => table.map (fun sym => (sym.name, sym.value)))

/-- The symbol values `parse` ends with, or its fatal error. -/
def final_values (r : Except Err (Node × ScopeStack)) :
    Except Err (List (List (String × Int))) :=
  match r with
  | .error e => .error e
  | .ok (_, ss) => .ok (symbol_values ss)

/-- The symbol values a statement parser ends with, or its fatal error. -/
def values_of (r : Except Err Parsed) : Except Err (List (List (String × Int))) :=
  match r with
  | .error e => .error e
  | .ok p => .ok (symbol_values p.scope_stack)

/-- The symbol values the execution loop of a `while` or `do-while` ends
with, or its fatal error. -/
def loop_values (r : Except Err (Node × Node × ScopeStack)) :
    Except Err (List (List (String × Int))) :=
  match r with
  | .error e => .error e
  | .ok (_, _, ss) => .ok (symbol_values ss)

/-- Tokens of `int x = 0; if (1) { } else { if (1) { x = 5; } }` -/
def else_with_nested_if : List Token :=
  [tKw "int", tId "x", tOp "=", tInt 0, tSep ";",
   tKw "if", tSep "(", tInt 1, tSep ")", tSep "\x7b", tSep "\x7d",
   tKw "else", tSep "\x7b",
     tKw "if", tSep "(", tInt 1, tSep ")", tSep "\x7b", tId "x", tOp "=", tInt 5, tSep ";",
     tSep "\x7d",
   tSep "\x7d"]

/-- Tokens of `int x = 0; if (1) { } else { while (x < 2) { x = x + 1; } }` -/
def else_with_nested_while : List Token :=
  [tKw "int", tId "x", tOp "=", tInt 0, tSep ";",
   tKw "if", tSep "(", tInt 1, tSep ")", tSep "\x7b", tSep "\x7d",
   tKw "else", tSep "\x7b",
     tKw "while", tSep "(", tId "x", tOp "<", tInt 2, tSep ")", tSep "\x7b",
       tId "x", tOp "=", tId "x", tOp "+", tInt 1, tSep ";", tSep "\x7d",
   tSep "\x7d"]

/-- Tokens of `int x = 0; if (1) { } else { do { x = x + 1; } while (0); }` -/
def else_with_nested_do_while : List Token :=
  [tKw "int", tId "x", tOp "=", tInt 0, tSep ";",
   tKw "if", tSep "(", tInt 1, tSep ")", tSep "\x7b", tSep "\x7d",
   tKw "else", tSep "\x7b",
     tKw "do", tSep "\x7b", tId "x", tOp "=", tId "x", tOp "+", tInt 1, tSep ";", tSep "\x7d",
     tKw "while", tSep "(", tInt 0, tSep ")", tSep ";",
   tSep "\x7d"]

/-- Tokens of `int x = 0; if (1) { } else { x = 5; }` -/
def else_with_assignment : List Token :=
  [tKw "int", tId "x", tOp "=", tInt 0, tSep ";",
   tKw "if", tSep "(", tInt 1, tSep ")", tSep "\x7b", tSep "\x7d",
   tKw "else", tSep "\x7b", tId "x", tOp "=", tInt 5, tSep ";", tSep "\x7d"]

/-- Tokens of `int x = 0; int i = 0; while (i < 1) { i = i + 1; if (1) { x = x + 1; } }` -/
def while_with_nested_if : List Token :=
  [tKw "int", tId "x", tOp "=", tInt 0, tSep ";",
   tKw "int", tId "i", tOp "=", tInt 0, tSep ";",
   tKw "while", tSep "(", tId "i", tOp "<", tInt 1, tSep ")", tSep "\x7b",
     tId "i", tOp "=", tId "i", tOp "+", tInt 1, tSep ";",
     tKw "if", tSep "(", tInt 1, tSep ")", tSep "\x7b",
       tId "x", tOp "=", tId "x", tOp "+", tInt 1, tSep ";", tSep "\x7d",
   tSep "\x7d"]

/-- Tokens of `int x = 0; do { if (1) { x = x + 1; } } while (0);` -/
def do_while_with_nested_if : List Token :=
  [tKw "int", tId "x", tOp "=", tInt 0, tSep ";",
   tKw "do", tSep "\x7b",
     tKw "if", tSep "(", tInt 1, tSep ")", tSep "\x7b",
       tId "x", tOp "=", tId "x", tOp "+", tInt 1, tSep ";", tSep "\x7d",
   tSep "\x7d", tKw "while", tSep "(", tInt 0, tSep ")", tSep ";"]

/-- Tokens of `int i = 0; while (i < 3) { int t = i + 1; i = t; }` -/
def while_with_block_local : List Token :=
  [tKw "int", tId "i", tOp "=", tInt 0, tSep ";",
   tKw "while", tSep "(", tId "i", tOp "<", tInt 3, tSep ")", tSep "\x7b",
     tKw "int", tId "t", tOp "=", tId "i", tOp "+", tInt 1, tSep ";",
     tId "i", tOp "=", tId "t", tSep ";",
   tSep "\x7d"]

/-- Tokens of `int i = 0; int x = 0; while (i < 3) { x = 6 / (3 - i); i = i + 1; }` -/
def while_with_guarded_division : List Token :=
  [tKw "int", tId "i", tOp "=", tInt 0, tSep ";",
   tKw "int", tId "x", tOp "=", tInt 0, tSep ";",
   tKw "while", tSep "(", tId "i", tOp "<", tInt 3, tSep ")", tSep "\x7b",
     tId "x", tOp "=", tInt 6, tOp "/", tSep "(", tInt 3, tOp "-", tId "i", tSep ")", tSep ";",
     tId "i", tOp "=", tId "i", tOp "+", tInt 1, tSep ";",
   tSep "\x7d"]

/-! ## Code generation (`codegen.h`, `codegen.c`) -/

inductive ScopeType
  | SCOPE_GLOBAL
  | SCOPE_CONTROL_FLOW
  deriving DecidableEq, Repr

/-- The member `value.int_val` of a node; 0 stands for the reading of a
node that holds a string. -/
def NodeValue.as_int : NodeValue → Int
  | .int_val v => v
  | .str_val _ => 0

/-- The text written to the output file so far, and the flag `*exit_emitted`. -/
structure Emitted where
  out : List String
  exit_emitted : Bool
  deriving DecidableEq, Repr

/-- The three `fprintf` calls of the case `NODE_EXIT_CALL`; `%d` prints
`node->left->value.int_val`, which is read as 0 here when the argument node
holds a string (the parser builds literal arguments only). -/
def emit_exit (st : Emitted) (arg : Node) : Emitted :=
  ⟨st.out ++
     ["\tmov rax, 60\n",
      (if arg.is_null then "\tmov rdi, 0\n" else "\tmov rdi, " ++ toString arg.get_int ++ "\n"),
      "\tsyscall\n"],
   true⟩

mutual

def traverse_tree : Node → ScopeType → Bool → Emitted → Emitted
  | .NULL, _, _, st => st
  | .mk type _ _ _ left right, scope, active_block, st =>
    if st.exit_emitted then st
    else
      match type with
      | .NODE_EXIT_CALL => if active_block then emit_exit st left else st
      | .NODE_IF_STATEMENT =>
        traverse_tree right scope active_block
          (match left with
           | .NULL =>
             if active_block then traverse_else_chain right scope st else st
           | .mk ctype cvalue _ _ _ then_block =>
             if ctype = .NODE_LITERAL_INT ∧ cvalue.as_int ≠ 0 then
               (if ¬ then_block.is_null ∧ active_block then traverse_tree then_block scope true st
                else st)
             else if active_block then traverse_else_chain right scope st
             else st)
      | .NODE_WHILE_STATEMENT =>
        traverse_tree right scope active_block
          (match left with
           | .NULL => st
           | .mk ctype cvalue _ _ _ loop_block =>
             if ¬ loop_block.is_null ∧ active_block ∧
                 (ctype = .NODE_LITERAL_INT → cvalue.as_int ≠ 0) then
               traverse_tree loop_block scope true st
             else st)
      | _ => traverse_tree right scope active_block (traverse_tree left scope active_block st)

/-- The loop `while (else_node && !found_active_else && !*exit_emitted)` of
the case `NODE_IF_STATEMENT`, entered at `else_node`. -/
def traverse_else_chain : Node → ScopeType → Emitted → Emitted
  | .NULL, _, st => st
  | .mk type _ _ _ left right, scope, st =>
    if st.exit_emitted then st
    else
      match type with
      | .NODE_ELSE_IF_STATEMENT =>
        (match left with
         | .NULL => traverse_else_chain right scope st
         | .mk ctype cvalue _ _ _ else_if_block =>
           if ¬ else_if_block.is_null ∧
               (ctype = .NODE_LITERAL_INT → cvalue.as_int ≠ 0) then
             traverse_tree else_if_block scope true st
           else traverse_else_chain right scope st)
      | .NODE_ELSE_STATEMENT => traverse_tree left scope true st
      | _ => traverse_else_chain right scope st

end

/-- The function `generate_code`: the lines written to the output file. -/
def generate_code (root : Node) : List String :=
  if (traverse_tree root .SCOPE_GLOBAL true
        ⟨["section .text\n", "global _start\n", "_start:\n"], false⟩).exit_emitted then
    (traverse_tree root .SCOPE_GLOBAL true
      ⟨["section .text\n", "global _start\n", "_start:\n"], false⟩).out
  else
    (traverse_tree root .SCOPE_GLOBAL true
      ⟨["section .text\n", "global _start\n", "_start:\n"], false⟩).out ++
      ["\tmov rax, 60\n", "\tmov rdi, 0\n", "\tsyscall\n"]

/-- The file `main` has written after `parse` and `generate_code`, or the
fatal error of the parser. -/
def generated (fuel : Nat) (tokens : List Token) : Except Err (List String) :=
  match parse fuel tokens with
  | .error e => .error e
  | .ok root => .ok (generate_code root)

/-- The output file whose only instruction sequence exits with `status`. -/
def exits_with (status : Int) : List String :=
  ["section .text\n", "global _start\n", "_start:\n",
   "\tmov rax, 60\n", "\tmov rdi, " ++ toString status ++ "\n", "\tsyscall\n"]

/-! ## Further programs used as concrete inputs -/

/-- Tokens of `if (1) { } else { exit(5); } exit(3);` -/
def exit_in_inactive_else : List Token :=
  [tKw "if", tSep "(", tInt 1, tSep ")", tSep "\x7b", tSep "\x7d",
   tKw "else", tSep "\x7b", tKw "exit", tSep "(", tInt 5, tSep ")", tSep ";", tSep "\x7d",
   tKw "exit", tSep "(", tInt 3, tSep ")", tSep ";"]

/-- Tokens of `if (0) { } else if (0) { exit(7); } exit(3);` -/
def exit_in_inactive_else_if : List Token :=
  [tKw "if", tSep "(", tInt 0, tSep ")", tSep "\x7b", tSep "\x7d",
   tKw "else", tKw "if", tSep "(", tInt 0, tSep ")", tSep "\x7b",
     tKw "exit", tSep "(", tInt 7, tSep ")", tSep ";", tSep "\x7d",
   tKw "exit", tSep "(", tInt 3, tSep ")", tSep ";"]

/-- Tokens of `if (0) { exit(4); } exit(3);` -/
def exit_in_inactive_then : List Token :=
  [tKw "if", tSep "(", tInt 0, tSep ")", tSep "\x7b",
     tKw "exit", tSep "(", tInt 4, tSep ")", tSep ";", tSep "\x7d",
   tKw "exit", tSep "(", tInt 3, tSep ")", tSep ";"]

/-- Tokens of `if (0) { } else { exit(5); } exit(3);` -/
def exit_in_active_else : List Token :=
  [tKw "if", tSep "(", tInt 0, tSep ")", tSep "\x7b", tSep "\x7d",
   tKw "else", tSep "\x7b", tKw "exit", tSep "(", tInt 5, tSep ")", tSep ";", tSep "\x7d",
   tKw "exit", tSep "(", tInt 3, tSep ")", tSep ";"]

/-- Tokens of `int x = v1; int x = v2; exit(x);` -/
def redeclared (v1 v2 : Int) : List Token :=
  [tKw "int", tId "x", tOp "=", tInt v1, tSep ";",
   tKw "int", tId "x", tOp "=", tInt v2, tSep ";",
   tKw "exit", tSep "(", tId "x", tSep ")", tSep ";"]

/-- The value the scope-stack lookup of `name` gives in the scope stack a
run of `parse` ends with. -/
def final_lookup (r : Except Err (Node × ScopeStack)) (name : String) :
    Except Err (Option Int) :=
  match r with
  | .error e => .error e
  | .ok (_, ss) => .ok ((find_symbol_in_scope_stack ss name).map (fun sym => sym.value))

/-! ## Reference semantics of straight-line programs -/

/-- The declared variables and their values. -/
abbrev Env := String → Option Int

def Env.empty : Env := fun _ => none

def Env.set (env : Env) (x : String) (v : Int) : Env :=
  fun y => if y = x then some v else env y

/-- The value of an expression in an environment, by the reference
arithmetic `binop_by_spec`; `none` for the use of an undeclared variable,
for a division or modulo by zero and for the division or modulo of
-2147483648 by -1. -/
def Expr.value (env : Env) : Expr → Option Int
  | .lit v => some v
  | .var x => env x
  | .paren e => e.value env
  | .bin op l r =>
    match l.value env with
    | none => none
    | some a =>
      match r.value env with
      | none => none
      | some b => binop_by_spec op a b

/-- A top-level statement: `int x = e;`, `x = e;` (`op = none`) or
`x op= e;`, and `exit(e);`. -/
inductive Stmt
  | decl (x : String) (e : Expr)
  | assign (x : String) (op : Option String) (e : Expr)
  | exit (e : Expr)
  deriving DecidableEq, Repr

/-- One step of sequential 32-bit execution: the new environment, and the
status when the statement is an `exit`.  It is `none` when a variable is
declared a second time or used before its declaration, and when a
division or modulo by zero or of -2147483648 by -1 occurs. -/
def Stmt.run (env : Env) : Stmt → Option (Env × Option Int)
  | .decl x e =>
    match env x with
    | some _ => none
    | none =>
      match e.value env with
      | none => none
      | some v => some (env.set x v, none)
  | .assign x op e =>
    match env x with
    | none => none
    | some cur =>
      match e.value env with
      | none => none
      | some r =>
        match op with
        | none => some (env.set x r, none)
        | some o =>
          match binop_by_spec o cur r with
          | some v => some (env.set x v, none)
          | none => none
  | .exit e =>
    match e.value env with
    | none => none
    | some v => some (env, some v)

/-- Sequential execution of a program: the status of the first `exit`
statement, `some none` when the program has none. -/
def run_program : Env → List Stmt → Option (Option Int)
  | _, [] => some none
  | env, s :: rest =>
    match s.run env with
    | none => none
    | some (env1, st) =>
      match run_program env1 rest with
      | none => none
      | some st' => some (st.orElse (fun _ => st'))

/-- The token sequences that spell a statement. -/
inductive SpellsStmt : Stmt → List Token → Prop
  | decl (kw id eq semi : Token) (e : Expr) (te : List Token) :
      kw.type = .KEYWORD → kw.str_val = "int" → id.type = .IDENTIFIER →
      eq.type = .OPERATOR → eq.str_val = "=" → semi.type = .SEPARATOR → semi.str_val = ";" →
      Spells e te → e.PrecOk →
      SpellsStmt (.decl id.str_val e) (kw :: id :: eq :: te ++ [semi])
  | assign (id op semi : Token) (e : Expr) (te : List Token) :
      id.type = .IDENTIFIER → op.type = .OPERATOR → is_assignment_operator op.str_val = true →
      semi.type = .SEPARATOR → semi.str_val = ";" → Spells e te → e.PrecOk →
      SpellsStmt
        (.assign id.str_val
          (if op.str_val = "=" then none else some (strip_assign op.str_val)) e)
        (id :: op :: te ++ [semi])
  | exit (kw lp rp semi : Token) (e : Expr) (te : List Token) :
      kw.type = .KEYWORD → kw.str_val = "exit" → lp.type = .SEPARATOR → lp.str_val = "(" →
      rp.type = .SEPARATOR → rp.str_val = ")" → semi.type = .SEPARATOR → semi.str_val = ";" →
      Spells e te → e.PrecOk →
      SpellsStmt (.exit e) (kw :: lp :: te ++ [rp, semi])

/-- The token sequences that spell a program of such statements. -/
inductive SpellsProgram : List Stmt → List Token → Prop
  | nil : SpellsProgram [] []
  | cons (s : Stmt) (ts : List Token) (rest : List Stmt) (tr : List Token) :
      SpellsStmt s ts → SpellsProgram rest tr → SpellsProgram (s :: rest) (ts ++ tr)

/-- The global table and the environment hold the same values. -/
def Agrees (table : SymbolTable) (env : Env) : Prop :=
  ∀ x, (find_symbol table x).map (fun sym => sym.value) = env x

/-- No two symbols of the table have the same name. -/
def names_unique (table : SymbolTable) : Prop := (table.map (fun sym => sym.name)).Nodup

/-- A node that `traverse_tree` passes without output: a null pointer, or a
literal or identifier without child and sibling. -/
def Node.quiet_leaf (n : Node) : Prop :=
  n = .NULL ∨ ∃ ty val ln cl, (ty = NodeType.NODE_LITERAL_INT ∨ ty = NodeType.NODE_IDENTIFIER) ∧
    n = .mk ty val ln cl .NULL .NULL

/-- A sibling chain of declaration, assignment and `exit` nodes whose last
node is `c` links `right` from the head; the status is the argument of the
first `exit` node. -/
inductive Chain : Node → Nat → Option Int → Prop
  | quiet_last (ty : NodeType) (val : NodeValue) (ln cl : Int) (l r : Node) :
      (ty = .NODE_VAR_DECL ∨ ty = .NODE_ASSIGNMENT) → l.quiet_leaf → r.quiet_leaf →
      Chain (.mk ty val ln cl l r) 0 none
  | exit_last (val : NodeValue) (ln cl v ln1 cl1 : Int) :
      Chain (.mk .NODE_EXIT_CALL val ln cl (lit_node v ln1 cl1) .NULL) 0 (some v)
  | quiet_cons (ty : NodeType) (val : NodeValue) (ln cl : Int) (l R : Node) (c : Nat)
      (o : Option Int) :
      (ty = .NODE_VAR_DECL ∨ ty = .NODE_ASSIGNMENT) → l.quiet_leaf → Chain R c o →
      Chain (.mk ty val ln cl l R) (c + 1) o
  | exit_cons (val : NodeValue) (ln cl v ln1 cl1 : Int) (R : Node) (c : Nat) (o : Option Int) :
      Chain R c o → Chain (.mk .NODE_EXIT_CALL val ln cl (lit_node v ln1 cl1) R) (c + 1) (some v)

/-- The state of the output after the `exit` with status `v` is emitted. -/
def emitted_status (out : List String) (v : Int) : Emitted :=
  ⟨out ++ ["\tmov rax, 60\n", "\tmov rdi, " ++ toString v ++ "\n", "\tsyscall\n"], true⟩

/-- The state of the output after a chain with first `exit` status `o`. -/
def emitted_after (out : List String) (o : Option Int) : Emitted :=
  match o with
  | none => ⟨out, false⟩
  | some v => emitted_status out v

/-- The chain under `root->left` while `parse` loops: no statement yet, or a
chain whose last node is `current`. -/
def LoopInv (L : Node) (current : Option Nat) (o : Option Int) : Prop :=
  (current = none ∧ L = .NULL ∧ o = none) ∨ ∃ c, current = some c ∧ Chain L c o

/-- Every table of the scope stack has unique names. -/
def tables_unique (ss : ScopeStack) : Prop := ∀ t ∈ ss, names_unique t

/-- The scope stack a run of `parse` ends with has unique names in every table. -/
def final_tables_unique (r : Except Err (Node × ScopeStack)) : Prop :=
  match r with
  | .error _ => True
  | .ok (_, ss) => tables_unique ss

/-- The result of `parse_while_statement` on
`while (i < 3) { i = i + 1; }` with `i = 0`: the retained tree is the
condition literal 1 followed by the block that holds `i = 1`. -/
def while_count_parsed : Parsed :=
  ⟨.mk .NODE_WHILE_STATEMENT (.str_val (some "while")) 1 1
      (.mk .NODE_LITERAL_INT (.int_val 1) 1 1 .NULL
        (.mk .NODE_BLOCK (.str_val (some "\x7b")) 1 1
          (.mk .NODE_ASSIGNMENT (.str_val (some "=")) 1 1
            (.mk .NODE_IDENTIFIER (.str_val (some "i")) 1 1 .NULL .NULL)
            (.mk .NODE_LITERAL_INT (.int_val 1) 1 1 .NULL .NULL))
          .NULL))
      .NULL,
   0, 19, scope_i 3⟩

/-! ## Reference semantics of `do-while` -/

/-- Repeated execution of a `do-while`: the block, then the condition in
the state the block left, at most `k` times. -/
def do_while_run : Nat → ScopeStack → Expr → List Assign → Except Err ScopeStack
  | 0, _, _, _ => .error .outOfFuel
  | k + 1, ss, c, body =>
    match exec_assigns true ss body with
    | .error x => .error x
    | .ok ss1 =>
      match c.eval ss1 with
      | .error x => .error x
      | .ok v => if v ≠ 0 then do_while_run k ss1 c body else .ok ss1

/-- The token sequences `do { body } while ( cond ) ;`. -/
inductive SpellsDoWhile : Expr → List Assign → List Token → Prop
  | mk (kd kw lp rp semi : Token) (c : Expr) (body : List Assign) (bts cts : List Token) :
      kd.type = .KEYWORD → kd.str_val = "do" → kw.type = .KEYWORD → kw.str_val = "while" →
      lp.type = .SEPARATOR → lp.str_val = "(" → rp.type = .SEPARATOR → rp.str_val = ")" →
      semi.type = .SEPARATOR → semi.str_val = ";" → Spells c cts → c.PrecOk →
      SpellsBody body bts →
      SpellsDoWhile c body (kd :: bts ++ kw :: lp :: cts ++ [rp, semi])

/-- Tokens of `int x = 0; do { x = x + 1; } while (x < n);` -/
def do_while_count_program (n : Int) : List Token :=
  [tKw "int", tId "x", tOp "=", tInt 0, tSep ";",
   tKw "do", tSep "\x7b", tId "x", tOp "=", tId "x", tOp "+", tInt 1, tSep ";", tSep "\x7d",
   tKw "while", tSep "(", tId "x", tOp "<", tInt n, tSep ")", tSep ";"]

/-- The scope stack that binds `x` to `v`, as the declaration `int x` at
line 1, column 1 creates it. -/
def scope_x (v : Int) : ScopeStack := [[⟨"x", .VAR_INT, v, 1, 1⟩]]

/-! ## Assignment operators: reference value and concrete programs -/

/-- A token that is an assignment operator. -/
def Token.is_assignment (t : Token) : Prop :=
  t.type = .OPERATOR ∧ is_assignment_operator t.str_val = true

/-- The value an assignment gives its target, in the words of the
specification: `v` is the current value, `r` the value of the right-hand
side; `none` for a division or modulo by zero, for the division or modulo
of -2147483648 by -1, whose quotient is no `int`, and for a string that is
no assignment operator.  Shift counts are taken modulo 32. -/
def assigned_by_spec (op : String) (v r : Int) : Option Int :=
  if op = "=" then some r
  else if op = "+=" then some (int32 (v + r))
  else if op = "-=" then some (int32 (v - r))
  else if op = "*=" then some (int32 (v * r))
  else if op = "<<=" then some (bits32 v <<< (r % 32).toNat).toInt
  else if op = ">>=" then some (int32 (v >>> (r % 32).toNat))
  else if op = "/=" then
    (if r = 0 ∨ (v = -2147483648 ∧ r = -1) then none else some (int32 (Int.tdiv v r)))
  else if op = "%=" then
    (if r = 0 ∨ (v = -2147483648 ∧ r = -1) then none else some (int32 (Int.tmod v r)))
  else none

/-- Tokens of `int x = v; x op 0; exit(x);` -/
def compound_by_zero (op : String) (v : Int) : List Token :=
  [tKw "int", tId "x", tOp "=", tInt v, tSep ";",
   tId "x", tOp op, tInt 0, tSep ";",
   tKw "exit", tSep "(", tId "x", tSep ")", tSep ";"]

/-! ## The shape of `if` chains in the tree -/

/-- A block node without sibling. -/
def Node.is_block (B : Node) : Prop :=
  ∃ bl bc L, B = .mk .NODE_BLOCK (.str_val (some "\x7b")) bl bc L .NULL

/-- A sibling chain of `else if` nodes, each with its condition literal as
child and its own block as the sibling of that literal; the last node is
`d` links `right` from the head. -/
inductive ElseIfs : Node → Nat → Prop
  | one (val : NodeValue) (ln cl v l1 c1 : Int) (B : Node) : B.is_block →
      ElseIfs (.mk .NODE_ELSE_IF_STATEMENT val ln cl
        (.mk .NODE_LITERAL_INT (.int_val v) l1 c1 .NULL B) .NULL) 0
  | cons (val : NodeValue) (ln cl v l1 c1 : Int) (B R : Node) (d : Nat) : B.is_block →
      ElseIfs R d →
      ElseIfs (.mk .NODE_ELSE_IF_STATEMENT val ln cl
        (.mk .NODE_LITERAL_INT (.int_val v) l1 c1 .NULL B) R) (d + 1)

/-- What follows an `if` node as siblings: `else if` nodes in source
order, then at most one `else` node with its block as child. -/
inductive ElseChain : Node → Prop
  | nil : ElseChain .NULL
  | else_if (val : NodeValue) (ln cl v l1 c1 : Int) (B R : Node) : B.is_block → ElseChain R →
      ElseChain (.mk .NODE_ELSE_IF_STATEMENT val ln cl
        (.mk .NODE_LITERAL_INT (.int_val v) l1 c1 .NULL B) R)
  | else_node (val : NodeValue) (ln cl : Int) (B : Node) : B.is_block →
      ElseChain (.mk .NODE_ELSE_STATEMENT val ln cl B .NULL)

/-- The types of the nodes of a sibling chain. -/
def Node.chain_types : Node → List NodeType
  | .NULL => []
  | .mk type _ _ _ _ right => type :: Node.chain_types right

/-- The types of the children of the node a statement parser returns. -/
def child_types (r : Except Err Parsed) : Except Err (List NodeType) :=
  match r with
  | .error e => .error e
  | .ok p => .ok p.node.get_left.chain_types

/-- The types of the siblings of the node a statement parser returns. -/
def sibling_types (r : Except Err Parsed) : Except Err (List NodeType) :=
  match r with
  | .error e => .error e
  | .ok p => .ok p.node.get_right.chain_types

/-- Tokens of `if (0) { x = 1; }` -/
def if_false_only : List Token :=
  [tKw "if", tSep "(", tInt 0, tSep ")", tSep "\x7b",
     tId "x", tOp "=", tInt 1, tSep ";", tSep "\x7d"]

/-- Tokens of `if (0) { x = 1; } else { x = 2; }` -/
def if_false_else : List Token :=
  [tKw "if", tSep "(", tInt 0, tSep ")", tSep "\x7b",
     tId "x", tOp "=", tInt 1, tSep ";", tSep "\x7d",
   tKw "else", tSep "\x7b", tId "x", tOp "=", tInt 2, tSep ";", tSep "\x7d"]

/-- The block `{ x = v; }` as the parser builds it at line 1, column 1. -/
def block_assigning (v : Int) : Node :=
  .mk .NODE_BLOCK (.str_val (some "\x7b")) 1 1
    (.mk .NODE_ASSIGNMENT (.str_val (some "=")) 1 1
      (.mk .NODE_IDENTIFIER (.str_val (some "x")) 1 1 .NULL .NULL) (lit_node v 1 1))
    .NULL

/-- The node an `if` chain parse returns, or its fatal error. -/
def node_of (r : Except Err Parsed) : Except Err Node :=
  match r with
  | .error e => .error e
  | .ok p => .ok p.node

/-! ## Programs that end within a construct -/

/-- Tokens of `int x = 3; exit(x); int` -/
def ends_with_int : List Token :=
  [tKw "int", tId "x", tOp "=", tInt 3, tSep ";",
   tKw "exit", tSep "(", tId "x", tSep ")", tSep ";", tKw "int"]

/-! ## The lexer (`src/copy/lexer.c`)

The file is a list of characters, the end of the list being `EOF`; the
static counters `col` and `line` are passed along.  Characters are ASCII:
the character classes are those of the C locale. -/

/-- The ways the lexer ends the compilation. -/
inductive LexErr
  | invalidHexLiteral
  | invalidBinaryLiteral
  | strayCharacter (ch : Char)
  | unrecognizedToken (ch : Char)
  | outOfFuel
  deriving DecidableEq, Repr

def isdigit (ch : Char) : Bool := decide ('0' ≤ ch) && decide (ch ≤ '9')

def isalpha (ch : Char) : Bool :=
  (decide ('a' ≤ ch) && decide (ch ≤ 'z')) || (decide ('A' ≤ ch) && decide (ch ≤ 'Z'))

def isalnum (ch : Char) : Bool := isalpha ch || isdigit ch

/-- Space, `\t`, `\n`, `\v`, `\f` and `\r`. -/
def isspace (ch : Char) : Bool := ch = ' ' || (decide (9 ≤ ch.toNat) && decide (ch.toNat ≤ 13))

def is_binary_digit (ch : Char) : Bool := ch = '0' || ch = '1'

def bin_to_digit (ch : Char) : Int := (ch.toNat : Int) - ('0'.toNat : Int)

def is_octal_digit (ch : Char) : Bool := decide ('0' ≤ ch) && decide (ch ≤ '7')

def oct_to_digit (ch : Char) : Int := (ch.toNat : Int) - ('0'.toNat : Int)

def is_decimal_digit (ch : Char) : Bool := isdigit ch

def dec_to_digit (ch : Char) : Int := (ch.toNat : Int) - ('0'.toNat : Int)

def is_hex_digit (ch : Char) : Bool :=
  isdigit ch || (decide ('a' ≤ ch) && decide (ch ≤ 'f')) ||
    (decide ('A' ≤ ch) && decide (ch ≤ 'F'))

def hex_to_digit (ch : Char) : Int :=
  if isdigit ch then (ch.toNat : Int) - ('0'.toNat : Int)
  else if decide ('a' ≤ ch) && decide (ch ≤ 'f') then (ch.toNat : Int) - ('a'.toNat : Int) + 10
  else (ch.toNat : Int) - ('A'.toNat : Int) + 10

/-- The loop of `parse_number_in_base`: the number read so far, the rest
of the file and the column counter. -/
def parse_number_in_base_loop (base : Int) (is_valid : Char → Bool) (to_digit : Char → Int) :
    List Char → Int → Int → Int × List Char × Int
  | [], number, col => (number, [], col)
  | ch :: file, number, col =>
    if is_valid ch then
      parse_number_in_base_loop base is_valid to_digit file
        (wrap32 (number * base + to_digit ch)) (col + 1)
    else (number, ch :: file, col - 1)

def parse_number_in_base (file : List Char) (col : Int) (base : Int) (is_valid : Char → Bool)
    (to_digit : Char → Int) (initial_digit : Char) : Int × List Char × Int :=
  parse_number_in_base_loop base is_valid to_digit file (to_digit initial_digit) col

def generate_number (ch : Char) (file : List Char) (col : Int) :
    Except LexErr (Int × List Char × Int) :=
  if ch = '0' then
    match file with
    | [] => .ok (0, [], col + 1 - 1)
    | next :: file1 =>
      if next = 'x' || next = 'X' then
        match file1 with
        | [] => .error .invalidHexLiteral
        | first :: file2 =>
          if !is_hex_digit first then .error .invalidHexLiteral
          else .ok (parse_number_in_base file2 (col + 1 + 1) 16 is_hex_digit hex_to_digit first)
      else if next = 'b' || next = 'B' then
        match file1 with
        | [] => .error .invalidBinaryLiteral
        | first :: file2 =>
          if !is_binary_digit first then .error .invalidBinaryLiteral
          else
            .ok (parse_number_in_base file2 (col + 1 + 1) 2 is_binary_digit bin_to_digit first)
      else if is_octal_digit next then
        .ok (parse_number_in_base file1 (col + 1) 8 is_octal_digit oct_to_digit next)
      else .ok (0, next :: file1, col + 1 - 1)
  else .ok (parse_number_in_base file col 10 is_decimal_digit dec_to_digit ch)

/-- The loop of `read_identifier`: the buffer, the rest of the file and the
column counter.  A character beyond the capacity of the buffer is read and
dropped. -/
def read_identifier_loop (buf_size : Nat) : List Char → List Char → Int →
    List Char × List Char × Int
  | [], buffer, col => (buffer, [], col)
  | ch :: file, buffer, col =>
    if isalnum ch then
      if buffer.length < buf_size - 1 then
        read_identifier_loop buf_size file (buffer ++ [ch]) (col + 1)
      else read_identifier_loop buf_size file buffer (col + 1)
    else (buffer, ch :: file, col - 1)

def read_identifier (first_char : Char) (file : List Char) (col : Int) (buf_size : Nat) :
    List Char × List Char × Int :=
  read_identifier_loop buf_size file [first_char] col

/-- The characters `strchr("+-*/%=&|^!<>", ch)` finds: those of the string
and its terminator. -/
def is_operator_char (ch : Char) : Bool :=
  "+-*/%=&|^!<>".toList.contains ch || ch = '\x00'

/-- The pairs the lexer joins into one operator. -/
def is_operator_pair (ch next : Char) : Bool :=
  (ch = '+' && next = '=') || (ch = '+' && next = '+') || (ch = '-' && next = '=') ||
  (ch = '-' && next = '-') || (ch = '*' && next = '=') || (ch = '/' && next = '=') ||
  (ch = '%' && next = '=') || (ch = '=' && next = '=') || (ch = '!' && next = '=') ||
  (ch = '<' && next = '=') || (ch = '>' && next = '=') || (ch = '&' && next = '&') ||
  (ch = '|' && next = '|') || (ch = '<' && next = '<') || (ch = '>' && next = '>')

/-- The string `strdup` copies from a character array: up to the first
zero character. -/
def c_string (op : List Char) : String := String.mk (op.takeWhile (fun c => c ≠ '\x00'))

/-- The operator branch of `lexer`: the token, the rest of the file and the
column counter. -/
def lex_operator (ch : Char) (file : List Char) (col line : Int) : Token × List Char × Int :=
  match file with
  | [] => (⟨.OPERATOR, 0, c_string [ch], line, col⟩, [], col + 1 - 1)
  | next :: file1 =>
    if is_operator_pair ch next then
      if (ch = '<' && next = '<') || (ch = '>' && next = '>') then
        match file1 with
        | [] => (⟨.OPERATOR, 0, c_string [ch, next], line, col⟩, [], col + 1 + 1 - 1)
        | third :: file2 =>
          if third = '=' then
            (⟨.OPERATOR, 0, c_string [ch, next, '='], line, col⟩, file2, col + 1 + 1)
          else (⟨.OPERATOR, 0, c_string [ch, next], line, col⟩, third :: file2, col + 1 + 1 - 1)
      else (⟨.OPERATOR, 0, c_string [ch, next], line, col⟩, file1, col + 1)
    else (⟨.OPERATOR, 0, c_string [ch], line, col⟩, next :: file1, col + 1 - 1)

/-- The word branch of `lexer`: the token, the rest of the file and the
column counter. -/
def lex_word (ch : Char) (file : List Char) (col line : Int) : Token × List Char × Int :=
  match read_identifier ch file (col + 1) 32 with
  | (buffer, file1, col1) =>
    if String.mk buffer = "exit" || String.mk buffer = "int" || String.mk buffer = "if" then
      (⟨.KEYWORD, 0, String.mk buffer, line, col⟩, file1, col1)
    else (⟨.IDENTIFIER, 0, String.mk buffer, line, col⟩, file1, col1)

/-- One round of the loop of `lexer` at the character `ch`: the tokens so
far, the rest of the file and the counters before `col++`. -/
def lexer_step (ch : Char) (file : List Char) (col line : Int) (tokens : List Token) :
    Except LexErr (List Token × List Char × Int × Int) :=
  if ch = '\n' then .ok (tokens, file, 0, line + 1)
  else if isspace ch then .ok (tokens, file, col, line)
  else if ch = ';' then .ok (tokens ++ [⟨.SEPARATOR, 0, ";", line, col⟩], file, col, line)
  else if ch = ',' then .ok (tokens ++ [⟨.SEPARATOR, 0, ",", line, col⟩], file, col, line)
  else if ch = '(' then .ok (tokens ++ [⟨.SEPARATOR, 0, "(", line, col⟩], file, col, line)
  else if ch = '\x7b' then .ok (tokens ++ [⟨.SEPARATOR, 0, "\x7b", line, col⟩], file, col, line)
  else if ch = ')' then .ok (tokens ++ [⟨.SEPARATOR, 0, ")", line, col⟩], file, col, line)
  else if ch = '\x7d' then .ok (tokens ++ [⟨.SEPARATOR, 0, "\x7d", line, col⟩], file, col, line)
  else if is_operator_char ch then
    match lex_operator ch file col line with
    | (token, file1, col1) => .ok (tokens ++ [token], file1, col1, line)
  else if isdigit ch then
    match generate_number ch file (col + 1) with
    | .error e => .error e
    | .ok (number, file1, col1) => .ok (tokens ++ [⟨.INT, number, "", line, col⟩], file1, col1, line)
  else if isalpha ch then
    match lex_word ch file col line with
    | (token, file1, col1) => .ok (tokens ++ [token], file1, col1, line)
  else if "$#@~\x60".toList.contains ch then .error (.strayCharacter ch)
  else .error (.unrecognizedToken ch)

def lexer_loop : Nat → List Char → Int → Int → List Token → Except LexErr (List Token)
  | 0, _, _, _, _ => .error .outOfFuel
  | fuel + 1, file, col, line, tokens =>
    match file with
    | [] => .ok tokens
    | ch :: file1 =>
      match lexer_step ch file1 col line tokens with
      | .error e => .error e
      | .ok (tokens1, file2, col1, line1) => lexer_loop fuel file2 (col1 + 1) line1 tokens1

/-- The function `lexer` on the text of a source file. -/
def lexer (source : String) : Except LexErr (List Token) :=
  lexer_loop (source.length + 1) source.toList 1 1 []

/-- The function `free_ast`, as the list of the nodes it releases, in the
order of release: the child subtree, the sibling subtree, the node. -/
def free_ast : Node → List (NodeType × NodeValue)
  | .NULL => []
  | .mk type value _ _ left right => free_ast left ++ free_ast right ++ [(type, value)]

/-- What `main` releases after `parse`. -/
def released (fuel : Nat) (tokens : List Token) : Except Err (List (NodeType × NodeValue)) :=
  match parse fuel tokens with
  | .error e => .error e
  | .ok root => .ok (free_ast root)

/-- The nodes of the tree a statement parser hands to its caller. -/
def handed_over (r : Except Err Parsed) : Except Err (List (NodeType × NodeValue)) :=
  match r with
  | .error e => .error e
  | .ok p => .ok (free_ast p.node)

/-- Tokens of `int x = 0; x = 1; x = 2;` -/
def two_assignments : List Token :=
  [tKw "int", tId "x", tOp "=", tInt 0, tSep ";",
   tId "x", tOp "=", tInt 1, tSep ";",
   tId "x", tOp "=", tInt 2, tSep ";"]

/-! ## The shape of the scope stack -/

/-- The names of the symbols of every table, outermost table first. -/
def scope_names (ss : ScopeStack) : List (List String) :=
  ss.map (fun table => table.map (fun sym => sym.name))

/-- Same depth and, in every table, the same names in the same order. -/
def Keeps (ss ss1 : ScopeStack) : Prop := scope_names ss1 = scope_names ss

/-- Same depth and the same names in every table below the top one. -/
def Grows (ss ss1 : ScopeStack) : Prop :=
  ss1.length = ss.length ∧ (scope_names ss1).dropLast = (scope_names ss).dropLast

/-- A result whose scope stack is related to the stack of the call by `R`,
or a fatal error other than the one of `pop_scope`, when the stack of the
call is not empty. -/
def Inv {α : Type} (R : ScopeStack → ScopeStack → Prop) (proj : α → ScopeStack)
    (ss : ScopeStack) (res : Except Err α) : Prop :=
  match res with
  | .ok r => R ss (proj r)
  | .error e => ss ≠ [] → e ≠ .popEmptyScopeStack

/-- The stack of the call without its top table, by names. -/
def Pops (ss ss1 : ScopeStack) : Prop := scope_names ss1 = (scope_names ss).dropLast

/-- Tokens of `{ int y = 1; x = y; }` -/
def block_with_local : List Token :=
  [tSep "\x7b", tKw "int", tId "y", tOp "=", tInt 1, tSep ";",
   tId "x", tOp "=", tId "y", tSep ";", tSep "\x7d"]

/-- What `parse_block` returns for `block_with_local` with `x = 0` declared
outside: the block node, the cursor after the closing brace and the stack
with `x = 1`, the table of `y` popped. -/
def block_with_local_parsed : Parsed :=
  ⟨.mk .NODE_BLOCK (.str_val (some "\x7b")) 1 1
      (.mk .NODE_VAR_DECL (.str_val (some "y")) 1 1 (lit_node 1 1 1)
        (.mk .NODE_ASSIGNMENT (.str_val (some "=")) 1 1
          (.mk .NODE_IDENTIFIER (.str_val (some "x")) 1 1 .NULL .NULL) (lit_node 1 1 1)))
      .NULL,
    0, 11, [[⟨"x", .VAR_INT, 1, 1, 1⟩]]⟩

/-! ## The states of the output file -/

/-- The state `generate_code` starts the traversal with: the three header
lines written, no `exit` emitted. -/
def header_written : Emitted := ⟨["section .text\n", "global _start\n", "_start:\n"], false⟩

/-- The status `%d` prints for an `exit` node with argument `arg`, 0 without one. -/
def status_of (arg : Node) : Int := if arg.is_null then 0 else arg.get_int

/-- A traversal step: nothing written, or, with no `exit` emitted before,
one termination sequence written and the flag set. -/
def OneExit (st st1 : Emitted) : Prop :=
  st1 = st ∨ (st.exit_emitted = false ∧ ∃ v, st1 = emitted_status st.out v)

/-- What the traversal writes from a node, as a tree and as the head of an
`else` chain. -/
def WritesOnce (n : Node) : Prop :=
  (∀ scope a st, OneExit st (traverse_tree n scope a st)) ∧
  (∀ scope st, OneExit st (traverse_else_chain n scope st))

/-! ## Further references and concrete programs -/

/-- Tokens of `a && ( 1 / 0 )` and of `a || ( 1 / 0 )`. -/
def logical_with_division_by_zero (op : String) (a : Int) : List Token :=
  [tInt a, tOp op, tSep "(", tInt 1, tOp "/", tInt 0, tSep ")"]

/-- The value of `a && b` and of `a || b` in the words of the
specification. -/
def logical_by_spec (op : String) (a b : Int) : Int :=
  if op = "&&" then (if a ≠ 0 ∧ b ≠ 0 then 1 else 0)
  else (if a = 0 ∧ b = 0 then 0 else 1)

/-- Tokens of `if (0) { int y = 1; exit(y); }` -/
def inactive_declaration_then_use : List Token :=
  [tKw "if", tSep "(", tInt 0, tSep ")", tSep "\x7b",
     tKw "int", tId "y", tOp "=", tInt 1, tSep ";",
     tKw "exit", tSep "(", tId "y", tSep ")", tSep ";", tSep "\x7d"]

/-- Tokens of `int x = 0; if (x != 0) { exit(10 / x); }` -/
def guarded_division : List Token :=
  [tKw "int", tId "x", tOp "=", tInt 0, tSep ";",
   tKw "if", tSep "(", tId "x", tOp "!=", tInt 0, tSep ")", tSep "\x7b",
     tKw "exit", tSep "(", tInt 10, tOp "/", tId "x", tSep ")", tSep ";", tSep "\x7d"]

/-- Tokens of `if (0) { int y = 1; }` -/
def inactive_declaration : List Token :=
  [tKw "if", tSep "(", tInt 0, tSep ")", tSep "\x7b",
     tKw "int", tId "y", tOp "=", tInt 1, tSep ";", tSep "\x7d"]

/-- The starts of a statement in the words of the specification: `int`,
`exit`, `if`, `while`, `do`, an opening brace, or an identifier immediately
followed by one of the eight assignment operators. -/
def statement_start_by_spec (tokens : List Token) (i : Nat) (t : Token) : Prop :=
  (t.type = .KEYWORD ∧
    (t.str_val = "int" ∨ t.str_val = "exit" ∨ t.str_val = "if" ∨ t.str_val = "while" ∨
      t.str_val = "do")) ∨
  (t.type = .SEPARATOR ∧ t.str_val = "\x7b") ∨
  (t.type = .IDENTIFIER ∧ ∃ op, tokens[i + 1]? = some op ∧ op.type = .OPERATOR ∧
    (op.str_val = "=" ∨ op.str_val = "+=" ∨ op.str_val = "-=" ∨ op.str_val = "*=" ∨
      op.str_val = "/=" ∨ op.str_val = "%=" ∨ op.str_val = "<<=" ∨ op.str_val = ">>="))

/-- The cursor rests at the end of the input or on a token that does not
continue an expression of minimum precedence `m`. -/
def RestsAt (tokens : List Token) (i1 : Nat) (m : Int) : Prop :=
  tokens[i1]? = none ∨
    ∃ t, tokens[i1]? = some t ∧ (t.type ≠ .OPERATOR ∨ get_precedence t.str_val < m)

/-- Tokens of `while (x) { x = 7; x += 1; }` -/
def while_never_entered : List Token :=
  [tKw "while", tSep "(", tId "x", tSep ")", tSep "\x7b",
     tId "x", tOp "=", tInt 7, tSep ";", tId "x", tOp "+=", tInt 1, tSep ";", tSep "\x7d"]

/-- The types of the nodes of the sibling chain that starts at the first
child of the root `parse` returns. -/
def root_chain (r : Except Err Node) : Except Err (List NodeType) :=
  match r with
  | .error e => .error e
  | .ok root => .ok root.get_left.chain_types

/-- Tokens of `int x = 0; x = v;` -/
def ends_with_assignment (v : Int) : List Token :=
  [tKw "int", tId "x", tOp "=", tInt 0, tSep ";", tId "x", tOp "=", tInt v, tSep ";"]

/-- Tokens of `int x = 0; x = 1; exit(x);` -/
def assignment_then_exit : List Token :=
  [tKw "int", tId "x", tOp "=", tInt 0, tSep ";", tId "x", tOp "=", tInt 1, tSep ";",
   tKw "exit", tSep "(", tId "x", tSep ")", tSep ";"]

/-- Tokens of `int a, b = 2, c; exit(b);` -/
def three_declarators : List Token :=
  [tKw "int", tId "a", tSep ",", tId "b", tOp "=", tInt 2, tSep ",", tId "c", tSep ";",
   tKw "exit", tSep "(", tId "b", tSep ")", tSep ";"]

/-- Tokens of `if (0) { } else if (0) { } else { } exit(1);` -/
def chain_then_exit : List Token :=
  [tKw "if", tSep "(", tInt 0, tSep ")", tSep "\x7b", tSep "\x7d",
   tKw "else", tKw "if", tSep "(", tInt 0, tSep ")", tSep "\x7b", tSep "\x7d",
   tKw "else", tSep "\x7b", tSep "\x7d",
   tKw "exit", tSep "(", tInt 1, tSep ")", tSep ";"]

/-! ## Reference value of integer literals -/

/-- The value of a digit character in the words of the specification:
`0`-`9` are 0 to 9, `a`-`f` and `A`-`F` are 10 to 15. -/
def digit_by_spec (c : Char) : Int :=
  if 48 ≤ c.toNat ∧ c.toNat ≤ 57 then (c.toNat : Int) - 48
  else if 97 ≤ c.toNat ∧ c.toNat ≤ 102 then (c.toNat : Int) - 87
  else if 65 ≤ c.toNat ∧ c.toNat ≤ 70 then (c.toNat : Int) - 55
  else 0

/-- The value of a digit string in the words of the specification: from
the left, `number * base + digit` in 32-bit arithmetic. -/
def number_by_spec (base : Int) (digits : List Char) : Int :=
  digits.foldl (fun number c => wrap32 (number * base + digit_by_spec c)) 0

/-- The value of a digit string in positional notation, without bound. -/
def positional_value (base : Int) (digits : List Char) : Int :=
  digits.foldl (fun number c => number * base + digit_by_spec c) 0

/-- The literal ends before `rest`: the end of the file, or a character
that is no digit of the base. -/
def literal_ends (is_valid : Char → Bool) (rest : List Char) : Bool :=
  match rest with
  | [] => true
  | c :: _ => !is_valid c

/-- The number `generate_number` returns and the characters it leaves in
the file. -/
def number_and_rest (r : Except LexErr (Int × List Char × Int)) :
    Except LexErr (Int × List Char) :=
  match r with
  | .error e => .error e
  | .ok (number, file, _) => .ok (number, file)

/-! ## The quotient of -2147483648 by -1 -/

/-- Tokens of `( 0 - 2147483647 - 1 )`. -/
def int_min_tokens : List Token :=
  [tSep "(", tInt 0, tOp "-", tInt 2147483647, tOp "-", tInt 1, tSep ")"]

/-- The expression `( 0 - 2147483647 - 1 )`, whose value is -2147483648. -/
def int_min_expr : Expr := .paren (.bin "-" (.bin "-" (.lit 0) (.lit 2147483647)) (.lit 1))

/-- Tokens of `( 0 - 1 )`. -/
def minus_one_tokens : List Token := [tSep "(", tInt 0, tOp "-", tInt 1, tSep ")"]

/-- The expression `( 0 - 1 )`, whose value is -1. -/
def minus_one_expr : Expr := .paren (.bin "-" (.lit 0) (.lit 1))

/-- Tokens of `( 0 - 2147483647 - 1 ) op ( 0 - 1 )`. -/
def int_min_by_minus_one (op : String) : List Token :=
  int_min_tokens ++ tOp op :: minus_one_tokens

/-- Tokens of `exit ( ( 0 - 2147483647 - 1 ) op ( 0 - 1 ) ) ;` -/
def exit_int_min_by_minus_one (op : String) : List Token :=
  tKw "exit" :: tSep "(" :: int_min_by_minus_one op ++ [tSep ")", tSep ";"]

/-- Tokens of `int x = 0 - 2147483647 - 1 ; x op 0 - 1 ; exit ( x ) ;` -/
def compound_int_min_by_minus_one (op : String) : List Token :=
  [tKw "int", tId "x", tOp "=", tInt 0, tOp "-", tInt 2147483647, tOp "-", tInt 1, tSep ";",
   tId "x", tOp op, tInt 0, tOp "-", tInt 1, tSep ";",
   tKw "exit", tSep "(", tId "x", tSep ")", tSep ";"]

/-- The scope stack in which `x` is -2147483648. -/
def scope_int_min : ScopeStack := [[⟨"x", .VAR_INT, -2147483648, 1, 1⟩]]

/-! ## A chain with an `else if` -/

/-- Tokens of `if (0) { y = 1; } else if (c) { y = 2; } else { y = 3; }` -/
def chain_with_else_if (c : Int) : List Token :=
  [tKw "if", tSep "(", tInt 0, tSep ")",
     tSep "\x7b", tId "y", tOp "=", tInt 1, tSep ";", tSep "\x7d",
   tKw "else", tKw "if", tSep "(", tInt c, tSep ")",
     tSep "\x7b", tId "y", tOp "=", tInt 2, tSep ";", tSep "\x7d",
   tKw "else", tSep "\x7b", tId "y", tOp "=", tInt 3, tSep ";", tSep "\x7d"]

/-- The scope stack in which `y` has the value `v`. -/
def scope_y (v : Int) : ScopeStack := [[⟨"y", .VAR_INT, v, 1, 1⟩]]

/-- The branch with condition `c` and body `y = v;`. -/
def branch_y (c v : Int) : Branch := ⟨.lit c, [⟨"y", "=", .lit v⟩]⟩

/-! ## The `exit` nodes the traversal reaches -/

mutual

/-- The statuses of the `exit` nodes that the traversal of `generate_code`
reaches from a node, in the order in which it reaches them when no `exit`
stops it: an `exit` node of an active block, the block under an `if` or
`while` node whose condition holds, the `else` chain of an `if` node whose
condition does not hold, and the siblings; below any other node, its child
and then its siblings. -/
def exits_reached : Node → Bool → List Int
  | .NULL, _ => []
  | .mk type _ _ _ left right, active_block =>
    match type with
    | .NODE_EXIT_CALL => if active_block then [status_of left] else []
    | .NODE_IF_STATEMENT =>
      (match left with
       | .NULL => if active_block then else_exits_reached right else []
       | .mk ctype cvalue _ _ _ then_block =>
         if ctype = .NODE_LITERAL_INT ∧ cvalue.as_int ≠ 0 then
           (if ¬ then_block.is_null ∧ active_block then exits_reached then_block true else [])
         else if active_block then else_exits_reached right
         else []) ++ exits_reached right active_block
    | .NODE_WHILE_STATEMENT =>
      (match left with
       | .NULL => []
       | .mk ctype cvalue _ _ _ loop_block =>
         if ¬ loop_block.is_null ∧ active_block ∧
             (ctype = .NODE_LITERAL_INT → cvalue.as_int ≠ 0) then
           exits_reached loop_block true
         else []) ++ exits_reached right active_block
    | _ => exits_reached left active_block ++ exits_reached right active_block

/-- The statuses of the `exit` nodes reached in the `else` chain that
starts at a node: those of the block of the first `else if` whose condition
holds or of the `else` block, whichever comes first. -/
def else_exits_reached : Node → List Int
  | .NULL => []
  | .mk type _ _ _ left right =>
    match type with
    | .NODE_ELSE_IF_STATEMENT =>
      (match left with
       | .NULL => else_exits_reached right
       | .mk ctype cvalue _ _ _ else_if_block =>
         if ¬ else_if_block.is_null ∧
             (ctype = .NODE_LITERAL_INT → cvalue.as_int ≠ 0) then
           exits_reached else_if_block true
         else else_exits_reached right)
    | .NODE_ELSE_STATEMENT => exits_reached left true
    | _ => else_exits_reached right

end

/-- What the traversal writes from a node when no `exit` was emitted
before: the sequence of the first `exit` node it reaches, or nothing. -/
def WritesFirst (n : Node) : Prop :=
  (∀ scope a out, traverse_tree n scope a ⟨out, false⟩ =
    emitted_after out (exits_reached n a).head?) ∧
  (∀ scope out, traverse_else_chain n scope ⟨out, false⟩ =
    emitted_after out (else_exits_reached n).head?)

/-- The statuses of the `exit` nodes the traversal reaches in the tree
`parse` returns, or the fatal error of the parser. -/
def reached (fuel : Nat) (tokens : List Token) : Except Err (List Int) :=
  match parse fuel tokens with
  | .error e => .error e
  | .ok root => .ok (exits_reached root true)

/-- Tokens of `if (1) { exit(7); } exit(3);` -/
def exit_in_active_then : List Token :=
  [tKw "if", tSep "(", tInt 1, tSep ")", tSep "\x7b",
     tKw "exit", tSep "(", tInt 7, tSep ")", tSep ";", tSep "\x7d",
   tKw "exit", tSep "(", tInt 3, tSep ")", tSep ";"]

/-- Tokens of `int x = 1; if (x) { x = 2; }` -/
def program_without_exit : List Token :=
  [tKw "int", tId "x", tOp "=", tInt 1, tSep ";",
   tKw "if", tSep "(", tId "x", tSep ")", tSep "\x7b",
     tId "x", tOp "=", tInt 2, tSep ";", tSep "\x7d"]

/-! ## The keywords of the tokenizer -/

theorem parse_expression_mono_aux (n : Nat) :
    (∀ tokens i ss X, parse_primary n tokens i ss = X → X ≠ .error .outOfFuel →
        parse_primary (n + 1) tokens i ss = X) ∧
    (∀ tokens i ss m X, parse_expression n tokens i ss m = X → X ≠ .error .outOfFuel →
        parse_expression (n + 1) tokens i ss m = X) ∧
    (∀ tokens i ss m left X, parse_expression_loop n tokens i ss m left = X →
        X ≠ .error .outOfFuel → parse_expression_loop (n + 1) tokens i ss m left = X) := by
  induction n with
  | zero =>
    refine ⟨?_, ?_, ?_⟩ <;> intros <;> simp_all [parse_primary, parse_expression, parse_expression_loop]
  | succ n ih =>
    obtain ⟨ihp, ihe, ihl⟩ := ih
    refine ⟨?_, ?_, ?_⟩
    · intro tokens i ss X h hX
      rw [parse_primary] at h ⊢
      cases ht : tokens[i]? with
      | none => simp_all
      | some token =>
        simp only [ht] at h ⊢
        by_cases hc1 : token.type = TokenType.INT ∨ token.type = TokenType.IDENTIFIER
        · rw [if_pos hc1] at h ⊢
          exact h
        · rw [if_neg hc1] at h ⊢
          by_cases hc2 : token.type = TokenType.SEPARATOR ∧ token.str_val = "("
          · rw [if_pos hc2] at h ⊢
            cases hsub : parse_expression n tokens (i + 1) ss 0 with
            | error e =>
              rw [hsub] at h
              have : e ≠ .outOfFuel := by rintro rfl; simp_all
              rw [ihe _ _ _ _ _ hsub (by simpa using this)]
              exact h
            | ok val =>
              rw [hsub] at h
              rw [ihe _ _ _ _ _ hsub (by simp)]
              exact h
          · rw [if_neg hc2] at h ⊢
            exact h
    · intro tokens i ss m X h hX
      rw [parse_expression] at h ⊢
      cases hsub : parse_primary n tokens i ss with
      | error e =>
        rw [hsub] at h
        have : e ≠ .outOfFuel := by rintro rfl; simp_all
        rw [ihp _ _ _ _ hsub (by simpa using this)]
        simpa using h
      | ok val =>
        rw [hsub] at h
        rw [ihp _ _ _ _ hsub (by simp)]
        obtain ⟨left, i1⟩ := val
        simp only at h ⊢
        exact ihl _ _ _ _ _ _ h hX
    · intro tokens i ss m left X h hX
      rw [parse_expression_loop] at h ⊢
      cases ht : tokens[i]? with
      | none => simp_all
      | some op_token =>
        simp only [ht] at h ⊢
        split at h
        · simp_all
        · split at h
          · simp_all
          · rename_i h1 h2
            rw [if_neg h1, if_neg h2]
            cases hsub : parse_expression n tokens (i + 1) ss (get_precedence op_token.str_val + 1) with
            | error e =>
              rw [hsub] at h
              have : e ≠ .outOfFuel := by rintro rfl; simp_all
              rw [ihe _ _ _ _ _ hsub (by simpa using this)]
              simpa using h
            | ok val =>
              rw [hsub] at h
              rw [ihe _ _ _ _ _ hsub (by simp)]
              obtain ⟨right, i1⟩ := val
              simp only at h ⊢
              split at h
              · rename_i hlit
                rw [if_pos hlit]
                split at h
                · simp_all
                · rename_i result hres
                  exact ihl _ _ _ _ _ _ h hX
              · rename_i hlit
                rw [if_neg hlit]
                exact ihl _ _ _ _ _ _ h hX

theorem parse_expression_loop_mono {n n' : Nat} (hn : n ≤ n') {tokens : List Token} {i : Nat}
    {ss : ScopeStack} {m : Int} {left : Node} {X : Except Err (Node × Nat)}
    (h : parse_expression_loop n tokens i ss m left = X) (hX : X ≠ .error .outOfFuel) :
    parse_expression_loop n' tokens i ss m left = X := by
  induction hn with
  | refl => exact h
  | step _ ih => exact (parse_expression_mono_aux _).2.2 _ _ _ _ _ _ ih hX

theorem parse_expression_mono {n n' : Nat} (hn : n ≤ n') {tokens : List Token} {i : Nat}
    {ss : ScopeStack} {m : Int} {X : Except Err (Node × Nat)}
    (h : parse_expression n tokens i ss m = X) (hX : X ≠ .error .outOfFuel) :
    parse_expression n' tokens i ss m = X := by
  induction hn with
  | refl => exact h
  | step _ ih => exact (parse_expression_mono_aux _).2.1 _ _ _ _ _ ih hX

/-! ## Precedence climbing computes the reference value -/

theorem getElem?_of_drop_eq_cons {α : Type} {l : List α} {i : Nat} {t : α} {r : List α}
    (h : l.drop i = t :: r) : l[i]? = some t := by
  have := congrArg List.head? h
  simpa [List.head?_drop] using this

theorem drop_succ_of_drop_eq_cons {α : Type} {l : List α} {i : Nat} {t : α} {r : List α}
    (h : l.drop i = t :: r) : l.drop (i + 1) = r := by
  have : l.drop (i + 1) = (l.drop i).drop 1 := by rw [List.drop_drop, Nat.add_comm]
  rw [this, h]; rfl

theorem drop_add_of_drop_eq_append {α : Type} {l : List α} {i : Nat} {a b : List α}
    (h : l.drop i = a ++ b) : l.drop (i + a.length) = b := by
  have : l.drop (i + a.length) = (l.drop i).drop a.length := by
    rw [List.drop_drop, Nat.add_comm]
  rw [this, h]; simp

theorem getElem?_of_drop_eq_nil {α : Type} {l : List α} {i : Nat}
    (h : l.drop i = []) : l[i]? = none := by
  have := congrArg List.head? h
  simpa [List.head?_drop] using this

theorem get_precedence_le_nine (op : String) : get_precedence op ≤ 9 := by
  unfold get_precedence
  repeat' split
  all_goals decide

theorem Expr.top_nonneg {e : Expr} (h : e.PrecOk) : 0 ≤ e.top := by
  cases e <;> simp_all [Expr.top, Expr.PrecOk]

theorem parse_expression_loop_stop {g : Nat} {tokens : List Token} {i : Nat} {ss : ScopeStack}
    {m : Int} {left : Node} {k : List Token} (hd : tokens.drop i = k)
    (hr : ∀ t r, k = t :: r → t.type = .OPERATOR → get_precedence t.str_val < m) :
    parse_expression_loop (g + 1) tokens i ss m left = .ok (left, i) := by
  rw [parse_expression_loop]
  cases k with
  | nil => rw [getElem?_of_drop_eq_nil hd]
  | cons t r =>
    rw [getElem?_of_drop_eq_cons hd]
    simp only
    by_cases ht : t.type = .OPERATOR
    · have := hr t r rfl ht
      simp [ht, this]
    · simp [ht]

theorem fold_eval (t : Token) (a b l1 c1 l2 c2 : Int) (ht : t.type = .OPERATOR)
    (hp : 0 ≤ get_precedence t.str_val) :
    evaluate_constant_expression
      (((createNodeFromToken t).set_left (lit_node a l1 c1)).set_right (lit_node b l2 c2)) =
      eval_binary t.str_val a b := by
  have hne : t.str_val ≠ "=" := by
    intro h; rw [h] at hp; revert hp; decide
  simp [createNodeFromToken, ht, hne, createNode, Node.set_left, Node.set_right, lit_node,
    evaluate_constant_expression, Node.is_null]

theorem parse_primary_int {g : Nat} {tokens : List Token} {i : Nat} {ss : ScopeStack}
    {t : Token} (ht : tokens[i]? = some t) (hty : t.type = .INT) :
    parse_primary (g + 1) tokens i ss = .ok (lit_node t.int_val t.line t.col, i + 1) := by
  rw [parse_primary]
  simp [ht, hty, createNodeFromToken, lit_node]

theorem parse_primary_var {g : Nat} {tokens : List Token} {i : Nat} {ss : ScopeStack}
    {t : Token} {sym : Symbol} (ht : tokens[i]? = some t) (hty : t.type = .IDENTIFIER)
    (hs : find_symbol_in_scope_stack ss t.str_val = some sym) :
    parse_primary (g + 1) tokens i ss = .ok (lit_node sym.value t.line t.col, i + 1) := by
  rw [parse_primary]
  simp [ht, hty, hs, createNode, Node.set_int, lit_node]

theorem parse_primary_undefined {g : Nat} {tokens : List Token} {i : Nat} {ss : ScopeStack}
    {t : Token} (ht : tokens[i]? = some t) (hty : t.type = .IDENTIFIER)
    (hs : find_symbol_in_scope_stack ss t.str_val = none) :
    parse_primary (g + 1) tokens i ss = .error (.undefinedVariable t.str_val) := by
  rw [parse_primary]
  simp [ht, hty, hs]

theorem loop_fuel_pos {g : Nat} {tokens : List Token} {i : Nat} {ss : ScopeStack} {m : Int}
    {left : Node} {X : Except Err (Node × Nat)}
    (h : parse_expression_loop g tokens i ss m left = X) (hX : X ≠ .error .outOfFuel) :
    ∃ g', g = g' + 1 := by
  cases g with
  | zero => rw [parse_expression_loop] at h; exact absurd h.symm hX
  | succ g' => exact ⟨g', rfl⟩

/-- Parsing a spelled expression whose reference value is `v` amounts to
entering the operator loop behind it with the literal `v` in hand. -/
theorem parse_expression_of_spells {e : Expr} {ts : List Token} (hs : Spells e ts)
    (ss : ScopeStack) :
    ∀ (v : Int), e.eval ss = .ok v → e.PrecOk →
    ∀ (tokens : List Token) (i : Nat) (rest : List Token) (minp : Int),
      tokens.drop i = ts ++ rest → minp ≤ e.top → RestOk e.top rest →
      ∃ ln cl, ∀ g X,
        parse_expression_loop g tokens (i + ts.length) ss minp (lit_node v ln cl) = X →
        X ≠ .error .outOfFuel →
        parse_expression (g + ts.length) tokens i ss minp = X := by
  induction hs with
  | lit t hty =>
    intro v hv _ tokens i rest minp hd _ _
    simp only [Expr.eval, Except.ok.injEq] at hv
    subst hv
    refine ⟨t.line, t.col, fun g X hl hX => ?_⟩
    obtain ⟨g', rfl⟩ := loop_fuel_pos hl hX
    have ht := getElem?_of_drop_eq_cons (by simpa using hd)
    simp only [List.length_singleton] at hl ⊢
    rw [parse_expression, parse_primary_int ht hty]
    exact hl
  | var t hty =>
    intro v hv _ tokens i rest minp hd _ _
    simp only [Expr.eval] at hv
    cases hsym : find_symbol_in_scope_stack ss t.str_val with
    | none => simp [hsym] at hv
    | some sym =>
      simp only [hsym, Except.ok.injEq] at hv
      subst hv
      refine ⟨t.line, t.col, fun g X hl hX => ?_⟩
      obtain ⟨g', rfl⟩ := loop_fuel_pos hl hX
      have ht := getElem?_of_drop_eq_cons (by simpa using hd)
      simp only [List.length_singleton] at hl ⊢
      rw [parse_expression, parse_primary_var ht hty hsym]
      exact hl
  | paren o c e ts' ho1 ho2 hc1 hc2 _ ih =>
    intro v hv hok tokens i rest minp hd _ _
    simp only [Expr.eval] at hv
    simp only [Expr.PrecOk] at hok
    have hd' : tokens.drop i = o :: (ts' ++ (c :: rest)) := by simpa using hd
    have hto := getElem?_of_drop_eq_cons hd'
    have hd1 := drop_succ_of_drop_eq_cons hd'
    obtain ⟨ln, cl, hin⟩ := ih v hv hok tokens (i + 1) (c :: rest) 0 hd1
      (Expr.top_nonneg hok) (by intro t r h hty; simp at h; rw [← h.1, hc1] at hty; cases hty)
    refine ⟨ln, cl, fun g X hl hX => ?_⟩
    obtain ⟨g', rfl⟩ := loop_fuel_pos hl hX
    have hd2 := drop_add_of_drop_eq_append hd1
    have htc := getElem?_of_drop_eq_cons hd2
    have hinner := hin (g' + 1) (.ok (lit_node v ln cl, i + 1 + ts'.length))
      (parse_expression_loop_stop (k := c :: rest) hd2
        (by intro t r h hty; simp at h; rw [← h.1, hc1] at hty; cases hty))
      (by simp)
    have hlen : (o :: ts' ++ [c]).length = ts'.length + 2 := by simp
    have hprim : parse_primary (g' + 1 + ts'.length + 1) tokens i ss =
        .ok (lit_node v ln cl, i + 1 + ts'.length + 1) := by
      rw [parse_primary]
      have hne : ¬ (o.type = TokenType.INT ∨ o.type = TokenType.IDENTIFIER) := by
        rw [ho1]; simp
      simp only [hto, if_neg hne, ho1, ho2, and_self, if_true, hinner, htc, Token.str, hc1, hc2]
      simp
    rw [hlen]
    have e1 : g' + 1 + (ts'.length + 2) = (g' + 1 + ts'.length + 1) + 1 := by omega
    rw [e1, parse_expression, hprim]
    simp only
    have e2 : i + 1 + ts'.length + 1 = i + (o :: ts' ++ [c]).length := by simp; omega
    rw [e2]
    exact parse_expression_loop_mono (by omega) hl hX
  | bin t l r tl tr hty _ _ ihl ihr =>
    intro v hv hok tokens i rest minp hd hmin hrest
    simp only [Expr.PrecOk] at hok
    obtain ⟨hp0, hpl, hpr, hokl, hokr⟩ := hok
    simp only [Expr.top] at hmin hrest
    simp only [Expr.eval] at hv
    cases hvl : l.eval ss with
    | error x => simp [hvl] at hv
    | ok a =>
      cases hvr : r.eval ss with
      | error x => simp [hvl, hvr] at hv
      | ok b =>
        simp only [hvl, hvr] at hv
        have hd' : tokens.drop i = tl ++ (t :: (tr ++ rest)) := by simpa using hd
        obtain ⟨ln1, cl1, hl1⟩ := ihl a hvl hokl tokens i (t :: (tr ++ rest)) minp hd'
          (le_trans hmin hpl)
          (by intro t' r' h hty'; simp at h; rw [← h.1]; exact hpl)
        have hd1 := drop_add_of_drop_eq_append hd'
        have htop := getElem?_of_drop_eq_cons hd1
        have hd2 := drop_succ_of_drop_eq_cons hd1
        obtain ⟨ln2, cl2, hr2⟩ := ihr b hvr hokr tokens (i + tl.length + 1) rest
          (get_precedence t.str_val + 1) hd2 (by omega)
          (by intro t' r' h hty'; exact le_trans (hrest t' r' h hty') (le_of_lt hpr))
        refine ⟨t.line, t.col, fun g X hl hX => ?_⟩
        obtain ⟨g', rfl⟩ := loop_fuel_pos hl hX
        have hd3 := drop_add_of_drop_eq_append hd2
        have hright := hr2 (g' + 1) (.ok (lit_node b ln2 cl2, i + tl.length + 1 + tr.length))
          (parse_expression_loop_stop (k := rest) hd3
            (by intro t' r' h hty'; have := hrest t' r' h hty'; omega))
          (by simp)
        have hlen : (tl ++ t :: tr).length = tl.length + tr.length + 1 := by simp; omega
        have hloop : parse_expression_loop (g' + 1 + tr.length + 1) tokens (i + tl.length) ss minp
            (lit_node a ln1 cl1) = X := by
          rw [parse_expression_loop]
          simp only [htop]
          have h1 : ¬ (t.type ≠ TokenType.OPERATOR) := by simp [hty]
          have h2 : ¬ (get_precedence t.str_val < minp) := by omega
          rw [if_neg h1, if_neg h2, hright]
          simp only
          have h3 : (lit_node a ln1 cl1).has_type .NODE_LITERAL_INT = true ∧
              (lit_node b ln2 cl2).has_type .NODE_LITERAL_INT = true := by
            simp [lit_node, Node.has_type]
          rw [if_pos h3, fold_eval t a b _ _ _ _ hty hp0, hv]
          simp only
          have e2 : i + tl.length + 1 + tr.length = i + (tl ++ t :: tr).length := by
            rw [hlen]; omega
          rw [e2]
          have : (createNode NodeType.NODE_LITERAL_INT none t.line t.col).set_int v =
              lit_node v t.line t.col := rfl
          rw [this]
          exact parse_expression_loop_mono (by omega) hl hX
        have := hl1 _ X hloop hX
        rw [hlen]
        have e1 : g' + 1 + (tl.length + tr.length + 1) = g' + 1 + tr.length + 1 + tl.length := by
          omega
        rw [e1]
        exact this

theorem c_div_trap : c_div (-2147483648) (-1) = .error .arithmeticTrap := by
  simp [c_div]

theorem c_mod_trap : c_mod (-2147483648) (-1) = .error .arithmeticTrap := by
  simp [c_mod]

theorem c_div_ok {l r : Int} (hr : r ≠ 0) (ht : ¬ (l = -2147483648 ∧ r = -1)) :
    c_div l r = .ok (wrap32 (Int.tdiv l r)) := by
  unfold c_div
  rw [if_neg]
  rintro (h | h)
  exacts [hr h, ht h]

theorem c_mod_ok {l r : Int} (hr : r ≠ 0) (ht : ¬ (l = -2147483648 ∧ r = -1)) :
    c_mod l r = .ok (wrap32 (Int.tmod l r)) := by
  unfold c_mod
  rw [if_neg]
  rintro (h | h)
  exacts [hr h, ht h]

theorem eval_binary_cases (op : String) (a b : Int) :
    (∃ v, eval_binary op a b = .ok v) ∨
    (eval_binary op a b = .error .divisionByZero ∧ op = "/" ∧ b = 0) ∨
    (eval_binary op a b = .error .moduloByZero ∧ op = "%" ∧ b = 0) ∨
    (eval_binary op a b = .error (.unknownOperator op) ∧ get_precedence op = -1) ∨
    (eval_binary op a b = .error .arithmeticTrap ∧ (op = "/" ∨ op = "%") ∧
      a = -2147483648 ∧ b = -1) := by
  unfold eval_binary
  by_cases h0 : op = "+"
  · simp only [if_pos h0]; exact Or.inl ⟨_, rfl⟩
  simp only [if_neg h0]
  by_cases h1 : op = "-"
  · simp only [if_pos h1]; exact Or.inl ⟨_, rfl⟩
  simp only [if_neg h1]
  by_cases h2 : op = "*"
  · simp only [if_pos h2]; exact Or.inl ⟨_, rfl⟩
  simp only [if_neg h2]
  by_cases h3 : op = "/"
  · simp only [if_pos h3]
    by_cases hb : b = 0
    · simp only [if_pos hb]; exact Or.inr (Or.inl ⟨trivial, h3, hb⟩)
    · simp only [if_neg hb]
      by_cases ht : a = -2147483648 ∧ b = -1
      · obtain ⟨rfl, rfl⟩ := ht
        exact Or.inr (Or.inr (Or.inr (Or.inr ⟨c_div_trap, Or.inl h3, rfl, rfl⟩)))
      · rw [c_div_ok hb ht]; exact Or.inl ⟨_, rfl⟩
  simp only [if_neg h3]
  by_cases h4 : op = "%"
  · simp only [if_pos h4]
    by_cases hb : b = 0
    · simp only [if_pos hb]; exact Or.inr (Or.inr (Or.inl ⟨trivial, h4, hb⟩))
    · simp only [if_neg hb]
      by_cases ht : a = -2147483648 ∧ b = -1
      · obtain ⟨rfl, rfl⟩ := ht
        exact Or.inr (Or.inr (Or.inr (Or.inr ⟨c_mod_trap, Or.inr h4, rfl, rfl⟩)))
      · rw [c_mod_ok hb ht]; exact Or.inl ⟨_, rfl⟩
  simp only [if_neg h4]
  by_cases h5 : op = "&"
  · simp only [if_pos h5]; exact Or.inl ⟨_, rfl⟩
  simp only [if_neg h5]
  by_cases h6 : op = "|"
  · simp only [if_pos h6]; exact Or.inl ⟨_, rfl⟩
  simp only [if_neg h6]
  by_cases h7 : op = "^"
  · simp only [if_pos h7]; exact Or.inl ⟨_, rfl⟩
  simp only [if_neg h7]
  by_cases h8 : op = "<<"
  · simp only [if_pos h8]; exact Or.inl ⟨_, rfl⟩
  simp only [if_neg h8]
  by_cases h9 : op = ">>"
  · simp only [if_pos h9]; exact Or.inl ⟨_, rfl⟩
  simp only [if_neg h9]
  by_cases h10 : op = "=="
  · simp only [if_pos h10]; exact Or.inl ⟨_, rfl⟩
  simp only [if_neg h10]
  by_cases h11 : op = "<"
  · simp only [if_pos h11]; exact Or.inl ⟨_, rfl⟩
  simp only [if_neg h11]
  by_cases h12 : op = "<="
  · simp only [if_pos h12]; exact Or.inl ⟨_, rfl⟩
  simp only [if_neg h12]
  by_cases h13 : op = ">"
  · simp only [if_pos h13]; exact Or.inl ⟨_, rfl⟩
  simp only [if_neg h13]
  by_cases h14 : op = ">="
  · simp only [if_pos h14]; exact Or.inl ⟨_, rfl⟩
  simp only [if_neg h14]
  by_cases h15 : op = "!="
  · simp only [if_pos h15]; exact Or.inl ⟨_, rfl⟩
  simp only [if_neg h15]
  by_cases h16 : op = "&&"
  · simp only [if_pos h16]; exact Or.inl ⟨_, rfl⟩
  simp only [if_neg h16]
  by_cases h17 : op = "||"
  · simp only [if_pos h17]; exact Or.inl ⟨_, rfl⟩
  simp only [if_neg h17]
  refine Or.inr (Or.inr (Or.inr (Or.inl ⟨trivial, ?_⟩)))
  simp only [get_precedence, h0, h1, h2, h3, h4, h5, h6, h7, h8, h9, h10, h11, h12, h13, h14, h15, h16, h17, or_self, if_false]

theorem eval_binary_ne_outOfFuel (op : String) (a b : Int) :
    eval_binary op a b ≠ .error .outOfFuel := by
  rcases eval_binary_cases op a b with ⟨v, h⟩ | ⟨h, _⟩ | ⟨h, _⟩ | ⟨h, _⟩ | ⟨h, _⟩ <;>
    rw [h] <;> simp

/-! ## The operators of the code and the reference arithmetic -/

theorem wrap32_eq_int32 (x : Int) : wrap32 x = int32 x := by
  unfold wrap32 int32 Int.bmod
  simp only
  split <;> omega

theorem toNat_bits32 (x : Int) : (bits32 x).toNat = toU32 x := by
  simp [bits32, toU32, BitVec.toNat_ofInt]

theorem wrap32_toInt (b : BitVec 32) : wrap32 (Int.ofNat b.toNat) = b.toInt := by
  have := b.isLt
  unfold wrap32
  rw [BitVec.toInt]
  simp only [Int.ofNat_eq_coe]
  split <;> omega

theorem c_and_spec (l r : Int) : c_and l r = (bits32 l &&& bits32 r).toInt := by
  rw [← wrap32_toInt, BitVec.toNat_and, toNat_bits32, toNat_bits32]
  rfl

theorem c_or_spec (l r : Int) : c_or l r = (bits32 l ||| bits32 r).toInt := by
  rw [← wrap32_toInt, BitVec.toNat_or, toNat_bits32, toNat_bits32]
  rfl

theorem c_xor_spec (l r : Int) : c_xor l r = (bits32 l ^^^ bits32 r).toInt := by
  rw [← wrap32_toInt, BitVec.toNat_xor, toNat_bits32, toNat_bits32]
  rfl

theorem c_shl_spec (l r : Int) : c_shl l r = (bits32 l <<< (r % 32).toNat).toInt := by
  rw [← wrap32_toInt, BitVec.toNat_shiftLeft, toNat_bits32, Nat.shiftLeft_eq]
  unfold c_shl wrap32 toU32
  generalize (r % 32).toNat = k
  have h1 : ((l % 4294967296).toNat : Int) = l % 4294967296 :=
    Int.toNat_of_nonneg (Int.emod_nonneg _ (by decide))
  simp only [Int.ofNat_eq_coe]
  push_cast
  rw [h1]
  have h2 : (l % 4294967296 * 2 ^ k) % 4294967296 = (l * 2 ^ k) % 4294967296 := by
    rw [Int.mul_emod, Int.emod_emod_of_dvd _ (dvd_refl _), ← Int.mul_emod]
  norm_num
  generalize hA : l * 2 ^ k = A
  generalize hB : l % 4294967296 * 2 ^ k = B
  rw [hA, hB] at h2
  omega

theorem c_shr_spec (l r : Int) : c_shr l r = int32 (l >>> (r % 32).toNat) := by
  rw [← wrap32_eq_int32, Int.shiftRight_eq_div_pow]
  unfold c_shr
  push_cast
  rfl

/-- The operator dispatch of the code gives the value the specification names. -/
theorem eval_binary_eq_spec (op : String) (a b v : Int) :
    eval_binary op a b = .ok v ↔ binop_by_spec op a b = some v := by
  unfold binop_by_spec eval_binary
  by_cases h0 : op = "+"
  · simp only [if_pos h0, c_add, wrap32_eq_int32, Except.ok.injEq, Option.some.injEq]
  simp only [if_neg h0]
  by_cases h1 : op = "-"
  · simp only [if_pos h1, c_sub, wrap32_eq_int32, Except.ok.injEq, Option.some.injEq]
  simp only [if_neg h1]
  by_cases h2 : op = "*"
  · simp only [if_pos h2, c_mul, wrap32_eq_int32, Except.ok.injEq, Option.some.injEq]
  simp only [if_neg h2]
  by_cases h3 : op = "/"
  · simp only [if_pos h3, c_div]
    by_cases hb : b = 0
    · simp [hb]
    · by_cases ht : a = -2147483648 ∧ b = -1
      · simp [hb, ht]
      · simp [hb, ht, wrap32_eq_int32]
  simp only [if_neg h3]
  by_cases h4 : op = "%"
  · simp only [if_pos h4, c_mod]
    by_cases hb : b = 0
    · simp [hb]
    · by_cases ht : a = -2147483648 ∧ b = -1
      · simp [hb, ht]
      · simp [hb, ht, wrap32_eq_int32]
  simp only [if_neg h4]
  by_cases h5 : op = "&"
  · simp only [if_pos h5, c_and_spec, Except.ok.injEq, Option.some.injEq]
  simp only [if_neg h5]
  by_cases h6 : op = "|"
  · simp only [if_pos h6, c_or_spec, Except.ok.injEq, Option.some.injEq]
  simp only [if_neg h6]
  by_cases h7 : op = "^"
  · simp only [if_pos h7, c_xor_spec, Except.ok.injEq, Option.some.injEq]
  simp only [if_neg h7]
  by_cases h8 : op = "<<"
  · simp only [if_pos h8, c_shl_spec, Except.ok.injEq, Option.some.injEq]
  simp only [if_neg h8]
  by_cases h9 : op = ">>"
  · simp only [if_pos h9, c_shr_spec, Except.ok.injEq, Option.some.injEq]
  simp only [if_neg h9]
  by_cases h10 : op = "=="
  · simp only [if_pos h10, c_bool, Except.ok.injEq, Option.some.injEq, decide_eq_true_eq]
  simp only [if_neg h10]
  by_cases h11 : op = "<"
  · simp only [if_pos h11, c_bool, Except.ok.injEq, Option.some.injEq, decide_eq_true_eq]
  simp only [if_neg h11]
  by_cases h12 : op = "<="
  · simp only [if_pos h12, c_bool, Except.ok.injEq, Option.some.injEq, decide_eq_true_eq]
  simp only [if_neg h12]
  by_cases h13 : op = ">"
  · simp only [if_pos h13, c_bool, Except.ok.injEq, Option.some.injEq, decide_eq_true_eq, gt_iff_lt]
  simp only [if_neg h13]
  by_cases h14 : op = ">="
  · simp only [if_pos h14, c_bool, Except.ok.injEq, Option.some.injEq, decide_eq_true_eq, ge_iff_le]
  simp only [if_neg h14]
  by_cases h15 : op = "!="
  · simp only [if_pos h15, c_bool, Except.ok.injEq, Option.some.injEq, decide_eq_true_eq]
    by_cases hab : a = b <;> simp [hab]
  simp only [if_neg h15]
  by_cases h16 : op = "&&"
  · simp only [if_pos h16, c_bool, Except.ok.injEq, Option.some.injEq, decide_eq_true_eq]
    by_cases ha : a = 0 <;> by_cases hb : b = 0 <;> simp [ha, hb]
  simp only [if_neg h16]
  by_cases h17 : op = "||"
  · simp only [if_pos h17, c_bool, Except.ok.injEq, Option.some.injEq, decide_eq_true_eq]
    by_cases ha : a = 0 <;> by_cases hb : b = 0 <;> simp [ha, hb]
  simp only [if_neg h17]
  simp
theorem c_div_cases (l r : Int) :
    (∃ w, c_div l r = .ok w) ∨ c_div l r = .error .arithmeticTrap := by
  unfold c_div
  split
  · exact Or.inr rfl
  · exact Or.inl ⟨_, rfl⟩

theorem c_mod_cases (l r : Int) :
    (∃ w, c_mod l r = .ok w) ∨ c_mod l r = .error .arithmeticTrap := by
  unfold c_mod
  split
  · exact Or.inr rfl
  · exact Or.inl ⟨_, rfl⟩

/-- The compound operators give a value, or the division instruction
stops the process. -/
theorem compound_result_cases (op : Option String) (cur r : Int) :
    (∃ w, compound_result op cur r = .ok w) ∨
      compound_result op cur r = .error .arithmeticTrap := by
  unfold compound_result
  cases op with
  | none => exact Or.inl ⟨_, rfl⟩
  | some op =>
    simp only
    split
    · exact Or.inl ⟨_, rfl⟩
    split
    · exact Or.inl ⟨_, rfl⟩
    split
    · exact Or.inl ⟨_, rfl⟩
    split
    · exact c_div_cases _ _
    split
    · exact c_mod_cases _ _
    split
    · exact Or.inl ⟨_, rfl⟩
    split
    · exact Or.inl ⟨_, rfl⟩
    exact Or.inl ⟨_, rfl⟩

theorem assigned_value_cases (op : String) (cur r : Int) :
    (∃ w, assigned_value op cur r = .ok w) ∨
      assigned_value op cur r = .error .arithmeticTrap := by
  unfold assigned_value
  split
  · exact Or.inl ⟨_, rfl⟩
  · exact compound_result_cases _ _ _

theorem Expr.eval_ne_outOfFuel (ss : ScopeStack) (e : Expr) :
    e.eval ss ≠ .error .outOfFuel := by
  induction e with
  | lit v => simp [Expr.eval]
  | var x => simp only [Expr.eval]; split <;> simp
  | paren e ih => simpa [Expr.eval] using ih
  | bin op l r ihl ihr =>
    simp only [Expr.eval]
    split
    · rename_i x hx; intro h; rw [h] at hx; exact ihl hx
    · split
      · rename_i x hx; intro h; rw [h] at hx; exact ihr hx
      · exact eval_binary_ne_outOfFuel _ _ _

/-- A spelled expression whose reference evaluation fails makes the
parser fail with the same error. -/
theorem parse_expression_error_of_spells {e : Expr} {ts : List Token} (hs : Spells e ts)
    (ss : ScopeStack) :
    ∀ (x : Err), e.eval ss = .error x → e.PrecOk →
    ∀ (tokens : List Token) (i : Nat) (rest : List Token) (minp : Int),
      tokens.drop i = ts ++ rest → minp ≤ e.top → RestOk e.top rest →
      ∀ g, parse_expression (g + 1 + ts.length) tokens i ss minp = .error x := by
  induction hs with
  | lit t hty => intro x hx; simp [Expr.eval] at hx
  | var t hty =>
    intro x hx _ tokens i rest minp hd _ _ g
    simp only [Expr.eval] at hx
    cases hsym : find_symbol_in_scope_stack ss t.str_val with
    | some sym => simp [hsym] at hx
    | none =>
      simp only [hsym, Except.error.injEq] at hx
      subst hx
      have ht := getElem?_of_drop_eq_cons (by simpa using hd)
      simp only [List.length_singleton]
      rw [parse_expression, parse_primary_undefined ht hty hsym]
  | paren o c e ts' ho1 ho2 hc1 hc2 _ ih =>
    intro x hx hok tokens i rest minp hd _ _ g
    simp only [Expr.eval] at hx
    simp only [Expr.PrecOk] at hok
    have hd' : tokens.drop i = o :: (ts' ++ (c :: rest)) := by simpa using hd
    have hto := getElem?_of_drop_eq_cons hd'
    have hd1 := drop_succ_of_drop_eq_cons hd'
    have hinner := ih x hx hok tokens (i + 1) (c :: rest) 0 hd1
      (Expr.top_nonneg hok) (by intro t r h hty; simp at h; rw [← h.1, hc1] at hty; cases hty) g
    have hlen : (o :: ts' ++ [c]).length = ts'.length + 2 := by simp
    have hprim : parse_primary (g + 1 + ts'.length + 1) tokens i ss = .error x := by
      rw [parse_primary]
      have hne : ¬ (o.type = TokenType.INT ∨ o.type = TokenType.IDENTIFIER) := by
        rw [ho1]; simp
      simp only [hto, if_neg hne, ho1, ho2, and_self, if_true, hinner]
      simp
    rw [hlen]
    have e1 : g + 1 + (ts'.length + 2) = (g + 1 + ts'.length + 1) + 1 := by omega
    rw [e1, parse_expression, hprim]
  | bin t l r tl tr hty hsl hsr ihl ihr =>
    intro x hx hok tokens i rest minp hd hmin hrest g
    simp only [Expr.PrecOk] at hok
    obtain ⟨hp0, hpl, hpr, hokl, hokr⟩ := hok
    simp only [Expr.top] at hmin hrest
    have hxne : (Except.error x : Except Err (Node × Nat)) ≠ .error .outOfFuel := by
      intro h
      simp only [Except.error.injEq] at h
      subst h
      exact Expr.eval_ne_outOfFuel ss _ hx
    simp only [Expr.eval] at hx
    have hd' : tokens.drop i = tl ++ (t :: (tr ++ rest)) := by simpa using hd
    have hlen : (tl ++ t :: tr).length = tl.length + tr.length + 1 := by simp; omega
    have hrl : RestOk l.top (t :: (tr ++ rest)) := by
      intro t' r' h hty'; simp at h; rw [← h.1]; exact hpl
    cases hvl : l.eval ss with
    | error y =>
      simp only [hvl, Except.error.injEq] at hx
      subst hx
      have := ihl y hvl hokl tokens i (t :: (tr ++ rest)) minp hd' (le_trans hmin hpl) hrl
        (g + tr.length + 1)
      rw [hlen]
      have e1 : g + 1 + (tl.length + tr.length + 1) = g + tr.length + 1 + 1 + tl.length := by
        omega
      rw [e1]; exact this
    | ok a =>
      obtain ⟨ln1, cl1, hl1⟩ := parse_expression_of_spells hsl ss a hvl hokl tokens i
        (t :: (tr ++ rest)) minp hd' (le_trans hmin hpl) hrl
      have hd1 := drop_add_of_drop_eq_append hd'
      have htop := getElem?_of_drop_eq_cons hd1
      have hd2 := drop_succ_of_drop_eq_cons hd1
      have h1 : ¬ (t.type ≠ TokenType.OPERATOR) := by simp [hty]
      have h2 : ¬ (get_precedence t.str_val < minp) := by omega
      have hrr : RestOk r.top rest := by
        intro t' r' h hty'; exact le_trans (hrest t' r' h hty') (le_of_lt hpr)
      have e1 : g + 1 + (tl.length + tr.length + 1) = g + 1 + tr.length + 1 + tl.length := by
        omega
      rw [hlen, e1]
      apply hl1 _ _ _ hxne
      rw [parse_expression_loop]
      simp only [htop]
      rw [if_neg h1, if_neg h2]
      cases hvr : r.eval ss with
      | error y =>
        simp only [hvl, hvr, Except.error.injEq] at hx
        subst hx
        rw [ihr y hvr hokr tokens (i + tl.length + 1) rest (get_precedence t.str_val + 1) hd2
          (by omega) hrr g]
      | ok b =>
        simp only [hvl, hvr] at hx
        obtain ⟨ln2, cl2, hr2⟩ := parse_expression_of_spells hsr ss b hvr hokr tokens
          (i + tl.length + 1) rest (get_precedence t.str_val + 1) hd2 (by omega) hrr
        have hd3 := drop_add_of_drop_eq_append hd2
        have hright := hr2 (g + 1) (.ok (lit_node b ln2 cl2, i + tl.length + 1 + tr.length))
          (parse_expression_loop_stop (k := rest) hd3
            (by intro t' r' h hty'; have := hrest t' r' h hty'; omega))
          (by simp)
        rw [hright]
        simp only
        have h3 : (lit_node a ln1 cl1).has_type .NODE_LITERAL_INT = true ∧
            (lit_node b ln2 cl2).has_type .NODE_LITERAL_INT = true := by
          simp [lit_node, Node.has_type]
        rw [if_pos h3, fold_eval t a b _ _ _ _ hty hp0, hx]

theorem Expr.eval_literal_only {e : Expr} (h : e.literal_only) (ss : ScopeStack) :
    e.eval ss = e.eval [] := by
  induction e with
  | lit v => rfl
  | var x => exact absurd h (by simp [Expr.literal_only])
  | paren e ih => simpa [Expr.eval] using ih h
  | bin op l r ihl ihr =>
    simp only [Expr.literal_only] at h
    simp only [Expr.eval, ihl h.1, ihr h.2]

/-- The parser returns the literal of the reference value, with the cursor
behind the expression, when the next token is not a binary operator. -/
theorem parse_expression_value {e : Expr} {ts : List Token} (hs : Spells e ts)
    (ss : ScopeStack) (v : Int) (hv : e.eval ss = .ok v) (hok : e.PrecOk)
    (tokens : List Token) (i : Nat) (rest : List Token) (hd : tokens.drop i = ts ++ rest)
    (hrest : ∀ t r, rest = t :: r → t.type = .OPERATOR → get_precedence t.str_val < 0)
    (fuel : Nat) (hf : ts.length + 1 ≤ fuel) :
    ∃ ln cl, parse_expression fuel tokens i ss 0 = .ok (lit_node v ln cl, i + ts.length) := by
  obtain ⟨ln, cl, h⟩ := parse_expression_of_spells hs ss v hv hok tokens i rest 0 hd
    (Expr.top_nonneg hok)
    (by intro t r h hty; exact le_trans (le_of_lt (hrest t r h hty)) (Expr.top_nonneg hok))
  refine ⟨ln, cl, ?_⟩
  have := h 1 _ (parse_expression_loop_stop (g := 0) (k := rest)
    (drop_add_of_drop_eq_append hd) hrest) (by simp)
  exact parse_expression_mono (by omega) this (by simp)

theorem spells_int_min : Spells int_min_expr int_min_tokens :=
  Spells.paren (tSep "(") (tSep ")") _ [tInt 0, tOp "-", tInt 2147483647, tOp "-", tInt 1]
    rfl rfl rfl rfl
    (Spells.bin (tOp "-") _ _ [tInt 0, tOp "-", tInt 2147483647] [tInt 1] rfl
      (Spells.bin (tOp "-") _ _ [tInt 0] [tInt 2147483647] rfl (Spells.lit (tInt 0) rfl)
        (Spells.lit (tInt 2147483647) rfl))
      (Spells.lit (tInt 1) rfl))

theorem spells_minus_one : Spells minus_one_expr minus_one_tokens :=
  Spells.paren (tSep "(") (tSep ")") _ [tInt 0, tOp "-", tInt 1] rfl rfl rfl rfl
    (Spells.bin (tOp "-") _ _ [tInt 0] [tInt 1] rfl (Spells.lit (tInt 0) rfl)
      (Spells.lit (tInt 1) rfl))

theorem spells_int_min_by_minus_one (op : String) :
    Spells (.bin op int_min_expr minus_one_expr) (int_min_by_minus_one op) :=
  Spells.bin (tOp op) _ _ int_min_tokens minus_one_tokens rfl spells_int_min spells_minus_one

theorem Expr.eval_of_literal_value {e : Expr} (hlit : e.literal_only) (env : Env)
    (ss : ScopeStack) : ∀ v, e.value env = some v → e.eval ss = .ok v := by
  induction e with
  | lit n => intro v h; simp only [Expr.value, Option.some.injEq] at h; subst h; rfl
  | var x => exact absurd hlit (by simp [Expr.literal_only])
  | paren e ih => intro v h; exact ih hlit v h
  | bin op l r ihl ihr =>
    intro v h
    simp only [Expr.literal_only] at hlit
    simp only [Expr.value] at h
    cases hl : l.value env with
    | none => rw [hl] at h; cases h
    | some a =>
      rw [hl] at h
      simp only at h
      cases hr : r.value env with
      | none => rw [hr] at h; cases h
      | some b =>
        rw [hr] at h
        simp only at h
        simp only [Expr.eval, ihl hlit.1 a hl, ihr hlit.2 b hr]
        exact (eval_binary_eq_spec op a b v).mpr h

/-- For an operator of the precedence table the reference arithmetic gives
no value exactly for a division or modulo by zero or of -2147483648 by -1. -/
theorem binop_by_spec_eq_none_iff (op : String) (a b : Int) (hp : 0 ≤ get_precedence op) :
    binop_by_spec op a b = none ↔
      ((op = "/" ∨ op = "%") ∧ (b = 0 ∨ (a = -2147483648 ∧ b = -1))) := by
  constructor
  · intro h
    rcases eval_binary_cases op a b with ⟨v, h1⟩ | ⟨_, h1, h2⟩ | ⟨_, h1, h2⟩ | ⟨_, h1⟩ |
      ⟨_, h1, h2, h3⟩
    · rw [(eval_binary_eq_spec op a b v).mp h1] at h; cases h
    · exact ⟨Or.inl h1, Or.inl h2⟩
    · exact ⟨Or.inr h1, Or.inl h2⟩
    · omega
    · exact ⟨h1, Or.inr ⟨h2, h3⟩⟩
  · rintro ⟨h1, h2⟩
    cases hb : binop_by_spec op a b with
    | none => rfl
    | some v =>
      exfalso
      have he := (eval_binary_eq_spec op a b v).mpr hb
      rcases h1 with h1 | h1 <;> subst h1 <;> rcases h2 with h2 | ⟨h2, h3⟩ <;>
        simp [eval_binary, c_div, c_mod, h2, *] at he

/-- C1 (as amended): for every token sequence that spells an expression built
only from integer literals, parentheses and the binary operators of the
precedence table, grouped as the precedences and left-to-right grouping
dictate, and whose reference value is `v`, `parse_expression` with minimum
precedence 0 returns a single literal node of value `v` and leaves the
cursor behind the expression.  The reference value is that of the
reference arithmetic `binop_by_spec`, which is written without the
operators of the code; an operator of the table has no reference value
exactly when it divides or takes the remainder by 0 or of -2147483648 by
-1. -/
theorem C1_parse_expression_folds_to_reference_value
    (e : Expr) (ts : List Token) (hs : Spells e ts) (hlit : e.literal_only) (hok : e.PrecOk)
    (v : Int) (hv : e.value Env.empty = some v)
    (ss : ScopeStack) (tokens : List Token) (i : Nat) (rest : List Token)
    (hd : tokens.drop i = ts ++ rest)
    (hrest : ∀ t r, rest = t :: r → t.type = .OPERATOR → get_precedence t.str_val < 0)
    (fuel : Nat) (hf : ts.length + 1 ≤ fuel) :
    (∃ ln cl, parse_expression fuel tokens i ss 0 = .ok (lit_node v ln cl, i + ts.length)) ∧
    (∀ (op : String) (a b : Int), 0 ≤ get_precedence op →
      (binop_by_spec op a b = none ↔
        ((op = "/" ∨ op = "%") ∧ (b = 0 ∨ (a = -2147483648 ∧ b = -1))))) :=
  ⟨parse_expression_value hs ss v (Expr.eval_of_literal_value hlit Env.empty ss v hv) hok
    tokens i rest hd hrest fuel hf, binop_by_spec_eq_none_iff⟩

theorem C1_witness :
    (∃ ln cl, parse_expression 6 [tInt 2, tOp "+", tInt 3, tOp "*", tInt 4] 0 [] 0 =
        .ok (lit_node 14 ln cl, 5)) ∧
    (∃ ln cl, parse_expression 8
        [tSep "(", tInt 2, tOp "+", tInt 3, tSep ")", tOp "*", tInt 4, tSep ";"] 0 [] 0 =
        .ok (lit_node 20 ln cl, 7)) ∧
    (∃ ln cl, parse_expression 6 [tInt 10, tOp "-", tInt 3, tOp "-", tInt 2] 0 [] 0 =
        .ok (lit_node 5 ln cl, 5)) ∧
    (∃ ln cl, parse_expression 8
        [tInt 17, tOp "/", tInt 5, tOp "^", tInt 6, tOp "&", tInt 3] 0 [] 0 =
        .ok (lit_node 1 ln cl, 7)) :=
  ⟨(C1_parse_expression_folds_to_reference_value
      (.bin "+" (.lit 2) (.bin "*" (.lit 3) (.lit 4)))
      [tInt 2, tOp "+", tInt 3, tOp "*", tInt 4]
      (Spells.bin (tOp "+") _ _ [tInt 2] [tInt 3, tOp "*", tInt 4] rfl (Spells.lit (tInt 2) rfl)
        (Spells.bin (tOp "*") _ _ [tInt 3] [tInt 4] rfl (Spells.lit (tInt 3) rfl)
          (Spells.lit (tInt 4) rfl)))
      (by simp [Expr.literal_only]) (by simp [Expr.PrecOk, Expr.top]; decide) 14 (by decide)
      [] _ 0 [] rfl (by intro t r h; cases h) 6 (by decide)).1,
   (C1_parse_expression_folds_to_reference_value
      (.bin "*" (.paren (.bin "+" (.lit 2) (.lit 3))) (.lit 4))
      [tSep "(", tInt 2, tOp "+", tInt 3, tSep ")", tOp "*", tInt 4]
      (Spells.bin (tOp "*") _ _ [tSep "(", tInt 2, tOp "+", tInt 3, tSep ")"] [tInt 4] rfl
        (Spells.paren (tSep "(") (tSep ")") _ [tInt 2, tOp "+", tInt 3] rfl rfl rfl rfl
          (Spells.bin (tOp "+") _ _ [tInt 2] [tInt 3] rfl (Spells.lit (tInt 2) rfl)
            (Spells.lit (tInt 3) rfl)))
        (Spells.lit (tInt 4) rfl))
      (by simp [Expr.literal_only]) (by simp [Expr.PrecOk, Expr.top]; decide) 20 (by decide)
      [] _ 0 [tSep ";"] rfl (by intro t r h hty; cases h; cases hty) 8 (by decide)).1,
   (C1_parse_expression_folds_to_reference_value
      (.bin "-" (.bin "-" (.lit 10) (.lit 3)) (.lit 2))
      [tInt 10, tOp "-", tInt 3, tOp "-", tInt 2]
      (Spells.bin (tOp "-") _ _ [tInt 10, tOp "-", tInt 3] [tInt 2] rfl
        (Spells.bin (tOp "-") _ _ [tInt 10] [tInt 3] rfl (Spells.lit (tInt 10) rfl)
          (Spells.lit (tInt 3) rfl))
        (Spells.lit (tInt 2) rfl))
      (by simp [Expr.literal_only]) (by simp [Expr.PrecOk, Expr.top]; decide) 5 (by decide)
      [] _ 0 [] rfl (by intro t r h; cases h) 6 (by decide)).1,
   (C1_parse_expression_folds_to_reference_value
      (.bin "^" (.bin "/" (.lit 17) (.lit 5)) (.bin "&" (.lit 6) (.lit 3)))
      [tInt 17, tOp "/", tInt 5, tOp "^", tInt 6, tOp "&", tInt 3]
      (Spells.bin (tOp "^") _ _ [tInt 17, tOp "/", tInt 5] [tInt 6, tOp "&", tInt 3] rfl
        (Spells.bin (tOp "/") _ _ [tInt 17] [tInt 5] rfl (Spells.lit (tInt 17) rfl)
          (Spells.lit (tInt 5) rfl))
        (Spells.bin (tOp "&") _ _ [tInt 6] [tInt 3] rfl (Spells.lit (tInt 6) rfl)
          (Spells.lit (tInt 3) rfl)))
      (by simp [Expr.literal_only]) (by simp [Expr.PrecOk, Expr.top]; decide) 1 (by decide)
      [] _ 0 [] rfl (by intro t r h; cases h) 8 (by decide)).1⟩

/-- C1, counterexample: `( 0 - 2147483647 - 1 ) / ( 0 - 1 )` is built from
integer literals, parentheses and operators of the precedence table and is
grouped as the precedences dictate; the right operand of its division has
the value -1, not 0, and the left operand the value -2147483648.
`parse_expression` returns no node for it: the division instruction of the
fold stops the process.  The same holds with `%` in place of `/`. -/
theorem C1_division_of_int_min_by_minus_one_returns_no_node :
    Spells (.bin "/" int_min_expr minus_one_expr) (int_min_by_minus_one "/") ∧
    (Expr.bin "/" int_min_expr minus_one_expr).literal_only ∧
    (Expr.bin "/" int_min_expr minus_one_expr).PrecOk ∧
    int_min_expr.value Env.empty = some (-2147483648) ∧
    minus_one_expr.value Env.empty = some (-1) ∧
    parse_expression 14 (int_min_by_minus_one "/") 0 [] 0 = .error .arithmeticTrap ∧
    Spells (.bin "%" int_min_expr minus_one_expr) (int_min_by_minus_one "%") ∧
    (Expr.bin "%" int_min_expr minus_one_expr).PrecOk ∧
    parse_expression 14 (int_min_by_minus_one "%") 0 [] 0 = .error .arithmeticTrap := by
  refine ⟨spells_int_min_by_minus_one "/", ?_, ?_, by decide, by decide, by decide,
    spells_int_min_by_minus_one "%", ?_, by decide⟩
  · simp [Expr.literal_only, int_min_expr, minus_one_expr]
  · simp [Expr.PrecOk, Expr.top, int_min_expr, minus_one_expr]; decide
  · simp [Expr.PrecOk, Expr.top, int_min_expr, minus_one_expr]; decide

/-! ## Every parsed expression is a literal leaf -/

theorem parse_expression_literal_aux (n : Nat) :
    (∀ tokens i ss node i', parse_primary n tokens i ss = .ok (node, i') →
        node.is_literal_leaf) ∧
    (∀ tokens i ss m node i', parse_expression n tokens i ss m = .ok (node, i') →
        node.is_literal_leaf) ∧
    (∀ tokens i ss m left node i', left.is_literal_leaf →
        parse_expression_loop n tokens i ss m left = .ok (node, i') →
        node.is_literal_leaf) := by
  induction n with
  | zero =>
    refine ⟨?_, ?_, ?_⟩ <;> intros <;>
      simp_all [parse_primary, parse_expression, parse_expression_loop]
  | succ n ih =>
    obtain ⟨ihp, ihe, ihl⟩ := ih
    refine ⟨?_, ?_, ?_⟩
    · intro tokens i ss node i' h
      rw [parse_primary] at h
      cases ht : tokens[i]? with
      | none => simp [ht] at h
      | some token =>
        simp only [ht] at h
        by_cases hc1 : token.type = TokenType.INT ∨ token.type = TokenType.IDENTIFIER
        · rw [if_pos hc1] at h
          by_cases hid : token.type = TokenType.IDENTIFIER
          · rw [if_pos hid] at h
            cases hsym : find_symbol_in_scope_stack ss token.str_val with
            | none => simp [hsym] at h
            | some sym =>
              simp only [hsym, if_true, Except.ok.injEq, Prod.mk.injEq] at h
              exact ⟨sym.value, token.line, token.col, h.1.symm⟩
          · rw [if_neg hid] at h
            have hint : token.type = TokenType.INT := by
              rcases hc1 with h1 | h1
              · exact h1
              · exact absurd h1 hid
            simp only [Except.ok.injEq, Prod.mk.injEq] at h
            refine ⟨token.int_val, token.line, token.col, ?_⟩
            rw [← h.1]
            simp [createNodeFromToken, hint, lit_node]
        · rw [if_neg hc1] at h
          by_cases hc2 : token.type = TokenType.SEPARATOR ∧ token.str_val = "("
          · rw [if_pos hc2] at h
            cases hsub : parse_expression n tokens (i + 1) ss 0 with
            | error e => simp [hsub] at h
            | ok val =>
              obtain ⟨expr, i1⟩ := val
              rw [hsub] at h
              simp only at h
              have hlit := ihe _ _ _ _ _ _ hsub
              cases htc : tokens[i1]? with
              | none => simp [htc] at h
              | some t =>
                simp only [htc] at h
                cases hstr : t.str with
                | error e => simp [hstr] at h
                | ok s =>
                  simp only [hstr] at h
                  by_cases hs : s = ")"
                  · simp only [hs, if_true, Except.ok.injEq, Prod.mk.injEq] at h
                    rw [← h.1]; exact hlit
                  · simp [hs] at h
          · simp [hc2] at h
    · intro tokens i ss m node i' h
      rw [parse_expression] at h
      cases hsub : parse_primary n tokens i ss with
      | error e => simp [hsub] at h
      | ok val =>
        obtain ⟨left, i1⟩ := val
        rw [hsub] at h
        exact ihl _ _ _ _ _ _ _ (ihp _ _ _ _ _ hsub) h
    · intro tokens i ss m left node i' hleft h
      rw [parse_expression_loop] at h
      cases ht : tokens[i]? with
      | none =>
        simp only [ht, Except.ok.injEq, Prod.mk.injEq] at h
        rw [← h.1]; exact hleft
      | some op_token =>
        simp only [ht] at h
        by_cases h1 : op_token.type ≠ TokenType.OPERATOR
        · rw [if_pos h1] at h
          simp only [Except.ok.injEq, Prod.mk.injEq] at h
          rw [← h.1]; exact hleft
        · rw [if_neg h1] at h
          by_cases h2 : get_precedence op_token.str_val < m
          · rw [if_pos h2] at h
            simp only [Except.ok.injEq, Prod.mk.injEq] at h
            rw [← h.1]; exact hleft
          · rw [if_neg h2] at h
            cases hsub : parse_expression n tokens (i + 1) ss
                (get_precedence op_token.str_val + 1) with
            | error e => simp [hsub] at h
            | ok val =>
              obtain ⟨right, i1⟩ := val
              rw [hsub] at h
              simp only at h
              have hright := ihe _ _ _ _ _ _ hsub
              have h3 : left.has_type .NODE_LITERAL_INT = true ∧
                  right.has_type .NODE_LITERAL_INT = true := by
                obtain ⟨a, l1, c1, rfl⟩ := hleft
                obtain ⟨b, l2, c2, rfl⟩ := hright
                simp [lit_node, Node.has_type]
              rw [if_pos h3] at h
              cases hev : evaluate_constant_expression
                  (((createNodeFromToken op_token).set_left left).set_right right) with
              | error e => simp [hev] at h
              | ok result =>
                rw [hev] at h
                exact ihl _ _ _ _ _ _ _ ⟨result, op_token.line, op_token.col, rfl⟩ h

theorem find_symbol_in_scope_stack_append (outer : ScopeStack) (table : SymbolTable)
    (inner : ScopeStack) (name : String) (sym : Symbol)
    (hs : find_symbol table name = some sym)
    (hin : ∀ t ∈ inner, find_symbol t name = none) :
    find_symbol_in_scope_stack (outer ++ table :: inner) name = some sym := by
  have hinner : find_symbol_in_scope_stack inner name = none := by
    induction inner with
    | nil => rfl
    | cons t rest ih =>
      simp only [find_symbol_in_scope_stack]
      rw [ih (fun t' ht' => hin t' (List.mem_cons_of_mem _ ht'))]
      exact hin t (List.mem_cons_self _ _)
  induction outer with
  | nil => simp [find_symbol_in_scope_stack, hinner, hs]
  | cons t rest ih => simp [find_symbol_in_scope_stack, ih]

/-- C2: whenever `parse_expression` returns a node, the node is an
integer literal without child and sibling; and when the first token is an
identifier, the primary was replaced by the literal of the value that the
scope-stack lookup gives, which is the symbol of the innermost table that
holds the name. -/
theorem C2_parse_expression_returns_literal_leaf
    (fuel : Nat) (tokens : List Token) (i : Nat) (ss : ScopeStack) (minp : Int)
    (node : Node) (i' : Nat)
    (h : parse_expression fuel tokens i ss minp = .ok (node, i')) :
    (∃ v ln cl, node = Node.mk .NODE_LITERAL_INT (.int_val v) ln cl .NULL .NULL) ∧
    (∀ t, tokens[i]? = some t → t.type = .IDENTIFIER →
      ∃ sym, find_symbol_in_scope_stack ss t.str_val = some sym ∧
        parse_primary (fuel - 1) tokens i ss =
          .ok (Node.mk .NODE_LITERAL_INT (.int_val sym.value) t.line t.col .NULL .NULL,
               i + 1) ∧
        (∀ outer table inner, ss = outer ++ table :: inner →
          (find_symbol table t.str_val).isSome →
          (∀ t' ∈ inner, find_symbol t' t.str_val = none) →
          find_symbol table t.str_val = some sym)) := by
  refine ⟨(parse_expression_literal_aux fuel).2.1 _ _ _ _ _ _ h, ?_⟩
  intro t ht hty
  cases fuel with
  | zero => simp [parse_expression] at h
  | succ g =>
    rw [parse_expression] at h
    cases g with
    | zero => simp [parse_primary] at h
    | succ g' =>
      cases hsym : find_symbol_in_scope_stack ss t.str_val with
      | none =>
        rw [parse_primary_undefined ht hty hsym] at h
        simp at h
      | some sym =>
        refine ⟨sym, rfl, ?_, ?_⟩
        · simpa [lit_node] using parse_primary_var (g := g') ht hty hsym
        · intro outer table inner hss hsome hin
          obtain ⟨s', hs'⟩ := Option.isSome_iff_exists.mp hsome
          have := find_symbol_in_scope_stack_append outer table inner t.str_val s' hs' hin
          rw [← hss, hsym] at this
          rw [hs']; exact this.symm

theorem C2_witness :
    parse_expression 4 [tId "x", tOp "+", tInt 1] 0
        [[⟨"x", .VAR_INT, 4, 1, 1⟩], [⟨"x", .VAR_INT, 7, 1, 1⟩]] 0 =
      .ok (lit_node 8 1 1, 3) ∧
    ((∃ v ln cl, lit_node 8 1 1 = Node.mk .NODE_LITERAL_INT (.int_val v) ln cl .NULL .NULL) ∧
     (∀ t, [tId "x", tOp "+", tInt 1][0]? = some t → t.type = .IDENTIFIER →
      ∃ sym, find_symbol_in_scope_stack
          [[⟨"x", .VAR_INT, 4, 1, 1⟩], [⟨"x", .VAR_INT, 7, 1, 1⟩]] t.str_val = some sym ∧
        parse_primary (4 - 1) [tId "x", tOp "+", tInt 1] 0
            [[⟨"x", .VAR_INT, 4, 1, 1⟩], [⟨"x", .VAR_INT, 7, 1, 1⟩]] =
          .ok (Node.mk .NODE_LITERAL_INT (.int_val sym.value) t.line t.col .NULL .NULL,
               0 + 1) ∧
        (∀ outer table inner,
          [[⟨"x", .VAR_INT, 4, 1, 1⟩], [⟨"x", .VAR_INT, 7, 1, 1⟩]] = outer ++ table :: inner →
          (find_symbol table t.str_val).isSome →
          (∀ t' ∈ inner, find_symbol t' t.str_val = none) →
          find_symbol table t.str_val = some sym))) :=
  ⟨by decide,
   C2_parse_expression_returns_literal_leaf 4 [tId "x", tOp "+", tInt 1] 0
     [[⟨"x", .VAR_INT, 4, 1, 1⟩], [⟨"x", .VAR_INT, 7, 1, 1⟩]] 0 (lit_node 8 1 1) 3 (by decide)⟩

/-! ## Fatal errors of the expression parser -/

theorem find_symbol_in_scope_stack_eq_none {ss : ScopeStack} {name : String} :
    find_symbol_in_scope_stack ss name = none ↔ ∀ t ∈ ss, find_symbol t name = none := by
  induction ss with
  | nil => simp [find_symbol_in_scope_stack]
  | cons t rest ih =>
    simp only [find_symbol_in_scope_stack, List.mem_cons, forall_eq_or_imp]
    cases h : find_symbol_in_scope_stack rest name with
    | none =>
      rw [h] at ih
      have hr := ih.mp rfl
      simp only
      exact ⟨fun h' => ⟨h', hr⟩, fun h' => h'.1⟩
    | some s =>
      rw [h] at ih
      simp only
      constructor
      · intro hc; cases hc
      · intro hc; exact absurd (ih.mpr hc.2) (by simp)

/-- C3: dividing or taking the remainder by a right operand that folds to
0 ends the compilation with the arithmetic fatal error and yields no node,
for `a / 0` and `a % 0` with any literal `a`, for any spelled expression
whose reference evaluation meets such a division, and for the program
`exit(5 / 0);`; with a nonzero right operand the fold of an operator never
raises these errors (it yields a value, except for the operands
-2147483648 and -1 of `/` and `%`, where the division instruction stops
the process), and no operator other than `/` and `%` raises them. -/
theorem C3_division_by_constant_zero_is_fatal :
    (∀ (a : Int) (ss : ScopeStack) (g : Nat),
      parse_expression (g + 4) [tInt a, tOp "/", tInt 0] 0 ss 0 = .error .divisionByZero ∧
      parse_expression (g + 4) [tInt a, tOp "%", tInt 0] 0 ss 0 = .error .moduloByZero) ∧
    (∀ (e : Expr) (ts : List Token) (ss : ScopeStack) (x : Err), Spells e ts → e.PrecOk →
      e.eval ss = .error x → x.kind = .arithmetic →
      ∀ (tokens : List Token) (i : Nat) (rest : List Token), tokens.drop i = ts ++ rest →
        (∀ t r, rest = t :: r → t.type = .OPERATOR → get_precedence t.str_val < 0) →
        ∀ g, parse_expression (g + 1 + ts.length) tokens i ss 0 = .error x) ∧
    (∀ (l r : Expr) (ss : ScopeStack) (a : Int),
      l.eval ss = .ok a → r.eval ss = .ok 0 →
      ((Expr.bin "/" l r).eval ss = .error .divisionByZero ∧
       (Expr.bin "%" l r).eval ss = .error .moduloByZero)) ∧
    parse 8 [tKw "exit", tSep "(", tInt 5, tOp "/", tInt 0, tSep ")", tSep ";"] =
      .error .divisionByZero ∧
    (∀ (op : Token) (a b : Int), op.type = .OPERATOR → 0 ≤ get_precedence op.str_val →
      (b ≠ 0 →
        evaluate_constant_expression (binary_node op a b) ≠ .error .divisionByZero ∧
        evaluate_constant_expression (binary_node op a b) ≠ .error .moduloByZero) ∧
      (b ≠ 0 → ¬ (a = -2147483648 ∧ b = -1) →
        ∃ v, evaluate_constant_expression (binary_node op a b) = .ok v) ∧
      (evaluate_constant_expression (binary_node op a b) = .error .divisionByZero ↔
        (op.str_val = "/" ∧ b = 0)) ∧
      (evaluate_constant_expression (binary_node op a b) = .error .moduloByZero ↔
        (op.str_val = "%" ∧ b = 0))) := by
  refine ⟨?_, ?_, ?_, ?_, ?_⟩
  · intro a ss g
    constructor
    · have h := parse_expression_error_of_spells
        (show Spells (.bin "/" (.lit a) (.lit 0)) [tInt a, tOp "/", tInt 0] from
          Spells.bin (tOp "/") _ _ [tInt a] [tInt 0] rfl (Spells.lit (tInt a) rfl)
            (Spells.lit (tInt 0) rfl)) ss .divisionByZero
        (by simp [Expr.eval, eval_binary])
        (by simp [Expr.PrecOk, Expr.top]; decide)
        [tInt a, tOp "/", tInt 0] 0 [] 0 rfl (by simp [Expr.top]; decide)
        (by intro t r h; cases h) g
      simpa using h
    · have h := parse_expression_error_of_spells
        (show Spells (.bin "%" (.lit a) (.lit 0)) [tInt a, tOp "%", tInt 0] from
          Spells.bin (tOp "%") _ _ [tInt a] [tInt 0] rfl (Spells.lit (tInt a) rfl)
            (Spells.lit (tInt 0) rfl)) ss .moduloByZero
        (by simp [Expr.eval, eval_binary])
        (by simp [Expr.PrecOk, Expr.top]; decide)
        [tInt a, tOp "%", tInt 0] 0 [] 0 rfl (by simp [Expr.top]; decide)
        (by intro t r h; cases h) g
      simpa using h
  · intro e ts ss x hs hok hx _ tokens i rest hd hrest g
    exact parse_expression_error_of_spells hs ss x hx hok tokens i rest 0 hd
      (Expr.top_nonneg hok)
      (by intro t r h hty; exact le_trans (le_of_lt (hrest t r h hty)) (Expr.top_nonneg hok)) g
  · intro l r ss a hl hr
    simp [Expr.eval, hl, hr, eval_binary]
  · decide
  · intro op a b hty hp
    have hfold : evaluate_constant_expression (binary_node op a b) = eval_binary op.str_val a b :=
      fold_eval op a b 1 1 1 1 hty hp
    rw [hfold]
    have hpne : get_precedence op.str_val ≠ -1 := by omega
    rcases eval_binary_cases op.str_val a b with
      ⟨v, h⟩ | ⟨h, h1, h2⟩ | ⟨h, h1, h2⟩ | ⟨h, h1⟩ | ⟨h, h1, h2, h3⟩
    · rw [h]
      refine ⟨fun _ => ⟨by simp, by simp⟩, fun _ _ => ⟨v, rfl⟩, ?_, ?_⟩
      · constructor
        · intro hc; cases hc
        · rintro ⟨h1, h2⟩
          rw [h1, h2] at h
          simp [eval_binary] at h
      · constructor
        · intro hc; cases hc
        · rintro ⟨h1, h2⟩
          rw [h1, h2] at h
          simp [eval_binary] at h
    · rw [h]
      refine ⟨fun hb => absurd h2 hb, fun hb => absurd h2 hb, ?_, ?_⟩
      · simp [h1, h2]
      · constructor
        · intro hc; cases hc
        · rintro ⟨h3, _⟩; rw [h1] at h3; exact absurd h3 (by decide)
    · rw [h]
      refine ⟨fun hb => absurd h2 hb, fun hb => absurd h2 hb, ?_, ?_⟩
      · constructor
        · intro hc; cases hc
        · rintro ⟨h3, _⟩; rw [h1] at h3; exact absurd h3 (by decide)
      · simp [h1, h2]
    · exact absurd h1 hpne
    · rw [h]
      refine ⟨fun _ => ⟨by simp, by simp⟩, fun _ hn => absurd ⟨h2, h3⟩ hn, ?_, ?_⟩
      · constructor
        · intro hc; cases hc
        · rintro ⟨_, h4⟩; rw [h3] at h4; exact absurd h4 (by decide)
      · constructor
        · intro hc; cases hc
        · rintro ⟨_, h4⟩; rw [h3] at h4; exact absurd h4 (by decide)

theorem C3_witness :
    parse_expression 4 [tInt 7, tOp "/", tInt 0] 0 [] 0 = .error .divisionByZero ∧
    parse_expression 4 [tInt 7, tOp "%", tInt 0] 0 [] 0 = .error .moduloByZero ∧
    (tOp "/").type = .OPERATOR ∧ 0 ≤ get_precedence (tOp "/").str_val ∧ (2 : Int) ≠ 0 ∧
    evaluate_constant_expression (binary_node (tOp "/") 7 2) ≠ .error .divisionByZero ∧
    evaluate_constant_expression (binary_node (tOp "/") 7 2) ≠ .error .moduloByZero ∧
    (-1 : Int) ≠ 0 ∧
    evaluate_constant_expression (binary_node (tOp "%") (-2147483648) (-1)) ≠
      .error .moduloByZero :=
  ⟨(C3_division_by_constant_zero_is_fatal.1 7 [] 0).1,
   (C3_division_by_constant_zero_is_fatal.1 7 [] 0).2,
   rfl, by decide, by decide,
   ((C3_division_by_constant_zero_is_fatal.2.2.2.2 (tOp "/") 7 2 rfl (by decide)).1
      (by decide)).1,
   ((C3_division_by_constant_zero_is_fatal.2.2.2.2 (tOp "/") 7 2 rfl (by decide)).1
      (by decide)).2,
   by decide,
   ((C3_division_by_constant_zero_is_fatal.2.2.2.2 (tOp "%") (-2147483648) (-1) rfl
      (by decide)).1 (by decide)).2⟩

/-- C4: when no table of the scope stack holds a symbol named `y`, an
expression whose primary is the identifier `y` ends the compilation with
the unresolved-reference fatal error and yields no node; so does the
statement `exit(y);`, in that scope stack and at the top of a program. -/
theorem C4_undeclared_identifier_is_fatal
    (ss : ScopeStack) (y : String) (hno : ∀ table ∈ ss, find_symbol table y = none)
    (tokens : List Token) (i : Nat) (t : Token) (ht : tokens[i]? = some t)
    (hty : t.type = .IDENTIFIER) (hy : t.str_val = y) (g : Nat) (minp : Int) :
    parse_expression (g + 2) tokens i ss minp = .error (.undefinedVariable y) ∧
    (Err.undefinedVariable y).kind = .unresolvedReference ∧
    parse_exit_statement (g + 2) [tKw "exit", tSep "(", t, tSep ")", tSep ";"] 0 ss =
      .error (.undefinedVariable y) ∧
    parse_statement (g + 3) [tKw "exit", tSep "(", t, tSep ")", tSep ";"] 0 ss true =
      .error (.undefinedVariable y) ∧
    parse (g + 4) [tKw "exit", tSep "(", tId y, tSep ")", tSep ";"] =
      .error (.undefinedVariable y) := by
  have hnone : find_symbol_in_scope_stack ss t.str_val = none := by
    rw [hy]; exact find_symbol_in_scope_stack_eq_none.mpr hno
  have hexpr : ∀ (tokens : List Token) (i : Nat) (ss : ScopeStack) (t : Token) (m : Int),
      tokens[i]? = some t → t.type = .IDENTIFIER →
      find_symbol_in_scope_stack ss t.str_val = none →
      parse_expression (g + 2) tokens i ss m = .error (.undefinedVariable t.str_val) := by
    intro tokens i ss t m ht hty hnone
    rw [parse_expression, parse_primary_undefined ht hty hnone]
  have hexit : ∀ (ss : ScopeStack) (t : Token), t.type = .IDENTIFIER →
      find_symbol_in_scope_stack ss t.str_val = none →
      parse_exit_statement (g + 2) [tKw "exit", tSep "(", t, tSep ")", tSep ";"] 0 ss =
        .error (.undefinedVariable t.str_val) := by
    intro ss t hty hnone
    have := hexpr [tKw "exit", tSep "(", t, tSep ")", tSep ";"] 2 ss t 0 rfl hty hnone
    have e1 : expect_str [tKw "exit", tSep "(", t, tSep ")", tSep ";"] (0 + 1) "("
        (.expected "(") = .ok () := rfl
    simp only [parse_exit_statement, List.getElem?_cons_zero, e1, this]
  have hstmt : ∀ (ss : ScopeStack) (t : Token), t.type = .IDENTIFIER →
      find_symbol_in_scope_stack ss t.str_val = none →
      parse_statement (g + 3) [tKw "exit", tSep "(", t, tSep ")", tSep ";"] 0 ss true =
        .error (.undefinedVariable t.str_val) := by
    intro ss t hty hnone
    rw [parse_statement]
    simp only [List.getElem?_cons_zero]
    have h1 : ¬ ((tKw "exit").type = TokenType.KEYWORD ∧ (tKw "exit").str_val = "int") := by
      decide
    rw [if_neg h1, if_pos (by decide)]
    exact hexit ss t hty hnone
  refine ⟨?_, rfl, ?_, ?_, ?_⟩
  · rw [← hy]; exact hexpr tokens i ss t minp ht hty hnone
  · rw [← hy]; exact hexit ss t hty hnone
  · rw [← hy]; exact hstmt ss t hty hnone
  · have := hstmt (push_scope create_scope_stack create_symbol_table) (tId y) rfl (by rfl)
    simp only [parse, parse_with_scopes, parse_loop]
    simp only [tId] at this
    simp [this, tId]

theorem C4_witness :
    parse_expression 2 [tId "y", tOp "+", tInt 1] 0 [[⟨"x", .VAR_INT, 4, 1, 1⟩]] 0 =
      .error (.undefinedVariable "y") ∧
    parse 4 [tKw "exit", tSep "(", tId "y", tSep ")", tSep ";"] =
      .error (.undefinedVariable "y") :=
  ⟨(C4_undeclared_identifier_is_fatal [[⟨"x", .VAR_INT, 4, 1, 1⟩]] "y" (by decide)
      [tId "y", tOp "+", tInt 1] 0 (tId "y") rfl rfl rfl 0 0).1,
   (C4_undeclared_identifier_is_fatal [[⟨"x", .VAR_INT, 4, 1, 1⟩]] "y" (by decide)
      [tId "y", tOp "+", tInt 1] 0 (tId "y") rfl rfl rfl 0 0).2.2.2.2⟩

/-! ## Assignments and blocks of assignments refine their reference semantics -/

theorem is_assignment_operator_ne_paren {s : String} (h : is_assignment_operator s = true) :
    get_precedence s < 0 := by
  simp only [is_assignment_operator, decide_eq_true_eq] at h
  rcases h with h | h | h | h | h | h | h | h <;> subst h <;> decide

theorem apply_assignment_simple (ss : ScopeStack) (j : Nat) (name : String) (n e : Node)
    (r ln cl : Int) :
    apply_assignment ss j name n (lit_node r ln cl) e =
      Except.map (fun s => (n, s)) (update_symbol_at ss j name r) := by
  simp only [apply_assignment, lit_node, Node.has_type, decide_True, if_true, Node.get_int]
  generalize update_symbol_at ss j name r = U
  cases U <;> rfl

theorem apply_assignment_compound_eq (ss : ScopeStack) (j : Nat) (name : String) (n : Node)
    (op : String) (l0 c0 : Int) (x : Node) (r ln cl : Int) :
    apply_assignment ss j name n
        (((createNode .NODE_BINARY_EXPR (some op) l0 c0).set_left x).set_right
          (lit_node r ln cl)) (lit_node r ln cl) =
      match compound_result (some op) (current_value_at ss j name) r with
      | .error e => .error e
      | .ok w =>
        Except.map
          (fun s => (n.set_right ((createNode .NODE_LITERAL_INT none l0 c0).set_int w), s))
          (update_symbol_at ss j name w) := by
  simp only [apply_assignment, createNode, Node.set_left, Node.set_right, Node.has_type,
    Node.get_str, rhs_value_of, lit_node, Node.get_int, Node.get_line, Node.get_col]
  simp only [reduceCtorEq, if_false, decide_False, decide_True, Bool.false_eq_true, if_true]
  generalize compound_result (some op) (current_value_at ss j name) r = C
  cases C with
  | error e => rfl
  | ok w =>
    simp only
    generalize update_symbol_at ss j name w = U
    cases U <;> rfl

theorem token_str_of_ne_int {t : Token} (h : t.type ≠ .INT) : t.str = .ok t.str_val := by
  simp [Token.str, h]

theorem expect_str_ok {tokens : List Token} {i : Nat} {t : Token} {s : String} {err : Err}
    (ht : tokens[i]? = some t) (hty : t.type ≠ .INT) (hs : t.str_val = s) :
    expect_str tokens i s err = .ok () := by
  simp [expect_str, ht, token_str_of_ne_int hty, hs]

/-- An assignment statement ends with the cursor behind its `;` and the
scope stack that the reference effect gives, or with the same fatal error. -/
theorem parse_assignment_statement_spells {a : Assign} {ta : List Token}
    (h : SpellsAssign a ta) (tokens : List Token) (i : Nat) (rest : List Token)
    (ss : ScopeStack) (active : Bool) (hd : tokens.drop i = ta ++ rest)
    (fuel : Nat) (hf : ta.length ≤ fuel) :
    state_of (parse_assignment_statement fuel tokens i ss active) =
      at_cursor (i + ta.length) (a.exec active ss) := by
  cases h with
  | mk id op semi rhs ts hid hop hasg hsp hok hsemi1 hsemi2 =>
    have hd0 : tokens.drop i = id :: (op :: (ts ++ (semi :: rest))) := by simpa using hd
    have hti := getElem?_of_drop_eq_cons hd0
    have hd1 := drop_succ_of_drop_eq_cons hd0
    have hto := getElem?_of_drop_eq_cons hd1
    have hd2 : tokens.drop (i + 2) = ts ++ (semi :: rest) := drop_succ_of_drop_eq_cons hd1
    have hd3 := drop_add_of_drop_eq_append hd2
    have hts := getElem?_of_drop_eq_cons hd3
    have hlen : (id :: op :: ts ++ [semi]).length = ts.length + 3 := by simp
    rw [hlen] at hf ⊢
    have hrest : ∀ t r, semi :: rest = t :: r → t.type = .OPERATOR →
        get_precedence t.str_val < 0 := by
      intro t r h hty; simp at h; rw [← h.1, hsemi1] at hty; cases hty
    unfold parse_assignment_statement
    simp only [hti, Assign.exec]
    have h1 : ¬ (id.type ≠ TokenType.IDENTIFIER) := by simp [hid]
    rw [if_neg h1]
    cases htt : find_target_table ss id.str_val with
    | none => rfl
    | some j =>
      simp only [hto]
      have h2 : ¬ (op.type ≠ TokenType.OPERATOR ∨ ¬ is_assignment_operator op.str_val = true) := by
        simp [hop, hasg]
      rw [if_neg h2]
      cases hev : rhs.eval ss with
      | error x =>
        obtain ⟨g, hg⟩ : ∃ g, fuel = g + 1 + ts.length := ⟨fuel - 1 - ts.length, by omega⟩
        have := parse_expression_error_of_spells hsp ss x hev hok tokens (i + 2)
          (semi :: rest) 0 hd2 (Expr.top_nonneg hok)
          (by intro t r h hty; exact le_trans (le_of_lt (hrest t r h hty)) (Expr.top_nonneg hok))
          g
        rw [← hg] at this
        rw [this]
        rfl
      | ok r =>
        obtain ⟨ln, cl, hpe⟩ := parse_expression_value hsp ss r hev hok tokens (i + 2)
          (semi :: rest) hd2 hrest fuel (by omega)
        rw [hpe]
        simp only
        rw [expect_str_ok hts (by rw [hsemi1]; decide) hsemi2]
        simp only
        have hcur : i + 2 + ts.length + 1 = i + (ts.length + 3) := by omega
        cases active with
        | false =>
          simp only [Bool.false_eq_true, if_false, state_of, at_cursor, Parsed.state, hcur]
        | true =>
          simp only [if_true]
          by_cases heq : op.str_val = "="
          · have hne : ¬ (op.str_val ≠ "=") := by simp [heq]
            simp only [if_neg hne]
            rw [apply_assignment_simple]
            simp only [assigned_value, heq, if_true]
            generalize update_symbol_at ss j id.str_val r = U
            cases U with
            | error e => rfl
            | ok s => simp [Except.map, state_of, at_cursor, Parsed.state, hcur]
          · have hne : op.str_val ≠ "=" := heq
            simp only [if_pos hne]
            rw [apply_assignment_compound_eq]
            simp only [assigned_value, if_neg heq]
            generalize compound_result (some (strip_assign op.str_val))
              (current_value_at ss j id.str_val) r = C
            cases C with
            | error e => rfl
            | ok w =>
              simp only
              generalize update_symbol_at ss j id.str_val w = U
              cases U with
              | error e => rfl
              | ok s => simp [Except.map, state_of, at_cursor, Parsed.state, hcur]

theorem find_target_table_push (ss : ScopeStack) (name : String) :
    find_target_table (ss ++ [[]]) name = find_target_table ss name := by
  induction ss with
  | nil => simp [find_target_table, find_symbol]
  | cons t rest ih =>
    show find_target_table (t :: (rest ++ [[]])) name = _
    simp only [find_target_table, ih]

theorem find_symbol_in_scope_stack_push (ss : ScopeStack) (name : String) :
    find_symbol_in_scope_stack (ss ++ [[]]) name = find_symbol_in_scope_stack ss name := by
  induction ss with
  | nil => simp [find_symbol_in_scope_stack, find_symbol]
  | cons t rest ih =>
    show find_symbol_in_scope_stack (t :: (rest ++ [[]])) name = _
    simp only [find_symbol_in_scope_stack, ih]

theorem Expr.eval_push (ss : ScopeStack) (e : Expr) : e.eval (ss ++ [[]]) = e.eval ss := by
  induction e with
  | lit v => rfl
  | var x => simp only [Expr.eval, find_symbol_in_scope_stack_push]
  | paren e ih => simpa [Expr.eval] using ih
  | bin op l r ihl ihr => simp only [Expr.eval, ihl, ihr]

theorem find_target_table_lt {ss : ScopeStack} {name : String} {j : Nat}
    (h : find_target_table ss name = some j) : j < ss.length := by
  induction ss generalizing j with
  | nil => simp [find_target_table] at h
  | cons t rest ih =>
    simp only [find_target_table] at h
    cases hr : find_target_table rest name with
    | some k =>
      rw [hr] at h
      simp only [Option.some.injEq] at h
      have := ih hr
      simp only [List.length_cons]; omega
    | none =>
      rw [hr] at h
      simp only at h
      split at h
      · simp only [Option.some.injEq] at h; simp only [List.length_cons]; omega
      · cases h

theorem update_symbol_at_push {ss : ScopeStack} {j : Nat} (hj : j < ss.length)
    (name : String) (v : Int) :
    update_symbol_at (ss ++ [[]]) j name v =
      Except.map (fun s => s ++ [[]]) (update_symbol_at ss j name v) := by
  simp only [update_symbol_at]
  rw [List.getElem?_append_left hj]
  cases hg : ss[j]? with
  | none => rfl
  | some table =>
    simp only
    cases update_symbol table name v with
    | error e => rfl
    | ok t' =>
      simp only [Except.map]
      rw [List.set_append_left _ _ hj]

theorem current_value_at_push {ss : ScopeStack} {j : Nat} (hj : j < ss.length)
    (name : String) : current_value_at (ss ++ [[]]) j name = current_value_at ss j name := by
  simp only [current_value_at]
  rw [List.getElem?_append_left hj]

theorem Assign.exec_push (active : Bool) (ss : ScopeStack) (a : Assign) :
    a.exec active (ss ++ [[]]) = Except.map (fun s => s ++ [[]]) (a.exec active ss) := by
  simp only [Assign.exec, find_target_table_push, Expr.eval_push]
  cases ht : find_target_table ss a.name with
  | none => rfl
  | some j =>
    simp only
    cases a.rhs.eval ss with
    | error x => rfl
    | ok r =>
      simp only
      cases active with
      | false => rfl
      | true =>
        simp only [if_true]
        rw [current_value_at_push (find_target_table_lt ht)]
        cases assigned_value a.op (current_value_at ss j a.name) r with
        | error x => rfl
        | ok v =>
          simp only
          rw [update_symbol_at_push (find_target_table_lt ht)]

theorem exec_assigns_push (active : Bool) (ss : ScopeStack) (body : List Assign) :
    exec_assigns active (ss ++ [[]]) body =
      Except.map (fun s => s ++ [[]]) (exec_assigns active ss body) := by
  induction body generalizing ss with
  | nil => rfl
  | cons a rest ih =>
    simp only [exec_assigns, Assign.exec_push]
    cases a.exec active ss with
    | error x => rfl
    | ok s1 => simp only [Except.map]; exact ih s1

theorem Assign.exec_inactive {ss s : ScopeStack} {a : Assign}
    (h : a.exec false ss = .ok s) : s = ss := by
  simp only [Assign.exec] at h
  split at h
  · cases h
  · split at h
    · cases h
    · simp only [Bool.false_eq_true, if_false, Except.ok.injEq] at h; exact h.symm

/-- A sequence of assignments parsed inactive leaves the scope stack as it was. -/
theorem exec_assigns_inactive {ss s : ScopeStack} {body : List Assign}
    (h : exec_assigns false ss body = .ok s) : s = ss := by
  induction body generalizing ss with
  | nil => simp only [exec_assigns, Except.ok.injEq] at h; exact h.symm
  | cons a rest ih =>
    simp only [exec_assigns] at h
    cases ha : a.exec false ss with
    | error x => rw [ha] at h; cases h
    | ok s1 =>
      rw [ha] at h
      have := Assign.exec_inactive ha
      subst this
      exact ih h

theorem parse_statement_assignment {f : Nat} {tokens : List Token} {i : Nat} {id op : Token}
    (ss : ScopeStack) (active : Bool)
    (hti : tokens[i]? = some id) (hid : id.type = .IDENTIFIER)
    (hto : tokens[i + 1]? = some op) (hop : op.type = .OPERATOR)
    (hasg : is_assignment_operator op.str_val = true) :
    parse_statement (f + 1) tokens i ss active =
      parse_assignment_statement f tokens i ss active := by
  rw [parse_statement]
  simp only [hti]
  have hk : ∀ s : String, ¬ (id.type = TokenType.KEYWORD ∧ id.str_val = s) := by
    intro s h; rw [hid] at h; cases h.1
  have hk2 : ¬ (id.type = TokenType.KEYWORD ∧ (id.str_val = "if" ∨ id.str_val = "else")) := by
    intro h; rw [hid] at h; cases h.1
  have hs : ¬ (id.type = TokenType.SEPARATOR ∧ id.str_val = "\x7b") := by
    intro h; rw [hid] at h; cases h.1
  have ha : id.type = TokenType.IDENTIFIER ∧ peek_assignment_operator tokens (i + 1) = true := by
    refine ⟨hid, ?_⟩
    simp [peek_assignment_operator, hto, hop, hasg]
  rw [if_neg (hk _), if_neg (hk _), if_neg hk2, if_neg (hk _), if_neg (hk _), if_neg hs, if_pos ha]

theorem pop_scope_push (s : ScopeStack) : pop_scope (s ++ [[]]) = .ok s := by
  simp [pop_scope, List.dropLast_concat]

/-- The statement loop of a block of assignments ends behind the closing
brace with the top table popped. -/
theorem parse_block_loop_spells {body : List Assign} {ts : List Token}
    (h : SpellsAssigns body ts) :
    ∀ (tokens : List Token) (i : Nat) (rb : Token) (rest : List Token) (ss : ScopeStack)
      (active : Bool) (bn : Node) (cs : Nat),
      tokens.drop i = ts ++ rb :: rest → rb.type = .SEPARATOR → rb.str_val = "\x7d" →
      ∀ fuel, ts.length + 2 ≤ fuel →
      state_of (parse_block_loop fuel tokens i ss active bn cs) =
        at_cursor (i + ts.length + 1)
          (match exec_assigns active ss body with
           | .error x => .error x
           | .ok s => pop_scope s) := by
  induction h with
  | nil =>
    intro tokens i rb rest ss active bn cs hd hrb1 hrb2 fuel hf
    obtain ⟨f, rfl⟩ : ∃ f, fuel = f + 1 := ⟨fuel - 1, by omega⟩
    have ht := getElem?_of_drop_eq_cons (by simpa using hd)
    rw [parse_block_loop]
    simp only [ht, hrb1, hrb2, and_self, if_true, exec_assigns, List.length_nil, Nat.add_zero]
    cases pop_scope ss with
    | error e => rfl
    | ok s => rfl
  | cons a ta rest' tr ha _ ih =>
    intro tokens i rb rest ss active bn cs hd hrb1 hrb2 fuel hf
    obtain ⟨f, rfl⟩ : ∃ f, fuel = f + 1 := ⟨fuel - 1, by omega⟩
    have hd0 : tokens.drop i = ta ++ (tr ++ rb :: rest) := by simpa using hd
    have hstate := parse_assignment_statement_spells ha tokens i (tr ++ rb :: rest) ss active hd0
    have hd1 := drop_add_of_drop_eq_append hd0
    have hlen : (ta ++ tr).length = ta.length + tr.length := by simp
    cases ha with
    | mk id op semi rhs ts hid hop hasg hsp hok hsemi1 hsemi2 =>
      have hd0' : tokens.drop i = id :: (op :: (ts ++ semi :: (tr ++ rb :: rest))) := by
        simpa using hd0
      have hti := getElem?_of_drop_eq_cons hd0'
      have hto := getElem?_of_drop_eq_cons (drop_succ_of_drop_eq_cons hd0')
      have hl2 : (id :: op :: ts ++ [semi]).length = ts.length + 3 := by simp
      rw [parse_block_loop]
      simp only [hti]
      have hnb : ¬ (id.type = TokenType.SEPARATOR ∧ id.str_val = "\x7d") := by
        intro h; rw [hid] at h; cases h.1
      rw [if_neg hnb]
      obtain ⟨f', rfl⟩ : ∃ f', f = f' + 1 := ⟨f - 1, by rw [hlen, hl2] at hf; omega⟩
      rw [parse_statement_assignment ss active hti hid hto hop hasg]
      have hst := hstate f' (by rw [hlen, hl2] at hf; rw [hl2]; omega)
      simp only [exec_assigns]
      cases hres : parse_assignment_statement f' tokens i ss active with
      | error e =>
        rw [hres] at hst
        simp only [state_of] at hst
        cases hex : Assign.exec active ss ⟨id.str_val, op.str_val, rhs⟩ with
        | error x =>
          rw [hex] at hst
          simp only [at_cursor, Except.error.injEq] at hst
          subst hst
          rfl
        | ok s => rw [hex] at hst; simp [at_cursor] at hst
      | ok stmt =>
        rw [hres] at hst
        simp only [state_of, Parsed.state] at hst
        cases hex : Assign.exec active ss ⟨id.str_val, op.str_val, rhs⟩ with
        | error x => rw [hex] at hst; simp [at_cursor] at hst
        | ok s =>
          rw [hex] at hst
          simp only [at_cursor, Except.ok.injEq, Prod.mk.injEq] at hst
          obtain ⟨hi, hs⟩ := hst
          simp only
          have key : ∀ bn' cs', state_of (parse_block_loop (f' + 1) tokens stmt.i
              stmt.scope_stack active bn' cs') =
              at_cursor (i + (id :: op :: ts ++ [semi] ++ tr).length + 1)
                (match exec_assigns active s rest' with
                 | .error x => .error x
                 | .ok s => pop_scope s) := by
            intro bn' cs'
            rw [hi, hs]
            have := ih tokens (i + (id :: op :: ts ++ [semi]).length) rb rest s active bn' cs'
              hd1 hrb1 hrb2 (f' + 1) (by rw [hlen, hl2] at hf; omega)
            rw [this]
            congr 1
            simp only [List.length_append]; omega
          split
          · exact key _ _
          · split
            · exact key _ _
            · exact key _ _

/-- A block of assignments ends behind its closing brace with the scope
stack that the reference effect gives, or with the same fatal error. -/
theorem parse_block_spells {body : List Assign} {tb : List Token} (h : SpellsBody body tb)
    (tokens : List Token) (i : Nat) (rest : List Token) (ss : ScopeStack) (active : Bool)
    (hd : tokens.drop i = tb ++ rest) (fuel : Nat) (hf : tb.length + 1 ≤ fuel) :
    state_of (parse_block fuel tokens i ss active) =
      at_cursor (i + tb.length) (exec_assigns active ss body) := by
  cases h with
  | mk lb rb body ts hlb1 hlb2 hrb1 hrb2 hsp =>
    have hlen : (lb :: ts ++ [rb]).length = ts.length + 2 := by simp
    rw [hlen] at hf ⊢
    obtain ⟨f, rfl⟩ : ∃ f, fuel = f + 1 := ⟨fuel - 1, by omega⟩
    have hd0 : tokens.drop i = lb :: (ts ++ rb :: rest) := by simpa using hd
    have ht := getElem?_of_drop_eq_cons hd0
    have hd1 := drop_succ_of_drop_eq_cons hd0
    rw [parse_block]
    simp only [ht]
    have h1 : ¬ (lb.type ≠ TokenType.SEPARATOR ∨ lb.str_val ≠ "\x7b") := by simp [hlb1, hlb2]
    rw [if_neg h1]
    have := parse_block_loop_spells hsp tokens (i + 1) rb rest (ss ++ [[]]) active
      (createNode .NODE_BLOCK (some "\x7b") lb.line lb.col) 0 hd1 hrb1 hrb2 f (by omega)
    show state_of (parse_block_loop f tokens (i + 1) (ss ++ [[]]) active _ 0) = _
    rw [this, exec_assigns_push]
    have e1 : i + 1 + ts.length + 1 = i + (ts.length + 2) := by omega
    rw [e1]
    cases exec_assigns active ss body with
    | error x => rfl
    | ok s => simp only [Except.map, pop_scope_push]

/-! ## `if` / `else if` / `else` chains -/

theorem eval_condition_lit (v ln cl : Int) (right : Node) (ss : ScopeStack) (o u : Bool) :
    eval_condition ((lit_node v ln cl).set_right right) ss o u = decide (v ≠ 0) := by
  simp [eval_condition, lit_node, Node.set_right, Node.has_type, Node.get_int]

theorem eval_condition_lit_node (v ln cl : Int) (ss : ScopeStack) (o u : Bool) :
    eval_condition (lit_node v ln cl) ss o u = decide (v ≠ 0) := by
  simp [eval_condition, lit_node, Node.has_type, Node.get_int]

/-- An `if` statement without continuation: the condition is evaluated
and the block is resolved, active when the condition is nonzero.  The node
returned is an `if` node without sibling whose first child is the literal of
the condition. -/
theorem parse_if_statement_spells {b : Branch} {tb : List Token} (h : SpellsIf b tb)
    (tokens : List Token) (i : Nat) (rest : List Token) (ss : ScopeStack)
    (hd : tokens.drop i = tb ++ rest) (fuel : Nat) (hf : tb.length + 1 ≤ fuel) :
    match b.cond.eval ss with
    | .error x => parse_if_statement fuel tokens i ss = .error x
    | .ok v =>
      match exec_assigns (decide (v ≠ 0)) ss b.body with
      | .error x => parse_if_statement fuel tokens i ss = .error x
      | .ok ss1 =>
        ∃ ty val ln cl l2 c2 blk,
          parse_if_statement fuel tokens i ss =
            .ok ⟨Node.mk ty val ln cl ((lit_node v l2 c2).set_right blk) .NULL, 0,
                 i + tb.length, ss1⟩ := by
  cases h with
  | mk kw lp rp c body cts bts hkw1 hkw2 hlp1 hlp2 hrp1 hrp2 hsp hok hbody =>
    have hlen : (kw :: lp :: cts ++ rp :: bts).length = cts.length + bts.length + 3 := by
      simp; omega
    rw [hlen] at hf ⊢
    obtain ⟨f, rfl⟩ : ∃ f, fuel = f + 1 := ⟨fuel - 1, by omega⟩
    have hd0 : tokens.drop i = kw :: (lp :: (cts ++ (rp :: (bts ++ rest)))) := by
      simpa using hd
    have htk := getElem?_of_drop_eq_cons hd0
    have hd1 := drop_succ_of_drop_eq_cons hd0
    have htl := getElem?_of_drop_eq_cons hd1
    have hd2 : tokens.drop (i + 2) = cts ++ (rp :: (bts ++ rest)) :=
      drop_succ_of_drop_eq_cons hd1
    have hd3 := drop_add_of_drop_eq_append hd2
    have htr := getElem?_of_drop_eq_cons hd3
    have hd4 := drop_succ_of_drop_eq_cons hd3
    have hrest : ∀ t r, rp :: (bts ++ rest) = t :: r → t.type = .OPERATOR →
        get_precedence t.str_val < 0 := by
      intro t r h hty; simp at h; rw [← h.1, hrp1] at hty; cases hty
    rw [parse_if_statement]
    simp only [htk, expect_str_ok htl (by rw [hlp1]; decide) hlp2]
    cases hev : c.eval ss with
    | error x =>
      simp only
      obtain ⟨g, hg⟩ : ∃ g, f = g + 1 + cts.length := ⟨f - 1 - cts.length, by omega⟩
      have := parse_expression_error_of_spells hsp ss x hev hok tokens (i + 2)
        (rp :: (bts ++ rest)) 0 hd2 (Expr.top_nonneg hok)
        (by intro t r h hty; exact le_trans (le_of_lt (hrest t r h hty)) (Expr.top_nonneg hok))
        g
      rw [← hg] at this
      rw [this]
    | ok v =>
      simp only
      obtain ⟨l2, c2, hpe⟩ := parse_expression_value hsp ss v hev hok tokens (i + 2)
        (rp :: (bts ++ rest)) hd2 hrest f (by omega)
      rw [hpe]
      simp only
      rw [expect_str_ok htr (by rw [hrp1]; decide) hrp2]
      simp only [eval_condition_lit_node]
      have hblk := parse_block_spells hbody tokens (i + 2 + cts.length + 1) rest ss
        (decide (v ≠ 0)) hd4 f (by omega)
      cases hex : exec_assigns (decide (v ≠ 0)) ss body with
      | error x =>
        rw [hex] at hblk
        simp only
        cases hpb : parse_block f tokens (i + 2 + cts.length + 1) ss (decide (v ≠ 0)) with
        | error e =>
          rw [hpb] at hblk
          simp only [state_of, at_cursor, Except.error.injEq] at hblk
          rw [hblk]
        | ok p => rw [hpb] at hblk; simp [state_of, at_cursor] at hblk
      | ok ss1 =>
        rw [hex] at hblk
        simp only
        cases hpb : parse_block f tokens (i + 2 + cts.length + 1) ss (decide (v ≠ 0)) with
        | error e => rw [hpb] at hblk; simp [state_of, at_cursor] at hblk
        | ok p =>
          rw [hpb] at hblk
          simp only [state_of, at_cursor, Parsed.state, Except.ok.injEq, Prod.mk.injEq] at hblk
          refine ⟨.NODE_IF_STATEMENT, .str_val (some "if"), kw.line, kw.col, l2, c2, p.node, ?_⟩
          simp only [createNode, Node.set_left, reduceCtorEq, if_false, Except.ok.injEq,
            Parsed.mk.injEq, true_and]
          refine ⟨?_, hblk.2⟩
          rw [hblk.1]; omega

theorem chain_any_active_set_right_at (R : Node) :
    ∀ (d : Nat) (e : Node) (s : ScopeStack) (b : Bool), R.is_null = false → R.chain_depth = d →
      chain_any_active (R.set_right_at d e) s b = chain_any_active e s (chain_any_active R s b) := by
  induction R with
  | NULL => intro d e s b h; simp [Node.is_null] at h
  | mk ty val ln cl left right _ ihr =>
    intro d e s b _ hd
    cases right with
    | NULL =>
      simp only [Node.chain_depth] at hd
      subst hd
      simp only [Node.set_right_at, chain_any_active]
    | mk ty2 val2 ln2 cl2 left2 right2 =>
      simp only [Node.chain_depth] at hd
      subst hd
      simp only [Node.set_right_at]
      rw [chain_any_active, chain_any_active]
      exact ihr _ e s _ rfl rfl

theorem set_right_at_is_null (R : Node) (d : Nat) (e : Node) (h : R.is_null = false) :
    (R.set_right_at d e).is_null = false := by
  cases R with
  | NULL => simp [Node.is_null] at h
  | mk ty val ln cl left right => cases d <;> rfl

theorem chain_depth_set_right_at (R : Node) :
    ∀ (d : Nat) (e : Node), R.is_null = false → R.chain_depth = d → e.is_null = false →
      e.chain_depth = 0 → (R.set_right_at d e).chain_depth = d + 1 := by
  induction R with
  | NULL => intro d e h; simp [Node.is_null] at h
  | mk ty val ln cl left right _ ihr =>
    intro d e _ hd he1 he2
    cases right with
    | NULL =>
      simp only [Node.chain_depth] at hd
      subst hd
      cases e with
      | NULL => simp [Node.is_null] at he1
      | mk a b c d' l r => simp only [Node.set_right_at, Node.chain_depth, he2]
    | mk ty2 val2 ln2 cl2 left2 right2 =>
      simp only [Node.chain_depth] at hd
      subst hd
      have := ihr _ e rfl rfl he1 he2
      have hnn := set_right_at_is_null (Node.mk ty2 val2 ln2 cl2 left2 right2)
        (Node.mk ty2 val2 ln2 cl2 left2 right2).chain_depth e rfl
      simp only [Node.set_right_at]
      cases hsr : (Node.mk ty2 val2 ln2 cl2 left2 right2).set_right_at
          (Node.mk ty2 val2 ln2 cl2 left2 right2).chain_depth e with
      | NULL => rw [hsr] at hnn; simp [Node.is_null] at hnn
      | mk a b c d' l r =>
        rw [hsr] at this
        simp only [Node.chain_depth, this]

theorem peek_typed_of_getElem {tokens : List Token} {i : Nat} {t : Token} {ty : TokenType}
    {s : String} (ht : tokens[i]? = some t) (hty : t.type = ty) (hs : t.str_val = s) :
    peek_typed tokens i ty s = true := by
  simp [peek_typed, ht, hty, hs]

/-- The loop over the `else if` clauses follows `else_ifs_run`, keeps the
chain and the pointer to its last node in agreement, and the fold of the
chain's conditions equals the flag "some condition was nonzero". -/
theorem parse_else_if_statements_spells {bs : List Branch} {tbs : List Token}
    (h : SpellsElseIfs bs tbs) :
    ∀ (tokens : List Token) (i : Nat) (rest : List Token) (ss : ScopeStack) (if_node : Node)
      (any : Bool) (last : Option Nat) (any0 : Bool),
      tokens.drop i = tbs ++ rest →
      (peek_typed tokens (i + tbs.length) .KEYWORD "else" &&
        peek_typed tokens (i + tbs.length + 1) .KEYWORD "if") = false →
      ChainInv if_node last →
      (∀ s, chain_any_active if_node.get_right s any0 = any) →
      ∀ fuel, tbs.length + 1 ≤ fuel →
      match else_ifs_run any ss bs with
      | .error x => parse_else_if_statements fuel tokens i ss if_node any last = .error x
      | .ok (any', ss') =>
        ∃ if_node' last',
          parse_else_if_statements fuel tokens i ss if_node any last =
            .ok (if_node', last', i + tbs.length, ss') ∧
          ChainInv if_node' last' ∧
          (∀ s, chain_any_active if_node'.get_right s any0 = any') := by
  induction h with
  | nil =>
    intro tokens i rest ss if_node any last any0 hd hstop hinv hany fuel hf
    obtain ⟨f, rfl⟩ : ∃ f, fuel = f + 1 := ⟨fuel - 1, by omega⟩
    simp only [List.length_nil, Nat.add_zero] at hstop
    simp only [else_ifs_run]
    refine ⟨if_node, last, ?_, hinv, hany⟩
    rw [parse_else_if_statements]
    simp [hstop]
  | cons b tb rest' tr hb _ ih =>
    intro tokens i rest ss if_node any last any0 hd hstop hinv hany fuel hf
    obtain ⟨f, rfl⟩ : ∃ f, fuel = f + 1 := ⟨fuel - 1, by omega⟩
    cases hb with
    | mk kwe kwi lp rp c body cts bts hkwe1 hkwe2 hkwi1 hkwi2 hlp1 hlp2 hrp1 hrp2 hsp hok hbody =>
      have hlen : (kwe :: kwi :: lp :: cts ++ rp :: bts).length = cts.length + bts.length + 4 := by
        simp; omega
      have hlen2 : (kwe :: kwi :: lp :: cts ++ rp :: bts ++ tr).length =
          cts.length + bts.length + 4 + tr.length := by
        rw [List.length_append, hlen]
      rw [hlen2] at hf hstop ⊢
      have hd0 : tokens.drop i =
          kwe :: (kwi :: (lp :: (cts ++ (rp :: (bts ++ (tr ++ rest)))))) := by
        simpa using hd
      have hte := getElem?_of_drop_eq_cons hd0
      have hd1 := drop_succ_of_drop_eq_cons hd0
      have hti := getElem?_of_drop_eq_cons hd1
      have hd2 : tokens.drop (i + 2) = lp :: (cts ++ (rp :: (bts ++ (tr ++ rest)))) :=
        drop_succ_of_drop_eq_cons hd1
      have htl := getElem?_of_drop_eq_cons hd2
      have hd3 : tokens.drop (i + 3) = cts ++ (rp :: (bts ++ (tr ++ rest))) :=
        drop_succ_of_drop_eq_cons hd2
      have hd4 := drop_add_of_drop_eq_append hd3
      have htr := getElem?_of_drop_eq_cons hd4
      have hd5 : tokens.drop (i + 3 + cts.length + 1) = bts ++ (tr ++ rest) :=
        drop_succ_of_drop_eq_cons hd4
      have hd6 := drop_add_of_drop_eq_append hd5
      have hrest : ∀ t r, rp :: (bts ++ (tr ++ rest)) = t :: r → t.type = .OPERATOR →
          get_precedence t.str_val < 0 := by
        intro t r h hty; simp at h; rw [← h.1, hrp1] at hty; cases hty
      rw [parse_else_if_statements]
      have hpk : (peek_typed tokens i .KEYWORD "else" &&
          peek_typed tokens (i + 1) .KEYWORD "if") = true := by
        rw [peek_typed_of_getElem hte hkwe1 hkwe2, peek_typed_of_getElem hti hkwi1 hkwi2]; rfl
      simp only [hpk, if_true, hte, expect_str_ok htl (by rw [hlp1]; decide) hlp2]
      simp only [else_ifs_run]
      cases hev : c.eval ss with
      | error x =>
        simp only
        obtain ⟨g, hg⟩ : ∃ g, f = g + 1 + cts.length := ⟨f - 1 - cts.length, by omega⟩
        have := parse_expression_error_of_spells hsp ss x hev hok tokens (i + 3)
          (rp :: (bts ++ (tr ++ rest))) 0 hd3 (Expr.top_nonneg hok)
          (by intro t r h hty; exact le_trans (le_of_lt (hrest t r h hty)) (Expr.top_nonneg hok))
          g
        rw [← hg] at this
        rw [this]
      | ok v =>
        simp only
        obtain ⟨l2, c2, hpe⟩ := parse_expression_value hsp ss v hev hok tokens (i + 3)
          (rp :: (bts ++ (tr ++ rest))) hd3 hrest f (by omega)
        rw [hpe]
        simp only
        rw [expect_str_ok htr (by rw [hrp1]; decide) hrp2]
        simp only [eval_condition_lit_node]
        have hblk := parse_block_spells hbody tokens (i + 3 + cts.length + 1) (tr ++ rest) ss
          (!any && decide (v ≠ 0)) hd5 f (by omega)
        cases hex : exec_assigns (!any && decide (v ≠ 0)) ss body with
        | error x =>
          rw [hex] at hblk
          simp only
          cases hpb : parse_block f tokens (i + 3 + cts.length + 1) ss
              (!any && decide (v ≠ 0)) with
          | error e =>
            rw [hpb] at hblk
            simp only [state_of, at_cursor, Except.error.injEq] at hblk
            rw [hblk]
          | ok p => rw [hpb] at hblk; simp [state_of, at_cursor] at hblk
        | ok ss1 =>
          rw [hex] at hblk
          simp only
          cases hpb : parse_block f tokens (i + 3 + cts.length + 1) ss
              (!any && decide (v ≠ 0)) with
          | error e => rw [hpb] at hblk; simp [state_of, at_cursor] at hblk
          | ok p =>
            rw [hpb] at hblk
            simp only [state_of, at_cursor, Parsed.state, Except.ok.injEq, Prod.mk.injEq] at hblk
            obtain ⟨hpi, hps⟩ := hblk
            simp only [hpi, hps]
            have hstop' : (peek_typed tokens (i + 3 + cts.length + 1 + bts.length + tr.length)
                .KEYWORD "else" &&
                peek_typed tokens (i + 3 + cts.length + 1 + bts.length + tr.length + 1)
                  .KEYWORD "if") = false := by
              have e1 : i + 3 + cts.length + 1 + bts.length + tr.length =
                  i + (cts.length + bts.length + 4 + tr.length) := by omega
              rw [e1]; exact hstop
            -- the new `else if` node
            generalize hE : (createNode .NODE_ELSE_IF_STATEMENT (some "else if") kwe.line
              kwe.col).set_left ((lit_node v l2 c2).set_right p.node) = E
            have hE1 : E.is_null = false := by rw [← hE]; rfl
            have hE2 : E.chain_depth = 0 := by rw [← hE]; rfl
            have hEw : ∀ s bb, chain_any_active E s bb = (bb || decide (v ≠ 0)) := by
              intro s bb
              rw [← hE]
              simp only [createNode, reduceCtorEq, if_false, Node.set_left, chain_any_active,
                lit_node, Node.set_right, Node.is_null, eval_condition, Node.has_type,
                decide_True, Node.get_int]
              simp
            have hbool : (any || (!any && decide (v ≠ 0))) = (any || decide (v ≠ 0)) := by
              cases any <;> simp
            obtain ⟨hnn, hcase⟩ := hinv
            rcases hcase with ⟨hl, hr⟩ | ⟨d, hl, hr1, hr2⟩
            · have hrn : if_node.get_right.is_null = true := by rw [hr]; rfl
              simp only [hrn, if_true]
              have hinv' : ChainInv (if_node.set_right E) (some 1) := by
                cases if_node with
                | NULL => simp [Node.is_null] at hnn
                | mk a b c d l r =>
                  refine ⟨rfl, Or.inr ⟨0, rfl, ?_, ?_⟩⟩
                  · simpa [Node.set_right, Node.get_right] using hE1
                  · simpa [Node.set_right, Node.get_right] using hE2
              have hany' : ∀ s, chain_any_active (if_node.set_right E).get_right s any0 =
                  (any || (!any && decide (v ≠ 0))) := by
                intro s
                cases if_node with
                | NULL => simp [Node.is_null] at hnn
                | mk a b c d l r =>
                  simp only [Node.set_right, Node.get_right, hEw, hbool]
                  have := hany s
                  simp only [Node.get_right] at this hr
                  rw [hr] at this
                  simp only [chain_any_active] at this
                  rw [this]
              have := ih tokens (i + 3 + cts.length + 1 + bts.length) rest ss1
                (if_node.set_right E) (any || (!any && decide (v ≠ 0))) (some 1) any0
                hd6 hstop' hinv' hany' f (by omega)
              have e2 : i + 3 + cts.length + 1 + bts.length + tr.length =
                  i + (cts.length + bts.length + 4 + tr.length) := by omega
              rw [e2] at this
              exact this
            · have hrn : ¬ (if_node.get_right.is_null = true) := by rw [hr1]; simp
              simp only [hrn, if_false, hl]
              have hinv' : ChainInv (if_node.set_right_at (d + 1) E) (some (d + 1 + 1)) := by
                cases if_node with
                | NULL => simp [Node.is_null] at hnn
                | mk a b c d' l r =>
                  simp only [Node.get_right] at hr1 hr2
                  refine ⟨rfl, Or.inr ⟨d + 1, rfl, ?_, ?_⟩⟩
                  · simp only [Node.set_right_at, Node.get_right]
                    exact set_right_at_is_null r d E hr1
                  · simp only [Node.set_right_at, Node.get_right]
                    exact chain_depth_set_right_at r d E hr1 hr2 hE1 hE2
              have hany' : ∀ s, chain_any_active (if_node.set_right_at (d + 1) E).get_right s
                  any0 = (any || (!any && decide (v ≠ 0))) := by
                intro s
                cases if_node with
                | NULL => simp [Node.is_null] at hnn
                | mk a b c d' l r =>
                  simp only [Node.get_right] at hr1 hr2
                  simp only [Node.set_right_at, Node.get_right]
                  rw [chain_any_active_set_right_at r d E s any0 hr1 hr2, hEw, hbool]
                  have := hany s
                  simp only [Node.get_right] at this
                  rw [this]
              have := ih tokens (i + 3 + cts.length + 1 + bts.length) rest ss1
                (if_node.set_right_at (d + 1) E) (any || (!any && decide (v ≠ 0)))
                (some (d + 1 + 1)) any0 hd6 hstop' hinv' hany' f (by omega)
              have e2 : i + 3 + cts.length + 1 + bts.length + tr.length =
                  i + (cts.length + bts.length + 4 + tr.length) := by omega
              rw [e2] at this
              exact this

theorem peek_typed_false_of_type {tokens : List Token} {i : Nat} {t : Token} {ty : TokenType}
    {s : String} (ht : tokens[i]? = some t) (hty : t.type ≠ ty) :
    peek_typed tokens i ty s = false := by
  simp [peek_typed, ht, hty]

theorem peek_typed_false_of_str {tokens : List Token} {i : Nat} {t : Token} {ty : TokenType}
    {s : String} (ht : tokens[i]? = some t) (hs : t.str_val ≠ s) :
    peek_typed tokens i ty s = false := by
  simp [peek_typed, ht, hs]

/-- A chain is resolved as `chain_run` describes, with the cursor behind it. -/
theorem parse_else_statement_spells {first : Branch} {elifs : List Branch}
    {els : Option (List Assign)} {tc : List Token} (h : SpellsChain first elifs els tc)
    (tokens : List Token) (i : Nat) (rest : List Token) (ss : ScopeStack)
    (hd : tokens.drop i = tc ++ rest)
    (hstop : els = none → peek_typed tokens (i + tc.length) .KEYWORD "else" = false)
    (fuel : Nat) (hf : tc.length + 2 ≤ fuel) :
    state_of (parse_else_statement fuel tokens i ss) =
      at_cursor (i + tc.length) (chain_run ss first elifs els) := by
  obtain ⟨f, rfl⟩ : ∃ f, fuel = f + 1 := ⟨fuel - 1, by omega⟩
  -- the common part: the `if` and the `else if` clauses
  have common : ∀ (tif tes trest : List Token), SpellsIf first tif → SpellsElseIfs elifs tes →
      tokens.drop i = tif ++ (tes ++ trest) → tif.length + tes.length + 1 ≤ f →
      (peek_typed tokens (i + tif.length + tes.length) .KEYWORD "else" &&
        peek_typed tokens (i + tif.length + tes.length + 1) .KEYWORD "if") = false →
      peek_typed tokens i .KEYWORD "else" = false ∧
      match first.cond.eval ss with
      | .error x => parse_if_statement f tokens i ss = .error x
      | .ok v =>
        match exec_assigns (decide (v ≠ 0)) ss first.body with
        | .error x => parse_if_statement f tokens i ss = .error x
        | .ok ss1 =>
          ∃ if_stmt, parse_if_statement f tokens i ss = .ok if_stmt ∧
            eval_condition if_stmt.node.get_left if_stmt.scope_stack false false =
              decide (v ≠ 0) ∧
            match else_ifs_run (decide (v ≠ 0)) ss1 elifs with
            | .error x =>
              parse_else_if_statements f tokens if_stmt.i if_stmt.scope_stack if_stmt.node
                (decide (v ≠ 0)) none = .error x
            | .ok (any', ss2) =>
              ∃ if_node' last',
                parse_else_if_statements f tokens if_stmt.i if_stmt.scope_stack if_stmt.node
                  (decide (v ≠ 0)) none =
                  .ok (if_node', last', i + tif.length + tes.length, ss2) ∧
                (last' = none → decide (v ≠ 0) = any') ∧
                (∀ d, last' = some d →
                  chain_any_active if_node'.get_right ss2 (decide (v ≠ 0)) = any') := by
    intro tif tes trest hif hes hd' hf' hstop'
    have hpif := parse_if_statement_spells hif tokens i (tes ++ trest) ss hd' f (by omega)
    constructor
    · cases hif with
      | mk kw lp rp c body cts bts hkw1 hkw2 _ _ _ _ _ _ _ =>
        have hd0 : tokens.drop i = kw :: (lp :: (cts ++ (rp :: (bts ++ (tes ++ trest))))) := by
          simpa using hd'
        exact peek_typed_false_of_str (getElem?_of_drop_eq_cons hd0)
          (by rw [hkw2]; decide)
    · cases hev : first.cond.eval ss with
      | error x => rw [hev] at hpif; exact hpif
      | ok v =>
        rw [hev] at hpif
        simp only at hpif ⊢
        cases hex : exec_assigns (decide (v ≠ 0)) ss first.body with
        | error x => rw [hex] at hpif; exact hpif
        | ok ss1 =>
          rw [hex] at hpif
          simp only at hpif ⊢
          obtain ⟨ty, val, ln, cl, l2, c2, blk, hp⟩ := hpif
          refine ⟨_, hp, ?_, ?_⟩
          · simp only [Node.get_left]
            exact eval_condition_lit v l2 c2 blk ss1 false false
          · have hd1 := drop_add_of_drop_eq_append hd'
            have := parse_else_if_statements_spells hes tokens (i + tif.length) trest ss1
              (Node.mk ty val ln cl ((lit_node v l2 c2).set_right blk) .NULL)
              (decide (v ≠ 0)) none (decide (v ≠ 0)) hd1 hstop'
              ⟨rfl, Or.inl ⟨rfl, rfl⟩⟩ (by intro s; rfl) f (by omega)
            cases hrun : else_ifs_run (decide (v ≠ 0)) ss1 elifs with
            | error x => rw [hrun] at this; exact this
            | ok res =>
              obtain ⟨any', ss2⟩ := res
              rw [hrun] at this
              simp only at this ⊢
              obtain ⟨if_node', last', hp', hinv, hany⟩ := this
              refine ⟨if_node', last', hp', ?_, fun d _ => hany ss2⟩
              intro hnone
              obtain ⟨_, hc⟩ := hinv
              rcases hc with ⟨_, hr⟩ | ⟨d, hl, _⟩
              · have := hany ss2
                rw [hr] at this
                simpa [chain_any_active] using this
              · rw [hnone] at hl; cases hl
  cases h with
  | without_else tif tes hif hes =>
    have hd' : tokens.drop i = tif ++ (tes ++ rest) := by simpa using hd
    have hlen : (tif ++ tes).length = tif.length + tes.length := by simp
    rw [hlen] at hf hstop ⊢
    have hst := hstop rfl
    rw [← Nat.add_assoc] at hst
    obtain ⟨hne, hc⟩ := common tif tes rest hif hes hd' (by omega) (by rw [hst]; rfl)
    rw [parse_else_statement]
    simp only [hne, Bool.false_eq_true, if_false, chain_run]
    cases hev : first.cond.eval ss with
    | error x => rw [hev] at hc; simp only at hc ⊢; rw [hc]; rfl
    | ok v =>
      rw [hev] at hc
      simp only at hc ⊢
      cases hex : exec_assigns (decide (v ≠ 0)) ss first.body with
      | error x => rw [hex] at hc; simp only at hc ⊢; rw [hc]; rfl
      | ok ss1 =>
        rw [hex] at hc
        simp only at hc ⊢
        obtain ⟨if_stmt, hp, hcond, hc2⟩ := hc
        rw [hp]
        simp only [hcond]
        cases hrun : else_ifs_run (decide (v ≠ 0)) ss1 elifs with
        | error x => rw [hrun] at hc2; simp only at hc2 ⊢; rw [hc2]; rfl
        | ok res =>
          obtain ⟨any', ss2⟩ := res
          rw [hrun] at hc2
          simp only at hc2 ⊢
          obtain ⟨if_node', last', hp', _⟩ := hc2
          rw [hp']
          simp only [hst, Bool.false_eq_true, if_false, state_of, Parsed.state, at_cursor]
          rw [Nat.add_assoc]
  | with_else body tif tes tel hif hes hel =>
    cases hel with
    | mk kwe body bts hkwe1 hkwe2 hbody =>
      have hd' : tokens.drop i = tif ++ (tes ++ (kwe :: (bts ++ rest))) := by simpa using hd
      have hlen : (tif ++ tes ++ kwe :: bts).length = tif.length + tes.length + bts.length + 1 := by
        simp; omega
      rw [hlen] at hf ⊢
      have hd1 := drop_add_of_drop_eq_append hd'
      have hd2 := drop_add_of_drop_eq_append hd1
      have hte := getElem?_of_drop_eq_cons hd2
      have hd3 := drop_succ_of_drop_eq_cons hd2
      have hnotif : peek_typed tokens (i + tif.length + tes.length + 1) .KEYWORD "if" = false := by
        cases hbody with
        | mk lb rb body ts hlb1 _ _ _ _ =>
          have hd3' : tokens.drop (i + tif.length + tes.length + 1) =
              lb :: (ts ++ rb :: rest) := by simpa using hd3
          exact peek_typed_false_of_type (getElem?_of_drop_eq_cons hd3')
            (by rw [hlb1]; decide)
      obtain ⟨hne, hc⟩ := common tif tes (kwe :: (bts ++ rest)) hif hes hd' (by omega)
        (by rw [hnotif]; simp)
      rw [parse_else_statement]
      simp only [hne, Bool.false_eq_true, if_false, chain_run]
      cases hev : first.cond.eval ss with
      | error x => rw [hev] at hc; simp only at hc ⊢; rw [hc]; rfl
      | ok v =>
        rw [hev] at hc
        simp only at hc ⊢
        cases hex : exec_assigns (decide (v ≠ 0)) ss first.body with
        | error x => rw [hex] at hc; simp only at hc ⊢; rw [hc]; rfl
        | ok ss1 =>
          rw [hex] at hc
          simp only at hc ⊢
          obtain ⟨if_stmt, hp, hcond, hc2⟩ := hc
          rw [hp]
          simp only [hcond]
          cases hrun : else_ifs_run (decide (v ≠ 0)) ss1 elifs with
          | error x => rw [hrun] at hc2; simp only at hc2 ⊢; rw [hc2]; rfl
          | ok res =>
            obtain ⟨any', ss2⟩ := res
            rw [hrun] at hc2
            simp only at hc2 ⊢
            obtain ⟨if_node', last', hp', hany1, hany2⟩ := hc2
            rw [hp']
            simp only [peek_typed_of_getElem hte hkwe1 hkwe2, if_true, hte]
            have hact : ∀ (a b : Bool), (last' = none → a = any') →
                (∀ d, last' = some d → b = any') →
                (match last' with
                 | none => a
                 | some _ => b) = any' := by
              intro a b h1 h2
              cases last' with
              | none => exact h1 rfl
              | some d => exact h2 d rfl
            have hact' := hact _ _ hany1 hany2
            have hblk := parse_block_spells hbody tokens (i + tif.length + tes.length + 1) rest
              ss2 (!any') hd3 f (by omega)
            have e1 : i + tif.length + tes.length + 1 + bts.length =
                i + (tif.length + tes.length + bts.length + 1) := by omega
            rw [e1] at hblk
            cases last' with
            | none =>
              simp only at hact' ⊢
              rw [hact']
              cases hpb : parse_block f tokens (i + tif.length + tes.length + 1) ss2 (!any') with
              | error e =>
                rw [hpb] at hblk
                simp only [state_of] at hblk ⊢
                exact hblk
              | ok p =>
                rw [hpb] at hblk
                simp only [state_of, Parsed.state] at hblk ⊢
                exact hblk
            | some d =>
              simp only at hact' ⊢
              rw [hact']
              cases hpb : parse_block f tokens (i + tif.length + tes.length + 1) ss2 (!any') with
              | error e =>
                rw [hpb] at hblk
                simp only [state_of] at hblk ⊢
                exact hblk
              | ok p =>
                rw [hpb] at hblk
                simp only [state_of, Parsed.state] at hblk ⊢
                exact hblk

theorem update_symbol_ne_outOfFuel (t : SymbolTable) (name : String) (v : Int) :
    update_symbol t name v ≠ .error .outOfFuel := by
  induction t with
  | nil => simp [update_symbol]
  | cons s rest ih =>
    simp only [update_symbol]
    split
    · simp
    · split
      · simp
      · rename_i e he; intro h; injection h with h; subst h; exact ih he

theorem update_symbol_at_ne_outOfFuel (ss : ScopeStack) (j : Nat) (name : String) (v : Int) :
    update_symbol_at ss j name v ≠ .error .outOfFuel := by
  simp only [update_symbol_at]
  split
  · simp
  · split
    · simp
    · rename_i e he; intro h; injection h with h; subst h; exact update_symbol_ne_outOfFuel _ _ _ he

theorem Assign.exec_ne_outOfFuel (active : Bool) (ss : ScopeStack) (a : Assign) :
    a.exec active ss ≠ .error .outOfFuel := by
  simp only [Assign.exec]
  split
  · simp
  · split
    · rename_i x hx; intro h; injection h with h; subst h; exact Expr.eval_ne_outOfFuel _ _ hx
    · split
      · rcases assigned_value_cases a.op (current_value_at ss ‹Nat› a.name) ‹Int› with
          ⟨w, hw⟩ | hw
        · rw [hw]; exact update_symbol_at_ne_outOfFuel _ _ _ _
        · rw [hw]; simp
      · simp

theorem exec_assigns_ne_outOfFuel (active : Bool) (ss : ScopeStack) (body : List Assign) :
    exec_assigns active ss body ≠ .error .outOfFuel := by
  induction body generalizing ss with
  | nil => simp [exec_assigns]
  | cons a rest ih =>
    simp only [exec_assigns]
    split
    · rename_i x hx; intro h; injection h with h; subst h; exact Assign.exec_ne_outOfFuel _ _ _ hx
    · exact ih _

theorem else_ifs_run_ne_outOfFuel (any : Bool) (ss : ScopeStack) (bs : List Branch) :
    else_ifs_run any ss bs ≠ .error .outOfFuel := by
  induction bs generalizing any ss with
  | nil => simp [else_ifs_run]
  | cons b rest ih =>
    simp only [else_ifs_run]
    split
    · rename_i x hx; intro h; injection h with h; subst h; exact Expr.eval_ne_outOfFuel _ _ hx
    · split
      · rename_i x hx; intro h; injection h with h; subst h; exact exec_assigns_ne_outOfFuel _ _ _ hx
      · exact ih _ _

theorem chain_run_ne_outOfFuel (ss : ScopeStack) (first : Branch) (elifs : List Branch)
    (els : Option (List Assign)) : chain_run ss first elifs els ≠ .error .outOfFuel := by
  simp only [chain_run]
  split
  · rename_i x hx; intro h; injection h with h; subst h; exact Expr.eval_ne_outOfFuel _ _ hx
  · split
    · rename_i x hx; intro h; injection h with h; subst h; exact exec_assigns_ne_outOfFuel _ _ _ hx
    · split
      · rename_i x hx; intro h; injection h with h; subst h; exact else_ifs_run_ne_outOfFuel _ _ _ hx
      · split
        · simp
        · exact exec_assigns_ne_outOfFuel _ _ _

theorem state_of_ne_outOfFuel {r : Except Err Parsed} {k : Nat} {u : Except Err ScopeStack}
    (h : state_of r = at_cursor k u) (hu : u ≠ .error .outOfFuel) : r ≠ .error .outOfFuel := by
  intro hr
  rw [hr] at h
  cases u with
  | error e => simp only [state_of, at_cursor, Except.error.injEq] at h; exact hu (by rw [h])
  | ok s => simp [state_of, at_cursor] at h

theorem state_of_ok {r : Except Err Parsed} {k : Nat} {u : Except Err ScopeStack} {p : Parsed}
    (h : state_of r = at_cursor k u) (hr : r = .ok p) : p.i = k ∧ u = .ok p.scope_stack := by
  rw [hr] at h
  cases u with
  | error e => simp [state_of, at_cursor] at h
  | ok s =>
    simp only [state_of, at_cursor, Parsed.state, Except.ok.injEq, Prod.mk.injEq] at h
    exact ⟨h.1, by rw [h.2]⟩

/-- After the `else if` clauses: when a condition was already nonzero no
clause is applied; otherwise exactly the first clause whose condition is
nonzero is applied. -/
theorem else_ifs_run_spec (bs : List Branch) :
    ∀ (any : Bool) (ss : ScopeStack) (any' : Bool) (ss' : ScopeStack),
      else_ifs_run any ss bs = .ok (any', ss') →
      (any = true → ss' = ss ∧ any' = true) ∧
      (any = false →
        (∀ b, first_true ss bs = some b → exec_assigns true ss b.body = .ok ss' ∧ any' = true) ∧
        (first_true ss bs = none → ss' = ss ∧ any' = false)) := by
  induction bs with
  | nil =>
    intro any ss any' ss' h
    simp only [else_ifs_run, Except.ok.injEq, Prod.mk.injEq] at h
    obtain ⟨h1, h2⟩ := h
    subst h1 h2
    refine ⟨fun h => ⟨rfl, h⟩, fun h => ⟨?_, fun _ => ⟨rfl, h⟩⟩⟩
    intro b hb; simp [first_true] at hb
  | cons b rest ih =>
    intro any ss any' ss' h
    simp only [else_ifs_run] at h
    cases hev : b.cond.eval ss with
    | error x => rw [hev] at h; cases h
    | ok v =>
      rw [hev] at h
      simp only at h
      cases hex : exec_assigns (!any && decide (v ≠ 0)) ss b.body with
      | error x => rw [hex] at h; cases h
      | ok ss1 =>
        rw [hex] at h
        simp only at h
        constructor
        · intro hany
          subst hany
          have hex' : exec_assigns false ss b.body = .ok ss1 := hex
          have := exec_assigns_inactive hex'
          subst this
          have h' : else_ifs_run true ss1 rest = .ok (any', ss') := h
          exact (ih _ _ _ _ h').1 rfl
        · intro hany
          subst hany
          by_cases hv : v = 0
          · have hdz : decide (v ≠ 0) = false := by simp [hv]
            have hex' : exec_assigns false ss b.body = .ok ss1 := by
              rw [← hex, hdz]; rfl
            have := exec_assigns_inactive hex'
            subst this
            have h' : else_ifs_run false ss1 rest = .ok (any', ss') := by
              rw [← h, hdz]; rfl
            have hft : first_true ss1 (b :: rest) = first_true ss1 rest := by
              simp [first_true, hev, hv]
            rw [hft]
            exact (ih _ _ _ _ h').2 rfl
          · have hdz : decide (v ≠ 0) = true := by simp [hv]
            have hex' : exec_assigns true ss b.body = .ok ss1 := by
              rw [← hex, hdz]; rfl
            have h' : else_ifs_run true ss1 rest = .ok (any', ss') := by
              rw [← h, hdz]; rfl
            have hft : first_true ss (b :: rest) = some b := by
              simp [first_true, hev, hv]
            rw [hft]
            obtain ⟨h1, h2⟩ := (ih _ _ _ _ h').1 rfl
            subst h1
            refine ⟨?_, fun hc => by cases hc⟩
            intro b' hb'
            simp only [Option.some.injEq] at hb'
            subst hb'
            exact ⟨hex', h2⟩

/-- The result of a chain in the specification's reading: the block of the
first branch whose condition is nonzero is applied alone; without such a
branch the `else` block is applied, or nothing when there is none. -/
theorem chain_run_spec {ss ss' : ScopeStack} {first : Branch} {elifs : List Branch}
    {els : Option (List Assign)} (h : chain_run ss first elifs els = .ok ss') :
    (∀ b, first_true ss (first :: elifs) = some b → exec_assigns true ss b.body = .ok ss') ∧
    (first_true ss (first :: elifs) = none →
      (els = none → ss' = ss) ∧
      (∀ body, els = some body → exec_assigns true ss body = .ok ss')) := by
  simp only [chain_run] at h
  cases hev : first.cond.eval ss with
  | error x => rw [hev] at h; cases h
  | ok v =>
    rw [hev] at h
    simp only at h
    cases hex : exec_assigns (decide (v ≠ 0)) ss first.body with
    | error x => rw [hex] at h; cases h
    | ok ss1 =>
      rw [hex] at h
      simp only at h
      cases hrun : else_ifs_run (decide (v ≠ 0)) ss1 elifs with
      | error x => rw [hrun] at h; cases h
      | ok res =>
        obtain ⟨any, ss2⟩ := res
        rw [hrun] at h
        simp only at h
        have hspec := else_ifs_run_spec elifs _ _ _ _ hrun
        by_cases hv : v = 0
        · have hdz : decide (v ≠ 0) = false := by simp [hv]
          rw [hdz] at hex hspec
          have := exec_assigns_inactive hex
          subst this
          have hft : first_true ss1 (first :: elifs) = first_true ss1 elifs := by
            simp [first_true, hev, hv]
          rw [hft]
          obtain ⟨hsome, hnone⟩ := hspec.2 rfl
          constructor
          · intro b hb
            obtain ⟨h1, h2⟩ := hsome b hb
            subst h2
            cases els with
            | none => simp only [Except.ok.injEq] at h; subst h; exact h1
            | some body =>
              simp only at h
              have h' : exec_assigns false ss2 body = .ok ss' := h
              have := exec_assigns_inactive h'
              subst this; exact h1
          · intro hn
            obtain ⟨h1, h2⟩ := hnone hn
            subst h1 h2
            constructor
            · intro he; subst he; simp only [Except.ok.injEq] at h; exact h.symm
            · intro body he; subst he; exact h
        · have hdz : decide (v ≠ 0) = true := by simp [hv]
          rw [hdz] at hex hspec
          have hft : first_true ss (first :: elifs) = some first := by
            simp [first_true, hev, hv]
          rw [hft]
          obtain ⟨h1, h2⟩ := hspec.1 rfl
          subst h1 h2
          refine ⟨?_, fun hc => by cases hc⟩
          intro b hb
          simp only [Option.some.injEq] at hb
          subst hb
          cases els with
          | none => simp only [Except.ok.injEq] at h; subst h; exact hex
          | some body =>
            simp only at h
            have h' : exec_assigns false ss2 body = .ok ss' := h
            have := exec_assigns_inactive h'
            subst this; exact hex

theorem else_ifs_run_conditions_zero (bs : List Branch) :
    ∀ (ss : ScopeStack) (res : Bool × ScopeStack), else_ifs_run false ss bs = .ok res →
      first_true ss bs = none → ∀ b ∈ bs, b.cond.eval ss = .ok 0 := by
  induction bs with
  | nil => intro ss res _ _ b hb; cases hb
  | cons b rest ih =>
    intro ss res h hft b' hb'
    simp only [else_ifs_run] at h
    cases hev : b.cond.eval ss with
    | error x => rw [hev] at h; cases h
    | ok v =>
      rw [hev] at h
      simp only at h
      by_cases hv : v = 0
      · subst hv
        cases hex : exec_assigns (!false && decide ((0 : Int) ≠ 0)) ss b.body with
        | error x => rw [hex] at h; cases h
        | ok ss1 =>
          rw [hex] at h
          have hex' : exec_assigns false ss b.body = .ok ss1 := hex
          have := exec_assigns_inactive hex'
          subst this
          have h' : else_ifs_run false ss1 rest = .ok res := h
          have hft' : first_true ss1 rest = none := by
            simpa [first_true, hev] using hft
          rcases List.mem_cons.mp hb' with rfl | hmem
          · exact hev
          · exact ih ss1 res h' hft' b' hmem
      · simp [first_true, hev, hv] at hft

theorem chain_run_conditions_zero {ss ss' : ScopeStack} {first : Branch} {elifs : List Branch}
    {els : Option (List Assign)} (h : chain_run ss first elifs els = .ok ss')
    (hft : first_true ss (first :: elifs) = none) :
    ∀ b ∈ first :: elifs, b.cond.eval ss = .ok 0 := by
  simp only [chain_run] at h
  cases hev : first.cond.eval ss with
  | error x => rw [hev] at h; cases h
  | ok v =>
    rw [hev] at h
    simp only at h
    by_cases hv : v = 0
    · subst hv
      cases hex : exec_assigns (decide ((0 : Int) ≠ 0)) ss first.body with
      | error x => rw [hex] at h; cases h
      | ok ss1 =>
        rw [hex] at h
        have hex' : exec_assigns false ss first.body = .ok ss1 := hex
        have := exec_assigns_inactive hex'
        subst this
        simp only at h
        cases hrun : else_ifs_run (decide ((0 : Int) ≠ 0)) ss1 elifs with
        | error x => rw [hrun] at h; cases h
        | ok res =>
          have hrun' : else_ifs_run false ss1 elifs = .ok res := hrun
          have hft' : first_true ss1 elifs = none := by
            simpa [first_true, hev] using hft
          intro b hb
          rcases List.mem_cons.mp hb with rfl | hmem
          · exact hev
          · exact else_ifs_run_conditions_zero elifs ss1 res hrun' hft' b hmem
    · simp [first_true, hev, hv] at hft

/-- C6: for a chain `if (c0) {B0} else if (c1) {B1} ... else if (ck) {Bk}`
whose blocks are assignments, resolved with enough fuel, the resolver does
not run out of fuel, and when it returns, the cursor is behind the chain and
the scope stack is the one obtained by applying, alone, the block of the
first branch whose condition is nonzero; it is unchanged when no condition
is nonzero. -/
theorem C6_first_true_branch_alone_is_applied
    (first : Branch) (elifs : List Branch) (tc : List Token)
    (h : SpellsChain first elifs none tc)
    (tokens : List Token) (i : Nat) (rest : List Token) (ss : ScopeStack)
    (hd : tokens.drop i = tc ++ rest)
    (hstop : peek_typed tokens (i + tc.length) .KEYWORD "else" = false)
    (fuel : Nat) (hf : tc.length + 2 ≤ fuel) :
    parse_else_statement fuel tokens i ss ≠ .error .outOfFuel ∧
    ∀ r, parse_else_statement fuel tokens i ss = .ok r →
      r.i = i + tc.length ∧
      (∀ b, first_true ss (first :: elifs) = some b →
        exec_assigns true ss b.body = .ok r.scope_stack) ∧
      (first_true ss (first :: elifs) = none → r.scope_stack = ss) := by
  have hst := parse_else_statement_spells h tokens i rest ss hd (fun _ => hstop) fuel hf
  refine ⟨state_of_ne_outOfFuel hst (chain_run_ne_outOfFuel _ _ _ _), ?_⟩
  intro r hr
  obtain ⟨h1, h2⟩ := state_of_ok hst hr
  obtain ⟨hs1, hs2⟩ := chain_run_spec h2
  exact ⟨h1, hs1, fun hn => (hs2 hn).1 rfl⟩

theorem spells_body_y (v : Int) : SpellsBody [⟨"y", "=", .lit v⟩]
    [tSep "\x7b", tId "y", tOp "=", tInt v, tSep ";", tSep "\x7d"] :=
  SpellsBody.mk (tSep "\x7b") (tSep "\x7d") _ [tId "y", tOp "=", tInt v, tSep ";"]
    rfl rfl rfl rfl
    (SpellsAssigns.cons _ [tId "y", tOp "=", tInt v, tSep ";"] [] []
      (SpellsAssign.mk (tId "y") (tOp "=") (tSep ";") (.lit v) [tInt v] rfl rfl rfl
        (Spells.lit (tInt v) rfl) trivial rfl rfl)
      SpellsAssigns.nil)

theorem spells_chain_with_else_if (c : Int) :
    SpellsChain (branch_y 0 1) [branch_y c 2] (some [⟨"y", "=", .lit 3⟩])
      (chain_with_else_if c) :=
  SpellsChain.with_else _ _ _
    [tKw "if", tSep "(", tInt 0, tSep ")",
     tSep "\x7b", tId "y", tOp "=", tInt 1, tSep ";", tSep "\x7d"]
    [tKw "else", tKw "if", tSep "(", tInt c, tSep ")",
     tSep "\x7b", tId "y", tOp "=", tInt 2, tSep ";", tSep "\x7d"]
    [tKw "else", tSep "\x7b", tId "y", tOp "=", tInt 3, tSep ";", tSep "\x7d"]
    (SpellsIf.mk (tKw "if") (tSep "(") (tSep ")") _ _ [tInt 0] _
      rfl rfl rfl rfl rfl rfl (Spells.lit (tInt 0) rfl) trivial (spells_body_y 1))
    (SpellsElseIfs.cons _
      [tKw "else", tKw "if", tSep "(", tInt c, tSep ")",
       tSep "\x7b", tId "y", tOp "=", tInt 2, tSep ";", tSep "\x7d"] [] []
      (SpellsElseIf.mk (tKw "else") (tKw "if") (tSep "(") (tSep ")") _ _ [tInt c] _
        rfl rfl rfl rfl rfl rfl rfl rfl (Spells.lit (tInt c) rfl) trivial (spells_body_y 2))
      SpellsElseIfs.nil)
    (SpellsElse.mk (tKw "else") _ _ rfl rfl (spells_body_y 3))

/-- C7: for a chain with a final `else` whose blocks are assignments,
resolved with enough fuel, the resolver does not run out of fuel, and when
it returns: if the `if` condition and every `else if` condition evaluate to
0 the scope stack is the one obtained by applying the `else` block; if some
condition is nonzero it is the one obtained by applying the block of the
first such branch alone, so the `else` block is not applied; one of the
two cases holds and the first excludes the second.  It returns whenever the
conditions and the right-hand sides of the chain evaluate. -/
theorem C7_else_applied_iff_no_condition_true
    (first : Branch) (elifs : List Branch) (body : List Assign) (tc : List Token)
    (h : SpellsChain first elifs (some body) tc)
    (tokens : List Token) (i : Nat) (rest : List Token) (ss : ScopeStack)
    (hd : tokens.drop i = tc ++ rest)
    (fuel : Nat) (hf : tc.length + 2 ≤ fuel) :
    parse_else_statement fuel tokens i ss ≠ .error .outOfFuel ∧
    (∀ r, parse_else_statement fuel tokens i ss = .ok r →
      r.i = i + tc.length ∧
      ((∀ b ∈ first :: elifs, b.cond.eval ss = .ok 0) →
        exec_assigns true ss body = .ok r.scope_stack) ∧
      (∀ b, first_true ss (first :: elifs) = some b →
        exec_assigns true ss b.body = .ok r.scope_stack) ∧
      ((∀ b ∈ first :: elifs, b.cond.eval ss = .ok 0) ∨
        ∃ b, first_true ss (first :: elifs) = some b) ∧
      ((∀ b ∈ first :: elifs, b.cond.eval ss = .ok 0) →
        first_true ss (first :: elifs) = none)) ∧
    (∀ s, chain_run ss first elifs (some body) = .ok s →
      ∃ r, parse_else_statement fuel tokens i ss = .ok r ∧ r.scope_stack = s) := by
  have hst := parse_else_statement_spells h tokens i rest ss hd (fun hc => by cases hc) fuel hf
  refine ⟨state_of_ne_outOfFuel hst (chain_run_ne_outOfFuel _ _ _ _), ?_, ?_⟩
  · intro r hr
    obtain ⟨h1, h2⟩ := state_of_ok hst hr
    obtain ⟨hs1, hs2⟩ := chain_run_spec h2
    have hzero : ∀ bs : List Branch, (∀ b ∈ bs, b.cond.eval ss = .ok 0) →
        first_true ss bs = none := by
      intro bs
      induction bs with
      | nil => intro _; rfl
      | cons b rest ih =>
        intro hall
        have hb := hall b (List.mem_cons_self _ _)
        simp only [first_true, hb, ne_eq, not_true_eq_false, if_false]
        exact ih (fun b' hb' => hall b' (List.mem_cons_of_mem _ hb'))
    refine ⟨h1, fun hall => (hs2 (hzero _ hall)).2 body rfl, hs1, ?_, hzero _⟩
    cases hft : first_true ss (first :: elifs) with
    | some b => exact Or.inr ⟨b, rfl⟩
    | none => exact Or.inl (chain_run_conditions_zero h2 hft)
  · intro s hs
    rw [hs] at hst
    cases hp : parse_else_statement fuel tokens i ss with
    | error x => rw [hp] at hst; simp [state_of, at_cursor] at hst
    | ok r =>
      rw [hp] at hst
      simp only [state_of, at_cursor, Parsed.state, Except.ok.injEq, Prod.mk.injEq] at hst
      exact ⟨r, rfl, hst.2⟩

theorem C6_witness :
    state_of (parse_else_statement 27
        [tKw "if", tSep "(", tId "x", tOp "==", tInt 0, tSep ")",
         tSep "\x7b", tId "x", tOp "=", tInt 1, tSep ";", tSep "\x7d",
         tKw "else", tKw "if", tSep "(", tId "x", tOp "==", tInt 1, tSep ")",
         tSep "\x7b", tId "x", tOp "=", tInt 2, tSep ";", tSep "\x7d"] 0
        [[⟨"x", .VAR_INT, 0, 1, 1⟩]]) = .ok (25, [[⟨"x", .VAR_INT, 1, 1, 1⟩]]) ∧
    (∀ r, parse_else_statement 27
        [tKw "if", tSep "(", tId "x", tOp "==", tInt 0, tSep ")",
         tSep "\x7b", tId "x", tOp "=", tInt 1, tSep ";", tSep "\x7d",
         tKw "else", tKw "if", tSep "(", tId "x", tOp "==", tInt 1, tSep ")",
         tSep "\x7b", tId "x", tOp "=", tInt 2, tSep ";", tSep "\x7d"] 0
        [[⟨"x", .VAR_INT, 0, 1, 1⟩]] = .ok r →
      r.i = 0 + 25 ∧
      (∀ b, first_true [[⟨"x", .VAR_INT, 0, 1, 1⟩]]
          [⟨.bin "==" (.var "x") (.lit 0), [⟨"x", "=", .lit 1⟩]⟩,
           ⟨.bin "==" (.var "x") (.lit 1), [⟨"x", "=", .lit 2⟩]⟩] = some b →
        exec_assigns true [[⟨"x", .VAR_INT, 0, 1, 1⟩]] b.body = .ok r.scope_stack) ∧
      (first_true [[⟨"x", .VAR_INT, 0, 1, 1⟩]]
          [⟨.bin "==" (.var "x") (.lit 0), [⟨"x", "=", .lit 1⟩]⟩,
           ⟨.bin "==" (.var "x") (.lit 1), [⟨"x", "=", .lit 2⟩]⟩] = none →
        r.scope_stack = [[⟨"x", .VAR_INT, 0, 1, 1⟩]])) := by
  refine ⟨by decide, ?_⟩
  have hbody : ∀ v : Int, SpellsBody [⟨"x", "=", .lit v⟩]
      [tSep "\x7b", tId "x", tOp "=", tInt v, tSep ";", tSep "\x7d"] := fun v =>
    SpellsBody.mk (tSep "\x7b") (tSep "\x7d") _ [tId "x", tOp "=", tInt v, tSep ";"]
      rfl rfl rfl rfl
      (SpellsAssigns.cons _ [tId "x", tOp "=", tInt v, tSep ";"] [] []
        (SpellsAssign.mk (tId "x") (tOp "=") (tSep ";") (.lit v) [tInt v] rfl rfl rfl
          (Spells.lit (tInt v) rfl) trivial rfl rfl)
        SpellsAssigns.nil)
  have hcond : ∀ v : Int, Spells (.bin "==" (.var "x") (.lit v)) [tId "x", tOp "==", tInt v] :=
    fun v => Spells.bin (tOp "==") _ _ [tId "x"] [tInt v] rfl (Spells.var (tId "x") rfl)
      (Spells.lit (tInt v) rfl)
  have hprec : ∀ v : Int, (Expr.bin "==" (.var "x") (.lit v)).PrecOk := by
    intro v; simp [Expr.PrecOk, Expr.top]; decide
  exact (C6_first_true_branch_alone_is_applied
    ⟨.bin "==" (.var "x") (.lit 0), [⟨"x", "=", .lit 1⟩]⟩
    [⟨.bin "==" (.var "x") (.lit 1), [⟨"x", "=", .lit 2⟩]⟩]
    _
    (SpellsChain.without_else _ _
      [tKw "if", tSep "(", tId "x", tOp "==", tInt 0, tSep ")",
       tSep "\x7b", tId "x", tOp "=", tInt 1, tSep ";", tSep "\x7d"]
      [tKw "else", tKw "if", tSep "(", tId "x", tOp "==", tInt 1, tSep ")",
       tSep "\x7b", tId "x", tOp "=", tInt 2, tSep ";", tSep "\x7d"]
      (SpellsIf.mk (tKw "if") (tSep "(") (tSep ")") _ _ [tId "x", tOp "==", tInt 0] _
        rfl rfl rfl rfl rfl rfl (hcond 0) (hprec 0) (hbody 1))
      (SpellsElseIfs.cons _
        [tKw "else", tKw "if", tSep "(", tId "x", tOp "==", tInt 1, tSep ")",
         tSep "\x7b", tId "x", tOp "=", tInt 2, tSep ";", tSep "\x7d"] [] []
        (SpellsElseIf.mk (tKw "else") (tKw "if") (tSep "(") (tSep ")") _ _
          [tId "x", tOp "==", tInt 1] _ rfl rfl rfl rfl rfl rfl rfl rfl (hcond 1) (hprec 1)
          (hbody 2))
        SpellsElseIfs.nil))
    _ 0 [] [[⟨"x", .VAR_INT, 0, 1, 1⟩]] rfl rfl 27 (by decide)).2

/-- C7 at `if (0) { y = 1; } else if (c) { y = 2; } else { y = 3; }` with
`y = 0` before: for `c = 0` every condition is 0, the chain returns and the
`else` block is applied, `y = 3`; for `c = 5` the `else if` is the first
true branch, the chain returns with its block applied, `y = 2`, and the
`else` block is not applied. -/
theorem C7_witness :
    (∃ r, parse_else_statement 30 (chain_with_else_if 0) 0 (scope_y 0) = .ok r ∧
      (∀ b ∈ [branch_y 0 1, branch_y 0 2], b.cond.eval (scope_y 0) = .ok 0) ∧
      exec_assigns true (scope_y 0) [⟨"y", "=", .lit 3⟩] = .ok r.scope_stack ∧
      r.scope_stack = scope_y 3) ∧
    (∃ r, parse_else_statement 30 (chain_with_else_if 5) 0 (scope_y 0) = .ok r ∧
      first_true (scope_y 0) [branch_y 0 1, branch_y 5 2] = some (branch_y 5 2) ∧
      exec_assigns true (scope_y 0) (branch_y 5 2).body = .ok r.scope_stack ∧
      r.scope_stack = scope_y 2) := by
  constructor
  · obtain ⟨r, hr, hs⟩ := (C7_else_applied_iff_no_condition_true (branch_y 0 1)
      [branch_y 0 2] [⟨"y", "=", .lit 3⟩] _ (spells_chain_with_else_if 0)
      (chain_with_else_if 0) 0 [] (scope_y 0) rfl 30 (by decide)).2.2 (scope_y 3) (by decide)
    have hall : ∀ b ∈ [branch_y 0 1, branch_y 0 2], b.cond.eval (scope_y 0) = .ok 0 := by
      decide
    exact ⟨r, hr, hall,
      ((C7_else_applied_iff_no_condition_true (branch_y 0 1)
        [branch_y 0 2] [⟨"y", "=", .lit 3⟩] _ (spells_chain_with_else_if 0)
        (chain_with_else_if 0) 0 [] (scope_y 0) rfl 30 (by decide)).2.1 r hr).2.1 hall, hs⟩
  · obtain ⟨r, hr, hs⟩ := (C7_else_applied_iff_no_condition_true (branch_y 0 1)
      [branch_y 5 2] [⟨"y", "=", .lit 3⟩] _ (spells_chain_with_else_if 5)
      (chain_with_else_if 5) 0 [] (scope_y 0) rfl 30 (by decide)).2.2 (scope_y 2) (by decide)
    have hft : first_true (scope_y 0) [branch_y 0 1, branch_y 5 2] = some (branch_y 5 2) := by
      decide
    exact ⟨r, hr, hft,
      ((C7_else_applied_iff_no_condition_true (branch_y 0 1)
        [branch_y 5 2] [⟨"y", "=", .lit 3⟩] _ (spells_chain_with_else_if 5)
        (chain_with_else_if 5) 0 [] (scope_y 0) rfl 30 (by decide)).2.1 r hr).2.2.1 _ hft, hs⟩

/-! ## `while` loops -/

/-- The execution loop of `parse_while_statement` follows `while_run`
whenever that terminates within `k` condition evaluations. -/
theorem parse_while_loop_spells {c : Expr} {body : List Assign} {cts bts : List Token}
    (hsp : Spells c cts) (hok : c.PrecOk) (hbody : SpellsBody body bts)
    (rp : Token) (hrp1 : rp.type = .SEPARATOR) (hrp2 : rp.str_val = ")")
    (tokens : List Token) (ls : Nat) (rest : List Token)
    (hd : tokens.drop ls = cts ++ rp :: (bts ++ rest)) :
    ∀ (k : Nat) (ss : ScopeStack) (R : Except Err ScopeStack),
      while_run k ss c body = R → R ≠ .error .outOfFuel →
      ∀ (fuel : Nat), k + cts.length + bts.length + 1 ≤ fuel →
      ∀ (fc fb : Node) (fi : Bool),
        loop_scopes (parse_while_loop fuel tokens ls ss fc fb fi) = R := by
  have hd3 := drop_add_of_drop_eq_append hd
  have htr := getElem?_of_drop_eq_cons hd3
  have hd4 := drop_succ_of_drop_eq_cons hd3
  have hrest : ∀ t r, rp :: (bts ++ rest) = t :: r → t.type = .OPERATOR →
      get_precedence t.str_val < 0 := by
    intro t r h hty; simp at h; rw [← h.1, hrp1] at hty; cases hty
  intro k
  induction k with
  | zero => intro ss R h hR; simp only [while_run] at h; exact absurd h.symm hR
  | succ k ih =>
    intro ss R h hR fuel hf fc fb fi
    obtain ⟨f, rfl⟩ : ∃ f, fuel = f + 1 := ⟨fuel - 1, by omega⟩
    rw [parse_while_loop]
    simp only [while_run] at h
    cases hev : c.eval ss with
    | error x =>
      rw [hev] at h
      obtain ⟨g, hg⟩ : ∃ g, f = g + 1 + cts.length := ⟨f - 1 - cts.length, by omega⟩
      have := parse_expression_error_of_spells hsp ss x hev hok tokens ls
        (rp :: (bts ++ rest)) 0 hd (Expr.top_nonneg hok)
        (by intro t r h hty; exact le_trans (le_of_lt (hrest t r h hty)) (Expr.top_nonneg hok))
        g
      rw [← hg] at this
      rw [this, ← h]
      rfl
    | ok v =>
      rw [hev] at h
      simp only at h
      obtain ⟨l2, c2, hpe⟩ := parse_expression_value hsp ss v hev hok tokens ls
        (rp :: (bts ++ rest)) hd hrest f (by omega)
      rw [hpe]
      simp only
      rw [expect_str_ok htr (by rw [hrp1]; decide) hrp2]
      simp only [eval_condition_lit_node]
      by_cases hv : v = 0
      · have hdz : decide (v ≠ 0) = false := by simp [hv]
        simp only [hdz, Bool.false_eq_true, if_false]
        rw [if_neg (by simp [hv])] at h
        rw [← h]; rfl
      · have hdz : decide (v ≠ 0) = true := by simp [hv]
        simp only [hdz, if_true]
        rw [if_pos hv] at h
        have hblk := parse_block_spells hbody tokens (ls + cts.length + 1) rest ss true hd4 f
          (by omega)
        cases hex : exec_assigns true ss body with
        | error x =>
          rw [hex] at h hblk
          cases hpb : parse_block f tokens (ls + cts.length + 1) ss true with
          | error e =>
            rw [hpb] at hblk
            simp only [state_of, at_cursor, Except.error.injEq] at hblk
            rw [hblk, ← h]; rfl
          | ok p => rw [hpb] at hblk; simp [state_of, at_cursor] at hblk
        | ok ss1 =>
          rw [hex] at h hblk
          simp only at h
          cases hpb : parse_block f tokens (ls + cts.length + 1) ss true with
          | error e => rw [hpb] at hblk; simp [state_of, at_cursor] at hblk
          | ok p =>
            rw [hpb] at hblk
            simp only [state_of, at_cursor, Parsed.state, Except.ok.injEq, Prod.mk.injEq] at hblk
            simp only [hblk.2]
            exact ih ss1 R h hR f (by omega) _ _ _

theorem while_run_cond_zero {c : Expr} {body : List Assign} :
    ∀ (k : Nat) (ss ss' : ScopeStack), while_run k ss c body = .ok ss' → c.eval ss' = .ok 0 := by
  intro k
  induction k with
  | zero => intro ss ss' h; simp [while_run] at h
  | succ k ih =>
    intro ss ss' h
    simp only [while_run] at h
    cases hev : c.eval ss with
    | error x => rw [hev] at h; cases h
    | ok v =>
      rw [hev] at h
      simp only at h
      by_cases hv : v = 0
      · rw [if_neg (by simp [hv])] at h
        simp only [Except.ok.injEq] at h
        subst h; rw [hev, hv]
      · rw [if_pos hv] at h
        cases hex : exec_assigns true ss body with
        | error x => rw [hex] at h; cases h
        | ok ss1 => rw [hex] at h; exact ih ss1 ss' h

/-- A `while` statement whose execution loop terminates with the scope
stack `ss'` ends with the structural pass over the condition and the block
in `ss'`: its outcome is that of the block resolved inactive. -/
theorem parse_while_statement_spells {c : Expr} {body : List Assign} {tw : List Token}
    (h : SpellsWhile c body tw) (tokens : List Token) (i : Nat) (rest : List Token)
    (hd : tokens.drop i = tw ++ rest) (k : Nat) (ss ss' : ScopeStack)
    (hrun : while_run k ss c body = .ok ss')
    (fuel : Nat) (hf : k + tw.length + 2 ≤ fuel) :
    state_of (parse_while_statement fuel tokens i ss) =
      at_cursor (i + tw.length) (exec_assigns false ss' body) := by
  cases h with
  | mk kw lp rp c body cts bts hkw1 hkw2 hlp1 hlp2 hrp1 hrp2 hsp hok hbody =>
    have hlen : (kw :: lp :: cts ++ rp :: bts).length = cts.length + bts.length + 3 := by
      simp; omega
    rw [hlen] at hf ⊢
    obtain ⟨f, rfl⟩ : ∃ f, fuel = f + 1 := ⟨fuel - 1, by omega⟩
    have hd0 : tokens.drop i = kw :: (lp :: (cts ++ (rp :: (bts ++ rest)))) := by
      simpa using hd
    have htk := getElem?_of_drop_eq_cons hd0
    have hd1 := drop_succ_of_drop_eq_cons hd0
    have htl := getElem?_of_drop_eq_cons hd1
    have hd2 : tokens.drop (i + 2) = cts ++ (rp :: (bts ++ rest)) :=
      drop_succ_of_drop_eq_cons hd1
    have hd3 := drop_add_of_drop_eq_append hd2
    have htr := getElem?_of_drop_eq_cons hd3
    have hd4 := drop_succ_of_drop_eq_cons hd3
    have hrest : ∀ t r, rp :: (bts ++ rest) = t :: r → t.type = .OPERATOR →
        get_precedence t.str_val < 0 := by
      intro t r h hty; simp at h; rw [← h.1, hrp1] at hty; cases hty
    rw [parse_while_statement]
    simp only [htk, expect_str_ok htl (by rw [hlp1]; decide) hlp2]
    have hloop := parse_while_loop_spells hsp hok hbody rp hrp1 hrp2 tokens (i + 2) rest hd2
      k ss (.ok ss') hrun (by simp) f (by omega) .NULL .NULL true
    cases hpl : parse_while_loop f tokens (i + 2) ss .NULL .NULL true with
    | error e => rw [hpl] at hloop; simp [loop_scopes] at hloop
    | ok res =>
      obtain ⟨fc, fb, s1⟩ := res
      rw [hpl] at hloop
      simp only [loop_scopes, Except.ok.injEq] at hloop
      subst hloop
      simp only
      obtain ⟨l2, c2, hpe⟩ := parse_expression_value hsp s1 0
        (while_run_cond_zero k ss s1 hrun) hok tokens (i + 2)
        (rp :: (bts ++ rest)) hd2 hrest f (by omega)
      rw [hpe]
      simp only
      have hpk : peek_str tokens (i + 2 + cts.length) ")" = .ok true := by
        simp [peek_str, htr, token_str_of_ne_int (show rp.type ≠ .INT by rw [hrp1]; decide), hrp2]
      rw [hpk]
      simp only [if_true]
      have hblk := parse_block_spells hbody tokens (i + 2 + cts.length + 1) rest s1 false hd4 f
        (by omega)
      have e1 : i + 2 + cts.length + 1 + bts.length = i + (cts.length + bts.length + 3) := by
        omega
      rw [e1] at hblk
      cases hpb : parse_block f tokens (i + 2 + cts.length + 1) s1 false with
      | error e =>
        rw [hpb] at hblk
        simp only [state_of] at hblk ⊢
        exact hblk
      | ok p =>
        rw [hpb] at hblk
        simp only [state_of, Parsed.state] at hblk ⊢
        exact hblk

theorem wrap32_of_range {x : Int} (h1 : -2147483648 ≤ x) (h2 : x < 2147483648) :
    wrap32 x = x := by
  unfold wrap32; omega

theorem parse_while_statement_node {fuel : Nat} {tokens : List Token} {i : Nat}
    {ss : ScopeStack} {r : Parsed} (h : parse_while_statement fuel tokens i ss = .ok r) :
    r.node.is_null = false := by
  cases fuel with
  | zero => simp [parse_while_statement] at h
  | succ f =>
    rw [parse_while_statement] at h
    repeat' split at h
    all_goals cases h
    all_goals rfl

theorem while_count_run (n : Int) (hn : 0 ≤ n) (hn2 : n < 2147483648) :
    ∀ (d : Nat), (d : Int) ≤ n →
      while_run (d + 1) (scope_i (n - d)) (.bin "<" (.var "i") (.lit n))
        [⟨"i", "=", .bin "+" (.var "i") (.lit 1)⟩] = .ok (scope_i n) := by
  intro d
  induction d with
  | zero =>
    intro _
    simp only [Nat.cast_zero, Int.sub_zero]
    have hev : (Expr.bin "<" (.var "i") (.lit n)).eval (scope_i n) =
        .ok (c_bool (decide (n < n))) := rfl
    simp only [while_run, hev]
    simp [c_bool]
  | succ d ih =>
    intro hd
    have hev : (Expr.bin "<" (.var "i") (.lit n)).eval (scope_i (n - (d + 1 : Nat))) =
        .ok (c_bool (decide (n - (d + 1 : Nat) < n))) := rfl
    have hex : exec_assigns true (scope_i (n - (d + 1 : Nat)))
        [⟨"i", "=", .bin "+" (.var "i") (.lit 1)⟩] =
        .ok (scope_i (c_add (n - (d + 1 : Nat)) 1)) := rfl
    have hlt : n - ((d + 1 : Nat) : Int) < n := by push_cast; omega
    have hadd : c_add (n - ((d + 1 : Nat) : Int)) 1 = n - (d : Int) := by
      unfold c_add
      rw [wrap32_of_range (by push_cast; push_cast at hd; omega) (by push_cast; omega)]
      push_cast; omega
    rw [while_run, hev]
    simp only [hlt, decide_True, c_bool, if_true, ne_eq, one_ne_zero, not_false_eq_true, hex,
      hadd]
    exact ih (by push_cast at hd; omega)

theorem SpellsWhile_count (n : Int) :
    SpellsWhile (.bin "<" (.var "i") (.lit n)) [⟨"i", "=", .bin "+" (.var "i") (.lit 1)⟩]
      [tKw "while", tSep "(", tId "i", tOp "<", tInt n, tSep ")",
       tSep "\x7b", tId "i", tOp "=", tId "i", tOp "+", tInt 1, tSep ";", tSep "\x7d"] :=
  SpellsWhile.mk (tKw "while") (tSep "(") (tSep ")") _ _ [tId "i", tOp "<", tInt n]
    [tSep "\x7b", tId "i", tOp "=", tId "i", tOp "+", tInt 1, tSep ";", tSep "\x7d"]
    rfl rfl rfl rfl rfl rfl
    (Spells.bin (tOp "<") _ _ [tId "i"] [tInt n] rfl (Spells.var (tId "i") rfl)
      (Spells.lit (tInt n) rfl))
    (by simp [Expr.PrecOk, Expr.top]; decide)
    (SpellsBody.mk (tSep "\x7b") (tSep "\x7d") _
      [tId "i", tOp "=", tId "i", tOp "+", tInt 1, tSep ";"] rfl rfl rfl rfl
      (SpellsAssigns.cons _ [tId "i", tOp "=", tId "i", tOp "+", tInt 1, tSep ";"] [] []
        (SpellsAssign.mk (tId "i") (tOp "=") (tSep ";") _ [tId "i", tOp "+", tInt 1]
          rfl rfl rfl
          (Spells.bin (tOp "+") _ _ [tId "i"] [tInt 1] rfl (Spells.var (tId "i") rfl)
            (Spells.lit (tInt 1) rfl))
          (by simp [Expr.PrecOk, Expr.top]; decide) rfl rfl)
        SpellsAssigns.nil))

/-- The general part of C8, for any spelled `while` statement. -/
theorem parse_while_statement_refines {c : Expr} {body : List Assign} {tw : List Token}
    (h : SpellsWhile c body tw) (tokens : List Token) (i : Nat) (rest : List Token)
    (hd : tokens.drop i = tw ++ rest) (k : Nat) (ss ss' : ScopeStack)
    (hrun : while_run k ss c body = .ok ss')
    (fuel : Nat) (hf : k + tw.length + 2 ≤ fuel) :
    parse_while_statement fuel tokens i ss ≠ .error .outOfFuel ∧
    (∀ r, parse_while_statement fuel tokens i ss = .ok r →
      r.scope_stack = ss' ∧ r.i = i + tw.length) ∧
    ((∃ s, exec_assigns false ss' body = .ok s) →
      ∃ r, parse_while_statement fuel tokens i ss = .ok r) := by
  have hst := parse_while_statement_spells h tokens i rest hd k ss ss' hrun fuel hf
  refine ⟨state_of_ne_outOfFuel hst (exec_assigns_ne_outOfFuel _ _ _), ?_, ?_⟩
  · intro r hr
    obtain ⟨h1, h2⟩ := state_of_ok hst hr
    exact ⟨exec_assigns_inactive h2, h1⟩
  · rintro ⟨s, hs⟩
    rw [hs] at hst
    cases hp : parse_while_statement fuel tokens i ss with
    | error e => rw [hp] at hst; simp [state_of, at_cursor] at hst
    | ok r => exact ⟨r, rfl⟩

/-- C8: for every `n` with `0 ≤ n < 2^31`, resolving
`int i = 0; while (i < n) { i = i + 1; }` with enough fuel ends with the
scope stack binding `i` to `n`; and for every `while` statement whose block
is made of assignments, whenever repeated execution of the block while the
condition is nonzero terminates with the scope stack `ss'`, the resolver
with enough fuel does not run out of fuel, every result it returns carries
the scope stack `ss'` and the cursor behind the loop, and it does return
when the right-hand sides of the block evaluate in `ss'`. -/
theorem C8_while_resolves_by_repeated_execution :
    (∀ (n : Int), 0 ≤ n → n < 2147483648 → ∀ fuel, n.toNat + 30 ≤ fuel →
      ∃ root, parse_with_scopes fuel (while_count_program n) = .ok (root, scope_i n) ∧
        root.is_null = false) ∧
    (∀ (c : Expr) (body : List Assign) (tw : List Token), SpellsWhile c body tw →
      ∀ (tokens : List Token) (i : Nat) (rest : List Token), tokens.drop i = tw ++ rest →
      ∀ (k : Nat) (ss ss' : ScopeStack), while_run k ss c body = .ok ss' →
      ∀ fuel, k + tw.length + 2 ≤ fuel →
        parse_while_statement fuel tokens i ss ≠ .error .outOfFuel ∧
        (∀ r, parse_while_statement fuel tokens i ss = .ok r →
          r.scope_stack = ss' ∧ r.i = i + tw.length) ∧
        ((∃ s, exec_assigns false ss' body = .ok s) →
          ∃ r, parse_while_statement fuel tokens i ss = .ok r)) := by
  refine ⟨?_, fun c body tw h tokens i rest hd k ss ss' hrun fuel hf =>
    parse_while_statement_refines h tokens i rest hd k ss ss' hrun fuel hf⟩
  intro n hn hn2 fuel hf
  obtain ⟨F, rfl⟩ : ∃ F, fuel = F + 6 := ⟨fuel - 6, by omega⟩
  have hrun : while_run (n.toNat + 1) (scope_i 0) (.bin "<" (.var "i") (.lit n))
      [⟨"i", "=", .bin "+" (.var "i") (.lit 1)⟩] = .ok (scope_i n) := by
    have := while_count_run n hn hn2 n.toNat (by omega)
    have h0 : n - (n.toNat : Int) = 0 := by omega
    rw [h0] at this
    exact this
  have hw := parse_while_statement_refines (SpellsWhile_count n) (while_count_program n) 5 []
    rfl (n.toNat + 1) (scope_i 0) (scope_i n) hrun (F + 3) (by simp; omega)
  obtain ⟨r, hr⟩ := hw.2.2 ⟨scope_i n, rfl⟩
  obtain ⟨hr1, hr2⟩ := hw.2.1 r hr
  have hnode := parse_while_statement_node hr
  have hs1 : ∃ N, N.is_null = false ∧
      parse_statement (F + 5) (while_count_program n) 0
        (push_scope create_scope_stack create_symbol_table) true =
        .ok ⟨N, 0, 5, scope_i 0⟩ := by
    refine ⟨_, ?_, rfl⟩
    rfl
  obtain ⟨N, hN, hs1⟩ := hs1
  have hs2 : parse_statement (F + 4) (while_count_program n) 5 (scope_i 0) true =
      parse_while_statement (F + 3) (while_count_program n) 5 (scope_i 0) := rfl
  have hlen : (while_count_program n).length = 19 := rfl
  simp only [parse_with_scopes]
  rw [if_neg (by rw [hlen]; decide)]
  rw [parse_loop, if_pos (by rw [hlen]; decide), hs1]
  simp only [hN, Bool.false_eq_true, if_false]
  rw [parse_loop, if_pos (by rw [hlen]; decide), hs2, hr]
  simp only [hnode, Bool.false_eq_true, if_false, hr1, hr2]
  rw [parse_loop, if_neg (by rw [hlen]; simp)]
  exact ⟨_, rfl, rfl⟩

theorem C8_witness :
    ∃ root, parse_with_scopes 33 (while_count_program 3) = .ok (root, scope_i 3) ∧
      root.is_null = false :=
  C8_while_resolves_by_repeated_execution.1 3 (by decide) (by decide) 33 (by decide)

/-! ## Nested control flow in inactive blocks and in the structural pass -/

set_option maxRecDepth 100000 in
set_option maxHeartbeats 4000000 in
/-- C5 (the code departs from the claim): with a nonzero `if` condition
and an empty `then` block, an `else` block that holds a nested `if`,
`while` or `do-while` changes the value of `x`, while an `else` block that
holds the assignment alone leaves it at 0. -/
theorem C5_else_block_with_nested_control_flow_is_applied :
    final_values (parse_with_scopes 20 else_with_nested_if) = .ok [[("x", 5)]] ∧
    final_values (parse_with_scopes 20 else_with_nested_while) = .ok [[("x", 2)]] ∧
    final_values (parse_with_scopes 20 else_with_nested_do_while) = .ok [[("x", 1)]] ∧
    final_values (parse_with_scopes 20 else_with_assignment) = .ok [[("x", 0)]] := by
  refine ⟨?_, ?_, ?_, ?_⟩ <;> decide!

set_option maxRecDepth 100000 in
set_option maxHeartbeats 4000000 in
/-- C9 (the code departs from the claim): for a `while` and for a
`do-while` whose block holds a nested `if`, the execution loop ends, at the
moment the condition folds to false, with `x = 1`, and the statement
returns, after the structural pass, with `x = 2`. -/
theorem C9_structural_pass_applies_nested_statements :
    loop_values (parse_while_loop 20 while_with_nested_if 12
        [[⟨"x", .VAR_INT, 0, 1, 1⟩, ⟨"i", .VAR_INT, 0, 1, 1⟩]] .NULL .NULL true) =
      .ok [[("x", 1), ("i", 1)]] ∧
    values_of (parse_while_statement 20 while_with_nested_if 10
        [[⟨"x", .VAR_INT, 0, 1, 1⟩, ⟨"i", .VAR_INT, 0, 1, 1⟩]]) =
      .ok [[("x", 2), ("i", 1)]] ∧
    final_values (parse_with_scopes 20 while_with_nested_if) = .ok [[("x", 2), ("i", 1)]] ∧
    loop_values (parse_do_while_loop 20 do_while_with_nested_if 6
        [[⟨"x", .VAR_INT, 0, 1, 1⟩]] .NULL .NULL true) = .ok [[("x", 1)]] ∧
    values_of (parse_do_while_statement 20 do_while_with_nested_if 5
        [[⟨"x", .VAR_INT, 0, 1, 1⟩]]) = .ok [[("x", 2)]] ∧
    final_values (parse_with_scopes 20 do_while_with_nested_if) = .ok [[("x", 2)]] := by
  refine ⟨?_, ?_, ?_, ?_, ?_, ?_⟩ <;> decide!

set_option maxRecDepth 100000 in
set_option maxHeartbeats 4000000 in
/-- C10 (the code departs from the claim): for a `while` whose block
declares and uses a block-local variable, and for one whose block divides
by an expression that is nonzero in every executed iteration, the execution
loop completes without error, and `parse_while_statement` then ends with a
fatal error raised in the structural pass. -/
theorem C10_structural_pass_aborts_after_successful_execution :
    loop_values (parse_while_loop 20 while_with_block_local 7
        [[⟨"i", .VAR_INT, 0, 1, 1⟩]] .NULL .NULL true) = .ok [[("i", 3)]] ∧
    parse_while_statement 20 while_with_block_local 5 [[⟨"i", .VAR_INT, 0, 1, 1⟩]] =
      .error (.undefinedVariable "t") ∧
    parse 20 while_with_block_local = .error (.undefinedVariable "t") ∧
    loop_values (parse_while_loop 20 while_with_guarded_division 12
        [[⟨"i", .VAR_INT, 0, 1, 1⟩, ⟨"x", .VAR_INT, 0, 1, 1⟩]] .NULL .NULL true) =
      .ok [[("i", 3), ("x", 6)]] ∧
    parse_while_statement 20 while_with_guarded_division 10
        [[⟨"i", .VAR_INT, 0, 1, 1⟩, ⟨"x", .VAR_INT, 0, 1, 1⟩]] = .error .divisionByZero ∧
    parse 20 while_with_guarded_division = .error .divisionByZero := by
  refine ⟨?_, ?_, ?_, ?_, ?_, ?_⟩ <;> decide!

/-! ## The scope-stack lookup and the target of an assignment -/

theorem find_symbol_eq_none {t : SymbolTable} {name : String} :
    find_symbol t name = none ↔ ∀ s ∈ t, s.name ≠ name := by
  induction t with
  | nil => simp [find_symbol]
  | cons s rest ih =>
    simp only [find_symbol, List.mem_cons, forall_eq_or_imp]
    by_cases h : s.name = name
    · simp [h]
    · simp [h, ih]

/-- The symbol `find_symbol` returns is the first one of that name. -/
theorem find_symbol_split {t : SymbolTable} {name : String} (h : ∃ s ∈ t, s.name = name) :
    ∃ pre sym post, t = pre ++ sym :: post ∧ sym.name = name ∧
      (∀ s ∈ pre, s.name ≠ name) ∧ find_symbol t name = some sym := by
  induction t with
  | nil => obtain ⟨s, hs, _⟩ := h; cases hs
  | cons s rest ih =>
    by_cases hn : s.name = name
    · exact ⟨[], s, rest, rfl, hn, by simp, by simp [find_symbol, hn]⟩
    · obtain ⟨s', hs', hn'⟩ := h
      have hrest : ∃ s ∈ rest, s.name = name := by
        rcases List.mem_cons.mp hs' with h1 | h1
        · subst h1; exact absurd hn' hn
        · exact ⟨s', h1, hn'⟩
      obtain ⟨pre, sym, post, h1, h2, h3, h4⟩ := ih hrest
      refine ⟨s :: pre, sym, post, by simp [h1], h2, ?_, by simp [find_symbol, hn, h4]⟩
      intro x hx
      rcases List.mem_cons.mp hx with h5 | h5
      · subst h5; exact hn
      · exact h3 x h5

theorem find_symbol_of_split {pre post : SymbolTable} {sym : Symbol} {name : String}
    (hn : sym.name = name) (hpre : ∀ s ∈ pre, s.name ≠ name) :
    find_symbol (pre ++ sym :: post) name = some sym := by
  induction pre with
  | nil => simp [find_symbol, hn]
  | cons s rest ih =>
    have h1 : s.name ≠ name := hpre s (List.mem_cons_self _ _)
    simp only [List.cons_append, find_symbol, h1, if_false]
    exact ih (fun x hx => hpre x (List.mem_cons_of_mem _ hx))

/-- C15: `find_symbol_in_scope_stack` gives the not-declared signal exactly
when no table holds a symbol of the name; otherwise it gives a symbol of
that name from the innermost table that holds one (the first such symbol of
that table), whatever the tables further out hold. -/
theorem C15_lookup_returns_symbol_of_innermost_table (ss : ScopeStack) (name : String) :
    (find_symbol_in_scope_stack ss name = none ↔ ∀ t ∈ ss, ∀ s ∈ t, s.name ≠ name) ∧
    (∀ (outer : ScopeStack) (table : SymbolTable) (inner : ScopeStack),
      ss = outer ++ table :: inner → (∃ s ∈ table, s.name = name) →
      (∀ t ∈ inner, ∀ s ∈ t, s.name ≠ name) →
      ∃ pre sym post, table = pre ++ sym :: post ∧ sym.name = name ∧
        (∀ s ∈ pre, s.name ≠ name) ∧ find_symbol_in_scope_stack ss name = some sym) := by
  constructor
  · rw [find_symbol_in_scope_stack_eq_none]
    constructor
    · intro h t ht; exact find_symbol_eq_none.mp (h t ht)
    · intro h t ht; exact find_symbol_eq_none.mpr (h t ht)
  · intro outer table inner hss hex hin
    obtain ⟨pre, sym, post, h1, h2, h3, h4⟩ := find_symbol_split hex
    refine ⟨pre, sym, post, h1, h2, h3, ?_⟩
    rw [hss]
    exact find_symbol_in_scope_stack_append outer table inner name sym h4
      (fun t ht => find_symbol_eq_none.mpr (hin t ht))

/-- C15 at a stack of three tables: the name `x` is held by the outermost
and by the middle table, the innermost table holds only `y`, and the lookup
gives the symbol of the middle table. -/
theorem C15_witness :
    ∃ pre sym post, ([⟨"y", .VAR_INT, 2, 1, 1⟩, ⟨"x", .VAR_INT, 3, 1, 1⟩] : SymbolTable) =
        pre ++ sym :: post ∧ sym.name = "x" ∧ (∀ s ∈ pre, s.name ≠ "x") ∧
      find_symbol_in_scope_stack
        [[⟨"x", .VAR_INT, 1, 1, 1⟩], [⟨"y", .VAR_INT, 2, 1, 1⟩, ⟨"x", .VAR_INT, 3, 1, 1⟩],
         [⟨"y", .VAR_INT, 4, 1, 1⟩]] "x" = some sym :=
  (C15_lookup_returns_symbol_of_innermost_table
    [[⟨"x", .VAR_INT, 1, 1, 1⟩], [⟨"y", .VAR_INT, 2, 1, 1⟩, ⟨"x", .VAR_INT, 3, 1, 1⟩],
     [⟨"y", .VAR_INT, 4, 1, 1⟩]] "x").2
    [[⟨"x", .VAR_INT, 1, 1, 1⟩]] [⟨"y", .VAR_INT, 2, 1, 1⟩, ⟨"x", .VAR_INT, 3, 1, 1⟩]
    [[⟨"y", .VAR_INT, 4, 1, 1⟩]] rfl ⟨⟨"x", .VAR_INT, 3, 1, 1⟩, by simp, rfl⟩
    (by decide)

theorem find_target_table_eq_none {ss : ScopeStack} {name : String} :
    find_target_table ss name = none ↔ ∀ t ∈ ss, find_symbol t name = none := by
  induction ss with
  | nil => simp [find_target_table]
  | cons t rest ih =>
    simp only [find_target_table, List.mem_cons, forall_eq_or_imp]
    cases h : find_target_table rest name with
    | some j =>
      rw [h] at ih
      simp only
      constructor
      · intro hc; cases hc
      · intro hc; exact absurd (ih.mpr hc.2) (by simp)
    | none =>
      rw [h] at ih
      have hr := ih.mp rfl
      simp only
      cases hf : find_symbol t name with
      | none => simpa using hr
      | some s => simp

/-- The table `find_target_table` selects holds the name, no table further
in does, and the scope-stack lookup gives the symbol `find_symbol` finds in it. -/
theorem find_target_table_spec {ss : ScopeStack} {name : String} {j : Nat}
    (h : find_target_table ss name = some j) :
    ∃ table, ss[j]? = some table ∧ (∃ s ∈ table, s.name = name) ∧
      (∀ k t, j < k → ss[k]? = some t → ∀ s ∈ t, s.name ≠ name) ∧
      find_symbol_in_scope_stack ss name = find_symbol table name := by
  induction ss generalizing j with
  | nil => simp [find_target_table] at h
  | cons t rest ih =>
    simp only [find_target_table] at h
    cases hr : find_target_table rest name with
    | some k =>
      rw [hr] at h
      simp only [Option.some.injEq] at h
      subst h
      obtain ⟨table, h1, h2, h3, h4⟩ := ih hr
      refine ⟨table, by simpa using h1, h2, ?_, ?_⟩
      · intro k' t' hk ht'
        obtain ⟨m, rfl⟩ : ∃ m, k' = m + 1 := ⟨k' - 1, by omega⟩
        exact h3 m t' (by omega) (by simpa using ht')
      · simp only [find_symbol_in_scope_stack]
        obtain ⟨s, hs, hn⟩ := h2
        obtain ⟨pre, sym, post, _, _, _, hf⟩ := find_symbol_split ⟨s, hs, hn⟩
        rw [h4, hf]
    | none =>
      rw [hr] at h
      simp only at h
      have hnone := find_target_table_eq_none.mp hr
      cases hf : find_symbol t name with
      | none => rw [hf] at h; simp at h
      | some s0 =>
        rw [hf] at h
        simp only [Option.isSome_some, if_true, Option.some.injEq] at h
        subst h
        refine ⟨t, by simp, ?_, ?_, ?_⟩
        · by_contra hc
          have : find_symbol t name = none :=
            find_symbol_eq_none.mpr (fun s hs hn => hc ⟨s, hs, hn⟩)
          rw [this] at hf; cases hf
        · intro k' t' hk ht'
          obtain ⟨m, rfl⟩ : ∃ m, k' = m + 1 := ⟨k' - 1, by omega⟩
          have hm : rest[m]? = some t' := by simpa using ht'
          obtain ⟨hlt, hget⟩ := List.getElem?_eq_some_iff.mp hm
          exact find_symbol_eq_none.mp (hnone t' (hget ▸ List.getElem_mem hlt))
        · simp only [find_symbol_in_scope_stack]
          rw [find_symbol_in_scope_stack_eq_none.mpr hnone]

theorem update_symbol_split {pre post : SymbolTable} {sym : Symbol} {name : String}
    (hn : sym.name = name) (hpre : ∀ s ∈ pre, s.name ≠ name) (v : Int) :
    update_symbol (pre ++ sym :: post) name v =
      .ok (pre ++ { sym with value := v } :: post) := by
  induction pre with
  | nil => simp [update_symbol, hn]
  | cons s rest ih =>
    have h1 : s.name ≠ name := hpre s (List.mem_cons_self _ _)
    have h2 := ih (fun x hx => hpre x (List.mem_cons_of_mem _ hx))
    show update_symbol (s :: (rest ++ sym :: post)) name v = _
    simp only [update_symbol, h1, if_false, h2]
    rfl

/-- The scope stack `apply_assignment` returns is the old one or the old
one after one call of `update_symbol` on the target table. -/
theorem apply_assignment_scope {ss ss1 : ScopeStack} {j : Nat} {name : String}
    {an vts e n : Node} (h : apply_assignment ss j name an vts e = .ok (n, ss1)) :
    ss1 = ss ∨ ∃ v, update_symbol_at ss j name v = .ok ss1 := by
  unfold apply_assignment at h
  split at h
  · split at h
    · cases h
    · rename_i s1 hu
      simp only [Except.ok.injEq, Prod.mk.injEq] at h
      exact Or.inr ⟨_, h.2 ▸ hu⟩
  · split at h
    · split at h
      · simp only [Except.ok.injEq, Prod.mk.injEq] at h; exact Or.inl h.2.symm
      · split at h
        · simp only [Except.ok.injEq, Prod.mk.injEq] at h; exact Or.inl h.2.symm
        · split at h
          · cases h
          · rename_i s1 hu
            simp only [Except.ok.injEq, Prod.mk.injEq] at h
            exact Or.inr ⟨_, h.2 ▸ hu⟩
    · split at h
      · split at h
        · cases h
        · split at h
          · cases h
          · rename_i s1 hu
            simp only [Except.ok.injEq, Prod.mk.injEq] at h
            exact Or.inr ⟨_, h.2 ▸ hu⟩
      · simp only [Except.ok.injEq, Prod.mk.injEq] at h; exact Or.inl h.2.symm

/-- C17: in a scope stack in which no table holds the name `x`, the
assignment statement that starts with the identifier `x` ends with the
fatal undefined-variable error, for every fuel and for both values of
`condition_active`; so does `parse_statement` on it. -/
theorem C17_assignment_to_undeclared_name_is_fatal (ss : ScopeStack) (x : String)
    (hno : ∀ t ∈ ss, ∀ s ∈ t, s.name ≠ x)
    (tokens : List Token) (i : Nat) (id : Token) (hid : tokens[i]? = some id)
    (hty : id.type = .IDENTIFIER) (hname : id.str_val = x) (fuel : Nat) (active : Bool) :
    parse_assignment_statement fuel tokens i ss active = .error (.undefinedVariable x) ∧
    (Err.undefinedVariable x).kind = .unresolvedReference ∧
    (peek_assignment_operator tokens (i + 1) = true →
      parse_statement (fuel + 1) tokens i ss active = .error (.undefinedVariable x)) := by
  have hnone : find_target_table ss x = none :=
    find_target_table_eq_none.mpr (fun t ht => find_symbol_eq_none.mpr (hno t ht))
  have h1 : parse_assignment_statement fuel tokens i ss active =
      .error (.undefinedVariable x) := by
    simp only [parse_assignment_statement, hid, hty, hname, hnone, ne_eq, not_true_eq_false,
      if_false]
  refine ⟨h1, rfl, ?_⟩
  intro hp
  rw [parse_statement]
  simp only [hid, hty, hp, h1]
  simp

/-- C17 at `x = 1;` and `x += 1;` as the whole program, and at `x = 1;`
parsed with `condition_active = false` below a table that holds only `y`. -/
theorem C17_witness :
    parse_assignment_statement 5 [tId "x", tOp "+=", tInt 1, tSep ";"] 0
        [[⟨"y", .VAR_INT, 2, 1, 1⟩], []] false = .error (.undefinedVariable "x") ∧
    parse 5 [tId "x", tOp "=", tInt 1, tSep ";"] = .error (.undefinedVariable "x") ∧
    parse 5 [tId "x", tOp "+=", tInt 1, tSep ";"] = .error (.undefinedVariable "x") :=
  ⟨(C17_assignment_to_undeclared_name_is_fatal [[⟨"y", .VAR_INT, 2, 1, 1⟩], []] "x"
      (by decide) [tId "x", tOp "+=", tInt 1, tSep ";"] 0 (tId "x") rfl rfl rfl 5 false).1,
   by decide, by decide⟩

theorem set_of_getElem? {α : Type} {l : List α} {j : Nat} {a : α} (h : l[j]? = some a) :
    l.set j a = l := by
  induction l generalizing j with
  | nil => rfl
  | cons x xs ih =>
    cases j with
    | zero => simp at h; simp [h]
    | succ k => simp at h; simp [ih h]

/-- C16: when an assignment statement parsed with `condition_active = true`
returns, the scope stack it leaves is the old one with the value of one
symbol replaced: the first symbol of the assigned name in the innermost
table that holds the name, which is the symbol the scope-stack lookup
returns.  Every other symbol of that table and every other table is kept,
in place. -/
theorem C16_assignment_changes_only_the_looked_up_symbol (fuel : Nat) (tokens : List Token)
    (i : Nat) (ss : ScopeStack) (r : Parsed)
    (h : parse_assignment_statement fuel tokens i ss true = .ok r) :
    ∃ id j table pre sym post v, tokens[i]? = some id ∧ ss[j]? = some table ∧
      table = pre ++ sym :: post ∧ sym.name = id.str_val ∧
      (∀ s ∈ pre, s.name ≠ id.str_val) ∧
      (∀ k t, j < k → ss[k]? = some t → ∀ s ∈ t, s.name ≠ id.str_val) ∧
      find_symbol_in_scope_stack ss id.str_val = some sym ∧
      r.scope_stack = ss.set j (pre ++ { sym with value := v } :: post) := by
  unfold parse_assignment_statement at h
  have hsome : ∃ id, tokens[i]? = some id := by
    cases hid : tokens[i]? with
    | none => rw [hid] at h; cases h
    | some id => exact ⟨id, rfl⟩
  obtain ⟨id, hid⟩ := hsome
  rw [hid] at h
  simp only at h
  split at h
  · cases h
  · cases hj : find_target_table ss id.str_val with
    | none => rw [hj] at h; cases h
    | some j =>
      rw [hj] at h
      simp only at h
      obtain ⟨table, h1, h2, h3, h4⟩ := find_target_table_spec hj
      obtain ⟨pre, sym, post, h5, h6, h7, h8⟩ := find_symbol_split h2
      have key : ∀ ss1, (ss1 = ss ∨ ∃ v, update_symbol_at ss j id.str_val v = .ok ss1) →
          ∃ v, ss1 = ss.set j (pre ++ { sym with value := v } :: post) := by
        intro ss1 hs
        rcases hs with hs | ⟨v, hs⟩
        · refine ⟨sym.value, ?_⟩
          rw [hs]
          have : (pre ++ { sym with value := sym.value } :: post) = table := by rw [h5]
          rw [this]
          exact (set_of_getElem? h1).symm
        · refine ⟨v, ?_⟩
          simp only [update_symbol_at, h1] at hs
          rw [h5, update_symbol_split h6 h7 v] at hs
          simp only [Except.ok.injEq] at hs
          exact hs.symm
      have fin : ∀ ss1, (ss1 = ss ∨ ∃ v, update_symbol_at ss j id.str_val v = .ok ss1) →
          r.scope_stack = ss1 →
          ∃ id j table pre sym post v, tokens[i]? = some id ∧ ss[j]? = some table ∧
            table = pre ++ sym :: post ∧ sym.name = id.str_val ∧
            (∀ s ∈ pre, s.name ≠ id.str_val) ∧
            (∀ k t, j < k → ss[k]? = some t → ∀ s ∈ t, s.name ≠ id.str_val) ∧
            find_symbol_in_scope_stack ss id.str_val = some sym ∧
            r.scope_stack = ss.set j (pre ++ { sym with value := v } :: post) := by
        intro ss1 hs hr
        obtain ⟨v, hv⟩ := key ss1 hs
        exact ⟨id, j, table, pre, sym, post, v, hid, h1, h5, h6, h7, h3, by rw [h4, h8],
          by rw [hr, hv]⟩
      split at h
      · cases h
      · split at h
        · cases h
        · split at h
          · cases h
          · split at h
            · cases h
            · simp only [if_true] at h
              split at h
              · cases h
              · rename_i an ss1 ha
                simp only [Except.ok.injEq] at h
                subst h
                exact fin ss1 (apply_assignment_scope ha) rfl

/-- C16 at `x = 5;` parsed below the tables `[x = 1]`, `[y = 2, x = 3, x = 4]`
and `[y = 6]`: the first `x` of the middle table receives 5. -/
theorem C16_witness :
    (∃ id j table pre sym post v,
      [tId "x", tOp "=", tInt 5, tSep ";"][0]? = some id ∧
      ([[⟨"x", .VAR_INT, 1, 1, 1⟩],
        [⟨"y", .VAR_INT, 2, 1, 1⟩, ⟨"x", .VAR_INT, 3, 1, 1⟩, ⟨"x", .VAR_INT, 4, 1, 1⟩],
        [⟨"y", .VAR_INT, 6, 1, 1⟩]] : ScopeStack)[j]? = some table ∧
      table = pre ++ sym :: post ∧ sym.name = id.str_val ∧
      (∀ s ∈ pre, s.name ≠ id.str_val) ∧
      (∀ k t, j < k →
        ([[⟨"x", .VAR_INT, 1, 1, 1⟩],
          [⟨"y", .VAR_INT, 2, 1, 1⟩, ⟨"x", .VAR_INT, 3, 1, 1⟩, ⟨"x", .VAR_INT, 4, 1, 1⟩],
          [⟨"y", .VAR_INT, 6, 1, 1⟩]] : ScopeStack)[k]? = some t →
        ∀ s ∈ t, s.name ≠ id.str_val) ∧
      find_symbol_in_scope_stack
        [[⟨"x", .VAR_INT, 1, 1, 1⟩],
         [⟨"y", .VAR_INT, 2, 1, 1⟩, ⟨"x", .VAR_INT, 3, 1, 1⟩, ⟨"x", .VAR_INT, 4, 1, 1⟩],
         [⟨"y", .VAR_INT, 6, 1, 1⟩]] id.str_val = some sym ∧
      (Parsed.mk
        (.mk .NODE_ASSIGNMENT (.str_val (some "=")) 1 1
          (.mk .NODE_IDENTIFIER (.str_val (some "x")) 1 1 .NULL .NULL) (lit_node 5 1 1))
        0 4
        [[⟨"x", .VAR_INT, 1, 1, 1⟩],
         [⟨"y", .VAR_INT, 2, 1, 1⟩, ⟨"x", .VAR_INT, 5, 1, 1⟩, ⟨"x", .VAR_INT, 4, 1, 1⟩],
         [⟨"y", .VAR_INT, 6, 1, 1⟩]]).scope_stack =
        List.set
          [[⟨"x", .VAR_INT, 1, 1, 1⟩],
           [⟨"y", .VAR_INT, 2, 1, 1⟩, ⟨"x", .VAR_INT, 3, 1, 1⟩, ⟨"x", .VAR_INT, 4, 1, 1⟩],
           [⟨"y", .VAR_INT, 6, 1, 1⟩]] j (pre ++ { sym with value := v } :: post)) :=
  C16_assignment_changes_only_the_looked_up_symbol 5 [tId "x", tOp "=", tInt 5, tSep ";"] 0
    [[⟨"x", .VAR_INT, 1, 1, 1⟩],
     [⟨"y", .VAR_INT, 2, 1, 1⟩, ⟨"x", .VAR_INT, 3, 1, 1⟩, ⟨"x", .VAR_INT, 4, 1, 1⟩],
     [⟨"y", .VAR_INT, 6, 1, 1⟩]] _ (by decide)

/-! ## Declarations -/

theorem add_symbol_current_top (outer : ScopeStack) (top : SymbolTable) (name : String)
    (v ln cl : Int) :
    add_symbol_current (outer ++ [top]) name v ln cl =
      outer ++ [top ++ [⟨name, .VAR_INT, v, ln, cl⟩]] := by
  simp [add_symbol_current, add_symbol]

theorem peek_str_ok {tokens : List Token} {i : Nat} {t : Token} {s : String}
    (ht : tokens[i]? = some t) (hty : t.type ≠ .INT) :
    peek_str tokens i s = .ok (decide (t.str_val = s)) := by
  simp [peek_str, ht, token_str_of_ne_int hty]

/-- A declaration `int x = e ;` whose initialiser evaluates to `v`: the
node, the cursor and the scope stack it returns. -/
theorem parse_variable_declaration_init {e : Expr} {te : List Token} (hs : Spells e te)
    (hok : e.PrecOk) (ss : ScopeStack) (v : Int) (hv : e.eval ss = .ok v)
    (kw id eq semi : Token) (hkw1 : kw.type = .KEYWORD) (hkw2 : kw.str_val = "int")
    (hid : id.type = .IDENTIFIER) (heq1 : eq.type = .OPERATOR) (heq2 : eq.str_val = "=")
    (hsemi1 : semi.type = .SEPARATOR) (hsemi2 : semi.str_val = ";")
    (tokens : List Token) (i : Nat) (rest : List Token)
    (hd : tokens.drop i = kw :: id :: eq :: (te ++ semi :: rest))
    (fuel : Nat) (hf : te.length + 2 ≤ fuel) (active : Bool) :
    ∃ ln cl, parse_variable_declaration fuel tokens i ss active =
      .ok ⟨(createNode .NODE_VAR_DECL (some id.str_val) id.line id.col).set_left
             (lit_node v ln cl),
           0, i + te.length + 4,
           if active then add_symbol_current ss id.str_val v id.line id.col else ss⟩ := by
  have htk := getElem?_of_drop_eq_cons hd
  have hd1 := drop_succ_of_drop_eq_cons hd
  have hti := getElem?_of_drop_eq_cons hd1
  have hd2 := drop_succ_of_drop_eq_cons hd1
  have hte := getElem?_of_drop_eq_cons hd2
  have hd3 : tokens.drop (i + 1 + 1 + 1) = te ++ semi :: rest := drop_succ_of_drop_eq_cons hd2
  have hd4 := drop_add_of_drop_eq_append hd3
  have hts := getElem?_of_drop_eq_cons hd4
  have hrest : ∀ t r, semi :: rest = t :: r → t.type = .OPERATOR →
      get_precedence t.str_val < 0 := by
    intro t r h hty; simp at h; rw [← h.1, hsemi1] at hty; cases hty
  obtain ⟨g, rfl⟩ : ∃ g, fuel = g + 1 := ⟨fuel - 1, by omega⟩
  obtain ⟨ln, cl, hpe⟩ := parse_expression_value hs ss v hv hok tokens (i + 1 + 1 + 1)
    (semi :: rest) hd3 hrest g (by omega)
  refine ⟨ln, cl, ?_⟩
  have hpk : peek_typed tokens i .KEYWORD "int" = true := by
    simp [peek_typed, htk, hkw1, hkw2]
  unfold parse_variable_declaration
  rw [if_pos hpk]
  unfold parse_variable_declaration_loop
  simp only [hti]
  have h1 : ¬ (id.type ≠ TokenType.IDENTIFIER) := by simp [hid]
  rw [if_neg h1]
  rw [peek_str_ok hte (by rw [heq1]; decide)]
  simp only [heq2, decide_True, if_true, hpe, hts]
  rw [token_str_of_ne_int (by rw [hsemi1]; decide)]
  simp only [hsemi2, if_true, Node.is_null]
  have hini : initial_value_of (lit_node v ln cl) ss = v := by
    simp [initial_value_of, lit_node, Node.has_type, Node.get_int]
  rw [hini]
  have hc : i + 1 + 1 + 1 + te.length + 1 = i + te.length + 4 := by omega
  rw [hc]

/-- A declaration `int x ;` without initialiser. -/
theorem parse_variable_declaration_plain (ss : ScopeStack)
    (kw id semi : Token) (hkw1 : kw.type = .KEYWORD) (hkw2 : kw.str_val = "int")
    (hid : id.type = .IDENTIFIER) (hsemi1 : semi.type = .SEPARATOR) (hsemi2 : semi.str_val = ";")
    (tokens : List Token) (i : Nat) (rest : List Token)
    (hd : tokens.drop i = kw :: id :: semi :: rest)
    (fuel : Nat) (hf : 1 ≤ fuel) (active : Bool) :
    parse_variable_declaration fuel tokens i ss active =
      .ok ⟨createNode .NODE_VAR_DECL (some id.str_val) id.line id.col,
           0, i + 3,
           if active then add_symbol_current ss id.str_val 0 id.line id.col else ss⟩ := by
  have htk := getElem?_of_drop_eq_cons hd
  have hd1 := drop_succ_of_drop_eq_cons hd
  have hti := getElem?_of_drop_eq_cons hd1
  have hd2 := drop_succ_of_drop_eq_cons hd1
  have hts := getElem?_of_drop_eq_cons hd2
  obtain ⟨g, rfl⟩ : ∃ g, fuel = g + 1 := ⟨fuel - 1, by omega⟩
  have hpk : peek_typed tokens i .KEYWORD "int" = true := by
    simp [peek_typed, htk, hkw1, hkw2]
  unfold parse_variable_declaration
  rw [if_pos hpk]
  unfold parse_variable_declaration_loop
  simp only [hti]
  have h1 : ¬ (id.type ≠ TokenType.IDENTIFIER) := by simp [hid]
  rw [if_neg h1]
  rw [peek_str_ok hts (by rw [hsemi1]; decide)]
  have hne : ¬ (semi.str_val = "=") := by rw [hsemi2]; decide
  simp only [hne, decide_False, Bool.false_eq_true, if_false, hts]
  rw [token_str_of_ne_int (by rw [hsemi1]; decide)]
  simp only [hsemi2, if_true, Node.is_null]
  have hini : initial_value_of .NULL ss = 0 := by
    simp [initial_value_of, Node.has_type]
  rw [hini]
  rfl

/-- C18: a declaration `int x = e ;` whose initialiser evaluates to `v`,
parsed with `condition_active = true`, appends one symbol named `x` with
value `v` to the top table and leaves the tables below and the symbols
already in the top table as they are; parsed with `condition_active =
false` it leaves the scope stack unchanged.  A declaration `int x ;` does
the same with the value 0.  The cursor ends behind the `;`. -/
theorem C18_declaration_adds_one_symbol_to_top_table :
    (∀ (e : Expr) (te : List Token), Spells e te → e.PrecOk →
      ∀ (outer : ScopeStack) (top : SymbolTable) (v : Int), e.eval (outer ++ [top]) = .ok v →
      ∀ (kw id eq semi : Token), kw.type = .KEYWORD → kw.str_val = "int" →
        id.type = .IDENTIFIER → eq.type = .OPERATOR → eq.str_val = "=" →
        semi.type = .SEPARATOR → semi.str_val = ";" →
      ∀ (tokens : List Token) (i : Nat) (rest : List Token),
        tokens.drop i = kw :: id :: eq :: (te ++ semi :: rest) →
      ∀ fuel, te.length + 2 ≤ fuel →
        state_of (parse_variable_declaration fuel tokens i (outer ++ [top]) true) =
          .ok (i + te.length + 4,
               outer ++ [top ++ [⟨id.str_val, .VAR_INT, v, id.line, id.col⟩]]) ∧
        state_of (parse_variable_declaration fuel tokens i (outer ++ [top]) false) =
          .ok (i + te.length + 4, outer ++ [top])) ∧
    (∀ (outer : ScopeStack) (top : SymbolTable) (kw id semi : Token),
        kw.type = .KEYWORD → kw.str_val = "int" → id.type = .IDENTIFIER →
        semi.type = .SEPARATOR → semi.str_val = ";" →
      ∀ (tokens : List Token) (i : Nat) (rest : List Token),
        tokens.drop i = kw :: id :: semi :: rest →
      ∀ fuel, 1 ≤ fuel →
        state_of (parse_variable_declaration fuel tokens i (outer ++ [top]) true) =
          .ok (i + 3, outer ++ [top ++ [⟨id.str_val, .VAR_INT, 0, id.line, id.col⟩]]) ∧
        state_of (parse_variable_declaration fuel tokens i (outer ++ [top]) false) =
          .ok (i + 3, outer ++ [top])) := by
  constructor
  · intro e te hs hok outer top v hv kw id eq semi hkw1 hkw2 hid heq1 heq2 hsemi1 hsemi2
      tokens i rest hd fuel hf
    obtain ⟨ln, cl, h1⟩ := parse_variable_declaration_init hs hok (outer ++ [top]) v hv kw id eq
      semi hkw1 hkw2 hid heq1 heq2 hsemi1 hsemi2 tokens i rest hd fuel hf true
    obtain ⟨ln', cl', h2⟩ := parse_variable_declaration_init hs hok (outer ++ [top]) v hv kw id
      eq semi hkw1 hkw2 hid heq1 heq2 hsemi1 hsemi2 tokens i rest hd fuel hf false
    rw [h1, h2]
    simp [state_of, Parsed.state, add_symbol_current_top]
  · intro outer top kw id semi hkw1 hkw2 hid hsemi1 hsemi2 tokens i rest hd fuel hf
    rw [parse_variable_declaration_plain (outer ++ [top]) kw id semi hkw1 hkw2 hid hsemi1 hsemi2
        tokens i rest hd fuel hf true,
      parse_variable_declaration_plain (outer ++ [top]) kw id semi hkw1 hkw2 hid hsemi1 hsemi2
        tokens i rest hd fuel hf false]
    simp [state_of, Parsed.state, add_symbol_current_top]

/-- C18 at `int x = y + 1 ;` and at `int x ;`, parsed below the tables
`[y = 4]` and `[z = 7]`. -/
theorem C18_witness :
    (state_of (parse_variable_declaration 5
        [tKw "int", tId "x", tOp "=", tId "y", tOp "+", tInt 1, tSep ";"] 0
        ([[⟨"y", .VAR_INT, 4, 1, 1⟩]] ++ [[⟨"z", .VAR_INT, 7, 1, 1⟩]]) true) =
      .ok (0 + [tId "y", tOp "+", tInt 1].length + 4,
           [[⟨"y", .VAR_INT, 4, 1, 1⟩]] ++
             [[⟨"z", .VAR_INT, 7, 1, 1⟩] ++ [⟨(tId "x").str_val, .VAR_INT, 5, (tId "x").line,
               (tId "x").col⟩]]) ∧
     state_of (parse_variable_declaration 5
        [tKw "int", tId "x", tOp "=", tId "y", tOp "+", tInt 1, tSep ";"] 0
        ([[⟨"y", .VAR_INT, 4, 1, 1⟩]] ++ [[⟨"z", .VAR_INT, 7, 1, 1⟩]]) false) =
      .ok (0 + [tId "y", tOp "+", tInt 1].length + 4,
           [[⟨"y", .VAR_INT, 4, 1, 1⟩]] ++ [[⟨"z", .VAR_INT, 7, 1, 1⟩]])) ∧
    (state_of (parse_variable_declaration 1 [tKw "int", tId "x", tSep ";"] 0
        ([[⟨"y", .VAR_INT, 4, 1, 1⟩]] ++ [[⟨"z", .VAR_INT, 7, 1, 1⟩]]) true) =
      .ok (0 + 3,
           [[⟨"y", .VAR_INT, 4, 1, 1⟩]] ++
             [[⟨"z", .VAR_INT, 7, 1, 1⟩] ++ [⟨(tId "x").str_val, .VAR_INT, 0, (tId "x").line,
               (tId "x").col⟩]]) ∧
     state_of (parse_variable_declaration 1 [tKw "int", tId "x", tSep ";"] 0
        ([[⟨"y", .VAR_INT, 4, 1, 1⟩]] ++ [[⟨"z", .VAR_INT, 7, 1, 1⟩]]) false) =
      .ok (0 + 3, [[⟨"y", .VAR_INT, 4, 1, 1⟩]] ++ [[⟨"z", .VAR_INT, 7, 1, 1⟩]])) :=
  ⟨C18_declaration_adds_one_symbol_to_top_table.1
      (.bin "+" (.var "y") (.lit 1)) [tId "y", tOp "+", tInt 1]
      (Spells.bin (tOp "+") (.var "y") (.lit 1) [tId "y"] [tInt 1] rfl
        (Spells.var (tId "y") rfl) (Spells.lit (tInt 1) rfl))
      (by simp [Expr.PrecOk, Expr.top, get_precedence, tOp]) [[⟨"y", .VAR_INT, 4, 1, 1⟩]] [⟨"z", .VAR_INT, 7, 1, 1⟩] 5 (by decide)
      (tKw "int") (tId "x") (tOp "=") (tSep ";") rfl rfl rfl rfl rfl rfl rfl
      [tKw "int", tId "x", tOp "=", tId "y", tOp "+", tInt 1, tSep ";"] 0 [] rfl 5 (by decide),
   C18_declaration_adds_one_symbol_to_top_table.2
      [[⟨"y", .VAR_INT, 4, 1, 1⟩]] [⟨"z", .VAR_INT, 7, 1, 1⟩]
      (tKw "int") (tId "x") (tSep ";") rfl rfl rfl rfl rfl
      [tKw "int", tId "x", tSep ";"] 0 [] rfl 1 (by decide)⟩

/-! ## Code generation for `if` chains -/

set_option maxRecDepth 100000 in
set_option maxHeartbeats 4000000 in
/-- C14 (the code departs from the claim): for `if (1) { } else { exit(5); }
exit(3);` the generated file exits with status 5, and for `if (0) { } else
if (0) { exit(7); } exit(3);` with status 7: the `exit` of the inactive
`else` or `else if` block is the one emitted.  An `exit` in an inactive
`then` block is not emitted, and the one of an active `else` block is. -/
theorem C14_exit_of_inactive_else_branch_is_emitted :
    generated 20 exit_in_inactive_else = .ok (exits_with 5) ∧
    generated 20 exit_in_inactive_else_if = .ok (exits_with 7) ∧
    generated 20 exit_in_inactive_then = .ok (exits_with 3) ∧
    generated 20 exit_in_active_else = .ok (exits_with 5) := by
  refine ⟨?_, ?_, ?_, ?_⟩ <;> decide!

/-! ## Redeclaration within one table -/

/-- C19, at `v1 = 1` and `v2 = 2`: after `int x = 1; int x = 2;` the
lookup of `x` does not give 2, and the generated file does not exit with
status 2. -/
theorem C19_redeclaration_does_not_shadow :
    final_lookup (parse_with_scopes 6 (redeclared 1 2)) "x" ≠ .ok (some 2) ∧
    generated 6 (redeclared 1 2) ≠ .ok (exits_with 2) := by
  constructor <;> decide

/-- C19 (as amended): redeclaring a name in the same table is accepted and
appends a second symbol of that name, but the lookup keeps returning the
first one: after `int x = v1; int x = v2;` the table holds `x = v1` and
`x = v2` in this order, the lookup of `x` gives `v1`, and `exit(x);` emits
the status `v1`. -/
theorem C19_lookup_returns_first_declaration (v1 v2 : Int) (fuel : Nat) (hf : 6 ≤ fuel) :
    final_values (parse_with_scopes fuel (redeclared v1 v2)) = .ok [[("x", v1), ("x", v2)]] ∧
    final_lookup (parse_with_scopes fuel (redeclared v1 v2)) "x" = .ok (some v1) ∧
    generated fuel (redeclared v1 v2) = .ok (exits_with v1) := by
  obtain ⟨g, rfl⟩ : ∃ g, fuel = g + 6 := ⟨fuel - 6, by omega⟩
  exact ⟨rfl, rfl, rfl⟩

/-- C19 (as amended) at `int x = 1; int x = 2; exit(x);`. -/
theorem C19_witness :
    final_values (parse_with_scopes 6 (redeclared 1 2)) = .ok [[("x", 1), ("x", 2)]] ∧
    final_lookup (parse_with_scopes 6 (redeclared 1 2)) "x" = .ok (some 1) ∧
    generated 6 (redeclared 1 2) = .ok (exits_with 1) :=
  C19_lookup_returns_first_declaration 1 2 6 (by decide)

/-! ## Straight-line programs: the generated exit status -/

theorem traverse_tree_quiet_leaf {n : Node} (h : n.quiet_leaf) (scope : ScopeType) (a : Bool)
    (st : Emitted) : traverse_tree n scope a st = st := by
  rcases h with h | ⟨ty, val, ln, cl, hty, h⟩
  · subst h; rfl
  · subst h
    rcases hty with hty | hty <;> subst hty <;>
    · unfold traverse_tree
      split
      · rfl
      · simp [traverse_tree]

theorem traverse_tree_chain {L : Node} {c : Nat} {o : Option Int} (h : Chain L c o)
    (scope : ScopeType) (out : List String) :
    traverse_tree L scope true ⟨out, false⟩ = emitted_after out o := by
  induction h with
  | quiet_last ty val ln cl l r hty hl hr =>
    rcases hty with hty | hty <;> subst hty <;>
    · unfold traverse_tree
      simp [traverse_tree_quiet_leaf hl, traverse_tree_quiet_leaf hr, emitted_after]
  | exit_last val ln cl v ln1 cl1 =>
    unfold traverse_tree
    simp [emit_exit, emitted_after, emitted_status, lit_node, Node.is_null, Node.get_int]
  | quiet_cons ty val ln cl l R c o hty hl _ ih =>
    rcases hty with hty | hty <;> subst hty <;>
    · unfold traverse_tree
      simp [traverse_tree_quiet_leaf hl, ih]
  | exit_cons val ln cl v ln1 cl1 R c o _ _ =>
    unfold traverse_tree
    simp [emit_exit, emitted_after, emitted_status, lit_node, Node.is_null, Node.get_int]

theorem chain_set_right_at {L : Node} {c : Nat} {o : Option Int} (h : Chain L c o)
    {N : Node} {o1 : Option Int} (hN : Chain N 0 o1) :
    Chain (L.set_right_at c N) (c + 1) (o.orElse (fun _ => o1)) := by
  induction h with
  | quiet_last ty val ln cl l r hty hl hr =>
    exact Chain.quiet_cons ty val ln cl l N 0 o1 hty hl hN
  | exit_last val ln cl v ln1 cl1 =>
    exact Chain.exit_cons val ln cl v ln1 cl1 N 0 o1 hN
  | quiet_cons ty val ln cl l R c o hty hl _ ih =>
    exact Chain.quiet_cons ty val ln cl l _ (c + 1) _ hty hl ih
  | exit_cons val ln cl v ln1 cl1 R c o _ ih =>
    exact Chain.exit_cons val ln cl v ln1 cl1 _ (c + 1) _ ih

theorem chain_is_null {L : Node} {c : Nat} {o : Option Int} (h : Chain L c o) :
    L.is_null = false := by
  cases h <;> rfl

theorem find_symbol_single (t : SymbolTable) (x : String) :
    find_symbol_in_scope_stack [t] x = find_symbol t x := by
  simp [find_symbol_in_scope_stack]

theorem Expr.eval_of_value {t : SymbolTable} {env : Env} (hag : Agrees t env) (e : Expr) :
    ∀ v, e.value env = some v → e.eval [t] = .ok v := by
  induction e with
  | lit n => intro v h; simp only [Expr.value, Option.some.injEq] at h; subst h; rfl
  | var x =>
    intro v h
    simp only [Expr.value] at h
    have := hag x
    rw [h] at this
    simp only [Expr.eval, find_symbol_single]
    cases hf : find_symbol t x with
    | none => rw [hf] at this; cases this
    | some sym => rw [hf] at this; simp only [Option.map_some', Option.some.injEq] at this; simp [this]
  | paren e ih => intro v h; exact ih v h
  | bin op l r ihl ihr =>
    intro v h
    simp only [Expr.value] at h
    cases hl : l.value env with
    | none => rw [hl] at h; cases h
    | some a =>
      rw [hl] at h
      simp only at h
      cases hr : r.value env with
      | none => rw [hr] at h; cases h
      | some b =>
        rw [hr] at h
        simp only at h
        simp only [Expr.eval, ihl a hl, ihr b hr]
        exact (eval_binary_eq_spec op a b v).mpr h

theorem find_symbol_append (t : SymbolTable) (s : Symbol) (y : String) :
    find_symbol (t ++ [s]) y =
      match find_symbol t y with
      | some z => some z
      | none => if s.name = y then some s else none := by
  induction t with
  | nil => simp [find_symbol]
  | cons a rest ih =>
    show find_symbol (a :: (rest ++ [s])) y = _
    simp only [find_symbol]
    by_cases h : a.name = y
    · simp [h]
    · simp only [h, if_false]; exact ih

theorem agrees_add {t : SymbolTable} {env : Env} (hag : Agrees t env) {x : String}
    (hx : env x = none) (ty : VarType) (v ln cl : Int) :
    Agrees (t ++ [⟨x, ty, v, ln, cl⟩]) (env.set x v) := by
  intro y
  rw [find_symbol_append]
  have hy := hag y
  by_cases h : y = x
  · subst h
    rw [hx] at hy
    cases hf : find_symbol t y with
    | some z => rw [hf] at hy; cases hy
    | none => simp [Env.set]
  · have h' : ¬ (x = y) := fun e => h e.symm
    cases hf : find_symbol t y with
    | some z => rw [hf] at hy; simp [Env.set, h, ← hy]
    | none => rw [hf] at hy; simp [Env.set, h, h', ← hy]

theorem names_unique_add {t : SymbolTable} (hu : names_unique t) {x : String}
    (hx : ∀ s ∈ t, s.name ≠ x) (ty : VarType) (v ln cl : Int) :
    names_unique (t ++ [⟨x, ty, v, ln, cl⟩]) := by
  unfold names_unique at hu ⊢
  rw [List.map_append, List.nodup_append]
  refine ⟨hu, by simp, ?_⟩
  intro a ha hb
  simp only [List.map_cons, List.map_nil, List.mem_singleton] at hb
  obtain ⟨s, hs, hn⟩ := List.mem_map.mp ha
  exact hx s hs (hn.trans hb)

theorem update_symbol_names {t t1 : SymbolTable} {x : String} {v : Int}
    (h : update_symbol t x v = .ok t1) :
    t1.map (fun sym => sym.name) = t.map (fun sym => sym.name) := by
  induction t generalizing t1 with
  | nil => cases h
  | cons a rest ih =>
    simp only [update_symbol] at h
    split at h
    · simp only [Except.ok.injEq] at h; subst h; rfl
    · cases hr : update_symbol rest x v with
      | error e => rw [hr] at h; cases h
      | ok r =>
        rw [hr] at h
        simp only [Except.ok.injEq] at h
        subst h
        simp [ih hr]

theorem update_symbol_find {t : SymbolTable} {x : String} {sym : Symbol}
    (hf : find_symbol t x = some sym) (v : Int) :
    ∃ t1, update_symbol t x v = .ok t1 ∧
      ∀ y, (find_symbol t1 y).map (fun s => s.value) =
        if y = x then some v else (find_symbol t y).map (fun s => s.value) := by
  induction t with
  | nil => cases hf
  | cons a rest ih =>
    simp only [find_symbol] at hf
    by_cases h : a.name = x
    · refine ⟨{ a with value := v } :: rest, by simp [update_symbol, h], ?_⟩
      intro y
      by_cases hy : y = x
      · subst hy; simp [find_symbol, h]
      · have : ¬ (a.name = y) := fun e => hy (e.symm.trans h)
        simp [find_symbol, this, hy]
    · simp only [h, if_false] at hf
      obtain ⟨r, hr, hrf⟩ := ih hf
      refine ⟨a :: r, by simp [update_symbol, h, hr], ?_⟩
      intro y
      by_cases hy : y = x
      · subst hy; simp only [find_symbol, h, if_false, if_true]; simpa using hrf y
      · simp only [find_symbol, hy, if_false]
        by_cases hay : a.name = y
        · simp [hay]
        · simp only [hay, if_false]; simpa [hy] using hrf y

/-- A compound assignment operator stores what the binary operator gives. -/
theorem compound_result_of_eval_binary {s : String} (hs : is_assignment_operator s = true)
    (hne : s ≠ "=") (cur r v : Int) (h : eval_binary (strip_assign s) cur r = .ok v) :
    compound_result (some (strip_assign s)) cur r = .ok v := by
  simp only [is_assignment_operator, decide_eq_true_eq] at hs
  rcases hs with hs | hs | hs | hs | hs | hs | hs | hs
  · exact absurd hs hne
  all_goals subst hs
  · have e : strip_assign "+=" = "+" := by decide
    rw [e] at h ⊢
    simp [eval_binary] at h
    simp [compound_result, h]
  · have e : strip_assign "-=" = "-" := by decide
    rw [e] at h ⊢
    simp [eval_binary] at h
    simp [compound_result, h]
  · have e : strip_assign "*=" = "*" := by decide
    rw [e] at h ⊢
    simp [eval_binary] at h
    simp [compound_result, h]
  · have e : strip_assign "/=" = "/" := by decide
    rw [e] at h ⊢
    simp [eval_binary] at h
    by_cases h0 : r = 0
    · rw [if_pos h0] at h; cases h
    · rw [if_neg h0] at h
      simp [compound_result, h0, h]
  · have e : strip_assign "%=" = "%" := by decide
    rw [e] at h ⊢
    simp [eval_binary] at h
    by_cases h0 : r = 0
    · rw [if_pos h0] at h; cases h
    · rw [if_neg h0] at h
      simp [compound_result, h0, h]
  · have e : strip_assign "<<=" = "<<" := by decide
    rw [e] at h ⊢
    simp [eval_binary] at h
    simp [compound_result, h]
  · have e : strip_assign ">>=" = ">>" := by decide
    rw [e] at h ⊢
    simp [eval_binary] at h
    simp [compound_result, h]

theorem parse_statement_int {f : Nat} {tokens : List Token} {i : Nat} {kw : Token}
    (ss : ScopeStack) (active : Bool) (hti : tokens[i]? = some kw)
    (h1 : kw.type = .KEYWORD) (h2 : kw.str_val = "int") :
    parse_statement (f + 1) tokens i ss active =
      parse_variable_declaration f tokens i ss active := by
  rw [parse_statement]
  simp only [hti]
  rw [if_pos ⟨h1, h2⟩]

theorem parse_statement_exit {f : Nat} {tokens : List Token} {i : Nat} {kw : Token}
    (ss : ScopeStack) (active : Bool) (hti : tokens[i]? = some kw)
    (h1 : kw.type = .KEYWORD) (h2 : kw.str_val = "exit") :
    parse_statement (f + 1) tokens i ss active = parse_exit_statement f tokens i ss := by
  rw [parse_statement]
  simp only [hti]
  have hn : ¬ (kw.type = TokenType.KEYWORD ∧ kw.str_val = "int") := by
    rw [h2]; intro h; exact absurd h.2 (by decide)
  rw [if_neg hn, if_pos ⟨h1, h2⟩]

/-- An `exit ( e ) ;` whose argument evaluates to `v`. -/
theorem parse_exit_statement_value {e : Expr} {te : List Token} (hs : Spells e te)
    (hok : e.PrecOk) (ss : ScopeStack) (v : Int) (hv : e.eval ss = .ok v)
    (kw lp rp semi : Token) (hlp1 : lp.type = .SEPARATOR) (hlp2 : lp.str_val = "(")
    (hrp1 : rp.type = .SEPARATOR) (hrp2 : rp.str_val = ")")
    (hsemi1 : semi.type = .SEPARATOR) (hsemi2 : semi.str_val = ";")
    (tokens : List Token) (i : Nat) (rest : List Token)
    (hd : tokens.drop i = kw :: lp :: (te ++ rp :: semi :: rest))
    (fuel : Nat) (hf : te.length + 1 ≤ fuel) :
    ∃ ln cl, parse_exit_statement fuel tokens i ss =
      .ok ⟨(createNode .NODE_EXIT_CALL (some "exit") kw.line kw.col).set_left
             (lit_node v ln cl),
           0, i + te.length + 4, ss⟩ := by
  have htk := getElem?_of_drop_eq_cons hd
  have hd1 := drop_succ_of_drop_eq_cons hd
  have htl := getElem?_of_drop_eq_cons hd1
  have hd2 : tokens.drop (i + 1 + 1) = te ++ rp :: semi :: rest := drop_succ_of_drop_eq_cons hd1
  have hd3 := drop_add_of_drop_eq_append hd2
  have htr := getElem?_of_drop_eq_cons hd3
  have hd4 := drop_succ_of_drop_eq_cons hd3
  have hts := getElem?_of_drop_eq_cons hd4
  have hrest : ∀ t r, rp :: semi :: rest = t :: r → t.type = .OPERATOR →
      get_precedence t.str_val < 0 := by
    intro t r h hty; simp at h; rw [← h.1, hrp1] at hty; cases hty
  obtain ⟨ln, cl, hpe⟩ := parse_expression_value hs ss v hv hok tokens (i + 1 + 1)
    (rp :: semi :: rest) hd2 hrest fuel hf
  refine ⟨ln, cl, ?_⟩
  unfold parse_exit_statement
  simp only [htk]
  rw [expect_str_ok htl (by rw [hlp1]; decide) hlp2]
  simp only [hpe]
  have hu : exit_arg_unresolved (lit_node v ln cl) ss = false := by
    simp [exit_arg_unresolved, lit_node, Node.has_type]
  rw [hu]
  simp only [Bool.false_eq_true, if_false]
  rw [expect_str_ok htr (by rw [hrp1]; decide) hrp2]
  simp only
  rw [expect_str_ok hts (by rw [hsemi1]; decide) hsemi2]
  have hc : i + 1 + 1 + te.length + 2 = i + te.length + 4 := by omega
  simp only [hc]

/-- The node of an assignment statement parsed with `condition_active =
true`: an assignment node over an identifier and a literal. -/
theorem parse_assignment_statement_chain (fuel : Nat) (tokens : List Token) (i : Nat)
    (ss : ScopeStack) (r : Parsed)
    (h : parse_assignment_statement fuel tokens i ss true = .ok r) :
    r.last = 0 ∧ Chain r.node 0 none := by
  unfold parse_assignment_statement at h
  have hsome : ∃ id, tokens[i]? = some id := by
    cases hid : tokens[i]? with
    | none => rw [hid] at h; cases h
    | some id => exact ⟨id, rfl⟩
  obtain ⟨id, hid⟩ := hsome
  rw [hid] at h
  simp only at h
  split at h
  · cases h
  · cases hj : find_target_table ss id.str_val with
    | none => rw [hj] at h; cases h
    | some j =>
      rw [hj] at h
      simp only at h
      split at h
      · cases h
      · rename_i op hop
        split at h
        · cases h
        · split at h
          · cases h
          · rename_i expr i1 hpe
            obtain ⟨v, ln, cl, rfl⟩ := (parse_expression_literal_aux fuel).2.1 _ _ _ _ _ _ hpe
            split at h
            · cases h
            · simp only [if_true] at h
              have hleafI : (createNode .NODE_IDENTIFIER (some id.str_val) id.line
                  id.col).quiet_leaf :=
                Or.inr ⟨_, _, _, _, Or.inr rfl, rfl⟩
              by_cases heq : op.str_val = "="
              · have hne : ¬ (op.str_val ≠ "=") := by simp [heq]
                simp only [if_neg hne] at h
                rw [apply_assignment_simple] at h
                cases hu : update_symbol_at ss j id.str_val v with
                | error e => rw [hu] at h; cases h
                | ok s =>
                  rw [hu] at h
                  simp only [Except.map, Except.ok.injEq] at h
                  subst h
                  exact ⟨rfl, Chain.quiet_last _ _ _ _ _ _ (Or.inr rfl) hleafI
                    (Or.inr ⟨_, _, _, _, Or.inl rfl, rfl⟩)⟩
              · have hne : op.str_val ≠ "=" := heq
                simp only [if_pos hne] at h
                rw [apply_assignment_compound_eq] at h
                cases hc : compound_result (some (strip_assign op.str_val))
                      (current_value_at ss j id.str_val) v with
                | error e => rw [hc] at h; cases h
                | ok w =>
                  rw [hc] at h
                  simp only at h
                  cases hu : update_symbol_at ss j id.str_val w with
                  | error e => rw [hu] at h; cases h
                  | ok s =>
                    rw [hu] at h
                    simp only [Except.map, Except.ok.injEq] at h
                    subst h
                    exact ⟨rfl, Chain.quiet_last _ _ _ _ _ _ (Or.inr rfl) hleafI
                      (Or.inr ⟨_, _, _, _, Or.inl rfl, rfl⟩)⟩

theorem find_symbol_of_agrees_none {t : SymbolTable} {env : Env} (hag : Agrees t env)
    {x : String} (hx : env x = none) : find_symbol t x = none := by
  have := hag x
  rw [hx] at this
  cases hf : find_symbol t x with
  | none => rfl
  | some s => rw [hf] at this; cases this

theorem find_symbol_of_agrees_some {t : SymbolTable} {env : Env} (hag : Agrees t env)
    {x : String} {v : Int} (hx : env x = some v) :
    ∃ sym, find_symbol t x = some sym ∧ sym.value = v := by
  have := hag x
  rw [hx] at this
  cases hf : find_symbol t x with
  | none => rw [hf] at this; cases this
  | some s =>
    rw [hf] at this
    simp only [Option.map_some', Option.some.injEq] at this
    exact ⟨s, rfl, this⟩

/-- A statement of a straight-line program, parsed below the global table
alone: the node is a one-node chain with the status of the statement, and
the table follows the environment. -/
theorem parse_statement_stmt {s : Stmt} {ts : List Token} (h : SpellsStmt s ts)
    {t : SymbolTable} {env : Env} (hag : Agrees t env) {env1 : Env} {o : Option Int}
    (hrun : s.run env = some (env1, o))
    (tokens : List Token) (i : Nat) (rest : List Token) (hd : tokens.drop i = ts ++ rest)
    (fuel : Nat) (hf : ts.length + 1 ≤ fuel) :
    ∃ r t1, parse_statement fuel tokens i [t] true = .ok r ∧ r.last = 0 ∧
      r.i = i + ts.length ∧ r.scope_stack = [t1] ∧ Agrees t1 env1 ∧ Chain r.node 0 o ∧
      (names_unique t → names_unique t1) := by
  obtain ⟨f, rfl⟩ : ∃ f, fuel = f + 1 := ⟨fuel - 1, by omega⟩
  cases h with
  | decl kw id eq semi e te hkw1 hkw2 hid heq1 heq2 hsemi1 hsemi2 hsp hok =>
    simp only [Stmt.run] at hrun
    cases hx : env id.str_val with
    | some c => rw [hx] at hrun; cases hrun
    | none =>
      rw [hx] at hrun
      simp only at hrun
      cases hv : e.value env with
      | none => rw [hv] at hrun; cases hrun
      | some v =>
        rw [hv] at hrun
        simp only [Option.some.injEq, Prod.mk.injEq] at hrun
        obtain ⟨rfl, rfl⟩ := hrun
        have hd0 : tokens.drop i = kw :: id :: eq :: (te ++ semi :: rest) := by simpa using hd
        have hlen : (kw :: id :: eq :: te ++ [semi]).length = te.length + 4 := by simp
        rw [hlen] at hf ⊢
        obtain ⟨ln, cl, hp⟩ := parse_variable_declaration_init hsp hok [t] v
          (Expr.eval_of_value hag e v hv) kw id eq semi hkw1 hkw2 hid heq1 heq2 hsemi1 hsemi2
          tokens i rest hd0 f (by omega) true
        rw [parse_statement_int [t] true (getElem?_of_drop_eq_cons hd0) hkw1 hkw2, hp]
        have hnone := find_symbol_of_agrees_none hag hx
        refine ⟨_, t ++ [⟨id.str_val, .VAR_INT, v, id.line, id.col⟩], rfl, rfl, rfl, ?_,
          agrees_add hag hx _ _ _ _, ?_, ?_⟩
        · simp only [if_true]
          exact add_symbol_current_top [] t _ _ _ _
        · exact Chain.quiet_last _ _ _ _ _ _ (Or.inl rfl)
            (Or.inr ⟨_, _, _, _, Or.inl rfl, rfl⟩) (Or.inl rfl)
        · intro hu
          exact names_unique_add hu (find_symbol_eq_none.mp hnone) _ _ _ _
  | assign id op semi e te hid hop hasg hsemi1 hsemi2 hsp hok =>
    simp only [Stmt.run] at hrun
    cases hx : env id.str_val with
    | none => rw [hx] at hrun; cases hrun
    | some cur =>
      rw [hx] at hrun
      simp only at hrun
      cases hv : e.value env with
      | none => rw [hv] at hrun; cases hrun
      | some rv =>
        rw [hv] at hrun
        simp only at hrun
        obtain ⟨sym, hsym, hcur⟩ := find_symbol_of_agrees_some hag hx
        have hd0 : tokens.drop i = id :: op :: (te ++ semi :: rest) := by simpa using hd
        have hti := getElem?_of_drop_eq_cons hd0
        have hto := getElem?_of_drop_eq_cons (drop_succ_of_drop_eq_cons hd0)
        have hsa : SpellsAssign ⟨id.str_val, op.str_val, e⟩ (id :: op :: te ++ [semi]) :=
          SpellsAssign.mk id op semi e te hid hop hasg hsp hok hsemi1 hsemi2
        have hst := parse_assignment_statement_spells hsa tokens i rest [t] true hd f
          (by omega)
        -- the value stored
        have hval : ∃ w, assigned_value op.str_val cur rv = .ok w ∧ env1 = env.set id.str_val w ∧
            o = none := by
          by_cases hq : op.str_val = "="
          · simp only [hq, if_true, Option.some.injEq, Prod.mk.injEq] at hrun
            exact ⟨rv, by simp [assigned_value, hq], hrun.1.symm, hrun.2.symm⟩
          · simp only [hq, if_false] at hrun
            cases hb : binop_by_spec (strip_assign op.str_val) cur rv with
            | none => rw [hb] at hrun; cases hrun
            | some w =>
              rw [hb] at hrun
              simp only [Option.some.injEq, Prod.mk.injEq] at hrun
              refine ⟨w, ?_, hrun.1.symm, hrun.2.symm⟩
              simp only [assigned_value, hq, if_false]
              exact compound_result_of_eval_binary hasg hq cur rv w
                ((eval_binary_eq_spec _ _ _ _).mpr hb)
        obtain ⟨w, hw, rfl, rfl⟩ := hval
        obtain ⟨t1, hup, hfind⟩ := update_symbol_find hsym w
        have hexec : Assign.exec true [t] ⟨id.str_val, op.str_val, e⟩ = .ok [t1] := by
          have h1 : find_target_table [t] id.str_val = some 0 := by
            simp [find_target_table, hsym]
          have h2 : current_value_at [t] 0 id.str_val = cur := by
            simp [current_value_at, hsym, hcur]
          simp only [Assign.exec, h1, Expr.eval_of_value hag e rv hv, if_true, h2, hw]
          simp [update_symbol_at, hup]
        rw [hexec] at hst
        rw [parse_statement_assignment [t] true hti hid hto hop hasg]
        cases hp : parse_assignment_statement f tokens i [t] true with
        | error x => rw [hp] at hst; simp [state_of, at_cursor] at hst
        | ok r =>
          rw [hp] at hst
          simp only [state_of, at_cursor, Parsed.state, Except.ok.injEq, Prod.mk.injEq] at hst
          obtain ⟨hl, hc⟩ := parse_assignment_statement_chain f tokens i [t] r hp
          refine ⟨r, t1, rfl, hl, hst.1, hst.2, ?_, hc, ?_⟩
          · intro y
            rw [hfind y]
            by_cases hy : y = id.str_val
            · simp [Env.set, hy]
            · simp only [hy, if_false, Env.set]
              exact hag y
          · intro hu
            unfold names_unique at hu ⊢
            rw [update_symbol_names hup]
            exact hu
  | exit kw lp rp semi e te hkw1 hkw2 hlp1 hlp2 hrp1 hrp2 hsemi1 hsemi2 hsp hok =>
    simp only [Stmt.run] at hrun
    cases hv : e.value env with
    | none => rw [hv] at hrun; cases hrun
    | some v =>
      rw [hv] at hrun
      simp only [Option.some.injEq, Prod.mk.injEq] at hrun
      obtain ⟨rfl, rfl⟩ := hrun
      have hd0 : tokens.drop i = kw :: lp :: (te ++ rp :: semi :: rest) := by simpa using hd
      have hlen : (kw :: lp :: te ++ [rp, semi]).length = te.length + 4 := by simp
      rw [hlen] at hf ⊢
      obtain ⟨ln, cl, hp⟩ := parse_exit_statement_value hsp hok [t] v
        (Expr.eval_of_value hag e v hv) kw lp rp semi hlp1 hlp2 hrp1 hrp2 hsemi1 hsemi2
        tokens i rest hd0 f (by omega)
      rw [parse_statement_exit [t] true (getElem?_of_drop_eq_cons hd0) hkw1 hkw2, hp]
      exact ⟨_, t, rfl, rfl, rfl, rfl, hag, Chain.exit_last _ _ _ _ _ _, fun hu => hu⟩

theorem spells_stmt_length {s : Stmt} {ts : List Token} (h : SpellsStmt s ts) :
    1 ≤ ts.length := by
  cases h <;> simp

theorem parse_loop_program {prog : List Stmt} {ts : List Token} (h : SpellsProgram prog ts) :
    ∀ (t : SymbolTable) (env : Env), Agrees t env →
    ∀ status, run_program env prog = some status →
    ∀ (tokens : List Token) (i : Nat), tokens.drop i = ts →
    ∀ (val : NodeValue) (ln cl : Int) (L : Node) (current : Option Nat) (o : Option Int),
      LoopInv L current o →
    ∀ fuel, ts.length + 2 ≤ fuel →
    ∃ L1 current1 t1,
      parse_loop fuel tokens i [t] (.mk .NODE_BEGIN val ln cl L .NULL) current =
        .ok (.mk .NODE_BEGIN val ln cl L1 .NULL, [t1]) ∧
      LoopInv L1 current1 (o.orElse (fun _ => status)) ∧
      (names_unique t → names_unique t1) := by
  induction h with
  | nil =>
    intro t env _ status hrun tokens i hd val ln cl L current o hinv fuel hf
    obtain ⟨f, rfl⟩ : ∃ f, fuel = f + 1 := ⟨fuel - 1, by omega⟩
    simp only [run_program, Option.some.injEq] at hrun
    subst hrun
    have hlen : ¬ (i < tokens.length) := by
      have := List.drop_eq_nil_iff.mp hd
      omega
    refine ⟨L, current, t, ?_, ?_, fun hu => hu⟩
    · rw [parse_loop, if_neg hlen]
    · cases o <;> exact hinv
  | cons s ts rest tr hs _ ih =>
    intro t env hag status hrun tokens i hd val ln cl L current o hinv fuel hf
    obtain ⟨f, rfl⟩ : ∃ f, fuel = f + 1 := ⟨fuel - 1, by omega⟩
    simp only [run_program] at hrun
    cases hr1 : s.run env with
    | none => rw [hr1] at hrun; cases hrun
    | some p =>
      obtain ⟨env1, st⟩ := p
      rw [hr1] at hrun
      simp only at hrun
      cases hr2 : run_program env1 rest with
      | none => rw [hr2] at hrun; cases hrun
      | some st1 =>
        rw [hr2] at hrun
        simp only [Option.some.injEq] at hrun
        subst hrun
        have hl1 := spells_stmt_length hs
        have hlen : (ts ++ tr).length = ts.length + tr.length := by simp
        rw [hlen] at hf
        obtain ⟨r, t1, hp, hlast, hi, hss, hag1, hch, hu1⟩ :=
          parse_statement_stmt hs hag hr1 tokens i tr hd f (by omega)
        have hilt : i < tokens.length := by
          by_contra hc
          have : tokens.drop i = [] := List.drop_eq_nil_iff.mpr (by omega)
          rw [this] at hd
          have := congrArg List.length hd
          simp at this
          omega
        have hnn : r.node.is_null = false := chain_is_null hch
        have hd1 : tokens.drop r.i = tr := by
          rw [hi]; exact drop_add_of_drop_eq_append hd
        rw [parse_loop, if_pos hilt, hp]
        simp only [hnn, Bool.false_eq_true, if_false, hss]
        rcases hinv with ⟨hc, hL, ho⟩ | ⟨c, hc, hL⟩
        · subst hc; subst hL; subst ho
          simp only
          obtain ⟨L1, c1, t2, h1, h2, h3⟩ := ih t1 env1 hag1 st1 hr2 tokens r.i hd1 val ln cl
            r.node (some r.last) st (Or.inr ⟨0, by rw [hlast], hch⟩) f (by omega)
          exact ⟨L1, c1, t2, h1, by simpa using h2, fun hu => h3 (hu1 hu)⟩
        · subst hc
          simp only
          have hch1 := chain_set_right_at hL hch
          obtain ⟨L1, c1, t2, h1, h2, h3⟩ := ih t1 env1 hag1 st1 hr2 tokens r.i hd1 val ln cl
            (L.set_right_at c r.node) (some (c + 1 + r.last)) (o.orElse (fun _ => st))
            (Or.inr ⟨c + 1, by rw [hlast], hch1⟩) f (by omega)
          refine ⟨L1, c1, t2, h1, ?_, fun hu => h3 (hu1 hu)⟩
          cases o <;> simpa using h2

theorem spells_program_nil {prog : List Stmt} {ts : List Token} (h : SpellsProgram prog ts)
    (he : ts = []) : prog = [] := by
  cases h with
  | nil => rfl
  | cons s ts1 rest tr h1 h2 =>
    have := spells_stmt_length h1
    have hl := congrArg List.length he
    simp only [List.length_append, List.length_nil] at hl
    omega

/-- C13 (as amended): for every program spelled from top-level declarations
with initialisers, simple and compound assignments and `exit` statements
whose sequential 32-bit execution is defined (every variable declared once
and before its use, no division or modulo by zero and none of -2147483648
by -1), the file that `generate_code` writes for the tree `parse` returns
exits with the value of the argument of the first `exit` statement, and
with 0 when the program has no `exit` statement.  The execution
`run_program` computes with the reference arithmetic `binop_by_spec`, which
is written without the operators of the code. -/
theorem C13_generated_status_is_first_exit_value (prog : List Stmt) (tokens : List Token)
    (hs : SpellsProgram prog tokens) (status : Option Int)
    (hrun : run_program Env.empty prog = some status)
    (fuel : Nat) (hf : tokens.length + 2 ≤ fuel) :
    generated fuel tokens = .ok (exits_with (status.getD 0)) := by
  by_cases he : tokens.length = 0
  · have hnil : tokens = [] := List.length_eq_zero.mp he
    have hprog := spells_program_nil hs hnil
    subst hnil; subst hprog
    simp only [run_program, Option.some.injEq] at hrun
    subst hrun
    rfl
  · obtain ⟨L1, c1, t1, h1, h2, _⟩ := parse_loop_program hs [] Env.empty (fun _ => rfl) status
      hrun tokens 0 rfl (.str_val (some "program")) 0 0 .NULL none none (Or.inl ⟨rfl, rfl, rfl⟩)
      fuel hf
    have hp : parse fuel tokens = .ok (.mk .NODE_BEGIN (.str_val (some "program")) 0 0 L1 .NULL) := by
      unfold parse parse_with_scopes
      rw [if_neg he]
      have hroot : createNode .NODE_BEGIN (some "program") 0 0 =
          .mk .NODE_BEGIN (.str_val (some "program")) 0 0 .NULL .NULL := rfl
      have hss : push_scope create_scope_stack create_symbol_table = [[]] := rfl
      rw [hroot, hss, h1]
    unfold generated
    rw [hp]
    have h2 : LoopInv L1 c1 status := h2
    have htr : ∀ out, traverse_tree (.mk .NODE_BEGIN (.str_val (some "program")) 0 0 L1 .NULL)
        .SCOPE_GLOBAL true ⟨out, false⟩ = emitted_after out status := by
      intro out
      unfold traverse_tree
      simp only [Bool.false_eq_true, if_false]
      rcases h2 with ⟨_, hL, ho⟩ | ⟨c, _, hch⟩
      · subst hL; subst ho; simp [traverse_tree, emitted_after]
      · rw [traverse_tree_chain hch]
        cases status <;> simp [traverse_tree, emitted_after, emitted_status]
    simp only [generate_code, htr]
    cases status with
    | none =>
      simp only [emitted_after, Bool.false_eq_true, if_false, Option.getD_none]
      decide
    | some v => simp [emitted_after, emitted_status, exits_with]

/-- C13 at `int x = 2; x += 3; exit(x * 2); exit(1);`: status 10, and at
`int x = 7; x /= 2; exit(x ^ 5);`: status 6. -/
theorem C13_witness :
    generated 23
      [tKw "int", tId "x", tOp "=", tInt 2, tSep ";",
       tId "x", tOp "+=", tInt 3, tSep ";",
       tKw "exit", tSep "(", tId "x", tOp "*", tInt 2, tSep ")", tSep ";",
       tKw "exit", tSep "(", tInt 1, tSep ")", tSep ";"] =
      .ok (exits_with 10) ∧
    generated 20
      [tKw "int", tId "x", tOp "=", tInt 7, tSep ";",
       tId "x", tOp "/=", tInt 2, tSep ";",
       tKw "exit", tSep "(", tId "x", tOp "^", tInt 5, tSep ")", tSep ";"] =
      .ok (exits_with 6) :=
  ⟨C13_generated_status_is_first_exit_value _ _
    (SpellsProgram.cons _ [tKw "int", tId "x", tOp "=", tInt 2, tSep ";"] _
      [tId "x", tOp "+=", tInt 3, tSep ";",
       tKw "exit", tSep "(", tId "x", tOp "*", tInt 2, tSep ")", tSep ";",
       tKw "exit", tSep "(", tInt 1, tSep ")", tSep ";"]
      (SpellsStmt.decl (tKw "int") (tId "x") (tOp "=") (tSep ";") (.lit 2) [tInt 2]
        rfl rfl rfl rfl rfl rfl rfl (Spells.lit (tInt 2) rfl) trivial)
      (SpellsProgram.cons _ [tId "x", tOp "+=", tInt 3, tSep ";"] _
        [tKw "exit", tSep "(", tId "x", tOp "*", tInt 2, tSep ")", tSep ";",
         tKw "exit", tSep "(", tInt 1, tSep ")", tSep ";"]
        (SpellsStmt.assign (tId "x") (tOp "+=") (tSep ";") (.lit 3) [tInt 3]
          rfl rfl rfl rfl rfl (Spells.lit (tInt 3) rfl) trivial)
        (SpellsProgram.cons _ [tKw "exit", tSep "(", tId "x", tOp "*", tInt 2, tSep ")", tSep ";"]
          _ [tKw "exit", tSep "(", tInt 1, tSep ")", tSep ";"]
          (SpellsStmt.exit (tKw "exit") (tSep "(") (tSep ")") (tSep ";")
            (.bin "*" (.var "x") (.lit 2)) [tId "x", tOp "*", tInt 2]
            rfl rfl rfl rfl rfl rfl rfl rfl
            (Spells.bin (tOp "*") (.var "x") (.lit 2) [tId "x"] [tInt 2] rfl
              (Spells.var (tId "x") rfl) (Spells.lit (tInt 2) rfl))
            (by simp [Expr.PrecOk, Expr.top, get_precedence]))
          (SpellsProgram.cons _ [tKw "exit", tSep "(", tInt 1, tSep ")", tSep ";"] _ []
            (SpellsStmt.exit (tKw "exit") (tSep "(") (tSep ")") (tSep ";") (.lit 1) [tInt 1]
              rfl rfl rfl rfl rfl rfl rfl rfl (Spells.lit (tInt 1) rfl) trivial)
            SpellsProgram.nil))))
    (some 10) (by decide) 23 (by decide),
   C13_generated_status_is_first_exit_value _ _
    (SpellsProgram.cons _ [tKw "int", tId "x", tOp "=", tInt 7, tSep ";"] _
      [tId "x", tOp "/=", tInt 2, tSep ";",
       tKw "exit", tSep "(", tId "x", tOp "^", tInt 5, tSep ")", tSep ";"]
      (SpellsStmt.decl (tKw "int") (tId "x") (tOp "=") (tSep ";") (.lit 7) [tInt 7]
        rfl rfl rfl rfl rfl rfl rfl (Spells.lit (tInt 7) rfl) trivial)
      (SpellsProgram.cons _ [tId "x", tOp "/=", tInt 2, tSep ";"] _
        [tKw "exit", tSep "(", tId "x", tOp "^", tInt 5, tSep ")", tSep ";"]
        (SpellsStmt.assign (tId "x") (tOp "/=") (tSep ";") (.lit 2) [tInt 2]
          rfl rfl rfl rfl rfl (Spells.lit (tInt 2) rfl) trivial)
        (SpellsProgram.cons _ [tKw "exit", tSep "(", tId "x", tOp "^", tInt 5, tSep ")", tSep ";"]
          _ []
          (SpellsStmt.exit (tKw "exit") (tSep "(") (tSep ")") (tSep ";")
            (.bin "^" (.var "x") (.lit 5)) [tId "x", tOp "^", tInt 5]
            rfl rfl rfl rfl rfl rfl rfl rfl
            (Spells.bin (tOp "^") (.var "x") (.lit 5) [tId "x"] [tInt 5] rfl
              (Spells.var (tId "x") rfl) (Spells.lit (tInt 5) rfl))
            (by simp [Expr.PrecOk, Expr.top, get_precedence]))
          SpellsProgram.nil)))
    (some 6) (by decide) 20 (by decide)⟩

/-- C13, counterexample: the program `exit((0 - 2147483647 - 1) / (0 - 1));`
and the program `int x = 0 - 2147483647 - 1; x /= 0 - 1; exit(x);` declare
every variable once before its use and divide by -1, not by 0; no tree is
returned for them and no status is emitted: the division instruction of
the parser stops the process.  The same holds with `%` and `%=`. -/
theorem C13_division_of_int_min_by_minus_one_emits_no_status :
    SpellsProgram [.exit (.bin "/" int_min_expr minus_one_expr)]
      (exit_int_min_by_minus_one "/") ∧
    minus_one_expr.value Env.empty = some (-1) ∧
    generated 20 (exit_int_min_by_minus_one "/") = .error .arithmeticTrap ∧
    generated 20 (exit_int_min_by_minus_one "%") = .error .arithmeticTrap ∧
    SpellsProgram
      [.decl "x" (.bin "-" (.bin "-" (.lit 0) (.lit 2147483647)) (.lit 1)),
       .assign "x" (some "/") (.bin "-" (.lit 0) (.lit 1)),
       .exit (.var "x")]
      (compound_int_min_by_minus_one "/=") ∧
    generated 24 (compound_int_min_by_minus_one "/=") = .error .arithmeticTrap ∧
    generated 24 (compound_int_min_by_minus_one "%=") = .error .arithmeticTrap := by
  refine ⟨?_, by decide, by decide!, by decide!, ?_, by decide!, by decide!⟩
  · have h := SpellsProgram.cons _ (exit_int_min_by_minus_one "/") _ []
      (SpellsStmt.exit (tKw "exit") (tSep "(") (tSep ")") (tSep ";") _
        (int_min_by_minus_one "/") rfl rfl rfl rfl rfl rfl rfl rfl
        (spells_int_min_by_minus_one "/")
        (by simp [Expr.PrecOk, Expr.top, int_min_expr, minus_one_expr]; decide))
      SpellsProgram.nil
    simpa using h
  · exact SpellsProgram.cons _
      [tKw "int", tId "x", tOp "=", tInt 0, tOp "-", tInt 2147483647, tOp "-", tInt 1, tSep ";"]
      _ [tId "x", tOp "/=", tInt 0, tOp "-", tInt 1, tSep ";",
         tKw "exit", tSep "(", tId "x", tSep ")", tSep ";"]
      (SpellsStmt.decl (tKw "int") (tId "x") (tOp "=") (tSep ";") _
        [tInt 0, tOp "-", tInt 2147483647, tOp "-", tInt 1]
        rfl rfl rfl rfl rfl rfl rfl
        (Spells.bin (tOp "-") _ _ [tInt 0, tOp "-", tInt 2147483647] [tInt 1] rfl
          (Spells.bin (tOp "-") _ _ [tInt 0] [tInt 2147483647] rfl (Spells.lit (tInt 0) rfl)
            (Spells.lit (tInt 2147483647) rfl))
          (Spells.lit (tInt 1) rfl))
        (by simp [Expr.PrecOk, Expr.top]; decide))
      (SpellsProgram.cons _ [tId "x", tOp "/=", tInt 0, tOp "-", tInt 1, tSep ";"] _
        [tKw "exit", tSep "(", tId "x", tSep ")", tSep ";"]
        (SpellsStmt.assign (tId "x") (tOp "/=") (tSep ";") _ [tInt 0, tOp "-", tInt 1]
          rfl rfl rfl rfl rfl
          (Spells.bin (tOp "-") _ _ [tInt 0] [tInt 1] rfl (Spells.lit (tInt 0) rfl)
            (Spells.lit (tInt 1) rfl))
          (by simp [Expr.PrecOk, Expr.top]; decide))
        (SpellsProgram.cons _ [tKw "exit", tSep "(", tId "x", tSep ")", tSep ";"] _ []
          (SpellsStmt.exit (tKw "exit") (tSep "(") (tSep ")") (tSep ";") (.var "x") [tId "x"]
            rfl rfl rfl rfl rfl rfl rfl rfl (Spells.var (tId "x") rfl) trivial)
          SpellsProgram.nil))

/-! ## Uniqueness of names within a table -/

/-- C20, at `int x = 1; int x = 2; exit(x);` and at `add_symbol` on the
table `[x = 1]`: the global table ends with two symbols named `x`, and
`add_symbol` turns a table with unique names into one without. -/
theorem C20_redeclaration_breaks_uniqueness :
    ¬ final_tables_unique (parse_with_scopes 6 (redeclared 1 2)) ∧
    names_unique [⟨"x", .VAR_INT, 1, 1, 1⟩] ∧
    ¬ names_unique (add_symbol [⟨"x", .VAR_INT, 1, 1, 1⟩] "x" .VAR_INT 2 1 1) := by
  refine ⟨?_, ?_, ?_⟩
  · intro h
    have h1 : tables_unique [[⟨"x", .VAR_INT, 1, 1, 1⟩, ⟨"x", .VAR_INT, 2, 1, 1⟩]] := h
    have h2 := h1 _ (List.mem_singleton.mpr rfl)
    simp [names_unique] at h2
  · simp [names_unique]
  · simp [names_unique, add_symbol]

/-- C20 (as amended): `add_symbol` performs no check; on a table with
unique names it keeps the names unique exactly when the added name is not
yet in the table.  `update_symbol` keeps the names of a table, `push_scope`
adds an empty table and `pop_scope` removes one, so they keep the
invariant.  In the state reached by parsing a program of top-level
declarations, assignments and `exit` statements whose sequential execution
is defined (so no name is declared twice), every table has unique names. -/
theorem C20_names_unique_without_redeclaration :
    (∀ (table : SymbolTable) (name : String) (ty : VarType) (v ln cl : Int),
      names_unique table →
      (names_unique (add_symbol table name ty v ln cl) ↔ ∀ s ∈ table, s.name ≠ name)) ∧
    (∀ (table table1 : SymbolTable) (name : String) (v : Int),
      update_symbol table name v = .ok table1 → names_unique table → names_unique table1) ∧
    (∀ (ss : ScopeStack), tables_unique ss →
      tables_unique (push_scope ss create_symbol_table)) ∧
    (∀ (ss ss1 : ScopeStack), pop_scope ss = .ok ss1 → tables_unique ss → tables_unique ss1) ∧
    (∀ (prog : List Stmt) (tokens : List Token), SpellsProgram prog tokens →
      ∀ status, run_program Env.empty prog = some status →
      ∀ fuel, tokens.length + 2 ≤ fuel →
        (∃ root ss, parse_with_scopes fuel tokens = .ok (root, ss)) ∧
        final_tables_unique (parse_with_scopes fuel tokens)) := by
  refine ⟨?_, ?_, ?_, ?_, ?_⟩
  · intro table name ty v ln cl hu
    constructor
    · intro h s hs hn
      unfold names_unique add_symbol at h
      rw [List.map_append, List.nodup_append] at h
      exact h.2.2 (List.mem_map.mpr ⟨s, hs, rfl⟩) (by simp [hn])
    · intro h
      exact names_unique_add hu h ty v ln cl
  · intro table table1 name v h hu
    unfold names_unique at hu ⊢
    rw [update_symbol_names h]
    exact hu
  · intro ss h t ht
    simp only [push_scope, create_symbol_table, List.mem_append, List.mem_singleton] at ht
    rcases ht with ht | ht
    · exact h t ht
    · subst ht; simp [names_unique]
  · intro ss ss1 h hu t ht
    unfold pop_scope at h
    split at h
    · cases h
    · simp only [Except.ok.injEq] at h
      subst h
      exact hu t (List.mem_of_mem_dropLast ht)
  · intro prog tokens hs status hrun fuel hf
    by_cases he : tokens.length = 0
    · have h0 : parse_with_scopes fuel tokens = .ok (.NULL, []) := by
        simp [parse_with_scopes, he]
      rw [h0]
      exact ⟨⟨_, _, rfl⟩, fun t ht => by cases ht⟩
    · obtain ⟨L1, c1, t1, h1, _, h3⟩ := parse_loop_program hs [] Env.empty (fun _ => rfl)
        status hrun tokens 0 rfl (.str_val (some "program")) 0 0 .NULL none none
        (Or.inl ⟨rfl, rfl, rfl⟩) fuel hf
      have hp : parse_with_scopes fuel tokens =
          .ok (.mk .NODE_BEGIN (.str_val (some "program")) 0 0 L1 .NULL, [t1]) := by
        unfold parse_with_scopes
        rw [if_neg he]
        exact h1
      rw [hp]
      refine ⟨⟨_, _, rfl⟩, ?_⟩
      intro t ht
      simp only [List.mem_singleton] at ht
      subst ht
      exact h3 (by simp [names_unique])

/-- C20 (as amended) at `add_symbol` of `y` on the table `[x = 1]`. -/
theorem C20_witness :
    names_unique (add_symbol [⟨"x", .VAR_INT, 1, 1, 1⟩] "y" .VAR_INT 2 1 1) ↔
      ∀ s ∈ ([⟨"x", .VAR_INT, 1, 1, 1⟩] : SymbolTable), s.name ≠ "y" :=
  C20_names_unique_without_redeclaration.1 [⟨"x", .VAR_INT, 1, 1, 1⟩] "y" .VAR_INT 2 1 1
    (by simp [names_unique])

/-! ## The tree a `while` statement retains -/

theorem parse_block_loop_node (fuel : Nat) :
    ∀ (tokens : List Token) (i : Nat) (ss : ScopeStack) (a : Bool) (ty : NodeType)
      (val : NodeValue) (ln cl : Int) (l rt : Node) (cs : Nat) (r : Parsed),
      parse_block_loop fuel tokens i ss a (.mk ty val ln cl l rt) cs = .ok r →
      ∃ L, r.node = .mk ty val ln cl L rt := by
  induction fuel with
  | zero => intro tokens i ss a ty val ln cl l rt cs r h; rw [parse_block_loop] at h; cases h
  | succ f ih =>
    intro tokens i ss a ty val ln cl l rt cs r h
    rw [parse_block_loop] at h
    split at h
    · cases h
    · split at h
      · split at h
        · cases h
        · simp only [Except.ok.injEq] at h
          subst h
          exact ⟨l, rfl⟩
      · split at h
        · cases h
        · split at h
          · exact ih _ _ _ _ _ _ _ _ _ _ _ _ h
          · split at h
            · exact ih _ _ _ _ _ _ _ _ _ _ _ _ h
            · exact ih _ _ _ _ _ _ _ _ _ _ _ _ h

/-- The node `parse_block` returns is a block node without sibling. -/
theorem parse_block_node {fuel : Nat} {tokens : List Token} {i : Nat} {ss : ScopeStack}
    {a : Bool} {r : Parsed} (h : parse_block fuel tokens i ss a = .ok r) :
    ∃ ln cl L, r.node = .mk .NODE_BLOCK (.str_val (some "\x7b")) ln cl L .NULL := by
  cases fuel with
  | zero => rw [parse_block] at h; cases h
  | succ f =>
    rw [parse_block] at h
    split at h
    · cases h
    · split at h
      · cases h
      · rename_i token _ _
        obtain ⟨L, hL⟩ := parse_block_loop_node f tokens _ _ a .NODE_BLOCK
          (.str_val (some "\x7b")) token.line token.col .NULL .NULL 0 r h
        exact ⟨_, _, L, hL⟩

/-- After the first iteration the execution loop hands back the condition
and the block it was given. -/
theorem parse_while_loop_keeps_first (fuel : Nat) :
    ∀ (tokens : List Token) (ls : Nat) (ss : ScopeStack) (fc fb c b : Node) (s : ScopeStack),
      parse_while_loop fuel tokens ls ss fc fb false = .ok (c, b, s) → c = fc ∧ b = fb := by
  induction fuel with
  | zero => intro tokens ls ss fc fb c b s h; rw [parse_while_loop] at h; cases h
  | succ f ih =>
    intro tokens ls ss fc fb c b s h
    rw [parse_while_loop] at h
    split at h
    · cases h
    · split at h
      · cases h
      · split at h
        · split at h
          · cases h
          · simp only [Bool.false_eq_true, if_false] at h
            exact ih _ _ _ _ _ _ _ _ h
        · simp only [Except.ok.injEq, Prod.mk.injEq] at h
          exact ⟨h.1.symm, h.2.1.symm⟩

/-- C12: when `parse_while_statement` returns, the first evaluation of the
condition gave a literal `v`; if `v` is nonzero (at least one iteration is
executed), the while node has as its only child the literal `v`, whose only
sibling is the block node that `parse_block` built in the first iteration,
from the scope stack the statement started with, and that block node has no
sibling: nothing built in a later iteration is part of the tree.  If `v` is
0 the while node has no child. -/
theorem C12_while_node_keeps_first_iteration (fuel : Nat) (tokens : List Token) (i : Nat)
    (ss : ScopeStack) (r : Parsed) (h : parse_while_statement fuel tokens i ss = .ok r) :
    ∃ g wt i1 v ln cl, fuel = g + 2 ∧ tokens[i]? = some wt ∧
      parse_expression g tokens (i + 2) ss 0 = .ok (lit_node v ln cl, i1) ∧
      (v = 0 →
        r.node = .mk .NODE_WHILE_STATEMENT (.str_val (some "while")) wt.line wt.col
          .NULL .NULL) ∧
      (v ≠ 0 → ∃ block bl bc L,
        parse_block g tokens (i1 + 1) ss true = .ok block ∧
        block.node = .mk .NODE_BLOCK (.str_val (some "\x7b")) bl bc L .NULL ∧
        r.node = .mk .NODE_WHILE_STATEMENT (.str_val (some "while")) wt.line wt.col
          (.mk .NODE_LITERAL_INT (.int_val v) ln cl .NULL block.node) .NULL) := by
  cases fuel with
  | zero => rw [parse_while_statement] at h; cases h
  | succ f1 =>
    rw [parse_while_statement] at h
    have hsome : ∃ wt, tokens[i]? = some wt := by
      cases hw : tokens[i]? with
      | none => rw [hw] at h; cases h
      | some wt => exact ⟨wt, rfl⟩
    obtain ⟨wt, hwt⟩ := hsome
    rw [hwt] at h
    simp only at h
    split at h
    · cases h
    · cases hloop : parse_while_loop f1 tokens (i + 2) ss .NULL .NULL true with
      | error e => rw [hloop] at h; cases h
      | ok res =>
        obtain ⟨fc, fb, s1⟩ := res
        rw [hloop] at h
        simp only at h
        have hnode : r.node = (createNode .NODE_WHILE_STATEMENT (some "while") wt.line
            wt.col).set_left (fc.set_right fb) := by
          split at h
          · cases h
          · split at h
            · cases h
            · split at h
              · cases h
              · simp only [Except.ok.injEq] at h
                subst h
                rfl
        cases f1 with
        | zero => rw [parse_while_loop] at hloop; cases hloop
        | succ g =>
          rw [parse_while_loop] at hloop
          cases hpe : parse_expression g tokens (i + 2) ss 0 with
          | error e => rw [hpe] at hloop; cases hloop
          | ok res1 =>
            obtain ⟨cond, i1⟩ := res1
            obtain ⟨v, ln, cl, rfl⟩ := (parse_expression_literal_aux g).2.1 _ _ _ _ _ _ hpe
            rw [hpe] at hloop
            simp only at hloop
            refine ⟨g, wt, i1, v, ln, cl, rfl, hwt, hpe, ?_, ?_⟩
            · intro hv
              split at hloop
              · cases hloop
              · rw [eval_condition_lit_node] at hloop
                have hdz : decide (v ≠ 0) = false := by simp [hv]
                simp only [hdz, Bool.false_eq_true, if_false, Except.ok.injEq,
                  Prod.mk.injEq] at hloop
                obtain ⟨rfl, rfl, _⟩ := hloop
                rw [hnode]
                rfl
            · intro hv
              split at hloop
              · cases hloop
              · rw [eval_condition_lit_node] at hloop
                have hdz : decide (v ≠ 0) = true := by simp [hv]
                simp only [hdz, if_true] at hloop
                cases hpb : parse_block g tokens (i1 + 1) ss true with
                | error e => rw [hpb] at hloop; cases hloop
                | ok block =>
                  rw [hpb] at hloop
                  simp only [if_true] at hloop
                  obtain ⟨h1, h2⟩ := parse_while_loop_keeps_first g _ _ _ _ _ _ _ _ hloop
                  obtain ⟨bl, bc, L, hL⟩ := parse_block_node hpb
                  refine ⟨block, bl, bc, L, rfl, hL, ?_⟩
                  rw [hnode, h1, h2, hL]
                  rfl

/-- C12 at `while (i < 3) { i = i + 1; }` with `i = 0`. -/
theorem C12_witness :
    ∃ g wt i1 v ln cl, 25 = g + 2 ∧ (while_count_program 3)[5]? = some wt ∧
      parse_expression g (while_count_program 3) (5 + 2) (scope_i 0) 0 =
        .ok (lit_node v ln cl, i1) ∧
      (v = 0 →
        while_count_parsed.node =
          .mk .NODE_WHILE_STATEMENT (.str_val (some "while")) wt.line wt.col .NULL .NULL) ∧
      (v ≠ 0 → ∃ block bl bc L,
        parse_block g (while_count_program 3) (i1 + 1) (scope_i 0) true = .ok block ∧
        block.node = .mk .NODE_BLOCK (.str_val (some "\x7b")) bl bc L .NULL ∧
        while_count_parsed.node =
          .mk .NODE_WHILE_STATEMENT (.str_val (some "while")) wt.line wt.col
            (.mk .NODE_LITERAL_INT (.int_val v) ln cl .NULL block.node) .NULL) :=
  C12_while_node_keeps_first_iteration 25 (while_count_program 3) 5 (scope_i 0)
    while_count_parsed (by decide)

/-! ## `do-while` loops -/

theorem expect_str_or_end_ok {tokens : List Token} {i : Nat} {t : Token} {s : String}
    {err : Err} (ht : tokens[i]? = some t) (hty : t.type ≠ .INT) (hs : t.str_val = s) :
    expect_str_or_end tokens i s err = .ok () := by
  simp [expect_str_or_end, ht, token_str_of_ne_int hty, hs]

theorem parse_do_while_loop_spells {c : Expr} {body : List Assign} {cts bts : List Token}
    (hsp : Spells c cts) (hok : c.PrecOk) (hbody : SpellsBody body bts)
    (kw lp rp semi : Token) (hkw1 : kw.type = .KEYWORD) (hkw2 : kw.str_val = "while")
    (hlp1 : lp.type = .SEPARATOR) (hlp2 : lp.str_val = "(")
    (hrp1 : rp.type = .SEPARATOR) (hrp2 : rp.str_val = ")")
    (hsemi1 : semi.type = .SEPARATOR) (hsemi2 : semi.str_val = ";")
    (tokens : List Token) (bs : Nat) (rest : List Token)
    (hd : tokens.drop bs = bts ++ kw :: lp :: (cts ++ rp :: semi :: rest)) :
    ∀ (k : Nat) (ss : ScopeStack) (R : Except Err ScopeStack),
      do_while_run k ss c body = R → R ≠ .error .outOfFuel →
      ∀ (fuel : Nat), k + cts.length + bts.length + 1 ≤ fuel →
      ∀ (fb fc : Node) (fi : Bool),
        loop_scopes (parse_do_while_loop fuel tokens bs ss fb fc fi) = R := by
  have hd1 := drop_add_of_drop_eq_append hd
  have htw := getElem?_of_drop_eq_cons hd1
  have hd2 := drop_succ_of_drop_eq_cons hd1
  have htl := getElem?_of_drop_eq_cons hd2
  have hd3 : tokens.drop (bs + bts.length + 1 + 1) = cts ++ rp :: semi :: rest :=
    drop_succ_of_drop_eq_cons hd2
  have hd4 := drop_add_of_drop_eq_append hd3
  have htr := getElem?_of_drop_eq_cons hd4
  have hd5 := drop_succ_of_drop_eq_cons hd4
  have hts := getElem?_of_drop_eq_cons hd5
  have hrest : ∀ t r, rp :: semi :: rest = t :: r → t.type = .OPERATOR →
      get_precedence t.str_val < 0 := by
    intro t r h hty; simp at h; rw [← h.1, hrp1] at hty; cases hty
  have hro : RestOk c.top (rp :: semi :: rest) := by
    intro t r h hty
    exact le_trans (le_of_lt (hrest t r h hty)) (Expr.top_nonneg hok)
  intro k
  induction k with
  | zero => intro ss R h hR; simp only [do_while_run] at h; exact absurd h.symm hR
  | succ k ih =>
    intro ss R h hR fuel hf fb fc fi
    obtain ⟨f, rfl⟩ : ∃ f, fuel = f + 1 := ⟨fuel - 1, by omega⟩
    rw [parse_do_while_loop]
    simp only [do_while_run] at h
    have hblk := parse_block_spells hbody tokens bs (kw :: lp :: (cts ++ rp :: semi :: rest)) ss
      true hd f (by omega)
    cases hex : exec_assigns true ss body with
    | error x =>
      rw [hex] at h hblk
      cases hpb : parse_block f tokens bs ss true with
      | error e =>
        rw [hpb] at hblk
        simp only [state_of, at_cursor, Except.error.injEq] at hblk
        rw [hblk, ← h]; rfl
      | ok p => rw [hpb] at hblk; simp [state_of, at_cursor] at hblk
    | ok ss1 =>
      rw [hex] at h hblk
      simp only at h
      cases hpb : parse_block f tokens bs ss true with
      | error e => rw [hpb] at hblk; simp [state_of, at_cursor] at hblk
      | ok p =>
        rw [hpb] at hblk
        simp only [state_of, at_cursor, Parsed.state, Except.ok.injEq, Prod.mk.injEq] at hblk
        obtain ⟨hpi, hps⟩ := hblk
        simp only [hpi, hps, htw]
        have hnw : ¬ (kw.type ≠ TokenType.KEYWORD ∨ kw.str_val ≠ "while") := by
          simp [hkw1, hkw2]
        rw [if_neg hnw]
        rw [expect_str_or_end_ok htl (by rw [hlp1]; decide) hlp2]
        simp only
        cases hev : c.eval ss1 with
        | error x =>
          rw [hev] at h
          obtain ⟨g, hg⟩ : ∃ g, f = g + 1 + cts.length := ⟨f - 1 - cts.length, by omega⟩
          have := parse_expression_error_of_spells hsp ss1 x hev hok tokens
            (bs + bts.length + 1 + 1) (rp :: semi :: rest) 0 hd3 (Expr.top_nonneg hok) hro g
          rw [← hg] at this
          have e2 : bs + bts.length + 2 = bs + bts.length + 1 + 1 := by omega
          rw [e2, this, ← h]
          rfl
        | ok v =>
          rw [hev] at h
          simp only at h
          obtain ⟨l2, c2, hpe⟩ := parse_expression_value hsp ss1 v hev hok tokens
            (bs + bts.length + 1 + 1) (rp :: semi :: rest) hd3 hrest f (by omega)
          have e2 : bs + bts.length + 2 = bs + bts.length + 1 + 1 := by omega
          rw [e2, hpe]
          simp only
          rw [expect_str_or_end_ok htr (by rw [hrp1]; decide) hrp2]
          simp only
          rw [expect_str_or_end_ok hts (by rw [hsemi1]; decide) hsemi2]
          simp only [eval_condition_lit_node]
          by_cases hv : v = 0
          · have hdz : decide (v ≠ 0) = false := by simp [hv]
            simp only [hdz, Bool.false_eq_true, if_false]
            rw [if_neg (by simp [hv])] at h
            rw [← h]; rfl
          · have hdz : decide (v ≠ 0) = true := by simp [hv]
            simp only [hdz, if_true]
            rw [if_pos hv] at h
            exact ih ss1 R h hR f (by omega) _ _ _

theorem do_while_run_cond_zero {c : Expr} {body : List Assign} :
    ∀ (k : Nat) (ss ss' : ScopeStack), do_while_run k ss c body = .ok ss' →
      c.eval ss' = .ok 0 := by
  intro k
  induction k with
  | zero => intro ss ss' h; simp [do_while_run] at h
  | succ k ih =>
    intro ss ss' h
    simp only [do_while_run] at h
    cases hex : exec_assigns true ss body with
    | error x => rw [hex] at h; cases h
    | ok ss1 =>
      rw [hex] at h
      simp only at h
      cases hev : c.eval ss1 with
      | error x => rw [hev] at h; cases h
      | ok v =>
        rw [hev] at h
        simp only at h
        by_cases hv : v = 0
        · rw [if_neg (by simp [hv])] at h
          simp only [Except.ok.injEq] at h
          subst h; rw [hev, hv]
        · rw [if_pos hv] at h
          exact ih ss1 ss' h

theorem peek_typed_true {tokens : List Token} {i : Nat} {t : Token} {ty : TokenType}
    {s : String} (ht : tokens[i]? = some t) (hty : t.type = ty) (hs : t.str_val = s) :
    peek_typed tokens i ty s = true := by
  simp [peek_typed, ht, hty, hs]

/-- A `do-while` statement whose execution loop terminates with the scope
stack `ss'` ends with the structural pass over the block and the condition
in `ss'`: its outcome is that of the block resolved inactive. -/
theorem parse_do_while_statement_spells {c : Expr} {body : List Assign} {tw : List Token}
    (h : SpellsDoWhile c body tw) (tokens : List Token) (i : Nat) (rest : List Token)
    (hd : tokens.drop i = tw ++ rest) (k : Nat) (ss ss' : ScopeStack)
    (hrun : do_while_run k ss c body = .ok ss')
    (fuel : Nat) (hf : k + tw.length + 2 ≤ fuel) :
    state_of (parse_do_while_statement fuel tokens i ss) =
      at_cursor (i + tw.length) (exec_assigns false ss' body) := by
  cases h with
  | mk kd kw lp rp semi c body bts cts hkd1 hkd2 hkw1 hkw2 hlp1 hlp2 hrp1 hrp2 hsemi1 hsemi2
      hsp hok hbody =>
    have hlen : (kd :: bts ++ kw :: lp :: cts ++ [rp, semi]).length =
        cts.length + bts.length + 5 := by
      simp; omega
    rw [hlen] at hf ⊢
    obtain ⟨f, rfl⟩ : ∃ f, fuel = f + 1 := ⟨fuel - 1, by omega⟩
    have hd0 : tokens.drop i = kd :: (bts ++ kw :: lp :: (cts ++ rp :: semi :: rest)) := by
      simpa using hd
    have htk := getElem?_of_drop_eq_cons hd0
    have hdb := drop_succ_of_drop_eq_cons hd0
    have hd1 := drop_add_of_drop_eq_append hdb
    have htw := getElem?_of_drop_eq_cons hd1
    have hd2 := drop_succ_of_drop_eq_cons hd1
    have htl := getElem?_of_drop_eq_cons hd2
    have hd3 : tokens.drop (i + 1 + bts.length + 1 + 1) = cts ++ rp :: semi :: rest :=
      drop_succ_of_drop_eq_cons hd2
    have hd4 := drop_add_of_drop_eq_append hd3
    have htr := getElem?_of_drop_eq_cons hd4
    have hd5 := drop_succ_of_drop_eq_cons hd4
    have hts := getElem?_of_drop_eq_cons hd5
    have hrest : ∀ t r, rp :: semi :: rest = t :: r → t.type = .OPERATOR →
        get_precedence t.str_val < 0 := by
      intro t r h hty; simp at h; rw [← h.1, hrp1] at hty; cases hty
    rw [parse_do_while_statement]
    simp only [htk]
    have hloop := parse_do_while_loop_spells hsp hok hbody kw lp rp semi hkw1 hkw2 hlp1 hlp2
      hrp1 hrp2 hsemi1 hsemi2 tokens (i + 1) rest hdb k ss (.ok ss') hrun (by simp) f
      (by omega) .NULL .NULL true
    cases hpl : parse_do_while_loop f tokens (i + 1) ss .NULL .NULL true with
    | error e => rw [hpl] at hloop; simp [loop_scopes] at hloop
    | ok res =>
      obtain ⟨fb, fc, s1⟩ := res
      rw [hpl] at hloop
      simp only [loop_scopes, Except.ok.injEq] at hloop
      subst hloop
      simp only
      have hblk := parse_block_spells hbody tokens (i + 1)
        (kw :: lp :: (cts ++ rp :: semi :: rest)) s1 false hdb f (by omega)
      cases hex : exec_assigns false s1 body with
      | error x =>
        rw [hex] at hblk
        cases hpb : parse_block f tokens (i + 1) s1 false with
        | error e =>
          rw [hpb] at hblk
          simp only [state_of, at_cursor, Except.error.injEq] at hblk
          rw [hblk]; rfl
        | ok p => rw [hpb] at hblk; simp [state_of, at_cursor] at hblk
      | ok s2 =>
        rw [hex] at hblk
        have hs2 : s2 = s1 := exec_assigns_inactive hex
        subst hs2
        cases hpb : parse_block f tokens (i + 1) s2 false with
        | error e => rw [hpb] at hblk; simp [state_of, at_cursor] at hblk
        | ok p =>
          rw [hpb] at hblk
          simp only [state_of, at_cursor, Parsed.state, Except.ok.injEq, Prod.mk.injEq] at hblk
          obtain ⟨hpi, hps⟩ := hblk
          simp only [hpi, hps]
          rw [peek_typed_true htw hkw1 hkw2]
          simp only [if_true]
          rw [peek_typed_true htl hlp1 hlp2]
          simp only [if_true]
          obtain ⟨l2, c2, hpe⟩ := parse_expression_value hsp s2 0
            (do_while_run_cond_zero k ss s2 hrun) hok tokens (i + 1 + bts.length + 1 + 1)
            (rp :: semi :: rest) hd3 hrest f (by omega)
          rw [hpe]
          simp only
          rw [peek_typed_true htr hrp1 hrp2]
          simp only [if_true]
          rw [peek_typed_true hts hsemi1 hsemi2]
          simp only [if_true, state_of, at_cursor, Parsed.state, Except.ok.injEq, Prod.mk.injEq,
            and_true]
          omega

/-- The general part of C11, for any spelled `do-while` statement. -/
theorem parse_do_while_statement_refines {c : Expr} {body : List Assign} {tw : List Token}
    (h : SpellsDoWhile c body tw) (tokens : List Token) (i : Nat) (rest : List Token)
    (hd : tokens.drop i = tw ++ rest) (k : Nat) (ss ss' : ScopeStack)
    (hrun : do_while_run k ss c body = .ok ss')
    (fuel : Nat) (hf : k + tw.length + 2 ≤ fuel) :
    parse_do_while_statement fuel tokens i ss ≠ .error .outOfFuel ∧
    (∀ r, parse_do_while_statement fuel tokens i ss = .ok r →
      r.scope_stack = ss' ∧ r.i = i + tw.length) ∧
    ((∃ s, exec_assigns false ss' body = .ok s) →
      ∃ r, parse_do_while_statement fuel tokens i ss = .ok r) := by
  have hst := parse_do_while_statement_spells h tokens i rest hd k ss ss' hrun fuel hf
  refine ⟨state_of_ne_outOfFuel hst (exec_assigns_ne_outOfFuel _ _ _), ?_, ?_⟩
  · intro r hr
    obtain ⟨h1, h2⟩ := state_of_ok hst hr
    exact ⟨exec_assigns_inactive h2, h1⟩
  · rintro ⟨s, hs⟩
    rw [hs] at hst
    cases hp : parse_do_while_statement fuel tokens i ss with
    | error e => rw [hp] at hst; simp [state_of, at_cursor] at hst
    | ok r => exact ⟨r, rfl⟩

theorem parse_do_while_statement_node {fuel : Nat} {tokens : List Token} {i : Nat}
    {ss : ScopeStack} {r : Parsed} (h : parse_do_while_statement fuel tokens i ss = .ok r) :
    r.node.is_null = false := by
  cases fuel with
  | zero => simp [parse_do_while_statement] at h
  | succ f =>
    rw [parse_do_while_statement] at h
    repeat' split at h
    all_goals cases h
    all_goals rfl

theorem do_while_count_run (n : Int) :
    ∀ (d : Nat) (m : Int), 0 ≤ m → m + 1 + d < 2147483648 → max (m + 1) n = m + 1 + d →
      do_while_run (d + 1) (scope_x m) (.bin "<" (.var "x") (.lit n))
        [⟨"x", "=", .bin "+" (.var "x") (.lit 1)⟩] = .ok (scope_x (m + 1 + d)) := by
  intro d
  induction d with
  | zero =>
    intro m hm hb hmax
    have hex : exec_assigns true (scope_x m) [⟨"x", "=", .bin "+" (.var "x") (.lit 1)⟩] =
        .ok (scope_x (c_add m 1)) := rfl
    have hadd : c_add m 1 = m + 1 := by
      unfold c_add; exact wrap32_of_range (by omega) (by push_cast at hb; omega)
    have hev : (Expr.bin "<" (.var "x") (.lit n)).eval (scope_x (m + 1)) =
        .ok (c_bool (decide (m + 1 < n))) := rfl
    have hlt : ¬ (m + 1 < n) := by push_cast at hmax; omega
    rw [do_while_run, hex]
    simp only [hadd, hev, hlt, decide_False, c_bool]
    simp
  | succ d ih =>
    intro m hm hb hmax
    have hex : exec_assigns true (scope_x m) [⟨"x", "=", .bin "+" (.var "x") (.lit 1)⟩] =
        .ok (scope_x (c_add m 1)) := rfl
    have hadd : c_add m 1 = m + 1 := by
      unfold c_add; exact wrap32_of_range (by omega) (by push_cast at hb; omega)
    have hev : (Expr.bin "<" (.var "x") (.lit n)).eval (scope_x (m + 1)) =
        .ok (c_bool (decide (m + 1 < n))) := rfl
    have hlt : m + 1 < n := by push_cast at hmax; omega
    rw [do_while_run, hex]
    simp only [hadd, hev, hlt, decide_True, c_bool, if_true, ne_eq, one_ne_zero,
      not_false_eq_true]
    have := ih (m + 1) (by omega) (by push_cast at hb ⊢; omega) (by push_cast at hmax ⊢; omega)
    have e : m + 1 + 1 + (d : Int) = m + 1 + ((d + 1 : Nat) : Int) := by push_cast; omega
    rw [e] at this
    exact this

theorem SpellsDoWhile_count (n : Int) :
    SpellsDoWhile (.bin "<" (.var "x") (.lit n)) [⟨"x", "=", .bin "+" (.var "x") (.lit 1)⟩]
      [tKw "do", tSep "\x7b", tId "x", tOp "=", tId "x", tOp "+", tInt 1, tSep ";", tSep "\x7d",
       tKw "while", tSep "(", tId "x", tOp "<", tInt n, tSep ")", tSep ";"] :=
  SpellsDoWhile.mk (tKw "do") (tKw "while") (tSep "(") (tSep ")") (tSep ";") _ _
    [tSep "\x7b", tId "x", tOp "=", tId "x", tOp "+", tInt 1, tSep ";", tSep "\x7d"]
    [tId "x", tOp "<", tInt n]
    rfl rfl rfl rfl rfl rfl rfl rfl rfl rfl
    (Spells.bin (tOp "<") _ _ [tId "x"] [tInt n] rfl (Spells.var (tId "x") rfl)
      (Spells.lit (tInt n) rfl))
    (by simp [Expr.PrecOk, Expr.top]; decide)
    (SpellsBody.mk (tSep "\x7b") (tSep "\x7d") _
      [tId "x", tOp "=", tId "x", tOp "+", tInt 1, tSep ";"] rfl rfl rfl rfl
      (SpellsAssigns.cons _ [tId "x", tOp "=", tId "x", tOp "+", tInt 1, tSep ";"] [] []
        (SpellsAssign.mk (tId "x") (tOp "=") (tSep ";") _ [tId "x", tOp "+", tInt 1]
          rfl rfl rfl
          (Spells.bin (tOp "+") _ _ [tId "x"] [tInt 1] rfl (Spells.var (tId "x") rfl)
            (Spells.lit (tInt 1) rfl))
          (by simp [Expr.PrecOk, Expr.top]; decide) rfl rfl)
        SpellsAssigns.nil))

/-- C11: for every `n` in the range of `int`, resolving
`int x = 0; do { x = x + 1; } while (x < n);` with enough fuel ends with
the scope stack binding `x` to `max 1 n`.  For every `do-while` statement
whose block is made of assignments, whenever the execution "block, then
condition in the state the block left", repeated while the condition is
nonzero, terminates with the scope stack `ss'`, the resolver with enough
fuel does not run out of fuel, every result it returns carries `ss'` and
the cursor behind the statement, and it does return when the right-hand
sides of the block evaluate in `ss'`.  In particular, when the condition is
0 in the state `ss1` that one execution of the block gives, every result
carries `ss1`, whatever the condition is in the state before the block. -/
theorem C11_do_while_applies_body_before_condition :
    (∀ (n : Int), -2147483648 ≤ n → n < 2147483648 →
      ∀ fuel, (max 1 n).toNat + 30 ≤ fuel →
      ∃ root, parse_with_scopes fuel (do_while_count_program n) =
          .ok (root, scope_x (max 1 n)) ∧ root.is_null = false) ∧
    (∀ (c : Expr) (body : List Assign) (tw : List Token), SpellsDoWhile c body tw →
      ∀ (tokens : List Token) (i : Nat) (rest : List Token), tokens.drop i = tw ++ rest →
      ∀ (k : Nat) (ss ss' : ScopeStack), do_while_run k ss c body = .ok ss' →
      ∀ fuel, k + tw.length + 2 ≤ fuel →
        parse_do_while_statement fuel tokens i ss ≠ .error .outOfFuel ∧
        (∀ r, parse_do_while_statement fuel tokens i ss = .ok r →
          r.scope_stack = ss' ∧ r.i = i + tw.length) ∧
        ((∃ s, exec_assigns false ss' body = .ok s) →
          ∃ r, parse_do_while_statement fuel tokens i ss = .ok r)) ∧
    (∀ (c : Expr) (body : List Assign) (tw : List Token), SpellsDoWhile c body tw →
      ∀ (tokens : List Token) (i : Nat) (rest : List Token), tokens.drop i = tw ++ rest →
      ∀ (ss ss1 : ScopeStack), exec_assigns true ss body = .ok ss1 → c.eval ss1 = .ok 0 →
      ∀ fuel, tw.length + 3 ≤ fuel →
        parse_do_while_statement fuel tokens i ss ≠ .error .outOfFuel ∧
        ∀ r, parse_do_while_statement fuel tokens i ss = .ok r → r.scope_stack = ss1) := by
  refine ⟨?_, fun c body tw h tokens i rest hd k ss ss' hrun fuel hf =>
    parse_do_while_statement_refines h tokens i rest hd k ss ss' hrun fuel hf, ?_⟩
  · intro n hn1 hn2 fuel hf
    obtain ⟨F, rfl⟩ : ∃ F, fuel = F + 6 := ⟨fuel - 6, by omega⟩
    have hrun : do_while_run ((max 1 n).toNat - 1 + 1) (scope_x 0)
        (.bin "<" (.var "x") (.lit n)) [⟨"x", "=", .bin "+" (.var "x") (.lit 1)⟩] =
        .ok (scope_x (max 1 n)) := by
      have h1 : (1 : Int) ≤ max 1 n := le_max_left 1 n
      have h2 : max 1 n < 2147483648 := max_lt (by decide) hn2
      have := do_while_count_run n ((max 1 n).toNat - 1) 0 (le_refl 0)
        (by push_cast; omega) (by push_cast; simp)
      have e : (0 : Int) + 1 + (((max 1 n).toNat - 1 : Nat) : Int) = max 1 n := by
        push_cast; omega
      rw [e] at this
      exact this
    have hw := parse_do_while_statement_refines (SpellsDoWhile_count n)
      (do_while_count_program n) 5 [] rfl ((max 1 n).toNat - 1 + 1) (scope_x 0)
      (scope_x (max 1 n)) hrun (F + 3) (by simp; omega)
    obtain ⟨r, hr⟩ := hw.2.2 ⟨scope_x (max 1 n), rfl⟩
    obtain ⟨hr1, hr2⟩ := hw.2.1 r hr
    have hnode := parse_do_while_statement_node hr
    have hs1 : ∃ N, N.is_null = false ∧
        parse_statement (F + 5) (do_while_count_program n) 0
          (push_scope create_scope_stack create_symbol_table) true =
          .ok ⟨N, 0, 5, scope_x 0⟩ := by
      refine ⟨_, ?_, rfl⟩
      rfl
    obtain ⟨N, hN, hs1⟩ := hs1
    have hs2 : parse_statement (F + 4) (do_while_count_program n) 5 (scope_x 0) true =
        parse_do_while_statement (F + 3) (do_while_count_program n) 5 (scope_x 0) := rfl
    have hlen : (do_while_count_program n).length = 21 := rfl
    simp only [parse_with_scopes]
    rw [if_neg (by rw [hlen]; decide)]
    rw [parse_loop, if_pos (by rw [hlen]; decide), hs1]
    simp only [hN, Bool.false_eq_true, if_false]
    rw [parse_loop, if_pos (by rw [hlen]; decide), hs2, hr]
    simp only [hnode, Bool.false_eq_true, if_false, hr1, hr2]
    rw [parse_loop, if_neg (by rw [hlen]; simp)]
    exact ⟨_, rfl, rfl⟩
  · intro c body tw h tokens i rest hd ss ss1 hex hev fuel hf
    have hrun : do_while_run 1 ss c body = .ok ss1 := by
      simp [do_while_run, hex, hev]
    have := parse_do_while_statement_refines h tokens i rest hd 1 ss ss1 hrun fuel (by omega)
    exact ⟨this.1, fun r hr => (this.2.1 r hr).1⟩

/-- C11 at `n = 1` (the body runs once although `x < 1` is false after
it), at `n = 4` and at `n = -3`. -/
theorem C11_witness :
    (∃ root, parse_with_scopes 31 (do_while_count_program 1) =
        .ok (root, scope_x (max 1 1)) ∧ root.is_null = false) ∧
    (∃ root, parse_with_scopes 34 (do_while_count_program 4) =
        .ok (root, scope_x (max 1 4)) ∧ root.is_null = false) ∧
    (∃ root, parse_with_scopes 31 (do_while_count_program (-3)) =
        .ok (root, scope_x (max 1 (-3))) ∧ root.is_null = false) :=
  ⟨C11_do_while_applies_body_before_condition.1 1 (by decide) (by decide) 31 (by decide),
   C11_do_while_applies_body_before_condition.1 4 (by decide) (by decide) 34 (by decide),
   C11_do_while_applies_body_before_condition.1 (-3) (by decide) (by decide) 31 (by decide)⟩

/-! ## Folding wraps to 32 bits -/

theorem wrap32_range (x : Int) : -2147483648 ≤ wrap32 x ∧ wrap32 x < 2147483648 := by
  unfold wrap32; omega

theorem wrap32_congr (x : Int) : (wrap32 x - x) % 4294967296 = 0 := by
  unfold wrap32; omega

/-- C23: for all integers `a` and `b` (so for all 32-bit ones), the
expressions `a + b`, `a - b` and `a * b` fold to the literal whose value
is the mathematical result reduced into the signed 32-bit range: a value
of that range that differs from the exact result by a multiple of 2^32
(the exact result itself when it is in range); `2147483647 + 1` folds to
`-2147483648`. -/
theorem C23_fold_wraps_to_32_bits :
    (∀ (a b : Int) (ss : ScopeStack) (g : Nat),
      parse_expression (g + 4) [tInt a, tOp "+", tInt b] 0 ss 0 =
        .ok (lit_node (wrap32 (a + b)) 1 1, 3) ∧
      parse_expression (g + 4) [tInt a, tOp "-", tInt b] 0 ss 0 =
        .ok (lit_node (wrap32 (a - b)) 1 1, 3) ∧
      parse_expression (g + 4) [tInt a, tOp "*", tInt b] 0 ss 0 =
        .ok (lit_node (wrap32 (a * b)) 1 1, 3)) ∧
    (∀ (a b : Int),
      evaluate_constant_expression (binary_node (tOp "+") a b) = .ok (wrap32 (a + b)) ∧
      evaluate_constant_expression (binary_node (tOp "-") a b) = .ok (wrap32 (a - b)) ∧
      evaluate_constant_expression (binary_node (tOp "*") a b) = .ok (wrap32 (a * b))) ∧
    (∀ x : Int, -2147483648 ≤ wrap32 x ∧ wrap32 x < 2147483648 ∧
      (wrap32 x - x) % 4294967296 = 0) ∧
    (∀ x : Int, -2147483648 ≤ x ∧ x < 2147483648 ↔ wrap32 x = x) ∧
    parse_expression 4 [tInt 2147483647, tOp "+", tInt 1] 0 [] 0 =
      .ok (lit_node (-2147483648) 1 1, 3) := by
  refine ⟨fun a b ss g => ⟨rfl, rfl, rfl⟩, fun a b => ⟨rfl, rfl, rfl⟩, ?_, ?_, by decide⟩
  · intro x
    exact ⟨(wrap32_range x).1, (wrap32_range x).2, wrap32_congr x⟩
  · intro x
    constructor
    · intro h; exact wrap32_of_range h.1 h.2
    · intro h; rw [← h]; exact wrap32_range x

/-! ## The precedence table and the assignment operators -/

theorem get_precedence_assignment {s : String} (h : is_assignment_operator s = true) :
    get_precedence s = -1 := by
  simp only [is_assignment_operator, decide_eq_true_eq] at h
  rcases h with h | h | h | h | h | h | h | h <;> subst h <;> decide

theorem get_precedence_other (s : String)
    (h : s ∉ ["*", "/", "%", "+", "-", "<<", ">>", "<", "<=", ">", ">=", "==", "!=", "&", "^",
      "|", "&&", "||"]) : get_precedence s = -1 := by
  simp only [List.mem_cons, List.mem_singleton, List.not_mem_nil, or_false, not_or] at h
  obtain ⟨h1, h2, h3, h4, h5, h6, h7, h8, h9, h10, h11, h12, h13, h14, h15, h16, h17, h18⟩ := h
  unfold get_precedence
  simp [h1, h2, h3, h4, h5, h6, h7, h8, h9, h10, h11, h12, h13, h14, h15, h16, h17, h18]

/-- The tokens an expression parse consumes hold no assignment operator
when the minimum precedence is not negative. -/
theorem parse_expression_consumed (n : Nat) :
    (∀ tokens i ss node i1, parse_primary n tokens i ss = .ok (node, i1) →
        i < i1 ∧ ∀ j t, i ≤ j → j < i1 → tokens[j]? = some t → ¬ t.is_assignment) ∧
    (∀ tokens i ss (m : Int) node i1, 0 ≤ m →
        parse_expression n tokens i ss m = .ok (node, i1) →
        i < i1 ∧ ∀ j t, i ≤ j → j < i1 → tokens[j]? = some t → ¬ t.is_assignment) ∧
    (∀ tokens i ss (m : Int) left node i1, 0 ≤ m →
        parse_expression_loop n tokens i ss m left = .ok (node, i1) →
        i ≤ i1 ∧ ∀ j t, i ≤ j → j < i1 → tokens[j]? = some t → ¬ t.is_assignment) := by
  induction n with
  | zero =>
    refine ⟨?_, ?_, ?_⟩
    · intro tokens i ss node i1 h; rw [parse_primary] at h; cases h
    · intro tokens i ss m node i1 _ h; rw [parse_expression] at h; cases h
    · intro tokens i ss m left node i1 _ h; rw [parse_expression_loop] at h; cases h
  | succ f ih =>
    obtain ⟨ih1, ih2, ih3⟩ := ih
    refine ⟨?_, ?_, ?_⟩
    · intro tokens i ss node i1 h
      rw [parse_primary] at h
      cases ht : tokens[i]? with
      | none => rw [ht] at h; cases h
      | some token =>
        rw [ht] at h
        simp only at h
        have one : ∀ nd, (Except.ok (nd, i + 1) : Except Err (Node × Nat)) = .ok (node, i1) →
            (token.type = .INT ∨ token.type = .IDENTIFIER) →
            i < i1 ∧ ∀ j t, i ≤ j → j < i1 → tokens[j]? = some t → ¬ t.is_assignment := by
          intro nd hq hty
          simp only [Except.ok.injEq, Prod.mk.injEq] at hq
          obtain ⟨_, rfl⟩ := hq
          refine ⟨by omega, ?_⟩
          intro j t h1 h2 htj hasg
          have : j = i := by omega
          subst this
          rw [ht] at htj
          simp only [Option.some.injEq] at htj
          subst htj
          rcases hty with hty | hty <;> rw [hasg.1] at hty <;> cases hty
        split at h
        · rename_i hty
          split at h
          · split at h
            · cases h
            · split at h
              · exact one _ h hty
              · exact one _ h hty
          · exact one _ h hty
        · split at h
          · rename_i hsep
            split at h
            · cases h
            · rename_i expr i2 hpe
              obtain ⟨hlt, hin⟩ := ih2 _ _ _ _ _ _ (le_refl 0) hpe
              split at h
              · cases h
              · rename_i tc htc
                split at h
                · cases h
                · rename_i s hs
                  split at h
                  · rename_i hclose
                    simp only [Except.ok.injEq, Prod.mk.injEq] at h
                    obtain ⟨_, rfl⟩ := h
                    refine ⟨by omega, ?_⟩
                    intro j t h1 h2 htj hasg
                    by_cases hj : j = i
                    · subst hj
                      rw [ht] at htj
                      simp only [Option.some.injEq] at htj
                      subst htj
                      rw [hasg.1] at hsep
                      cases hsep.1
                    · by_cases hj2 : j < i2
                      · exact hin j t (by omega) hj2 htj hasg
                      · have : j = i2 := by omega
                        subst this
                        have htt : tc = t := by
                          rw [htc] at htj; exact Option.some.inj htj
                        rw [← htt] at hasg
                        have hstr : tc.str_val = ")" := by
                          unfold Token.str at hs
                          split at hs
                          · cases hs
                          · simp only [Except.ok.injEq] at hs
                            rw [hs, hclose]
                        have := hasg.2
                        rw [hstr] at this
                        exact absurd this (by decide)
                  · cases h
          · cases h
    · intro tokens i ss m node i1 hm h
      rw [parse_expression] at h
      split at h
      · cases h
      · rename_i left i2 hp
        obtain ⟨hlt, hin⟩ := ih1 _ _ _ _ _ hp
        obtain ⟨hle, hin2⟩ := ih3 _ _ _ _ _ _ _ hm h
        refine ⟨by omega, ?_⟩
        intro j t h1 h2 htj
        by_cases hj : j < i2
        · exact hin j t h1 hj htj
        · exact hin2 j t (by omega) h2 htj
    · intro tokens i ss m left node i1 hm h
      rw [parse_expression_loop] at h
      cases ht : tokens[i]? with
      | none =>
        rw [ht] at h
        simp only [Except.ok.injEq, Prod.mk.injEq] at h
        obtain ⟨_, rfl⟩ := h
        exact ⟨le_refl _, fun j t h1 h2 => by omega⟩
      | some op =>
        rw [ht] at h
        simp only at h
        split at h
        · simp only [Except.ok.injEq, Prod.mk.injEq] at h
          obtain ⟨_, rfl⟩ := h
          exact ⟨le_refl _, fun j t h1 h2 => by omega⟩
        · split at h
          · simp only [Except.ok.injEq, Prod.mk.injEq] at h
            obtain ⟨_, rfl⟩ := h
            exact ⟨le_refl _, fun j t h1 h2 => by omega⟩
          · rename_i hprec
            have hp0 : 0 ≤ get_precedence op.str_val := by omega
            have hop : ¬ op.is_assignment := by
              intro hasg
              have := get_precedence_assignment hasg.2
              omega
            split at h
            · cases h
            · rename_i right i2 hpe
              obtain ⟨hlt, hin⟩ := ih2 _ _ _ _ _ _ (by omega) hpe
              have rest : ∀ L, parse_expression_loop f tokens i2 ss m L = .ok (node, i1) →
                  i ≤ i1 ∧ ∀ j t, i ≤ j → j < i1 → tokens[j]? = some t →
                    ¬ t.is_assignment := by
                intro L hL
                obtain ⟨hle, hin2⟩ := ih3 _ _ _ _ _ _ _ hm hL
                refine ⟨by omega, ?_⟩
                intro j t h1 h2 htj
                by_cases hj : j = i
                · subst hj
                  rw [ht] at htj
                  simp only [Option.some.injEq] at htj
                  subst htj
                  exact hop
                · by_cases hj2 : j < i2
                  · exact hin j t (by omega) hj2 htj
                  · exact hin2 j t (by omega) h2 htj
              split at h
              · split at h
                · cases h
                · exact rest _ h
              · exact rest _ h

/-- C24: the precedence table: 9 for `* / %`, 8 for `+ -`, 7 for `<< >>`,
6 for `< <= > >=`, 5 for `== !=`, 4 for `&`, 3 for `^`, 2 for `|`, 1 for
`&&`, 0 for `||`, and -1 for every other string, among them the eight
assignment operators.  So the tokens that a returning `parse_expression`
with minimum precedence 0 consumed hold no assignment operator, and the
operator loop at minimum precedence 0 stops in front of one. -/
theorem C24_precedence_table_excludes_assignment_operators :
    (get_precedence "*" = 9 ∧ get_precedence "/" = 9 ∧ get_precedence "%" = 9 ∧
     get_precedence "+" = 8 ∧ get_precedence "-" = 8 ∧
     get_precedence "<<" = 7 ∧ get_precedence ">>" = 7 ∧
     get_precedence "<" = 6 ∧ get_precedence "<=" = 6 ∧ get_precedence ">" = 6 ∧
     get_precedence ">=" = 6 ∧
     get_precedence "==" = 5 ∧ get_precedence "!=" = 5 ∧
     get_precedence "&" = 4 ∧ get_precedence "^" = 3 ∧ get_precedence "|" = 2 ∧
     get_precedence "&&" = 1 ∧ get_precedence "||" = 0) ∧
    (∀ s : String,
      s ∉ ["*", "/", "%", "+", "-", "<<", ">>", "<", "<=", ">", ">=", "==", "!=", "&", "^",
        "|", "&&", "||"] → get_precedence s = -1) ∧
    (∀ s : String, is_assignment_operator s = true → get_precedence s = -1) ∧
    (∀ (fuel : Nat) (tokens : List Token) (i : Nat) (ss : ScopeStack) (node : Node) (i1 : Nat),
      parse_expression fuel tokens i ss 0 = .ok (node, i1) →
      i < i1 ∧ ∀ j t, i ≤ j → j < i1 → tokens[j]? = some t → ¬ t.is_assignment) ∧
    (∀ (g : Nat) (tokens : List Token) (i : Nat) (ss : ScopeStack) (left : Node) (t : Token),
      tokens[i]? = some t → t.is_assignment →
      parse_expression_loop (g + 1) tokens i ss 0 left = .ok (left, i)) := by
  refine ⟨by decide, get_precedence_other, fun s h => get_precedence_assignment h, ?_, ?_⟩
  · intro fuel tokens i ss node i1 h
    exact (parse_expression_consumed fuel).2.1 tokens i ss 0 node i1 (le_refl 0) h
  · intro g tokens i ss left t ht hasg
    refine parse_expression_loop_stop (k := tokens.drop i) rfl ?_
    intro t1 r hk _
    have h1 := getElem?_of_drop_eq_cons hk
    rw [ht] at h1
    simp only [Option.some.injEq] at h1
    subst h1
    rw [get_precedence_assignment hasg.2]
    decide

/-- C24 at `1 + 2 = 3`: the expression parse returns in front of `=`; and
at `1 += 2` the operator loop stops in front of `+=`. -/
theorem C24_witness :
    (0 < 3 ∧ ∀ j t, 0 ≤ j → j < 3 →
      [tInt 1, tOp "+", tInt 2, tOp "=", tInt 3][j]? = some t → ¬ t.is_assignment) ∧
    parse_expression_loop (0 + 1) [tInt 1, tOp "+=", tInt 2] 1 [] 0 (lit_node 1 1 1) =
      .ok (lit_node 1 1 1, 1) :=
  ⟨C24_precedence_table_excludes_assignment_operators.2.2.2.1 5
      [tInt 1, tOp "+", tInt 2, tOp "=", tInt 3] 0 [] (lit_node 3 1 1) 3 (by decide),
   C24_precedence_table_excludes_assignment_operators.2.2.2.2 0
      [tInt 1, tOp "+=", tInt 2] 1 [] (lit_node 1 1 1) (tOp "+=") rfl ⟨rfl, by decide⟩⟩

/-! ## The node and the stored value of an assignment -/

theorem find_target_table_of_lookup {ss : ScopeStack} {x : String} {sym : Symbol}
    (h : find_symbol_in_scope_stack ss x = some sym) :
    ∃ j, find_target_table ss x = some j := by
  cases hj : find_target_table ss x with
  | some j => exact ⟨j, rfl⟩
  | none =>
    have := find_symbol_in_scope_stack_eq_none.mpr (find_target_table_eq_none.mp hj)
    rw [this] at h; cases h

/-- After `update_symbol` on the target table the lookup of the name gives
the stored value. -/
theorem lookup_after_update {ss : ScopeStack} {x : String} {w : Int} :
    ∀ {j : Nat} {ss1 : ScopeStack}, find_target_table ss x = some j →
      update_symbol_at ss j x w = .ok ss1 →
      ∃ sym1, find_symbol_in_scope_stack ss1 x = some sym1 ∧ sym1.value = w := by
  induction ss with
  | nil => intro j ss1 h; simp [find_target_table] at h
  | cons t rest ih =>
    intro j ss1 h hu
    simp only [find_target_table] at h
    cases hr : find_target_table rest x with
    | some k =>
      rw [hr] at h
      simp only [Option.some.injEq] at h
      subst h
      simp only [update_symbol_at, List.getElem?_cons_succ] at hu
      cases hg : rest[k]? with
      | none => rw [hg] at hu; cases hu
      | some tb =>
        rw [hg] at hu
        simp only at hu
        cases hup : update_symbol tb x w with
        | error e => rw [hup] at hu; cases hu
        | ok tb1 =>
          rw [hup] at hu
          simp only [List.set_cons_succ, Except.ok.injEq] at hu
          subst hu
          have hrest : update_symbol_at rest k x w = .ok (rest.set k tb1) := by
            simp [update_symbol_at, hg, hup]
          obtain ⟨sym1, h1, h2⟩ := ih hr hrest
          exact ⟨sym1, by simp [find_symbol_in_scope_stack, h1], h2⟩
    | none =>
      rw [hr] at h
      simp only at h
      cases hf : find_symbol t x with
      | none => rw [hf] at h; simp at h
      | some s0 =>
        rw [hf] at h
        simp only [Option.isSome_some, if_true, Option.some.injEq] at h
        subst h
        obtain ⟨t1, hup, hfind⟩ := update_symbol_find hf w
        simp only [update_symbol_at, List.getElem?_cons_zero, hup, List.set_cons_zero,
          Except.ok.injEq] at hu
        subst hu
        have hnone := find_symbol_in_scope_stack_eq_none.mpr (find_target_table_eq_none.mp hr)
        have hx := hfind x
        simp only [if_true] at hx
        cases hf1 : find_symbol t1 x with
        | none => rw [hf1] at hx; cases hx
        | some s1 =>
          rw [hf1] at hx
          simp only [Option.map_some', Option.some.injEq] at hx
          exact ⟨s1, by simp [find_symbol_in_scope_stack, hnone, hf1], hx⟩

theorem current_value_at_of_lookup {ss : ScopeStack} {x : String} {sym : Symbol} {j : Nat}
    (h : find_symbol_in_scope_stack ss x = some sym) (hj : find_target_table ss x = some j) :
    current_value_at ss j x = sym.value := by
  obtain ⟨table, h1, _, _, h4⟩ := find_target_table_spec hj
  rw [h] at h4
  simp [current_value_at, h1, ← h4]

/-- C30: when an assignment statement parsed with `condition_active = true`
returns, its node is an assignment node whose first child is an identifier
node naming the target and whose right-hand side is a literal without child
and sibling (for a compound assignment the literal that replaced the binary
node), and the value of that literal is the value the scope-stack lookup of
the target gives in the scope stack the statement leaves. -/
theorem C30_assignment_node_agrees_with_stored_value (fuel : Nat) (tokens : List Token)
    (i : Nat) (ss : ScopeStack) (p : Parsed)
    (h : parse_assignment_statement fuel tokens i ss true = .ok p) :
    ∃ id w ln cl sym1, tokens[i]? = some id ∧
      p.node = .mk .NODE_ASSIGNMENT (.str_val (some "=")) id.line id.col
        (.mk .NODE_IDENTIFIER (.str_val (some id.str_val)) id.line id.col .NULL .NULL)
        (lit_node w ln cl) ∧
      find_symbol_in_scope_stack p.scope_stack id.str_val = some sym1 ∧ sym1.value = w := by
  unfold parse_assignment_statement at h
  have hsome : ∃ id, tokens[i]? = some id := by
    cases hid : tokens[i]? with
    | none => rw [hid] at h; cases h
    | some id => exact ⟨id, rfl⟩
  obtain ⟨id, hid⟩ := hsome
  rw [hid] at h
  simp only at h
  split at h
  · cases h
  · cases hj : find_target_table ss id.str_val with
    | none => rw [hj] at h; cases h
    | some j =>
      rw [hj] at h
      simp only at h
      split at h
      · cases h
      · rename_i op hop
        split at h
        · cases h
        · split at h
          · cases h
          · rename_i expr i1 hpe
            obtain ⟨v, ln, cl, rfl⟩ := (parse_expression_literal_aux fuel).2.1 _ _ _ _ _ _ hpe
            split at h
            · cases h
            · simp only [if_true] at h
              by_cases heq : op.str_val = "="
              · have hne : ¬ (op.str_val ≠ "=") := by simp [heq]
                simp only [if_neg hne] at h
                rw [apply_assignment_simple] at h
                cases hu : update_symbol_at ss j id.str_val v with
                | error e => rw [hu] at h; cases h
                | ok s =>
                  rw [hu] at h
                  simp only [Except.map, Except.ok.injEq] at h
                  subst h
                  obtain ⟨sym1, h1, h2⟩ := lookup_after_update hj hu
                  exact ⟨id, v, ln, cl, sym1, hid, rfl, h1, h2⟩
              · have hne : op.str_val ≠ "=" := heq
                simp only [if_pos hne] at h
                rw [apply_assignment_compound_eq] at h
                cases hc : compound_result (some (strip_assign op.str_val))
                      (current_value_at ss j id.str_val) v with
                | error e => rw [hc] at h; cases h
                | ok w =>
                  rw [hc] at h
                  simp only at h
                  cases hu : update_symbol_at ss j id.str_val w with
                  | error e => rw [hu] at h; cases h
                  | ok s =>
                    rw [hu] at h
                    simp only [Except.map, Except.ok.injEq] at h
                    subst h
                    obtain ⟨sym1, h1, h2⟩ := lookup_after_update hj hu
                    exact ⟨id, _, _, _, sym1, hid, rfl, h1, h2⟩

/-- C30 at `x <<= 3 ;` with `x = 5` in the outer table. -/
theorem C30_witness :
    ∃ id w ln cl sym1, [tId "x", tOp "<<=", tInt 3, tSep ";"][0]? = some id ∧
      (Parsed.mk
        (.mk .NODE_ASSIGNMENT (.str_val (some "=")) 1 1
          (.mk .NODE_IDENTIFIER (.str_val (some "x")) 1 1 .NULL .NULL) (lit_node 40 1 1))
        0 4 [[⟨"x", .VAR_INT, 40, 1, 1⟩], []]).node =
        .mk .NODE_ASSIGNMENT (.str_val (some "=")) id.line id.col
          (.mk .NODE_IDENTIFIER (.str_val (some id.str_val)) id.line id.col .NULL .NULL)
          (lit_node w ln cl) ∧
      find_symbol_in_scope_stack
        (Parsed.mk
          (.mk .NODE_ASSIGNMENT (.str_val (some "=")) 1 1
            (.mk .NODE_IDENTIFIER (.str_val (some "x")) 1 1 .NULL .NULL) (lit_node 40 1 1))
          0 4 [[⟨"x", .VAR_INT, 40, 1, 1⟩], []]).scope_stack id.str_val = some sym1 ∧
      sym1.value = w :=
  C30_assignment_node_agrees_with_stored_value 5 [tId "x", tOp "<<=", tInt 3, tSep ";"] 0
    [[⟨"x", .VAR_INT, 5, 1, 1⟩], []] _ (by decide)

/-! ## The value an assignment stores -/

theorem assigned_value_of_spec {s : String} (hs : is_assignment_operator s = true)
    (v r w : Int) (h : assigned_by_spec s v r = some w) : assigned_value s v r = .ok w := by
  simp only [is_assignment_operator, decide_eq_true_eq] at hs
  rcases hs with hs | hs | hs | hs | hs | hs | hs | hs <;> subst hs
  · simp [assigned_by_spec] at h
    simp [assigned_value, h]
  · have e : strip_assign "+=" = "+" := by decide
    simp [assigned_by_spec] at h
    simp [assigned_value, e, compound_result, c_add, wrap32_eq_int32, h]
  · have e : strip_assign "-=" = "-" := by decide
    simp [assigned_by_spec] at h
    simp [assigned_value, e, compound_result, c_sub, wrap32_eq_int32, h]
  · have e : strip_assign "*=" = "*" := by decide
    simp [assigned_by_spec] at h
    simp [assigned_value, e, compound_result, c_mul, wrap32_eq_int32, h]
  · have e : strip_assign "/=" = "/" := by decide
    simp only [assigned_by_spec, String.reduceEq, if_false, if_true] at h
    split at h
    · cases h
    · rename_i hn
      simp only [Option.some.injEq] at h
      have hr : r ≠ 0 := fun hc => hn (Or.inl hc)
      have ht : ¬ (v = -2147483648 ∧ r = -1) := fun hc => hn (Or.inr hc)
      simp [assigned_value, e, compound_result, hr, c_div_ok hr ht, wrap32_eq_int32, h]
  · have e : strip_assign "%=" = "%" := by decide
    simp only [assigned_by_spec, String.reduceEq, if_false, if_true] at h
    split at h
    · cases h
    · rename_i hn
      simp only [Option.some.injEq] at h
      have hr : r ≠ 0 := fun hc => hn (Or.inl hc)
      have ht : ¬ (v = -2147483648 ∧ r = -1) := fun hc => hn (Or.inr hc)
      simp [assigned_value, e, compound_result, hr, c_mod_ok hr ht, wrap32_eq_int32, h]
  · have e : strip_assign "<<=" = "<<" := by decide
    simp [assigned_by_spec] at h
    simp [assigned_value, e, compound_result, c_shl_spec, h]
  · have e : strip_assign ">>=" = ">>" := by decide
    simp [assigned_by_spec] at h
    simp [assigned_value, e, compound_result, c_shr_spec, h]

theorem update_symbol_at_ok {ss : ScopeStack} {x : String} {j : Nat}
    (hj : find_target_table ss x = some j) (w : Int) :
    ∃ ss1, update_symbol_at ss j x w = .ok ss1 := by
  obtain ⟨table, h1, h2, _, _⟩ := find_target_table_spec hj
  obtain ⟨pre, sym, post, h5, h6, h7, _⟩ := find_symbol_split h2
  refine ⟨ss.set j (pre ++ { sym with value := w } :: post), ?_⟩
  simp only [update_symbol_at, h1]
  rw [h5, update_symbol_split h6 h7 w]

/-- C25 (as amended): an active assignment `x op e ;` to a variable whose
lookup gives the current value `v`, with a right-hand side that evaluates
to `r`, returns and leaves `x` with the value the specification names: `r`
for `=`, and `v + r`, `v - r`, `v * r`, `v << r`, `v >> r` in 32-bit two's
complement for `+=`, `-=`, `*=`, `<<=`, `>>=`, and the truncating quotient
and remainder for `/=` and `%=` with `r ≠ 0`, unless `v` is -2147483648
and `r` is -1.  The value named is `assigned_by_spec`, which is written
without the operators of the code. -/
theorem C25_assignment_stores_operator_result (e : Expr) (te : List Token)
    (hsp : Spells e te) (hok : e.PrecOk) (id op semi : Token) (hid : id.type = .IDENTIFIER)
    (hop : op.type = .OPERATOR) (hasg : is_assignment_operator op.str_val = true)
    (hsemi1 : semi.type = .SEPARATOR) (hsemi2 : semi.str_val = ";")
    (ss : ScopeStack) (sym : Symbol)
    (hlook : find_symbol_in_scope_stack ss id.str_val = some sym)
    (r : Int) (hr : e.eval ss = .ok r)
    (w : Int) (hw : assigned_by_spec op.str_val sym.value r = some w)
    (tokens : List Token) (i : Nat) (rest : List Token)
    (hd : tokens.drop i = id :: op :: te ++ semi :: rest)
    (fuel : Nat) (hf : te.length + 3 ≤ fuel) :
    ∃ p sym1, parse_assignment_statement fuel tokens i ss true = .ok p ∧
      p.i = i + te.length + 3 ∧
      find_symbol_in_scope_stack p.scope_stack id.str_val = some sym1 ∧ sym1.value = w := by
  have hsa : SpellsAssign ⟨id.str_val, op.str_val, e⟩ (id :: op :: te ++ [semi]) :=
    SpellsAssign.mk id op semi e te hid hop hasg hsp hok hsemi1 hsemi2
  have hd0 : tokens.drop i = (id :: op :: te ++ [semi]) ++ rest := by simpa using hd
  have hst := parse_assignment_statement_spells hsa tokens i rest ss true hd0 fuel
    (by simp; omega)
  obtain ⟨j, hj⟩ := find_target_table_of_lookup hlook
  obtain ⟨ss1, hu⟩ := update_symbol_at_ok hj w
  have hexec : Assign.exec true ss ⟨id.str_val, op.str_val, e⟩ = .ok ss1 := by
    simp only [Assign.exec, hj, hr, if_true, current_value_at_of_lookup hlook hj,
      assigned_value_of_spec hasg _ _ _ hw, hu]
  rw [hexec] at hst
  cases hp : parse_assignment_statement fuel tokens i ss true with
  | error x => rw [hp] at hst; simp [state_of, at_cursor] at hst
  | ok p =>
    rw [hp] at hst
    simp only [state_of, at_cursor, Parsed.state, Except.ok.injEq, Prod.mk.injEq] at hst
    obtain ⟨sym1, h1, h2⟩ := lookup_after_update hj hu
    refine ⟨p, sym1, rfl, ?_, ?_, h2⟩
    · rw [hst.1]; simp; omega
    · rw [hst.2]; exact h1

/-- C25 at `x -= y * 2 ;` with `x = 10` in the outer table and `y = 3` in
the inner one: `x` becomes 4; at `x /= 2 ;` with `x = -7`: `x` becomes -3,
the quotient truncated towards zero; and at `x %= 2 ;` with `x = -7`: `x`
becomes -1. -/
theorem C25_witness :
    (∃ p sym1, parse_assignment_statement 6
        [tId "x", tOp "-=", tId "y", tOp "*", tInt 2, tSep ";"] 0
        [[⟨"x", .VAR_INT, 10, 1, 1⟩], [⟨"y", .VAR_INT, 3, 1, 1⟩]] true = .ok p ∧
      p.i = 0 + [tId "y", tOp "*", tInt 2].length + 3 ∧
      find_symbol_in_scope_stack p.scope_stack (tId "x").str_val = some sym1 ∧
      sym1.value = 4) ∧
    (∃ p sym1, parse_assignment_statement 4 [tId "x", tOp "/=", tInt 2, tSep ";"] 0
        [[⟨"x", .VAR_INT, -7, 1, 1⟩]] true = .ok p ∧
      p.i = 0 + [tInt 2].length + 3 ∧
      find_symbol_in_scope_stack p.scope_stack (tId "x").str_val = some sym1 ∧
      sym1.value = -3) ∧
    (∃ p sym1, parse_assignment_statement 4 [tId "x", tOp "%=", tInt 2, tSep ";"] 0
        [[⟨"x", .VAR_INT, -7, 1, 1⟩]] true = .ok p ∧
      p.i = 0 + [tInt 2].length + 3 ∧
      find_symbol_in_scope_stack p.scope_stack (tId "x").str_val = some sym1 ∧
      sym1.value = -1) :=
  ⟨C25_assignment_stores_operator_result (.bin "*" (.var "y") (.lit 2))
    [tId "y", tOp "*", tInt 2]
    (Spells.bin (tOp "*") (.var "y") (.lit 2) [tId "y"] [tInt 2] rfl
      (Spells.var (tId "y") rfl) (Spells.lit (tInt 2) rfl))
    (by simp [Expr.PrecOk, Expr.top, get_precedence])
    (tId "x") (tOp "-=") (tSep ";") rfl rfl (by decide) rfl rfl
    [[⟨"x", .VAR_INT, 10, 1, 1⟩], [⟨"y", .VAR_INT, 3, 1, 1⟩]] ⟨"x", .VAR_INT, 10, 1, 1⟩
    (by decide) 6 (by decide) 4 (by decide)
    [tId "x", tOp "-=", tId "y", tOp "*", tInt 2, tSep ";"] 0 [] rfl 6 (by decide),
   C25_assignment_stores_operator_result (.lit 2) [tInt 2] (Spells.lit (tInt 2) rfl) trivial
    (tId "x") (tOp "/=") (tSep ";") rfl rfl (by decide) rfl rfl
    [[⟨"x", .VAR_INT, -7, 1, 1⟩]] ⟨"x", .VAR_INT, -7, 1, 1⟩
    (by decide) 2 (by decide) (-3) (by decide)
    [tId "x", tOp "/=", tInt 2, tSep ";"] 0 [] rfl 4 (by decide),
   C25_assignment_stores_operator_result (.lit 2) [tInt 2] (Spells.lit (tInt 2) rfl) trivial
    (tId "x") (tOp "%=") (tSep ";") rfl rfl (by decide) rfl rfl
    [[⟨"x", .VAR_INT, -7, 1, 1⟩]] ⟨"x", .VAR_INT, -7, 1, 1⟩
    (by decide) 2 (by decide) (-1) (by decide)
    [tId "x", tOp "%=", tInt 2, tSep ";"] 0 [] rfl 4 (by decide)⟩

/-- C25, counterexample: with `x` equal to -2147483648 the active
assignments `x /= 0 - 1;` and `x %= 0 - 1;`, whose right-hand side folds to
-1, not 0, do not return and set `x` to no value: the division instruction
stops the process. -/
theorem C25_compound_division_of_int_min_by_minus_one_stores_nothing :
    find_symbol_in_scope_stack scope_int_min "x" = some ⟨"x", .VAR_INT, -2147483648, 1, 1⟩ ∧
    (Expr.bin "-" (.lit 0) (.lit 1)).eval scope_int_min = .ok (-1) ∧
    parse_assignment_statement 6 [tId "x", tOp "/=", tInt 0, tOp "-", tInt 1, tSep ";"] 0
      scope_int_min true = .error .arithmeticTrap ∧
    parse_assignment_statement 6 [tId "x", tOp "%=", tInt 0, tOp "-", tInt 1, tSep ";"] 0
      scope_int_min true = .error .arithmeticTrap := by
  refine ⟨by decide, by decide, by decide, by decide⟩

/-! ## Compound division and modulo by zero -/

set_option maxRecDepth 100000 in
/-- C26 (the code departs from the claim): `int x = 5; x /= 0; exit(x);`
and `int x = 5; x %= 0; exit(x);` are compiled without error: `x` keeps the
value 5 and the generated file exits with status 5, while `exit(x / 0);`
after the same declaration ends with the division-by-zero error.  The same
holds for every initial value `v`, and the statement itself returns with
the scope stack it received. -/
theorem C26_compound_division_by_zero_keeps_value :
    final_values (parse_with_scopes 8 (compound_by_zero "/=" 5)) = .ok [[("x", 5)]] ∧
    generated 8 (compound_by_zero "/=" 5) = .ok (exits_with 5) ∧
    final_values (parse_with_scopes 8 (compound_by_zero "%=" 5)) = .ok [[("x", 5)]] ∧
    generated 8 (compound_by_zero "%=" 5) = .ok (exits_with 5) ∧
    parse 8 [tKw "int", tId "x", tOp "=", tInt 5, tSep ";",
             tKw "exit", tSep "(", tId "x", tOp "/", tInt 0, tSep ")", tSep ";"] =
      .error .divisionByZero ∧
    (∀ (v : Int) (g : Nat),
      final_values (parse_with_scopes (g + 8) (compound_by_zero "/=" v)) = .ok [[("x", v)]] ∧
      final_values (parse_with_scopes (g + 8) (compound_by_zero "%=" v)) = .ok [[("x", v)]] ∧
      values_of (parse_assignment_statement (g + 2) (compound_by_zero "/=" v) 5
        [[⟨"x", .VAR_INT, v, 1, 1⟩]] true) = .ok [[("x", v)]] ∧
      values_of (parse_assignment_statement (g + 2) (compound_by_zero "%=" v) 5
        [[⟨"x", .VAR_INT, v, 1, 1⟩]] true) = .ok [[("x", v)]]) := by
  refine ⟨by decide!, by decide!, by decide!, by decide!, by decide!, ?_⟩
  intro v g
  exact ⟨rfl, rfl, rfl, rfl⟩

/-! ## The tree of an `if` / `else if` / `else` chain -/

theorem else_ifs_append {R : Node} {d : Nat} (h : ElseIfs R d) {N : Node} (hN : ElseIfs N 0) :
    ElseIfs (R.set_right_at d N) (d + 1) := by
  induction h with
  | one val ln cl v l1 c1 B hB => exact ElseIfs.cons val ln cl v l1 c1 B N 0 hB hN
  | cons val ln cl v l1 c1 B R d hB _ ih => exact ElseIfs.cons val ln cl v l1 c1 B _ (d + 1) hB ih

theorem else_ifs_else {R : Node} {d : Nat} (h : ElseIfs R d) (val : NodeValue) (ln cl : Int)
    {B : Node} (hB : B.is_block) :
    ElseChain (R.set_right_at d (.mk .NODE_ELSE_STATEMENT val ln cl B .NULL)) := by
  induction h with
  | one val1 ln1 cl1 v l1 c1 B1 hB1 =>
    exact ElseChain.else_if val1 ln1 cl1 v l1 c1 B1 _ hB1 (ElseChain.else_node val ln cl B hB)
  | cons val1 ln1 cl1 v l1 c1 B1 R d hB1 _ ih =>
    exact ElseChain.else_if val1 ln1 cl1 v l1 c1 B1 _ hB1 ih

theorem else_ifs_chain {R : Node} {d : Nat} (h : ElseIfs R d) : ElseChain R := by
  induction h with
  | one val ln cl v l1 c1 B hB => exact ElseChain.else_if val ln cl v l1 c1 B _ hB ElseChain.nil
  | cons val ln cl v l1 c1 B R d hB _ ih => exact ElseChain.else_if val ln cl v l1 c1 B _ hB ih

theorem else_ifs_depth {R : Node} {d : Nat} (h : ElseIfs R d) :
    R.chain_depth = d ∧ R.is_null = false := by
  induction h with
  | one val ln cl v l1 c1 B hB => exact ⟨rfl, rfl⟩
  | cons val ln cl v l1 c1 B R d hB hR ih =>
    refine ⟨?_, rfl⟩
    cases R with
    | NULL => simp [Node.is_null] at ih
    | mk a b c e l r => simp only [Node.chain_depth]; rw [ih.1]

/-- The node of an `if` statement: the condition literal as child and the
then-block as the sibling of the literal, whatever the value of the
condition. -/
theorem parse_if_statement_node {fuel : Nat} {tokens : List Token} {i : Nat} {ss : ScopeStack}
    {r : Parsed} (h : parse_if_statement fuel tokens i ss = .ok r) :
    ∃ g it v ln cl i1 blk, fuel = g + 1 ∧ tokens[i]? = some it ∧
      parse_expression g tokens (i + 2) ss 0 = .ok (lit_node v ln cl, i1) ∧
      parse_block g tokens (i1 + 1) ss (decide (v ≠ 0)) = .ok blk ∧ blk.node.is_block ∧
      r.node = .mk .NODE_IF_STATEMENT (.str_val (some "if")) it.line it.col
        (.mk .NODE_LITERAL_INT (.int_val v) ln cl .NULL blk.node) .NULL := by
  cases fuel with
  | zero => rw [parse_if_statement] at h; cases h
  | succ g =>
    rw [parse_if_statement] at h
    have hsome : ∃ it, tokens[i]? = some it := by
      cases hw : tokens[i]? with
      | none => rw [hw] at h; cases h
      | some it => exact ⟨it, rfl⟩
    obtain ⟨it, hit⟩ := hsome
    rw [hit] at h
    simp only at h
    split at h
    · cases h
    · cases hpe : parse_expression g tokens (i + 2) ss 0 with
      | error e => rw [hpe] at h; cases h
      | ok res =>
        obtain ⟨cond, i1⟩ := res
        obtain ⟨v, ln, cl, rfl⟩ := (parse_expression_literal_aux g).2.1 _ _ _ _ _ _ hpe
        rw [hpe] at h
        simp only at h
        split at h
        · cases h
        · rw [eval_condition_lit_node] at h
          cases hpb : parse_block g tokens (i1 + 1) ss (decide (v ≠ 0)) with
          | error e => rw [hpb] at h; cases h
          | ok blk =>
            rw [hpb] at h
            simp only [Except.ok.injEq] at h
            subst h
            exact ⟨g, it, v, ln, cl, i1, blk, rfl, hit, hpe, hpb, parse_block_node hpb, rfl⟩

theorem parse_else_if_statements_chain (fuel : Nat) :
    ∀ (tokens : List Token) (i : Nat) (ss : ScopeStack) (ty : NodeType) (val : NodeValue)
      (ln cl : Int) (l R : Node) (any : Bool) (last : Option Nat)
      (ifn : Node) (last1 : Option Nat) (i1 : Nat) (ss1 : ScopeStack),
      ((last = none ∧ R = .NULL) ∨ ∃ d, last = some (d + 1) ∧ ElseIfs R d) →
      parse_else_if_statements fuel tokens i ss (.mk ty val ln cl l R) any last =
        .ok (ifn, last1, i1, ss1) →
      ∃ R1, ifn = .mk ty val ln cl l R1 ∧
        ((last1 = none ∧ R1 = .NULL) ∨ ∃ d, last1 = some (d + 1) ∧ ElseIfs R1 d) := by
  induction fuel with
  | zero =>
    intro tokens i ss ty val ln cl l R any last ifn last1 i1 ss1 _ h
    rw [parse_else_if_statements] at h; cases h
  | succ f ih =>
    intro tokens i ss ty val ln cl l R any last ifn last1 i1 ss1 hinv h
    rw [parse_else_if_statements] at h
    split at h
    · split at h
      · cases h
      · rename_i et _
        split at h
        · cases h
        · split at h
          · cases h
          · rename_i cond i2 hpe
            obtain ⟨v, l1, c1, rfl⟩ := (parse_expression_literal_aux f).2.1 _ _ _ _ _ _ hpe
            split at h
            · cases h
            · split at h
              · cases h
              · rename_i blk hpb
                have hB := parse_block_node hpb
                have hN : ElseIfs
                    ((createNode .NODE_ELSE_IF_STATEMENT (some "else if") et.line
                      et.col).set_left ((lit_node v l1 c1).set_right blk.node)) 0 :=
                  ElseIfs.one _ _ _ v l1 c1 blk.node hB
                rcases hinv with ⟨hl, hR⟩ | ⟨d, hl, hR⟩
                · subst hl; subst hR
                  simp only [Node.get_right, Node.is_null, if_true] at h
                  exact ih _ _ _ _ _ _ _ _ _ _ _ _ _ _ _ (Or.inr ⟨0, rfl, hN⟩) h
                · subst hl
                  have hnn := (else_ifs_depth hR).2
                  simp only [Node.get_right, hnn, Bool.false_eq_true, if_false] at h
                  exact ih _ _ _ _ _ _ _ _ _ _ _ _ _ _ _
                    (Or.inr ⟨d + 1, rfl, else_ifs_append hR hN⟩) h
    · simp only [Except.ok.injEq, Prod.mk.injEq] at h
      obtain ⟨rfl, rfl, _, _⟩ := h
      exact ⟨R, rfl, hinv⟩

/-- C27, at `if (0) { x = 1; }` and `if (0) { x = 1; } else { x = 2; }`
with `x = 0`: the children of the `if` node are the literal 0 and the block
of the inactive `then` branch; the active `else` block is the child of the
`else` node, which is the sibling of the `if` node. -/
theorem C27_inactive_then_block_is_child_of_if_node :
    child_types (parse_else_statement 10 if_false_only 0 (scope_x 0)) =
      .ok [.NODE_LITERAL_INT, .NODE_BLOCK] ∧
    node_of (parse_else_statement 10 if_false_only 0 (scope_x 0)) =
      .ok (.mk .NODE_IF_STATEMENT (.str_val (some "if")) 1 1
        (.mk .NODE_LITERAL_INT (.int_val 0) 1 1 .NULL (block_assigning 1)) .NULL) ∧
    node_of (parse_else_statement 10 if_false_else 0 (scope_x 0)) =
      .ok (.mk .NODE_IF_STATEMENT (.str_val (some "if")) 1 1
        (.mk .NODE_LITERAL_INT (.int_val 0) 1 1 .NULL (block_assigning 1))
        (.mk .NODE_ELSE_STATEMENT (.str_val (some "else")) 1 1 (block_assigning 2) .NULL)) ∧
    values_of (parse_else_statement 10 if_false_else 0 (scope_x 0)) = .ok [[("x", 2)]] := by
  refine ⟨?_, ?_, ?_, ?_⟩ <;> decide

/-- C27 (as amended): whenever the parse of an `if` / `else if` / `else`
chain returns, the children of the `if` node are the literal of its
condition and the block of the `then` branch, which was parsed active
exactly when the literal is nonzero; the siblings of the `if` node are the
`else if` nodes in source order, each with its condition literal and its
own block beneath it, and then the `else` node with its block, if the chain
has one.  No block is moved: which branch is active shows only in the
condition literals. -/
theorem C27_if_chain_tree_follows_the_source (fuel : Nat) (tokens : List Token) (i : Nat)
    (ss : ScopeStack) (r : Parsed) (h : parse_else_statement fuel tokens i ss = .ok r) :
    ∃ g it v ln cl i1 blk R, fuel = g + 2 ∧ tokens[i]? = some it ∧
      parse_expression g tokens (i + 2) ss 0 = .ok (lit_node v ln cl, i1) ∧
      parse_block g tokens (i1 + 1) ss (decide (v ≠ 0)) = .ok blk ∧ blk.node.is_block ∧
      r.node = .mk .NODE_IF_STATEMENT (.str_val (some "if")) it.line it.col
        (.mk .NODE_LITERAL_INT (.int_val v) ln cl .NULL blk.node) R ∧
      ElseChain R := by
  cases fuel with
  | zero => rw [parse_else_statement] at h; cases h
  | succ f =>
    rw [parse_else_statement] at h
    split at h
    · cases h
    · cases hif : parse_if_statement f tokens i ss with
      | error e => rw [hif] at h; cases h
      | ok ifs =>
        rw [hif] at h
        simp only at h
        obtain ⟨g, it, v, ln, cl, i1, blk, rfl, hit, hpe, hpb, hB, hnode⟩ :=
          parse_if_statement_node hif
        rw [hnode] at h
        split at h
        · cases h
        · rename_i ifn last1 i2 ss2 hei
          obtain ⟨R1, hifn, hinv⟩ := parse_else_if_statements_chain (g + 1) _ _ _ _ _ _ _ _ _ _
            _ _ _ _ _ (Or.inl ⟨rfl, rfl⟩) hei
          subst hifn
          split at h
          · split at h
            · cases h
            · rename_i et _
              split at h
              · cases h
              · rename_i eb hpb2
                have hEB := parse_block_node hpb2
                simp only [Except.ok.injEq] at h
                subst h
                rcases hinv with ⟨_, hR⟩ | ⟨d, _, hR⟩
                · subst hR
                  refine ⟨g, it, v, ln, cl, i1, blk,
                    .mk .NODE_ELSE_STATEMENT (.str_val (some "else")) et.line et.col eb.node .NULL,
                    rfl, hit, hpe, hpb, hB, ?_, ?_⟩
                  · simp [Node.get_right, Node.is_null, Node.set_right, Node.set_left,
                      createNode]
                  · exact ElseChain.else_node (.str_val (some "else")) et.line et.col eb.node hEB
                · obtain ⟨hd, hnn⟩ := else_ifs_depth hR
                  refine ⟨g, it, v, ln, cl, i1, blk,
                    R1.set_right_at d
                      (.mk .NODE_ELSE_STATEMENT (.str_val (some "else")) et.line et.col
                        eb.node .NULL),
                    rfl, hit, hpe, hpb, hB, ?_, ?_⟩
                  · cases R1 with
                    | NULL => simp [Node.is_null] at hnn
                    | mk a b c e l r =>
                      simp only [Node.get_right, Node.is_null, Bool.false_eq_true, if_false,
                        Node.chain_depth, hd, Node.set_right_at, Node.set_left, createNode]
                      simp
                  · exact else_ifs_else hR (.str_val (some "else")) et.line et.col hEB
          · simp only [Except.ok.injEq] at h
            subst h
            refine ⟨g, it, v, ln, cl, i1, blk, R1, rfl, hit, hpe, hpb, hB, rfl, ?_⟩
            rcases hinv with ⟨_, hR⟩ | ⟨d, _, hR⟩
            · subst hR; exact ElseChain.nil
            · exact else_ifs_chain hR

theorem C27_witness :
    ∃ g it v ln cl i1 blk R, 10 = g + 2 ∧ if_false_else[0]? = some it ∧
      parse_expression g if_false_else (0 + 2) (scope_x 0) 0 = .ok (lit_node v ln cl, i1) ∧
      parse_block g if_false_else (i1 + 1) (scope_x 0) (decide (v ≠ 0)) = .ok blk ∧
      blk.node.is_block ∧
      (Parsed.mk
        (.mk .NODE_IF_STATEMENT (.str_val (some "if")) 1 1
          (.mk .NODE_LITERAL_INT (.int_val 0) 1 1 .NULL (block_assigning 1))
          (.mk .NODE_ELSE_STATEMENT (.str_val (some "else")) 1 1 (block_assigning 2) .NULL))
        1 17 [[⟨"x", .VAR_INT, 2, 1, 1⟩]]).node =
        .mk .NODE_IF_STATEMENT (.str_val (some "if")) it.line it.col
          (.mk .NODE_LITERAL_INT (.int_val v) ln cl .NULL blk.node) R ∧
      ElseChain R :=
  C27_if_chain_tree_follows_the_source 10 if_false_else 0 (scope_x 0) _ (by decide)

/-! ## Input that ends within a construct -/

/-- C22, evaluated on the code: when the last token is the keyword `int`
the declaration loop is never entered, `parse_variable_declaration` returns
no node and `parse` returns the null tree to its caller, at every fuel;
the file generated from it exits with status 0, also after `exit(x)` with
`x = 3`.  `int x ,` at the end of the input returns the tree of the
declaration of `x`.  `exit (`, `int x` and `int x =` at the end of the input
are fatal. -/
theorem C22_parse_returns_after_dangling_int :
    (∀ g, parse (g + 3) [tKw "int"] = .ok .NULL) ∧
    generated 3 [tKw "int"] = .ok (exits_with 0) ∧
    parse 9 ends_with_int = .ok .NULL ∧
    generated 9 ends_with_int = .ok (exits_with 0) ∧
    parse 5 [tKw "int", tId "x", tSep ","] =
      .ok (.mk .NODE_BEGIN (.str_val (some "program")) 0 0
        (.mk .NODE_VAR_DECL (.str_val (some "x")) 1 1 .NULL .NULL) .NULL) ∧
    parse 5 [tKw "exit", tSep "("] = .error .endOfInput ∧
    parse 5 [tKw "int", tId "x"] = .error .endOfInput ∧
    parse 5 [tKw "int", tId "x", tOp "="] = .error .endOfInput := by
  refine ⟨fun g => rfl, ?_, ?_, ?_, ?_, ?_, ?_, ?_⟩ <;> decide

/-! ## The words the lexer tags as keywords -/

/-- C28, evaluated on the code at `int x = 0; x = 1; x = 2;`: the statement
parser hands over the first assignment as three nodes, the identifier, the
literal 1 and the assignment node, the literal being the `right` link of
the assignment node; `parse` links the second assignment into that same
`right` link, so `free_ast` on the root releases eight nodes, the literal 1
not among them, of the nine nodes alive: the root, two of the declaration
and three of each assignment. -/
theorem C28_literal_of_linked_assignment_is_not_released :
    handed_over (parse_statement 7 two_assignments 0 [[]] true) =
      .ok [(.NODE_LITERAL_INT, .int_val 0), (.NODE_VAR_DECL, .str_val (some "x"))] ∧
    handed_over (parse_statement 7 two_assignments 5 (scope_x 0) true) =
      .ok [(.NODE_IDENTIFIER, .str_val (some "x")), (.NODE_LITERAL_INT, .int_val 1),
           (.NODE_ASSIGNMENT, .str_val (some "="))] ∧
    handed_over (parse_statement 7 two_assignments 9 (scope_x 1) true) =
      .ok [(.NODE_IDENTIFIER, .str_val (some "x")), (.NODE_LITERAL_INT, .int_val 2),
           (.NODE_ASSIGNMENT, .str_val (some "="))] ∧
    released 8 two_assignments =
      .ok [(.NODE_LITERAL_INT, .int_val 0),
           (.NODE_IDENTIFIER, .str_val (some "x")),
           (.NODE_IDENTIFIER, .str_val (some "x")), (.NODE_LITERAL_INT, .int_val 2),
           (.NODE_ASSIGNMENT, .str_val (some "=")),
           (.NODE_ASSIGNMENT, .str_val (some "=")),
           (.NODE_VAR_DECL, .str_val (some "x")),
           (.NODE_BEGIN, .str_val (some "program"))] := by
  refine ⟨?_, ?_, ?_, ?_⟩ <;> decide

/-! ## The scope stack across a block -/

theorem scope_names_length (ss : ScopeStack) : (scope_names ss).length = ss.length := by
  simp [scope_names]

theorem scope_names_dropLast (ss : ScopeStack) :
    scope_names ss.dropLast = (scope_names ss).dropLast := by
  induction ss with
  | nil => rfl
  | cons a rest ih =>
    cases rest with
    | nil => rfl
    | cons b rest2 =>
      simp only [scope_names, List.dropLast, List.map] at ih ⊢
      rw [ih]

theorem keeps_refl (ss : ScopeStack) : Keeps ss ss := rfl

theorem keeps_trans {a b c : ScopeStack} (h1 : Keeps a b) (h2 : Keeps b c) : Keeps a c := by
  unfold Keeps at *; rw [h2, h1]

theorem keeps_length {a b : ScopeStack} (h : Keeps a b) : b.length = a.length := by
  rw [← scope_names_length b, ← scope_names_length a, h]

theorem keeps_grows {a b : ScopeStack} (h : Keeps a b) : Grows a b :=
  ⟨keeps_length h, by rw [h]⟩

theorem grows_refl (ss : ScopeStack) : Grows ss ss := ⟨rfl, rfl⟩

theorem grows_trans {a b c : ScopeStack} (h1 : Grows a b) (h2 : Grows b c) : Grows a c :=
  ⟨h2.1.trans h1.1, h2.2.trans h1.2⟩

theorem grows_ne_nil {a b : ScopeStack} (h : Grows a b) (ha : a ≠ []) : b ≠ [] := by
  intro hb
  have := h.1
  rw [hb] at this
  cases a with
  | nil => exact ha rfl
  | cons x xs => simp at this

theorem keeps_ne_nil {a b : ScopeStack} (h : Keeps a b) (ha : a ≠ []) : b ≠ [] :=
  grows_ne_nil (keeps_grows h) ha

theorem push_scope_names (ss : ScopeStack) :
    (scope_names (push_scope ss create_symbol_table)).dropLast = scope_names ss := by
  simp [scope_names, push_scope, create_symbol_table]

theorem push_scope_ne_nil (ss : ScopeStack) : push_scope ss create_symbol_table ≠ [] := by
  simp [push_scope]

theorem add_symbol_current_grows (ss : ScopeStack) (name : String) (v ln cl : Int) :
    Grows ss (add_symbol_current ss name v ln cl) := by
  unfold add_symbol_current
  cases h : ss.getLast? with
  | none => exact grows_refl ss
  | some table =>
    simp only
    have hne : ss ≠ [] := by
      intro h0; rw [h0] at h; cases h
    have hlen : ss.dropLast.length + 1 = ss.length := by
      rw [List.length_dropLast]
      have : 0 < ss.length := List.length_pos.mpr hne
      omega
    refine ⟨by simp only [List.length_append, List.length_singleton]; exact hlen, ?_⟩
    simp only [scope_names, List.map_append, List.map_cons, List.map_nil,
      List.dropLast_concat]
    exact scope_names_dropLast ss

theorem update_symbol_at_keeps {ss ss1 : ScopeStack} {j : Nat} {name : String} {v : Int}
    (h : update_symbol_at ss j name v = .ok ss1) : Keeps ss ss1 := by
  unfold update_symbol_at at h
  split at h
  · cases h
  · rename_i table ht
    split at h
    · rename_i table1 hu
      simp only [Except.ok.injEq] at h
      subst h
      have hn := update_symbol_names hu
      unfold Keeps scope_names
      rw [List.map_set, hn]
      apply List.ext_getElem?
      intro k
      rw [List.getElem?_set]
      split
      · rename_i hjk
        subst hjk
        split
        · rw [List.getElem?_map, ht]; rfl
        · rename_i hlt
          simp only [List.length_map] at hlt
          rw [List.getElem?_eq_none]
          simp only [List.length_map]; omega
      · rfl
    · cases h

theorem update_symbol_no_pop {t : SymbolTable} {name : String} {v : Int} {e : Err}
    (h : update_symbol t name v = .error e) : e ≠ .popEmptyScopeStack := by
  induction t with
  | nil => simp only [update_symbol, Except.error.injEq] at h; subst h; intro hc; cases hc
  | cons a rest ih =>
    simp only [update_symbol] at h
    split at h
    · cases h
    · split at h
      · cases h
      · rename_i e1 he
        simp only [Except.error.injEq] at h
        subst h
        exact ih he

theorem update_symbol_at_no_pop {ss : ScopeStack} {j : Nat} {name : String} {v : Int} {e : Err}
    (h : update_symbol_at ss j name v = .error e) : e ≠ .popEmptyScopeStack := by
  unfold update_symbol_at at h
  split at h
  · simp only [Except.error.injEq] at h; subst h; intro hc; cases hc
  · split at h
    · cases h
    · rename_i e1 he
      simp only [Except.error.injEq] at h
      subst h
      exact update_symbol_no_pop he

theorem str_no_pop {t : Token} {e : Err} (h : t.str = .error e) : e ≠ .popEmptyScopeStack := by
  unfold Token.str at h
  split at h
  · simp only [Except.error.injEq] at h; subst h; intro hc; cases hc
  · cases h

theorem expect_str_no_pop {tokens : List Token} {i : Nat} {s : String} {err e : Err}
    (herr : err ≠ .popEmptyScopeStack) (h : expect_str tokens i s err = .error e) :
    e ≠ .popEmptyScopeStack := by
  unfold expect_str at h
  split at h
  · simp only [Except.error.injEq] at h; subst h; exact herr
  · split at h
    · rename_i e1 he
      simp only [Except.error.injEq] at h; subst h; exact str_no_pop he
    · split at h
      · cases h
      · simp only [Except.error.injEq] at h; subst h; exact herr

theorem expect_str_or_end_no_pop {tokens : List Token} {i : Nat} {s : String} {err e : Err}
    (herr : err ≠ .popEmptyScopeStack) (h : expect_str_or_end tokens i s err = .error e) :
    e ≠ .popEmptyScopeStack := by
  unfold expect_str_or_end at h
  split at h
  · simp only [Except.error.injEq] at h; subst h; intro hc; cases hc
  · split at h
    · rename_i e1 he
      simp only [Except.error.injEq] at h; subst h; exact str_no_pop he
    · split at h
      · cases h
      · simp only [Except.error.injEq] at h; subst h; exact herr

theorem peek_str_no_pop {tokens : List Token} {i : Nat} {s : String} {e : Err}
    (h : peek_str tokens i s = .error e) : e ≠ .popEmptyScopeStack := by
  unfold peek_str at h
  split at h
  · cases h
  · split at h
    · rename_i e1 he
      simp only [Except.error.injEq] at h; subst h; exact str_no_pop he
    · cases h

theorem eval_binary_no_pop {op : String} {l r : Int} {e : Err}
    (h : eval_binary op l r = .error e) : e ≠ .popEmptyScopeStack := by
  rcases eval_binary_cases op l r with ⟨v, h1⟩ | ⟨h1, _⟩ | ⟨h1, _⟩ | ⟨h1, _⟩ | ⟨h1, _⟩ <;>
    rw [h1] at h
  · cases h
  all_goals (simp only [Except.error.injEq] at h; subst h; intro hc; cases hc)

theorem evaluate_constant_expression_no_pop (node : Node) :
    ∀ e, evaluate_constant_expression node = .error e → e ≠ .popEmptyScopeStack := by
  induction node with
  | NULL => intro e h; simp [evaluate_constant_expression] at h
  | mk type value line col left right ihl ihr =>
    intro e h
    cases type <;> simp only [evaluate_constant_expression] at h
    all_goals first
      | (cases h; done)
      | (simp only [Except.error.injEq] at h; subst h; intro hc; cases hc)
      | skip
    split at h
    · simp only [Except.error.injEq] at h; subst h; intro hc; cases hc
    · split at h
      · rename_i e1 he
        simp only [Except.error.injEq] at h; subst h; exact ihl _ he
      · split at h
        · rename_i e1 he
          simp only [Except.error.injEq] at h; subst h; exact ihr _ he
        · split at h
          · exact eval_binary_no_pop h
          · simp only [Except.error.injEq] at h; subst h; intro hc; cases hc

theorem parse_expression_no_pop_aux (n : Nat) :
    (∀ tokens i ss e, parse_primary n tokens i ss = .error e → e ≠ .popEmptyScopeStack) ∧
    (∀ tokens i ss (m : Int) e, parse_expression n tokens i ss m = .error e →
        e ≠ .popEmptyScopeStack) ∧
    (∀ tokens i ss (m : Int) left e, parse_expression_loop n tokens i ss m left = .error e →
        e ≠ .popEmptyScopeStack) := by
  induction n with
  | zero =>
    refine ⟨?_, ?_, ?_⟩
    · intro tokens i ss e h
      simp only [parse_primary, Except.error.injEq] at h; subst h; intro hc; cases hc
    · intro tokens i ss m e h
      simp only [parse_expression, Except.error.injEq] at h; subst h; intro hc; cases hc
    · intro tokens i ss m left e h
      simp only [parse_expression_loop, Except.error.injEq] at h; subst h; intro hc; cases hc
  | succ f ih =>
    obtain ⟨ih1, ih2, ih3⟩ := ih
    refine ⟨?_, ?_, ?_⟩
    · intro tokens i ss e h
      rw [parse_primary] at h
      repeat' split at h
      all_goals first
        | (cases h; done)
        | (simp only [Except.error.injEq] at h; subst h
           first
             | (intro hc; cases hc; done)
             | (apply str_no_pop; assumption)
             | (apply ih2; assumption))
    · intro tokens i ss m e h
      rw [parse_expression] at h
      split at h
      · simp only [Except.error.injEq] at h; subst h; apply ih1; assumption
      · exact ih3 _ _ _ _ _ _ h
    · intro tokens i ss m left e h
      rw [parse_expression_loop] at h
      split at h
      · cases h
      · split at h
        · cases h
        · split at h
          · cases h
          · split at h
            · simp only [Except.error.injEq] at h; subst h; apply ih2; assumption
            · split at h
              · split at h
                · simp only [Except.error.injEq] at h; subst h
                  apply evaluate_constant_expression_no_pop; assumption
                · exact ih3 _ _ _ _ _ _ h
              · exact ih3 _ _ _ _ _ _ h

theorem parse_expression_no_pop {n : Nat} {tokens : List Token} {i : Nat} {ss : ScopeStack}
    {m : Int} {e : Err} (h : parse_expression n tokens i ss m = .error e) :
    e ≠ .popEmptyScopeStack :=
  (parse_expression_no_pop_aux n).2.1 _ _ _ _ _ h

theorem inv_ok {α : Type} {R : ScopeStack → ScopeStack → Prop} {proj : α → ScopeStack}
    {ss : ScopeStack} {r : α} (h : R ss (proj r)) : Inv R proj ss (.ok r) := h

theorem inv_error {α : Type} {R : ScopeStack → ScopeStack → Prop} {proj : α → ScopeStack}
    {ss : ScopeStack} {e : Err} (h : e ≠ .popEmptyScopeStack) :
    Inv R proj ss (.error e : Except Err α) := fun _ => h

theorem inv_of_ok {α : Type} {R : ScopeStack → ScopeStack → Prop} {proj : α → ScopeStack}
    {ss : ScopeStack} {res : Except Err α} {r : α} (h : Inv R proj ss res) (hr : res = .ok r) :
    R ss (proj r) := by
  subst hr; exact h

theorem inv_of_error {α : Type} {R : ScopeStack → ScopeStack → Prop} {proj : α → ScopeStack}
    {ss : ScopeStack} {res : Except Err α} {e : Err} (h : Inv R proj ss res)
    (hr : res = .error e) (hne : ss ≠ []) : e ≠ .popEmptyScopeStack := by
  subst hr; exact h hne

/-- The relation of a later call carries over to the stack of an earlier one. -/
theorem inv_after {α : Type} {R : ScopeStack → ScopeStack → Prop} {proj : α → ScopeStack}
    {ss ss1 : ScopeStack} {res : Except Err α}
    (hR : ∀ a b c, Grows a b → R b c → R a c) (h1 : Grows ss ss1)
    (h : Inv R proj ss1 res) : Inv R proj ss res := by
  cases res with
  | ok r => exact hR _ _ _ h1 h
  | error e => exact fun hne => h (grows_ne_nil h1 hne)

theorem inv_weaken {α : Type} {proj : α → ScopeStack} {ss : ScopeStack} {res : Except Err α}
    (h : Inv Keeps proj ss res) : Inv Grows proj ss res := by
  cases res with
  | ok r => exact keeps_grows h
  | error e => exact h

theorem parse_variable_declaration_loop_grows (n : Nat) :
    ∀ tokens i ss active first cur,
      Inv Grows Parsed.scope_stack ss
        (parse_variable_declaration_loop n tokens i ss active first cur) := by
  induction n with
  | zero =>
    intro tokens i ss active first cur
    rw [parse_variable_declaration_loop]
    exact inv_error (by intro hc; cases hc)
  | succ f ih =>
    intro tokens i ss active first cur
    rw [parse_variable_declaration_loop]
    split
    · exact inv_ok (grows_refl ss)
    · split
      · exact inv_error (by intro hc; cases hc)
      · split
        · rename_i e he
          exact inv_error (peek_str_no_pop he)
        · split
          · rename_i e he
            split at he
            · exact inv_error (parse_expression_no_pop he)
            · cases he
          · split
            · exact inv_error (by intro hc; cases hc)
            · split
              · rename_i e he
                exact inv_error (str_no_pop he)
              · split
                · apply inv_ok
                  show Grows ss (if active = true then _ else _)
                  split
                  · exact add_symbol_current_grows _ _ _ _ _
                  · exact grows_refl ss
                · split
                  · refine inv_after (fun a b c h1 h2 => grows_trans h1 h2) ?_ (ih _ _ _ _ _ _)
                    split
                    · exact add_symbol_current_grows _ _ _ _ _
                    · exact grows_refl ss
                  · exact inv_error (by intro hc; cases hc)

theorem parse_variable_declaration_grows (n : Nat) (tokens : List Token) (i : Nat)
    (ss : ScopeStack) (active : Bool) :
    Inv Grows Parsed.scope_stack ss (parse_variable_declaration n tokens i ss active) := by
  unfold parse_variable_declaration
  split
  · exact parse_variable_declaration_loop_grows _ _ _ _ _ _ _
  · exact inv_error (by intro hc; cases hc)

theorem apply_assignment_keeps (ss : ScopeStack) (j : Nat) (name : String)
    (a v x : Node) :
    Inv Keeps (fun (p : Node × ScopeStack) => p.2) ss (apply_assignment ss j name a v x) := by
  unfold apply_assignment
  split
  · split
    · rename_i e he; exact inv_error (update_symbol_at_no_pop he)
    · rename_i s1 hs; exact inv_ok (update_symbol_at_keeps hs)
  · split
    · split
      · exact inv_ok (keeps_refl ss)
      · split
        · exact inv_ok (keeps_refl ss)
        · split
          · rename_i e he; exact inv_error (update_symbol_at_no_pop he)
          · rename_i s1 hs; exact inv_ok (update_symbol_at_keeps hs)
    · split
      · split
        · rename_i e he
          rcases compound_result_cases v.get_str (current_value_at ss j name)
            (rhs_value_of x ss) with ⟨w, hw⟩ | hw
          · rw [hw] at he; cases he
          · rw [hw] at he
            simp only [Except.error.injEq] at he
            subst he
            exact inv_error (by intro hc; cases hc)
        · split
          · rename_i e he; exact inv_error (update_symbol_at_no_pop he)
          · rename_i s1 hs; exact inv_ok (update_symbol_at_keeps hs)
      · exact inv_ok (keeps_refl ss)

theorem parse_assignment_statement_keeps (n : Nat) (tokens : List Token) (i : Nat)
    (ss : ScopeStack) (active : Bool) :
    Inv Keeps Parsed.scope_stack ss (parse_assignment_statement n tokens i ss active) := by
  unfold parse_assignment_statement
  split
  · exact inv_error (by intro hc; cases hc)
  · split
    · exact inv_error (by intro hc; cases hc)
    · split
      · exact inv_error (by intro hc; cases hc)
      · split
        · exact inv_error (by intro hc; cases hc)
        · split
          · exact inv_error (by intro hc; cases hc)
          · split
            · rename_i e he; exact inv_error (parse_expression_no_pop he)
            · split
              · rename_i e he
                exact inv_error (expect_str_no_pop (by intro hc; cases hc) he)
              · split
                · split
                  · rename_i e he
                    exact fun hne => inv_of_error (apply_assignment_keeps _ _ _ _ _ _) he hne
                  · rename_i a s1 hs
                    have hk : Keeps ss s1 := inv_of_ok (apply_assignment_keeps _ _ _ _ _ _) hs
                    exact inv_ok hk
                · exact inv_ok (keeps_refl ss)

theorem parse_exit_statement_keeps (n : Nat) (tokens : List Token) (i : Nat)
    (ss : ScopeStack) :
    Inv Keeps Parsed.scope_stack ss (parse_exit_statement n tokens i ss) := by
  unfold parse_exit_statement
  split
  · exact inv_error (by intro hc; cases hc)
  · split
    · rename_i e he; exact inv_error (expect_str_no_pop (by intro hc; cases hc) he)
    · split
      · rename_i e he; exact inv_error (parse_expression_no_pop he)
      · split
        · exact inv_error (by intro hc; cases hc)
        · split
          · rename_i e he; exact inv_error (expect_str_no_pop (by intro hc; cases hc) he)
          · split
            · rename_i e he; exact inv_error (expect_str_no_pop (by intro hc; cases hc) he)
            · exact inv_ok (keeps_refl ss)

theorem inv_after_grows {α : Type} {proj : α → ScopeStack} {ss ss1 : ScopeStack}
    {res : Except Err α} (h1 : Grows ss ss1) (h : Inv Grows proj ss1 res) :
    Inv Grows proj ss res := by
  cases res with
  | ok r => exact grows_trans h1 h
  | error e => exact fun hne => h (grows_ne_nil h1 hne)

theorem inv_after_keeps {α : Type} {proj : α → ScopeStack} {ss ss1 : ScopeStack}
    {res : Except Err α} (h1 : Keeps ss ss1) (h : Inv Keeps proj ss1 res) :
    Inv Keeps proj ss res := by
  cases res with
  | ok r => exact keeps_trans h1 h
  | error e => exact fun hne => h (keeps_ne_nil h1 hne)

theorem inv_after_pops {α : Type} {proj : α → ScopeStack} {ss ss1 : ScopeStack}
    {res : Except Err α} (h1 : Grows ss ss1) (h : Inv Pops proj ss1 res) :
    Inv Pops proj ss res := by
  cases res with
  | ok r =>
    have h2 : scope_names (proj r) = (scope_names ss1).dropLast := h
    exact h2.trans h1.2
  | error e => exact fun hne => h (grows_ne_nil h1 hne)

theorem inv_block {α : Type} {proj : α → ScopeStack} {ss : ScopeStack} {res : Except Err α}
    (h : Inv Pops proj (push_scope ss create_symbol_table) res) : Inv Keeps proj ss res := by
  cases res with
  | ok r =>
    have h2 : scope_names (proj r) =
        (scope_names (push_scope ss create_symbol_table)).dropLast := h
    exact h2.trans (push_scope_names ss)
  | error e => exact fun _ => h (push_scope_ne_nil ss)

theorem pop_scope_pops (ss : ScopeStack) :
    Inv Pops (fun (s : ScopeStack) => s) ss (pop_scope ss) := by
  unfold pop_scope
  split
  · rename_i h0
    intro hne
    exact absurd (List.length_eq_zero.mp h0) hne
  · exact scope_names_dropLast ss

/-- Every statement parser keeps the names of the scope stack, or grows
the top table only; the block loop ends with the top table popped; none
fails in `pop_scope`. -/
theorem parse_shape_aux (n : Nat) :
    (∀ tokens i ss, Inv Keeps Parsed.scope_stack ss (parse_if_statement n tokens i ss)) ∧
    (∀ tokens i ss ifn any last,
      Inv Keeps (fun (p : Node × Option Nat × Nat × ScopeStack) => p.2.2.2) ss
        (parse_else_if_statements n tokens i ss ifn any last)) ∧
    (∀ tokens i ss, Inv Keeps Parsed.scope_stack ss (parse_else_statement n tokens i ss)) ∧
    (∀ tokens i ss fb fc first,
      Inv Keeps (fun (p : Node × Node × ScopeStack) => p.2.2) ss
        (parse_do_while_loop n tokens i ss fb fc first)) ∧
    (∀ tokens i ss, Inv Keeps Parsed.scope_stack ss (parse_do_while_statement n tokens i ss)) ∧
    (∀ tokens i ss fc fb first,
      Inv Keeps (fun (p : Node × Node × ScopeStack) => p.2.2) ss
        (parse_while_loop n tokens i ss fc fb first)) ∧
    (∀ tokens i ss, Inv Keeps Parsed.scope_stack ss (parse_while_statement n tokens i ss)) ∧
    (∀ tokens i ss active,
      Inv Grows Parsed.scope_stack ss (parse_statement n tokens i ss active)) ∧
    (∀ tokens i ss active,
      Inv Keeps Parsed.scope_stack ss (parse_block n tokens i ss active)) ∧
    (∀ tokens i ss active node cur,
      Inv Pops Parsed.scope_stack ss (parse_block_loop n tokens i ss active node cur)) := by
  induction n with
  | zero =>
    refine ⟨?_, ?_, ?_, ?_, ?_, ?_, ?_, ?_, ?_, ?_⟩
    · intro tokens i ss; rw [parse_if_statement]; exact inv_error (by intro hc; cases hc)
    · intro tokens i ss ifn any last; rw [parse_else_if_statements]
      exact inv_error (by intro hc; cases hc)
    · intro tokens i ss; rw [parse_else_statement]; exact inv_error (by intro hc; cases hc)
    · intro tokens i ss fb fc first; rw [parse_do_while_loop]
      exact inv_error (by intro hc; cases hc)
    · intro tokens i ss; rw [parse_do_while_statement]; exact inv_error (by intro hc; cases hc)
    · intro tokens i ss fc fb first; rw [parse_while_loop]
      exact inv_error (by intro hc; cases hc)
    · intro tokens i ss; rw [parse_while_statement]; exact inv_error (by intro hc; cases hc)
    · intro tokens i ss active; rw [parse_statement]; exact inv_error (by intro hc; cases hc)
    · intro tokens i ss active; rw [parse_block]; exact inv_error (by intro hc; cases hc)
    · intro tokens i ss active node cur; rw [parse_block_loop]
      exact inv_error (by intro hc; cases hc)
  | succ f ih =>
    obtain ⟨ih1, ih2, ih3, ih4, ih5, ih6, ih7, ih8, ih9, ih10⟩ := ih
    have hb_ok : ∀ {tokens i ss active r}, parse_block f tokens i ss active = .ok r →
        Keeps ss r.scope_stack := fun h => inv_of_ok (ih9 _ _ _ _) h
    have hb_err : ∀ {tokens i ss active e}, parse_block f tokens i ss active = .error e →
        ss ≠ [] → e ≠ .popEmptyScopeStack := fun h => inv_of_error (ih9 _ _ _ _) h
    refine ⟨?_, ?_, ?_, ?_, ?_, ?_, ?_, ?_, ?_, ?_⟩
    · intro tokens i ss
      rw [parse_if_statement]
      split
      · exact inv_error (by intro hc; cases hc)
      · split
        · rename_i e he; exact inv_error (expect_str_no_pop (by intro hc; cases hc) he)
        · split
          · rename_i e he; exact inv_error (parse_expression_no_pop he)
          · split
            · rename_i e he; exact inv_error (expect_str_no_pop (by intro hc; cases hc) he)
            · split
              · rename_i e he; exact fun hne => hb_err he hne
              · rename_i tb htb
                have hk : Keeps ss tb.scope_stack := hb_ok htb
                exact hk
    · intro tokens i ss ifn any last
      rw [parse_else_if_statements]
      split
      · split
        · exact inv_error (by intro hc; cases hc)
        · split
          · rename_i e he; exact inv_error (expect_str_no_pop (by intro hc; cases hc) he)
          · split
            · rename_i e he; exact inv_error (parse_expression_no_pop he)
            · split
              · rename_i e he
                exact inv_error (expect_str_no_pop (by intro hc; cases hc) he)
              · split
                · rename_i e he; exact fun hne => hb_err he hne
                · rename_i blk hblk
                  have hk : Keeps ss blk.scope_stack := hb_ok hblk
                  split
                  · exact inv_after_keeps hk (ih2 _ _ _ _ _ _)
                  · split
                    · exact inv_error (by intro hc; cases hc)
                    · exact inv_after_keeps hk (ih2 _ _ _ _ _ _)
      · exact keeps_refl ss
    · intro tokens i ss
      rw [parse_else_statement]
      split
      · exact inv_error (by intro hc; cases hc)
      · split
        · rename_i e he; exact fun hne => inv_of_error (ih1 _ _ _) he hne
        · rename_i ifs hifs
          have hk1 : Keeps ss ifs.scope_stack := inv_of_ok (ih1 _ _ _) hifs
          split
          · rename_i e he
            exact fun hne => inv_of_error (ih2 _ _ _ _ _ _) he (keeps_ne_nil hk1 hne)
          · rename_i ifn last i2 ss2 hei
            have hk2 : Keeps ifs.scope_stack ss2 := inv_of_ok (ih2 _ _ _ _ _ _) hei
            split
            · split
              · exact inv_error (by intro hc; cases hc)
              · split
                · rename_i e he
                  exact fun hne => hb_err he (keeps_ne_nil (keeps_trans hk1 hk2) hne)
                · rename_i eb heb
                  have hk3 : Keeps ss2 eb.scope_stack := hb_ok heb
                  exact keeps_trans (keeps_trans hk1 hk2) hk3
            · exact keeps_trans hk1 hk2
    · intro tokens i ss fb fc first
      rw [parse_do_while_loop]
      split
      · rename_i e he; exact fun hne => hb_err he hne
      · rename_i blk hblk
        have hk : Keeps ss blk.scope_stack := hb_ok hblk
        split
        · exact inv_error (by intro hc; cases hc)
        · split
          · exact inv_error (by intro hc; cases hc)
          · split
            · rename_i e he
              exact inv_error (expect_str_or_end_no_pop (by intro hc; cases hc) he)
            · split
              · rename_i e he; exact inv_error (parse_expression_no_pop he)
              · split
                · rename_i e he
                  exact inv_error (expect_str_or_end_no_pop (by intro hc; cases hc) he)
                · split
                  · rename_i e he
                    exact inv_error (expect_str_or_end_no_pop (by intro hc; cases hc) he)
                  · split
                    · exact inv_after_keeps hk (ih4 _ _ _ _ _ _)
                    · exact hk
    · intro tokens i ss
      rw [parse_do_while_statement]
      split
      · exact inv_error (by intro hc; cases hc)
      · split
        · rename_i e he; exact fun hne => inv_of_error (ih4 _ _ _ _ _ _) he hne
        · rename_i fb fc ss1 hl
          have hk1 : Keeps ss ss1 := inv_of_ok (ih4 _ _ _ _ _ _) hl
          split
          · rename_i e he; exact fun hne => hb_err he (keeps_ne_nil hk1 hne)
          · rename_i tb htb
            have hk2 : Keeps ss1 tb.scope_stack := hb_ok htb
            split
            · rename_i e he; exact inv_error (parse_expression_no_pop he)
            · exact keeps_trans hk1 hk2
    · intro tokens i ss fc fb first
      rw [parse_while_loop]
      split
      · rename_i e he; exact inv_error (parse_expression_no_pop he)
      · split
        · rename_i e he; exact inv_error (expect_str_no_pop (by intro hc; cases hc) he)
        · split
          · split
            · rename_i e he; exact fun hne => hb_err he hne
            · rename_i blk hblk
              have hk : Keeps ss blk.scope_stack := hb_ok hblk
              exact inv_after_keeps hk (ih6 _ _ _ _ _ _)
          · exact keeps_refl ss
    · intro tokens i ss
      rw [parse_while_statement]
      split
      · exact inv_error (by intro hc; cases hc)
      · split
        · rename_i e he; exact inv_error (expect_str_no_pop (by intro hc; cases hc) he)
        · split
          · rename_i e he; exact fun hne => inv_of_error (ih6 _ _ _ _ _ _) he hne
          · rename_i fc fb ss1 hl
            have hk1 : Keeps ss ss1 := inv_of_ok (ih6 _ _ _ _ _ _) hl
            split
            · rename_i e he; exact inv_error (parse_expression_no_pop he)
            · split
              · rename_i e he; exact inv_error (peek_str_no_pop he)
              · split
                · rename_i e he; exact fun hne => hb_err he (keeps_ne_nil hk1 hne)
                · rename_i tb htb
                  have hk2 : Keeps ss1 tb.scope_stack := hb_ok htb
                  exact keeps_trans hk1 hk2
    · intro tokens i ss active
      rw [parse_statement]
      split
      · exact grows_refl ss
      · split
        · exact parse_variable_declaration_grows _ _ _ _ _
        · split
          · exact inv_weaken (parse_exit_statement_keeps _ _ _ _)
          · split
            · exact inv_weaken (ih3 _ _ _)
            · split
              · exact inv_weaken (ih7 _ _ _)
              · split
                · exact inv_weaken (ih5 _ _ _)
                · split
                  · exact inv_weaken (ih9 _ _ _ _)
                  · split
                    · exact inv_weaken (parse_assignment_statement_keeps _ _ _ _ _)
                    · exact inv_error (by intro hc; cases hc)
    · intro tokens i ss active
      rw [parse_block]
      split
      · exact inv_error (by intro hc; cases hc)
      · split
        · exact inv_error (by intro hc; cases hc)
        · exact inv_block (ih10 _ _ _ _ _ _)
    · intro tokens i ss active node cur
      rw [parse_block_loop]
      split
      · exact inv_error (by intro hc; cases hc)
      · split
        · split
          · rename_i e he; exact fun hne => inv_of_error (pop_scope_pops ss) he hne
          · rename_i ss1 hp
            have hk : Pops ss ss1 := inv_of_ok (pop_scope_pops ss) hp
            exact hk
        · split
          · rename_i e he; exact fun hne => inv_of_error (ih8 _ _ _ _) he hne
          · rename_i stmt hst
            have hg : Grows ss stmt.scope_stack := inv_of_ok (ih8 _ _ _ _) hst
            split
            · exact inv_after_pops hg (ih10 _ _ _ _ _ _)
            · split
              · exact inv_after_pops hg (ih10 _ _ _ _ _ _)
              · exact inv_after_pops hg (ih10 _ _ _ _ _ _)

theorem find_symbol_in_scope_stack_names {ss : ScopeStack} {name : String} :
    find_symbol_in_scope_stack ss name = none ↔ ∀ l ∈ scope_names ss, name ∉ l := by
  rw [find_symbol_in_scope_stack_eq_none]
  unfold scope_names
  constructor
  · intro h l hl
    obtain ⟨t, ht, rfl⟩ := List.mem_map.mp hl
    intro hmem
    obtain ⟨s, hs, hn⟩ := List.mem_map.mp hmem
    exact find_symbol_eq_none.mp (h t ht) s hs hn
  · intro h t ht
    rw [find_symbol_eq_none]
    intro s hs hn
    exact h _ (List.mem_map.mpr ⟨t, ht, rfl⟩) (List.mem_map.mpr ⟨s, hs, hn⟩)

theorem parse_loop_grows (n : Nat) :
    ∀ tokens i ss root cur,
      Inv Grows (fun (p : Node × ScopeStack) => p.2) ss (parse_loop n tokens i ss root cur) := by
  induction n with
  | zero =>
    intro tokens i ss root cur
    rw [parse_loop]
    exact inv_error (by intro hc; cases hc)
  | succ f ih =>
    intro tokens i ss root cur
    rw [parse_loop]
    split
    · split
      · rename_i e he
        exact fun hne => inv_of_error ((parse_shape_aux f).2.2.2.2.2.2.2.1 _ _ _ _) he hne
      · rename_i stmt hst
        have hg : Grows ss stmt.scope_stack :=
          inv_of_ok ((parse_shape_aux f).2.2.2.2.2.2.2.1 _ _ _ _) hst
        split
        · exact hg
        · split
          · exact inv_after_grows hg (ih _ _ _ _ _)
          · exact inv_after_grows hg (ih _ _ _ _ _)
    · exact grows_refl ss

theorem parse_with_scopes_grows (n : Nat) (tokens : List Token) (h : tokens ≠ []) :
    Inv Grows (fun (p : Node × ScopeStack) => p.2)
      (push_scope create_scope_stack create_symbol_table) (parse_with_scopes n tokens) := by
  unfold parse_with_scopes
  split
  · rename_i h0
    exact absurd (List.length_eq_zero.mp h0) h
  · exact parse_loop_grows _ _ _ _ _ _

/-- C21: a call of `parse_block` that returns leaves the scope stack with
the depth it had and, in every table, the same names in the same order, so
a name that was not visible before the block is not visible after it; with
a stack that is not empty no call of `parse_block` ends in the empty-stack
error of `pop_scope`, `parse` never ends in that error, and the stack
`parse` is about to release holds the global table only. -/
theorem C21_block_restores_scope_stack (fuel : Nat) (tokens : List Token) :
    (∀ i ss active r, parse_block fuel tokens i ss active = .ok r →
      r.scope_stack.length = ss.length ∧ scope_names r.scope_stack = scope_names ss ∧
      ∀ name, find_symbol_in_scope_stack ss name = none →
        find_symbol_in_scope_stack r.scope_stack name = none) ∧
    (∀ i ss active, ss ≠ [] →
      parse_block fuel tokens i ss active ≠ .error .popEmptyScopeStack) ∧
    parse fuel tokens ≠ .error .popEmptyScopeStack ∧
    (∀ root ss, tokens ≠ [] → parse_with_scopes fuel tokens = .ok (root, ss) →
      ss.length = 1) := by
  refine ⟨?_, ?_, ?_, ?_⟩
  · intro i ss active r h
    have hk : Keeps ss r.scope_stack :=
      inv_of_ok ((parse_shape_aux fuel).2.2.2.2.2.2.2.2.1 _ _ _ _) h
    refine ⟨keeps_length hk, hk, ?_⟩
    intro name hn
    rw [find_symbol_in_scope_stack_names] at hn ⊢
    rw [hk]
    exact hn
  · intro i ss active hne h
    exact inv_of_error ((parse_shape_aux fuel).2.2.2.2.2.2.2.2.1 _ _ _ _) h hne rfl
  · intro h
    unfold parse at h
    split at h
    · rename_i e he
      simp only [Except.error.injEq] at h
      subst h
      by_cases ht : tokens = []
      · subst ht
        simp [parse_with_scopes] at he
      · exact inv_of_error (parse_with_scopes_grows fuel tokens ht) he
          (push_scope_ne_nil _) rfl
    · cases h
  · intro root ss ht h
    have hg : Grows (push_scope create_scope_stack create_symbol_table) ss :=
      inv_of_ok (parse_with_scopes_grows fuel tokens ht) h
    exact hg.1

theorem C21_witness :
    block_with_local_parsed.scope_stack.length = (scope_x 0).length ∧
    scope_names block_with_local_parsed.scope_stack = scope_names (scope_x 0) ∧
    ∀ name, find_symbol_in_scope_stack (scope_x 0) name = none →
      find_symbol_in_scope_stack block_with_local_parsed.scope_stack name = none :=
  (C21_block_restores_scope_stack 6 block_with_local).1 0 (scope_x 0) true
    block_with_local_parsed (by decide)

/-! ## `generate_code` writes one termination sequence -/

theorem emit_exit_status (st : Emitted) (arg : Node) :
    emit_exit st arg = emitted_status st.out (status_of arg) := by
  unfold emit_exit emitted_status status_of
  by_cases h : arg.is_null = true
  · simp only [h, if_true]
    have : "\tmov rdi, 0\n" = "\tmov rdi, " ++ toString (0 : Int) ++ "\n" := by decide
    rw [this]
  · simp only [h]
    rfl

theorem traverse_tree_if (val : NodeValue) (ln cl : Int) (l r : Node) (scope : ScopeType)
    (a : Bool) (st : Emitted) :
    traverse_tree (.mk .NODE_IF_STATEMENT val ln cl l r) scope a st =
      if st.exit_emitted then st
      else
        traverse_tree r scope a
          (match l with
           | .NULL => if a then traverse_else_chain r scope st else st
           | .mk ctype cvalue _ _ _ then_block =>
             if ctype = .NODE_LITERAL_INT ∧ cvalue.as_int ≠ 0 then
               (if ¬ then_block.is_null ∧ a then traverse_tree then_block scope true st
                else st)
             else if a then traverse_else_chain r scope st
             else st) := by
  cases l <;> rw [traverse_tree]

theorem traverse_tree_while (val : NodeValue) (ln cl : Int) (l r : Node) (scope : ScopeType)
    (a : Bool) (st : Emitted) :
    traverse_tree (.mk .NODE_WHILE_STATEMENT val ln cl l r) scope a st =
      if st.exit_emitted then st
      else
        traverse_tree r scope a
          (match l with
           | .NULL => st
           | .mk ctype cvalue _ _ _ loop_block =>
             if ¬ loop_block.is_null ∧ a ∧
                 (ctype = .NODE_LITERAL_INT → cvalue.as_int ≠ 0) then
               traverse_tree loop_block scope true st
             else st) := by
  cases l <;> rw [traverse_tree]

theorem traverse_tree_exit (val : NodeValue) (ln cl : Int) (l r : Node) (scope : ScopeType)
    (a : Bool) (st : Emitted) :
    traverse_tree (.mk .NODE_EXIT_CALL val ln cl l r) scope a st =
      if st.exit_emitted then st else if a then emit_exit st l else st := by
  rw [traverse_tree]

theorem traverse_tree_other (ty : NodeType) (val : NodeValue) (ln cl : Int) (l r : Node)
    (scope : ScopeType) (a : Bool) (st : Emitted) (h1 : ty ≠ .NODE_EXIT_CALL)
    (h2 : ty ≠ .NODE_IF_STATEMENT) (h3 : ty ≠ .NODE_WHILE_STATEMENT) :
    traverse_tree (.mk ty val ln cl l r) scope a st =
      if st.exit_emitted then st
      else traverse_tree r scope a (traverse_tree l scope a st) := by
  rw [traverse_tree]
  · exact h1
  · exact h2
  · exact h3

theorem traverse_else_chain_else_if (val : NodeValue) (ln cl : Int) (l r : Node)
    (scope : ScopeType) (st : Emitted) :
    traverse_else_chain (.mk .NODE_ELSE_IF_STATEMENT val ln cl l r) scope st =
      if st.exit_emitted then st
      else
        (match l with
         | .NULL => traverse_else_chain r scope st
         | .mk ctype cvalue _ _ _ else_if_block =>
           if ¬ else_if_block.is_null ∧
               (ctype = .NODE_LITERAL_INT → cvalue.as_int ≠ 0) then
             traverse_tree else_if_block scope true st
           else traverse_else_chain r scope st) := by
  cases l <;> rw [traverse_else_chain]

theorem traverse_else_chain_else (val : NodeValue) (ln cl : Int) (l r : Node)
    (scope : ScopeType) (st : Emitted) :
    traverse_else_chain (.mk .NODE_ELSE_STATEMENT val ln cl l r) scope st =
      if st.exit_emitted then st else traverse_tree l scope true st := by
  rw [traverse_else_chain]

theorem traverse_else_chain_other (ty : NodeType) (val : NodeValue) (ln cl : Int) (l r : Node)
    (scope : ScopeType) (st : Emitted) (h1 : ty ≠ .NODE_ELSE_IF_STATEMENT)
    (h2 : ty ≠ .NODE_ELSE_STATEMENT) :
    traverse_else_chain (.mk ty val ln cl l r) scope st =
      if st.exit_emitted then st else traverse_else_chain r scope st := by
  rw [traverse_else_chain]
  · exact h1
  · exact h2

theorem traverse_tree_done (node : Node) (scope : ScopeType) (a : Bool) (out : List String) :
    traverse_tree node scope a ⟨out, true⟩ = ⟨out, true⟩ := by
  cases node with
  | NULL => rw [traverse_tree]
  | mk ty val ln cl l r =>
    by_cases h1 : ty = .NODE_EXIT_CALL
    · subst h1; rw [traverse_tree_exit]; rfl
    · by_cases h2 : ty = .NODE_IF_STATEMENT
      · subst h2; rw [traverse_tree_if]; rfl
      · by_cases h3 : ty = .NODE_WHILE_STATEMENT
        · subst h3; rw [traverse_tree_while]; rfl
        · rw [traverse_tree_other _ _ _ _ _ _ _ _ _ h1 h2 h3]; rfl

theorem traverse_else_chain_done (node : Node) (scope : ScopeType) (out : List String) :
    traverse_else_chain node scope ⟨out, true⟩ = ⟨out, true⟩ := by
  cases node with
  | NULL => rw [traverse_else_chain]
  | mk ty val ln cl l r =>
    by_cases h1 : ty = .NODE_ELSE_IF_STATEMENT
    · subst h1; rw [traverse_else_chain_else_if]; rfl
    · by_cases h2 : ty = .NODE_ELSE_STATEMENT
      · subst h2; rw [traverse_else_chain_else]; rfl
      · rw [traverse_else_chain_other _ _ _ _ _ _ _ _ h1 h2]; rfl

theorem one_exit_refl (st : Emitted) : OneExit st st := Or.inl rfl

/-- Two traversal steps in a row write at most one sequence. -/
theorem one_exit_then {st st1 : Emitted} (h1 : OneExit st st1) {node : Node}
    {scope : ScopeType} {a : Bool}
    (h2 : OneExit st1 (traverse_tree node scope a st1)) :
    OneExit st (traverse_tree node scope a st1) := by
  rcases h1 with h1 | ⟨hf, v, h1⟩
  · rw [h1] at h2 ⊢; exact h2
  · right
    refine ⟨hf, v, ?_⟩
    rw [h1]
    exact traverse_tree_done _ _ _ _

theorem writes_once_null : WritesOnce .NULL := by
  refine ⟨fun scope a st => ?_, fun scope st => ?_⟩
  · rw [traverse_tree]; exact one_exit_refl st
  · rw [traverse_else_chain]; exact one_exit_refl st

theorem one_exit_guard {st : Emitted} {X : Emitted} (h : st.exit_emitted = false → OneExit st X) :
    OneExit st (if st.exit_emitted then st else X) := by
  by_cases he : st.exit_emitted = true
  · rw [if_pos he]; exact one_exit_refl st
  · rw [if_neg he]; exact h (by simpa using he)

theorem writes_once_aux (n : Node) : WritesOnce n ∧ WritesOnce n.get_right := by
  induction n with
  | NULL => exact ⟨writes_once_null, writes_once_null⟩
  | mk ty val ln cl l r ihl ihr =>
    refine ⟨?_, ihr.1⟩
    have hl : ∀ scope a st, OneExit st (traverse_tree l scope a st) := ihl.1.1
    have hr : ∀ scope a st, OneExit st (traverse_tree r scope a st) := ihr.1.1
    have hre : ∀ scope st, OneExit st (traverse_else_chain r scope st) := ihr.1.2
    have hlr : ∀ scope a st, OneExit st (traverse_tree l.get_right scope a st) := ihl.2.1
    refine ⟨fun scope a st => ?_, fun scope st => ?_⟩
    · by_cases h1 : ty = .NODE_EXIT_CALL
      · subst h1
        rw [traverse_tree_exit]
        refine one_exit_guard (fun hf => ?_)
        split
        · right; exact ⟨hf, _, emit_exit_status st l⟩
        · exact one_exit_refl st
      · by_cases h2 : ty = .NODE_IF_STATEMENT
        · subst h2
          rw [traverse_tree_if]
          refine one_exit_guard (fun _ => ?_)
          refine one_exit_then ?_ (hr _ _ _)
          cases l with
          | NULL =>
            simp only
            split
            · exact hre _ _
            · exact one_exit_refl st
          | mk ct cv cln ccl cl1 tb =>
            simp only
            split
            · split
              · exact hlr _ _ _
              · exact one_exit_refl st
            · split
              · exact hre _ _
              · exact one_exit_refl st
        · by_cases h3 : ty = .NODE_WHILE_STATEMENT
          · subst h3
            rw [traverse_tree_while]
            refine one_exit_guard (fun _ => ?_)
            refine one_exit_then ?_ (hr _ _ _)
            cases l with
            | NULL => exact one_exit_refl st
            | mk ct cv cln ccl cl1 lb =>
              simp only
              split
              · exact hlr _ _ _
              · exact one_exit_refl st
          · rw [traverse_tree_other _ _ _ _ _ _ _ _ _ h1 h2 h3]
            refine one_exit_guard (fun _ => ?_)
            exact one_exit_then (hl _ _ _) (hr _ _ _)
    · by_cases h1 : ty = .NODE_ELSE_IF_STATEMENT
      · subst h1
        rw [traverse_else_chain_else_if]
        refine one_exit_guard (fun _ => ?_)
        cases l with
        | NULL => exact hre _ _
        | mk ct cv cln ccl cl1 eb =>
          simp only
          split
          · exact hlr _ _ _
          · exact hre _ _
      · by_cases h2 : ty = .NODE_ELSE_STATEMENT
        · subst h2
          rw [traverse_else_chain_else]
          exact one_exit_guard (fun _ => hl _ _ _)
        · rw [traverse_else_chain_other _ _ _ _ _ _ _ _ h1 h2]
          exact one_exit_guard (fun _ => hre _ _)

theorem traverse_tree_one_exit (n : Node) (scope : ScopeType) (a : Bool) (st : Emitted) :
    OneExit st (traverse_tree n scope a st) := (writes_once_aux n).1.1 scope a st

theorem exits_reached_if (val : NodeValue) (ln cl : Int) (l r : Node) (a : Bool) :
    exits_reached (.mk .NODE_IF_STATEMENT val ln cl l r) a =
      (match l with
       | .NULL => if a then else_exits_reached r else []
       | .mk ctype cvalue _ _ _ then_block =>
         if ctype = .NODE_LITERAL_INT ∧ cvalue.as_int ≠ 0 then
           (if ¬ then_block.is_null ∧ a then exits_reached then_block true else [])
         else if a then else_exits_reached r
         else []) ++ exits_reached r a := by
  cases l <;> rw [exits_reached]

theorem exits_reached_while (val : NodeValue) (ln cl : Int) (l r : Node) (a : Bool) :
    exits_reached (.mk .NODE_WHILE_STATEMENT val ln cl l r) a =
      (match l with
       | .NULL => []
       | .mk ctype cvalue _ _ _ loop_block =>
         if ¬ loop_block.is_null ∧ a ∧
             (ctype = .NODE_LITERAL_INT → cvalue.as_int ≠ 0) then
           exits_reached loop_block true
         else []) ++ exits_reached r a := by
  cases l <;> rw [exits_reached]

theorem exits_reached_exit (val : NodeValue) (ln cl : Int) (l r : Node) (a : Bool) :
    exits_reached (.mk .NODE_EXIT_CALL val ln cl l r) a =
      if a then [status_of l] else [] := by
  rw [exits_reached]

theorem exits_reached_other (ty : NodeType) (val : NodeValue) (ln cl : Int) (l r : Node)
    (a : Bool) (h1 : ty ≠ .NODE_EXIT_CALL)
    (h2 : ty ≠ .NODE_IF_STATEMENT) (h3 : ty ≠ .NODE_WHILE_STATEMENT) :
    exits_reached (.mk ty val ln cl l r) a = exits_reached l a ++ exits_reached r a := by
  rw [exits_reached]
  · exact h1
  · exact h2
  · exact h3

theorem else_exits_reached_else_if (val : NodeValue) (ln cl : Int) (l r : Node) :
    else_exits_reached (.mk .NODE_ELSE_IF_STATEMENT val ln cl l r) =
      (match l with
       | .NULL => else_exits_reached r
       | .mk ctype cvalue _ _ _ else_if_block =>
         if ¬ else_if_block.is_null ∧
             (ctype = .NODE_LITERAL_INT → cvalue.as_int ≠ 0) then
           exits_reached else_if_block true
         else else_exits_reached r) := by
  cases l <;> rw [else_exits_reached]

theorem else_exits_reached_else (val : NodeValue) (ln cl : Int) (l r : Node) :
    else_exits_reached (.mk .NODE_ELSE_STATEMENT val ln cl l r) = exits_reached l true := by
  rw [else_exits_reached]

theorem else_exits_reached_other (ty : NodeType) (val : NodeValue) (ln cl : Int) (l r : Node)
    (h1 : ty ≠ .NODE_ELSE_IF_STATEMENT) (h2 : ty ≠ .NODE_ELSE_STATEMENT) :
    else_exits_reached (.mk ty val ln cl l r) = else_exits_reached r := by
  rw [else_exits_reached]
  · exact h1
  · exact h2

/-- A traversal step followed by the traversal of a node writes the first
`exit` of the two. -/
theorem writes_first_then {out : List String} {X : Emitted} {l1 : List Int}
    (h1 : X = emitted_after out l1.head?) {node : Node} {scope : ScopeType} {a : Bool}
    (h2 : traverse_tree node scope a ⟨out, false⟩ =
      emitted_after out (exits_reached node a).head?) :
    traverse_tree node scope a X =
      emitted_after out (l1 ++ exits_reached node a).head? := by
  cases l1 with
  | nil =>
    simp only [List.head?_nil, emitted_after] at h1
    rw [h1, List.nil_append]
    exact h2
  | cons v t =>
    simp only [List.head?_cons, emitted_after] at h1
    rw [h1]
    simp only [List.cons_append, List.head?_cons, emitted_after, emitted_status]
    exact traverse_tree_done _ _ _ _

theorem writes_first_null : WritesFirst .NULL := by
  refine ⟨fun scope a out => ?_, fun scope out => ?_⟩
  · rw [traverse_tree, exits_reached]; rfl
  · rw [traverse_else_chain, else_exits_reached]; rfl

theorem writes_first_aux (n : Node) : WritesFirst n ∧ WritesFirst n.get_right := by
  induction n with
  | NULL => exact ⟨writes_first_null, writes_first_null⟩
  | mk ty val ln cl l r ihl ihr =>
    refine ⟨?_, ihr.1⟩
    have hl := ihl.1.1
    have hr := ihr.1.1
    have hre := ihr.1.2
    have hlr := ihl.2.1
    refine ⟨fun scope a out => ?_, fun scope out => ?_⟩
    · by_cases h1 : ty = .NODE_EXIT_CALL
      · subst h1
        rw [traverse_tree_exit, exits_reached_exit]
        simp only [Bool.false_eq_true, if_false]
        cases a with
        | true => simp only [if_true, List.head?_cons, emitted_after]; exact emit_exit_status _ _
        | false => rfl
      · by_cases h2 : ty = .NODE_IF_STATEMENT
        · subst h2
          rw [traverse_tree_if, exits_reached_if]
          simp only [Bool.false_eq_true, if_false]
          refine writes_first_then ?_ (hr _ _ _)
          cases l with
          | NULL =>
            simp only
            split
            · exact hre _ _
            · rfl
          | mk ct cv cln ccl cl1 tb =>
            simp only
            split
            · split
              · exact hlr _ _ _
              · rfl
            · split
              · exact hre _ _
              · rfl
        · by_cases h3 : ty = .NODE_WHILE_STATEMENT
          · subst h3
            rw [traverse_tree_while, exits_reached_while]
            simp only [Bool.false_eq_true, if_false]
            refine writes_first_then ?_ (hr _ _ _)
            cases l with
            | NULL => rfl
            | mk ct cv cln ccl cl1 lb =>
              simp only
              split
              · exact hlr _ _ _
              · rfl
          · rw [traverse_tree_other _ _ _ _ _ _ _ _ _ h1 h2 h3,
              exits_reached_other _ _ _ _ _ _ _ h1 h2 h3]
            simp only [Bool.false_eq_true, if_false]
            exact writes_first_then (hl _ _ _) (hr _ _ _)
    · by_cases h1 : ty = .NODE_ELSE_IF_STATEMENT
      · subst h1
        rw [traverse_else_chain_else_if, else_exits_reached_else_if]
        simp only [Bool.false_eq_true, if_false]
        cases l with
        | NULL => exact hre _ _
        | mk ct cv cln ccl cl1 eb =>
          simp only
          split
          · exact hlr _ _ _
          · exact hre _ _
      · by_cases h2 : ty = .NODE_ELSE_STATEMENT
        · subst h2
          rw [traverse_else_chain_else, else_exits_reached_else]
          simp only [Bool.false_eq_true, if_false]
          exact hl _ _ _
        · rw [traverse_else_chain_other _ _ _ _ _ _ _ _ h1 h2,
            else_exits_reached_other _ _ _ _ _ _ h1 h2]
          simp only [Bool.false_eq_true, if_false]
          exact hre _ _

theorem traverse_tree_first_exit (n : Node) (scope : ScopeType) (a : Bool) (out : List String) :
    traverse_tree n scope a ⟨out, false⟩ = emitted_after out (exits_reached n a).head? :=
  (writes_first_aux n).1.1 scope a out

theorem generate_code_first_exit (root : Node) :
    generate_code root = exits_with ((exits_reached root true).head?.getD 0) := by
  unfold generate_code
  rw [traverse_tree_first_exit]
  cases (exits_reached root true).head? with
  | none =>
    simp only [emitted_after, Bool.false_eq_true, if_false, Option.getD_none]
    decide
  | some v => simp [emitted_after, emitted_status, exits_with]

/-- C33: for every tree `generate_code` writes the header and exactly one
termination sequence, `mov rax, 60`, `mov rdi, v`, `syscall`.  The traversal
of any node from any state writes nothing or, when no `exit` was emitted
before, the one sequence of the `exit` node it reaches, whose status is the
value of the argument of that node (0 without argument), and sets the flag;
with the flag set the traversal of any node writes nothing.  When the
traversal of the root ends without the flag set, the sequence written is
the default one with status 0, as it is for the empty tree and for an empty
token sequence.  With `exits_reached` the list of the statuses of the
`exit` nodes that the traversal reaches from a node, in the order in which
it reaches them: the traversal of any node writes the sequence of the
first of them and nothing for the later ones, and nothing when there is
none; so the file of `generate_code` is the header and the one sequence
with the status of the first `exit` node reached from the root, and with
status 0 when none is reached.  For the tree of `if (1) { exit(7); }
exit(3);` the nodes reached have the statuses 7 and 3 and the file exits
with 7; for `if (0) { exit(4); } exit(3);` the one node reached has status
3; for `int x = 1; if (x) { x = 2; }` no node is reached and the file exits
with 0. -/
theorem C33_generate_code_emits_one_termination_sequence :
    (∀ root : Node, ∃ v : Int, generate_code root = exits_with v) ∧
    (∀ (node : Node) (scope : ScopeType) (a : Bool) (st : Emitted),
      traverse_tree node scope a st = st ∨
      (st.exit_emitted = false ∧ ∃ v : Int,
        traverse_tree node scope a st =
          ⟨st.out ++ ["\tmov rax, 60\n", "\tmov rdi, " ++ toString v ++ "\n", "\tsyscall\n"],
           true⟩)) ∧
    (∀ (val : NodeValue) (ln cl : Int) (arg sibling : Node) (scope : ScopeType)
        (out : List String),
      traverse_tree (.mk .NODE_EXIT_CALL val ln cl arg sibling) scope true ⟨out, false⟩ =
        ⟨out ++ ["\tmov rax, 60\n", "\tmov rdi, " ++ toString (status_of arg) ++ "\n",
                 "\tsyscall\n"], true⟩) ∧
    (∀ (node : Node) (scope : ScopeType) (a : Bool) (out : List String),
      traverse_tree node scope a ⟨out, true⟩ = ⟨out, true⟩) ∧
    (∀ root : Node,
      generate_code root =
        if (traverse_tree root .SCOPE_GLOBAL true header_written).exit_emitted then
          (traverse_tree root .SCOPE_GLOBAL true header_written).out
        else exits_with 0) ∧
    generate_code .NULL = exits_with 0 ∧
    (∀ fuel, generated fuel [] = .ok (exits_with 0)) ∧
    (∀ (node : Node) (scope : ScopeType) (a : Bool) (out : List String),
      traverse_tree node scope a ⟨out, false⟩ =
        match (exits_reached node a).head? with
        | none => ⟨out, false⟩
        | some v =>
          ⟨out ++ ["\tmov rax, 60\n", "\tmov rdi, " ++ toString v ++ "\n", "\tsyscall\n"],
           true⟩) ∧
    (∀ root : Node,
      generate_code root = exits_with ((exits_reached root true).head?.getD 0)) ∧
    reached 20 exit_in_active_then = .ok [7, 3] ∧
    generated 20 exit_in_active_then = .ok (exits_with 7) ∧
    reached 20 exit_in_inactive_then = .ok [3] ∧
    generated 20 exit_in_inactive_then = .ok (exits_with 3) ∧
    reached 20 program_without_exit = .ok [] ∧
    generated 20 program_without_exit = .ok (exits_with 0) := by
  refine ⟨?_, ?_, ?_, traverse_tree_done, ?_, by decide, fun fuel => rfl, ?_,
    generate_code_first_exit, by decide!, by decide!, by decide!, by decide!, by decide!,
    by decide!⟩
  · intro root
    unfold generate_code
    rcases traverse_tree_one_exit root .SCOPE_GLOBAL true header_written with h | ⟨_, v, h⟩
    · refine ⟨0, ?_⟩
      have h' : traverse_tree root .SCOPE_GLOBAL true
          ⟨["section .text\n", "global _start\n", "_start:\n"], false⟩ = header_written := h
      rw [h']
      decide
    · refine ⟨v, ?_⟩
      have h' : traverse_tree root .SCOPE_GLOBAL true
          ⟨["section .text\n", "global _start\n", "_start:\n"], false⟩ =
          emitted_status header_written.out v := h
      rw [h']
      rfl
  · intro node scope a st
    exact traverse_tree_one_exit node scope a st
  · intro val ln cl arg sibling scope out
    rw [traverse_tree_exit]
    simp only [Bool.false_eq_true, if_false, if_true]
    exact emit_exit_status _ _
  · intro root
    unfold generate_code
    show (if (traverse_tree root .SCOPE_GLOBAL true header_written).exit_emitted then
            (traverse_tree root .SCOPE_GLOBAL true header_written).out
          else (traverse_tree root .SCOPE_GLOBAL true header_written).out ++
            ["\tmov rax, 60\n", "\tmov rdi, 0\n", "\tsyscall\n"]) = _
    by_cases he : (traverse_tree root .SCOPE_GLOBAL true header_written).exit_emitted = true
    · rw [if_pos he, if_pos he]
    · rw [if_neg he, if_neg he]
      rcases traverse_tree_one_exit root .SCOPE_GLOBAL true header_written with h | ⟨_, v, h⟩
      · rw [h]
        decide
      · rw [h] at he
        exact absurd rfl he
  · intro node scope a out
    rw [traverse_tree_first_exit]
    cases (exits_reached node a).head? <;> rfl

/-! ## Logical operators are folded without short-circuit -/

theorem eval_binary_logical (op : String) (h : op = "&&" ∨ op = "||") (a b : Int) :
    eval_binary op a b = .ok (logical_by_spec op a b) := by
  rcases h with h | h <;> subst h
  · simp only [eval_binary, logical_by_spec]
    by_cases hab : a ≠ 0 ∧ b ≠ 0
    · simp [hab, c_bool]
    · simp [hab, c_bool]
  · simp only [eval_binary, logical_by_spec]
    by_cases hab : a = 0 ∧ b = 0
    · simp [hab, c_bool]
    · have : a ≠ 0 ∨ b ≠ 0 := by
        by_contra hc
        push_neg at hc
        exact hab hc
      simp [hab, c_bool, this]

/-- C34: for `l && r` and `l || r` with spelled operands, grouped as the
precedence table dictates, whose left operand evaluates to `a`: when the
evaluation of the right operand fails with an error, `parse_expression`
ends with that error, whatever the value of `a`; when it gives `b`, the
expression folds to the literal 1 or 0 of the truth table.  In particular
`0 && (1 / 0)` and `1 || (1 / 0)` end with the division-by-zero error. -/
theorem C34_logical_operators_evaluate_both_operands
    (t : Token) (l r : Expr) (tl tr : List Token) (ht : t.type = .OPERATOR)
    (hop : t.str_val = "&&" ∨ t.str_val = "||") (hl : Spells l tl) (hr : Spells r tr)
    (hok : (Expr.bin t.str_val l r).PrecOk) (ss : ScopeStack) (a : Int)
    (ha : l.eval ss = .ok a) (fuel : Nat) (hf : tl.length + tr.length + 2 ≤ fuel) :
    (∀ x, r.eval ss = .error x →
      parse_expression fuel (tl ++ t :: tr) 0 ss 0 = .error x) ∧
    (∀ b, r.eval ss = .ok b → ∃ ln cl,
      parse_expression fuel (tl ++ t :: tr) 0 ss 0 =
        .ok (lit_node (logical_by_spec t.str_val a b) ln cl, tl.length + tr.length + 1)) ∧
    (∀ g, parse_expression (g + 8) (logical_with_division_by_zero "&&" 0) 0 ss 0 =
      .error .divisionByZero) ∧
    (∀ g, parse_expression (g + 8) (logical_with_division_by_zero "||" 1) 0 ss 0 =
      .error .divisionByZero) := by
  have hs : Spells (.bin t.str_val l r) (tl ++ t :: tr) := Spells.bin t l r tl tr ht hl hr
  have hlen : (tl ++ t :: tr).length = tl.length + tr.length + 1 := by simp; omega
  refine ⟨?_, ?_, fun g => rfl, fun g => rfl⟩
  · intro x hx
    have hev : (Expr.bin t.str_val l r).eval ss = .error x := by
      simp only [Expr.eval, ha, hx]
    obtain ⟨g, rfl⟩ : ∃ g, fuel = g + 1 + (tl ++ t :: tr).length :=
      ⟨fuel - (tl.length + tr.length + 2), by rw [hlen]; omega⟩
    exact parse_expression_error_of_spells hs ss x hev hok (tl ++ t :: tr) 0 [] 0
      (by simp) (by have := hok.1; simpa [Expr.top] using this)
      (by intro t1 r1 h; cases h) g
  · intro b hb
    have hev : (Expr.bin t.str_val l r).eval ss = .ok (logical_by_spec t.str_val a b) := by
      simp only [Expr.eval, ha, hb]
      exact eval_binary_logical _ hop a b
    obtain ⟨ln, cl, h⟩ := parse_expression_value hs ss _ hev hok (tl ++ t :: tr) 0 []
      (by simp) (by intro t1 r1 h; cases h) fuel (by rw [hlen]; omega)
    refine ⟨ln, cl, ?_⟩
    rw [h, hlen]
    simp

theorem C34_witness :
    (∀ x, (Expr.paren (.bin "/" (.lit 1) (.lit 0))).eval [] = .error x →
      parse_expression 8 ([tInt 0] ++ tOp "&&" ::
        (tSep "(" :: [tInt 1, tOp "/", tInt 0] ++ [tSep ")"])) 0 [] 0 = .error x) ∧
    (∀ b, (Expr.paren (.bin "/" (.lit 1) (.lit 0))).eval [] = .ok b → ∃ ln cl,
      parse_expression 8 ([tInt 0] ++ tOp "&&" ::
        (tSep "(" :: [tInt 1, tOp "/", tInt 0] ++ [tSep ")"])) 0 [] 0 =
        .ok (lit_node (logical_by_spec (tOp "&&").str_val 0 b) ln cl,
          [tInt 0].length + (tSep "(" :: [tInt 1, tOp "/", tInt 0] ++ [tSep ")"]).length + 1)) ∧
    (∀ g, parse_expression (g + 8) (logical_with_division_by_zero "&&" 0) 0 [] 0 =
      .error .divisionByZero) ∧
    (∀ g, parse_expression (g + 8) (logical_with_division_by_zero "||" 1) 0 [] 0 =
      .error .divisionByZero) :=
  C34_logical_operators_evaluate_both_operands (tOp "&&") (.lit 0)
    (.paren (.bin "/" (.lit 1) (.lit 0))) [tInt 0]
    (tSep "(" :: [tInt 1, tOp "/", tInt 0] ++ [tSep ")"]) rfl (Or.inl rfl)
    (Spells.lit (tInt 0) rfl)
    (Spells.paren (tSep "(") (tSep ")") _ _ rfl rfl rfl rfl
      (Spells.bin (tOp "/") (.lit 1) (.lit 0) [tInt 1] [tInt 0] rfl
        (Spells.lit (tInt 1) rfl) (Spells.lit (tInt 0) rfl)))
    (by simp [Expr.PrecOk, Expr.top, get_precedence, tOp]) [] 0 rfl 8 (by decide)

/-! ## Blocks parsed inactive -/

theorem parse_variable_declaration_loop_inactive (n : Nat) :
    ∀ tokens i ss first cur r,
      parse_variable_declaration_loop n tokens i ss false first cur = .ok r →
      r.scope_stack = ss := by
  induction n with
  | zero => intro tokens i ss first cur r h; rw [parse_variable_declaration_loop] at h; cases h
  | succ f ih =>
    intro tokens i ss first cur r h
    rw [parse_variable_declaration_loop] at h
    split at h
    · simp only [Except.ok.injEq] at h; subst h; rfl
    · split at h
      · cases h
      · split at h
        · cases h
        · split at h
          · cases h
          · split at h
            · cases h
            · split at h
              · cases h
              · split at h
                · simp only [Except.ok.injEq] at h; subst h; rfl
                · split at h
                  · exact ih _ _ _ _ _ _ h
                  · cases h

/-- C35: a declaration parsed with `active = false` adds no symbol, while
`exit` statements and nested control flow are parsed without the flag and
every expression is resolved and folded against the scope stack as it is.
So `if (0) { int y = 1; exit(y); }` ends with the undefined-variable error
for `y`, although `if (0) { int y = 1; }` alone is accepted, and
`int x = 0; if (x != 0) { exit(10 / x); }` ends with the division-by-zero
error. -/
theorem C35_inactive_block_still_resolves_expressions (fuel : Nat) (tokens : List Token)
    (i : Nat) (ss : ScopeStack) (r : Parsed)
    (h : parse_variable_declaration fuel tokens i ss false = .ok r) :
    r.scope_stack = ss ∧
    (∀ (f : Nat) (active : Bool) (t : Token), tokens[i]? = some t →
      t.type = .KEYWORD ∧ t.str_val = "exit" →
      parse_statement (f + 1) tokens i ss active = parse_exit_statement f tokens i ss) ∧
    (∀ g, parse (g + 10) inactive_declaration_then_use = .error (.undefinedVariable "y")) ∧
    (∀ g, generated (g + 10) inactive_declaration = .ok (exits_with 0)) ∧
    (∀ g, parse (g + 12) guarded_division = .error .divisionByZero) := by
  refine ⟨?_, ?_, fun g => rfl, fun g => rfl, fun g => rfl⟩
  · unfold parse_variable_declaration at h
    split at h
    · exact parse_variable_declaration_loop_inactive _ _ _ _ _ _ _ h
    · cases h
  · intro f active t ht hk
    rw [parse_statement]
    simp only [ht]
    have h1 : ¬ (t.type = .KEYWORD ∧ t.str_val = "int") := by
      rw [hk.2]; intro hc; exact absurd hc.2 (by decide)
    rw [if_neg h1, if_pos hk]

theorem C35_witness :
    (Parsed.mk (.mk .NODE_VAR_DECL (.str_val (some "y")) 1 1 (lit_node 1 1 1) .NULL) 0 10
      [[], []]).scope_stack = [[], []] ∧
    (∀ (f : Nat) (active : Bool) (t : Token), inactive_declaration_then_use[5]? = some t →
      t.type = .KEYWORD ∧ t.str_val = "exit" →
      parse_statement (f + 1) inactive_declaration_then_use 5 [[], []] active =
        parse_exit_statement f inactive_declaration_then_use 5 [[], []]) ∧
    (∀ g, parse (g + 10) inactive_declaration_then_use = .error (.undefinedVariable "y")) ∧
    (∀ g, generated (g + 10) inactive_declaration = .ok (exits_with 0)) ∧
    (∀ g, parse (g + 12) guarded_division = .error .divisionByZero) :=
  C35_inactive_block_still_resolves_expressions 6 inactive_declaration_then_use 5 [[], []] _
    (by decide)

/-! ## The dispatch of `parse_statement` -/

theorem peek_assignment_operator_iff (tokens : List Token) (i : Nat) :
    peek_assignment_operator tokens i = true ↔
      ∃ op, tokens[i]? = some op ∧ op.type = .OPERATOR ∧
        (op.str_val = "=" ∨ op.str_val = "+=" ∨ op.str_val = "-=" ∨ op.str_val = "*=" ∨
          op.str_val = "/=" ∨ op.str_val = "%=" ∨ op.str_val = "<<=" ∨ op.str_val = ">>=") := by
  unfold peek_assignment_operator
  cases h : tokens[i]? with
  | none => simp
  | some op => simp [is_assignment_operator]

theorem parse_else_statement_at_else {f : Nat} {tokens : List Token} {i : Nat} {t : Token}
    (ss : ScopeStack) (ht : tokens[i]? = some t) (h1 : t.type = .KEYWORD)
    (h2 : t.str_val = "else") :
    parse_else_statement (f + 1) tokens i ss = .error .elseWithoutIf := by
  rw [parse_else_statement]
  have : peek_typed tokens i .KEYWORD "else" = true := by
    simp [peek_typed, ht, h1, h2]
  rw [if_pos this]

/-- C37: at a token `t`, `parse_statement` returns only when `t` starts a
statement in the sense of the specification; when `t` is the keyword `else`
the result is the `else` without preceding `if` error, whatever follows,
and for every other token that starts no statement it is the
unsupported-statement error. -/
theorem C37_statement_dispatch (fuel : Nat) (tokens : List Token) (i : Nat) (ss : ScopeStack)
    (active : Bool) (t : Token) (ht : tokens[i]? = some t) :
    (∀ r, parse_statement fuel tokens i ss active = .ok r →
      statement_start_by_spec tokens i t) ∧
    (t.type = .KEYWORD ∧ t.str_val = "else" →
      parse_statement (fuel + 2) tokens i ss active = .error .elseWithoutIf) ∧
    (¬ statement_start_by_spec tokens i t → ¬ (t.type = .KEYWORD ∧ t.str_val = "else") →
      parse_statement (fuel + 1) tokens i ss active = .error .unsupportedStatement) ∧
    (∀ g, parse (g + 3) [tKw "else", tSep "\x7b", tSep "\x7d"] = .error .elseWithoutIf) ∧
    (∀ g, parse (g + 3) [tKw "else", tKw "if", tSep "(", tInt 1, tSep ")", tSep "\x7b",
      tSep "\x7d"] = .error .elseWithoutIf) ∧
    (∀ g, parse (g + 2) [tId "x", tSep ";"] = .error .unsupportedStatement) ∧
    (∀ g, parse (g + 2) [tInt 5, tSep ";"] = .error .unsupportedStatement) := by
  refine ⟨?_, ?_, ?_, fun g => rfl, fun g => rfl, fun g => rfl, fun g => rfl⟩
  · intro r h
    cases fuel with
    | zero => rw [parse_statement] at h; cases h
    | succ f =>
      rw [parse_statement] at h
      simp only [ht] at h
      split at h
      · rename_i hc; exact Or.inl ⟨hc.1, Or.inl hc.2⟩
      · split at h
        · rename_i hc; exact Or.inl ⟨hc.1, Or.inr (Or.inl hc.2)⟩
        · split at h
          · rename_i hc
            rcases hc.2 with hif | hel
            · exact Or.inl ⟨hc.1, Or.inr (Or.inr (Or.inl hif))⟩
            · cases f with
              | zero => rw [parse_else_statement] at h; cases h
              | succ f1 => rw [parse_else_statement_at_else ss ht hc.1 hel] at h; cases h
          · split at h
            · rename_i hc; exact Or.inl ⟨hc.1, Or.inr (Or.inr (Or.inr (Or.inl hc.2)))⟩
            · split at h
              · rename_i hc; exact Or.inl ⟨hc.1, Or.inr (Or.inr (Or.inr (Or.inr hc.2)))⟩
              · split at h
                · rename_i hc; exact Or.inr (Or.inl hc)
                · split at h
                  · rename_i hc
                    exact Or.inr (Or.inr ⟨hc.1, (peek_assignment_operator_iff _ _).mp hc.2⟩)
                  · cases h
  · intro hk
    rw [parse_statement]
    simp only [ht]
    have h1 : ¬ (t.type = .KEYWORD ∧ t.str_val = "int") := by
      rw [hk.2]; intro hc; exact absurd hc.2 (by decide)
    have h2 : ¬ (t.type = .KEYWORD ∧ t.str_val = "exit") := by
      rw [hk.2]; intro hc; exact absurd hc.2 (by decide)
    have h3 : t.type = .KEYWORD ∧ (t.str_val = "if" ∨ t.str_val = "else") :=
      ⟨hk.1, Or.inr hk.2⟩
    rw [if_neg h1, if_neg h2, if_pos h3]
    exact parse_else_statement_at_else ss ht hk.1 hk.2
  · intro hns hne
    rw [parse_statement]
    simp only [ht]
    have h1 : ¬ (t.type = .KEYWORD ∧ t.str_val = "int") :=
      fun hc => hns (Or.inl ⟨hc.1, Or.inl hc.2⟩)
    have h2 : ¬ (t.type = .KEYWORD ∧ t.str_val = "exit") :=
      fun hc => hns (Or.inl ⟨hc.1, Or.inr (Or.inl hc.2)⟩)
    have h3 : ¬ (t.type = .KEYWORD ∧ (t.str_val = "if" ∨ t.str_val = "else")) := by
      intro hc
      rcases hc.2 with hif | hel
      · exact hns (Or.inl ⟨hc.1, Or.inr (Or.inr (Or.inl hif))⟩)
      · exact hne ⟨hc.1, hel⟩
    have h4 : ¬ (t.type = .KEYWORD ∧ t.str_val = "while") :=
      fun hc => hns (Or.inl ⟨hc.1, Or.inr (Or.inr (Or.inr (Or.inl hc.2)))⟩)
    have h5 : ¬ (t.type = .KEYWORD ∧ t.str_val = "do") :=
      fun hc => hns (Or.inl ⟨hc.1, Or.inr (Or.inr (Or.inr (Or.inr hc.2)))⟩)
    have h6 : ¬ (t.type = .SEPARATOR ∧ t.str_val = "\x7b") :=
      fun hc => hns (Or.inr (Or.inl hc))
    have h7 : ¬ (t.type = .IDENTIFIER ∧ peek_assignment_operator tokens (i + 1) = true) :=
      fun hc => hns (Or.inr (Or.inr ⟨hc.1, (peek_assignment_operator_iff _ _).mp hc.2⟩))
    rw [if_neg h1, if_neg h2, if_neg h3, if_neg h4, if_neg h5, if_neg h6, if_neg h7]

theorem C37_witness :
    (∀ r, parse_statement 3 [tKw "else", tKw "if", tSep "("] 0 [[]] true = .ok r →
      statement_start_by_spec [tKw "else", tKw "if", tSep "("] 0 (tKw "else")) ∧
    ((tKw "else").type = .KEYWORD ∧ (tKw "else").str_val = "else" →
      parse_statement (3 + 2) [tKw "else", tKw "if", tSep "("] 0 [[]] true =
        .error .elseWithoutIf) ∧
    (¬ statement_start_by_spec [tKw "else", tKw "if", tSep "("] 0 (tKw "else") →
      ¬ ((tKw "else").type = .KEYWORD ∧ (tKw "else").str_val = "else") →
      parse_statement (3 + 1) [tKw "else", tKw "if", tSep "("] 0 [[]] true =
        .error .unsupportedStatement) ∧
    (∀ g, parse (g + 3) [tKw "else", tSep "\x7b", tSep "\x7d"] = .error .elseWithoutIf) ∧
    (∀ g, parse (g + 3) [tKw "else", tKw "if", tSep "(", tInt 1, tSep ")", tSep "\x7b",
      tSep "\x7d"] = .error .elseWithoutIf) ∧
    (∀ g, parse (g + 2) [tId "x", tSep ";"] = .error .unsupportedStatement) ∧
    (∀ g, parse (g + 2) [tInt 5, tSep ";"] = .error .unsupportedStatement) :=
  C37_statement_dispatch 3 [tKw "else", tKw "if", tSep "("] 0 [[]] true (tKw "else") rfl

/-! ## The expression parser terminates and advances -/

theorem get_precedence_neg {s : String} (h : get_precedence s < 0) : get_precedence s = -1 := by
  unfold get_precedence at h ⊢
  repeat' split at h
  all_goals first
    | (exfalso; revert h; decide)
    | skip
  simp_all

theorem getElem?_lt_length {α : Type} {l : List α} {i : Nat} {t : α} (h : l[i]? = some t) :
    i < l.length := by
  by_contra hc
  rw [List.getElem?_eq_none (by omega)] at h
  cases h

theorem parse_expression_cursor (n : Nat) :
    (∀ tokens i ss node i1, parse_primary n tokens i ss = .ok (node, i1) →
        i < i1 ∧ i1 ≤ tokens.length) ∧
    (∀ tokens i ss (m : Int) node i1, parse_expression n tokens i ss m = .ok (node, i1) →
        i < i1 ∧ i1 ≤ tokens.length ∧ RestsAt tokens i1 m) ∧
    (∀ tokens i ss (m : Int) left node i1, i ≤ tokens.length →
        parse_expression_loop n tokens i ss m left = .ok (node, i1) →
        i ≤ i1 ∧ i1 ≤ tokens.length ∧ RestsAt tokens i1 m) := by
  induction n with
  | zero =>
    refine ⟨?_, ?_, ?_⟩
    · intro tokens i ss node i1 h; rw [parse_primary] at h; cases h
    · intro tokens i ss m node i1 h; rw [parse_expression] at h; cases h
    · intro tokens i ss m left node i1 _ h; rw [parse_expression_loop] at h; cases h
  | succ f ih =>
    obtain ⟨ih1, ih2, ih3⟩ := ih
    refine ⟨?_, ?_, ?_⟩
    · intro tokens i ss node i1 h
      rw [parse_primary] at h
      split at h
      · cases h
      · rename_i token ht
        have hlt := getElem?_lt_length ht
        have one : ∀ nd, (Except.ok (nd, i + 1) : Except Err (Node × Nat)) = .ok (node, i1) →
            i < i1 ∧ i1 ≤ tokens.length := by
          intro nd hq
          simp only [Except.ok.injEq, Prod.mk.injEq] at hq
          obtain ⟨_, rfl⟩ := hq
          omega
        split at h
        · split at h
          · split at h
            · cases h
            · split at h
              · exact one _ h
              · exact one _ h
          · exact one _ h
        · split at h
          · split at h
            · cases h
            · rename_i expr i2 hpe
              obtain ⟨hlt2, _, _⟩ := ih2 _ _ _ _ _ _ hpe
              split at h
              · cases h
              · rename_i tc htc
                have hlt3 := getElem?_lt_length htc
                split at h
                · cases h
                · split at h
                  · simp only [Except.ok.injEq, Prod.mk.injEq] at h
                    obtain ⟨_, rfl⟩ := h
                    omega
                  · cases h
          · cases h
    · intro tokens i ss m node i1 h
      rw [parse_expression] at h
      split at h
      · cases h
      · rename_i left i2 hp
        obtain ⟨h1, h2⟩ := ih1 _ _ _ _ _ hp
        obtain ⟨h3, h4, h5⟩ := ih3 _ _ _ _ _ _ _ h2 h
        exact ⟨by omega, h4, h5⟩
    · intro tokens i ss m left node i1 hi h
      rw [parse_expression_loop] at h
      split at h
      · rename_i hn
        simp only [Except.ok.injEq, Prod.mk.injEq] at h
        obtain ⟨_, rfl⟩ := h
        exact ⟨le_refl _, hi, Or.inl hn⟩
      · rename_i op hop
        split at h
        · rename_i hty
          simp only [Except.ok.injEq, Prod.mk.injEq] at h
          obtain ⟨_, rfl⟩ := h
          exact ⟨le_refl _, hi, Or.inr ⟨op, hop, Or.inl hty⟩⟩
        · split at h
          · rename_i hpr
            simp only [Except.ok.injEq, Prod.mk.injEq] at h
            obtain ⟨_, rfl⟩ := h
            exact ⟨le_refl _, hi, Or.inr ⟨op, hop, Or.inr hpr⟩⟩
          · split at h
            · cases h
            · rename_i right i2 hpe
              obtain ⟨h1, h2, _⟩ := ih2 _ _ _ _ _ _ hpe
              split at h
              · split at h
                · cases h
                · obtain ⟨h3, h4, h5⟩ := ih3 _ _ _ _ _ _ _ h2 h
                  exact ⟨by omega, h4, h5⟩
              · obtain ⟨h3, h4, h5⟩ := ih3 _ _ _ _ _ _ _ h2 h
                exact ⟨by omega, h4, h5⟩

theorem parse_primary_mono {n n1 : Nat} (hn : n ≤ n1) {tokens : List Token} {i : Nat}
    {ss : ScopeStack} {X : Except Err (Node × Nat)}
    (h : parse_primary n tokens i ss = X) (hX : X ≠ .error .outOfFuel) :
    parse_primary n1 tokens i ss = X := by
  induction hn with
  | refl => exact h
  | step _ ih => exact (parse_expression_mono_aux _).1 _ _ _ _ ih hX

theorem evaluate_constant_expression_fuel (node : Node) :
    ∀ e, evaluate_constant_expression node = .error e → e ≠ .outOfFuel := by
  induction node with
  | NULL => intro e h; simp [evaluate_constant_expression] at h
  | mk type value line col left right ihl ihr =>
    intro e h
    cases type <;> simp only [evaluate_constant_expression] at h
    all_goals first
      | (cases h; done)
      | (simp only [Except.error.injEq] at h; subst h; intro hc; cases hc)
      | skip
    split at h
    · simp only [Except.error.injEq] at h; subst h; intro hc; cases hc
    · split at h
      · rename_i e1 he
        simp only [Except.error.injEq] at h; subst h; exact ihl _ he
      · split at h
        · rename_i e1 he
          simp only [Except.error.injEq] at h; subst h; exact ihr _ he
        · split at h
          · intro hc; subst hc; exact eval_binary_ne_outOfFuel _ _ _ h
          · simp only [Except.error.injEq] at h; subst h; intro hc; cases hc

/-- Fuel twice the number of remaining tokens is enough for the expression
parser. -/
theorem parse_expression_fuel (r : Nat) :
    ∀ (tokens : List Token) (i : Nat) (ss : ScopeStack), tokens.length - i ≤ r →
      parse_primary (2 * r + 1) tokens i ss ≠ .error .outOfFuel ∧
      (∀ m, parse_expression (2 * r + 2) tokens i ss m ≠ .error .outOfFuel) ∧
      (∀ m left, parse_expression_loop (2 * r + 1) tokens i ss m left ≠ .error .outOfFuel) := by
  induction r with
  | zero =>
    intro tokens i ss hr
    have hnone : tokens[i]? = none := List.getElem?_eq_none (by omega)
    have hp : parse_primary 1 tokens i ss = .error .endOfInput := by
      rw [parse_primary]; simp only [hnone]
    refine ⟨?_, ?_, ?_⟩
    · show parse_primary 1 tokens i ss ≠ _
      rw [hp]; intro hc; cases hc
    · intro m
      show parse_expression 2 tokens i ss m ≠ _
      rw [parse_expression, hp]; intro hc; cases hc
    · intro m left
      show parse_expression_loop 1 tokens i ss m left ≠ _
      rw [parse_expression_loop]; simp only [hnone]; intro hc; cases hc
  | succ r ih =>
    intro tokens i ss hr
    have hexp : ∀ j m, i < j →
        parse_expression (2 * r + 2) tokens j ss m ≠ .error .outOfFuel :=
      fun j m hj => (ih tokens j ss (by omega)).2.1 m
    have hloop : ∀ j m left k, i < j → 2 * r + 1 ≤ k →
        parse_expression_loop k tokens j ss m left ≠ .error .outOfFuel := by
      intro j m left k hj hk
      have h0 := (ih tokens j ss (by omega)).2.2 m left
      rw [parse_expression_loop_mono hk rfl h0]
      exact h0
    have hprim : parse_primary (2 * (r + 1) + 1) tokens i ss ≠ .error .outOfFuel := by
      show parse_primary (2 * r + 2 + 1) tokens i ss ≠ _
      rw [parse_primary]
      split
      · intro hc; cases hc
      · split
        · split
          · split
            · intro hc; cases hc
            · split <;> (intro hc; cases hc)
          · intro hc; cases hc
        · split
          · split
            · rename_i e he
              intro hc
              simp only [Except.error.injEq] at hc
              subst hc
              exact hexp _ _ (by omega) he
            · split
              · intro hc; cases hc
              · split
                · rename_i e he
                  intro hc
                  simp only [Except.error.injEq] at hc
                  subst hc
                  unfold Token.str at he
                  split at he <;> cases he
                · split <;> (intro hc; cases hc)
          · intro hc; cases hc
    refine ⟨hprim, ?_, ?_⟩
    · intro m
      show parse_expression (2 * r + 3 + 1) tokens i ss m ≠ _
      rw [parse_expression]
      split
      · rename_i e he
        intro hc
        simp only [Except.error.injEq] at hc
        subst hc
        exact hprim he
      · rename_i left i2 hp
        have h1 := ((parse_expression_cursor _).1 _ _ _ _ _ hp).1
        exact hloop _ _ _ _ h1 (by omega)
    · intro m left
      show parse_expression_loop (2 * r + 2 + 1) tokens i ss m left ≠ _
      rw [parse_expression_loop]
      split
      · intro hc; cases hc
      · split
        · intro hc; cases hc
        · split
          · intro hc; cases hc
          · split
            · rename_i e he
              intro hc
              simp only [Except.error.injEq] at hc
              subst hc
              exact hexp _ _ (by omega) he
            · rename_i right i2 hpe
              have h1 := ((parse_expression_cursor _).2.1 _ _ _ _ _ _ hpe).1
              split
              · split
                · rename_i e he
                  intro hc
                  simp only [Except.error.injEq] at hc
                  subst hc
                  exact evaluate_constant_expression_fuel _ _ he rfl
                · exact hloop _ _ _ _ (by omega) (by omega)
              · exact hloop _ _ _ _ (by omega) (by omega)

/-- C36: with fuel twice the number of remaining tokens plus two,
`parse_expression` ends with a node or with a fatal error of the code, never
for lack of fuel, and more fuel gives the same result.  When it returns a
node the cursor has advanced by at least one token and is not beyond the end
of the sequence; for minimum precedence 0 it rests at the end of the input
or on a token that is not of type `OPERATOR` or whose string is outside the
precedence table.  The scope stack is an argument that is only read: the
result holds a node and a cursor. -/
theorem C36_parse_expression_terminates_and_advances (tokens : List Token) (i : Nat)
    (ss : ScopeStack) (m : Int) :
    (∀ fuel, 2 * (tokens.length - i) + 2 ≤ fuel →
      parse_expression fuel tokens i ss m ≠ .error .outOfFuel ∧
      parse_expression fuel tokens i ss m =
        parse_expression (2 * (tokens.length - i) + 2) tokens i ss m) ∧
    (∀ fuel node i1, parse_expression fuel tokens i ss m = .ok (node, i1) →
      i < i1 ∧ i1 ≤ tokens.length ∧
      (m = 0 → tokens[i1]? = none ∨
        ∃ t, tokens[i1]? = some t ∧ (t.type ≠ .OPERATOR ∨ get_precedence t.str_val = -1))) := by
  refine ⟨?_, ?_⟩
  · intro fuel hf
    have h0 := (parse_expression_fuel (tokens.length - i) tokens i ss (le_refl _)).2.1 m
    have h1 := parse_expression_mono hf rfl h0
    exact ⟨by rw [h1]; exact h0, h1⟩
  · intro fuel node i1 h
    obtain ⟨h1, h2, h3⟩ := (parse_expression_cursor fuel).2.1 _ _ _ _ _ _ h
    refine ⟨h1, h2, ?_⟩
    intro hm
    subst hm
    rcases h3 with h3 | ⟨t, ht, h3⟩
    · exact Or.inl h3
    · refine Or.inr ⟨t, ht, ?_⟩
      rcases h3 with h3 | h3
      · exact Or.inl h3
      · exact Or.inr (get_precedence_neg h3)

theorem C36_witness :
    0 < 3 ∧ 3 ≤ [tInt 1, tOp "+", tInt 2, tSep ";"].length ∧
      ((0 : Int) = 0 → [tInt 1, tOp "+", tInt 2, tSep ";"][3]? = none ∨
        ∃ t, [tInt 1, tOp "+", tInt 2, tSep ";"][3]? = some t ∧
          (t.type ≠ .OPERATOR ∨ get_precedence t.str_val = -1)) :=
  (C36_parse_expression_terminates_and_advances [tInt 1, tOp "+", tInt 2, tSep ";"] 0 [] 0).2
    4 (lit_node 3 1 1) 3 (by decide)

/-! ## A `while` whose condition is false on entry -/

theorem parse_while_loop_zero {g : Nat} {tokens : List Token} {ls : Nat} {ss : ScopeStack}
    {fc fb c b : Node} {fi : Bool} {s : ScopeStack} {ln cl : Int} {i1 : Nat}
    (hpe : parse_expression g tokens ls ss 0 = .ok (lit_node 0 ln cl, i1))
    (h : parse_while_loop (g + 1) tokens ls ss fc fb fi = .ok (c, b, s)) :
    c = fc ∧ b = fb ∧ s = ss := by
  rw [parse_while_loop, hpe] at h
  simp only at h
  split at h
  · cases h
  · have hz : eval_condition (lit_node 0 ln cl) ss true false = false := by
      simp [eval_condition, lit_node, Node.has_type, Node.get_int]
    rw [hz] at h
    simp only [Bool.false_eq_true, if_false, Except.ok.injEq, Prod.mk.injEq] at h
    exact ⟨h.1.symm, h.2.1.symm, h.2.2.symm⟩

theorem parse_while_statement_zero {g : Nat} {tokens : List Token} {i : Nat} {ss : ScopeStack}
    {r : Parsed} {wt : Token} {ln cl : Int} {i1 : Nat} (ht : tokens[i]? = some wt)
    (hpe : parse_expression g tokens (i + 2) ss 0 = .ok (lit_node 0 ln cl, i1))
    (h : parse_while_statement (g + 2) tokens i ss = .ok r) :
    r.node = .mk .NODE_WHILE_STATEMENT (.str_val (some "while")) wt.line wt.col .NULL .NULL ∧
    r.last = 0 := by
  rw [parse_while_statement] at h
  simp only [ht] at h
  split at h
  · cases h
  · split at h
    · cases h
    · rename_i fc fb ss1 hl
      obtain ⟨rfl, rfl, rfl⟩ := parse_while_loop_zero hpe hl
      split at h
      · cases h
      · split at h
        · cases h
        · split at h
          · cases h
          · simp only [Except.ok.injEq] at h
            subst h
            exact ⟨rfl, rfl⟩

/-- C32: for every `while` statement whose condition evaluates to 0 on
entry and whose block holds assignments only, with every fuel from the
length of the statement plus three on: whenever `parse_while_statement`
returns, the while node has neither child nor sibling, the cursor is behind
the closing brace of the block, and the scope stack is the one of the call;
it does return when the targets of the assignments are declared and their
right-hand sides evaluate, and it ends with the error of the first
assignment that fails otherwise. -/
theorem C32_while_with_false_condition_has_no_effect
    (c : Expr) (body : List Assign) (tw : List Token) (h : SpellsWhile c body tw)
    (tokens : List Token) (i : Nat) (rest : List Token) (hd : tokens.drop i = tw ++ rest)
    (ss : ScopeStack) (hc : c.eval ss = .ok 0) (fuel : Nat) (hf : tw.length + 3 ≤ fuel) :
    ∃ wt, tokens[i]? = some wt ∧
      (∀ r, parse_while_statement fuel tokens i ss = .ok r →
        r = ⟨.mk .NODE_WHILE_STATEMENT (.str_val (some "while")) wt.line wt.col .NULL .NULL,
             0, i + tw.length, ss⟩) ∧
      (∀ s, exec_assigns false ss body = .ok s →
        parse_while_statement fuel tokens i ss =
          .ok ⟨.mk .NODE_WHILE_STATEMENT (.str_val (some "while")) wt.line wt.col .NULL .NULL,
               0, i + tw.length, ss⟩) ∧
      (∀ x, exec_assigns false ss body = .error x →
        parse_while_statement fuel tokens i ss = .error x) := by
  have hrun : while_run 1 ss c body = .ok ss := by
    simp [while_run, hc]
  have hst := parse_while_statement_spells h tokens i rest hd 1 ss ss hrun fuel (by omega)
  cases h with
  | mk kw lp rp c body cts bts hkw1 hkw2 hlp1 hlp2 hrp1 hrp2 hsp hok hbody =>
    have hlen : (kw :: lp :: cts ++ rp :: bts).length = cts.length + bts.length + 3 := by
      simp; omega
    have hd0 : tokens.drop i = kw :: (lp :: (cts ++ (rp :: (bts ++ rest)))) := by
      simpa using hd
    have htk := getElem?_of_drop_eq_cons hd0
    have hd1 := drop_succ_of_drop_eq_cons hd0
    have hd2 : tokens.drop (i + 2) = cts ++ (rp :: (bts ++ rest)) :=
      drop_succ_of_drop_eq_cons hd1
    obtain ⟨g, rfl⟩ : ∃ g, fuel = g + 2 := ⟨fuel - 2, by omega⟩
    obtain ⟨ln, cl, hpe⟩ := parse_expression_value hsp ss 0 hc hok tokens (i + 2)
      (rp :: (bts ++ rest)) hd2
      (by intro t r h hty; simp at h; rw [← h.1, hrp1] at hty; cases hty) g
      (by rw [hlen] at hf; omega)
    have hret : ∀ r, parse_while_statement (g + 2) tokens i ss = .ok r →
        r = ⟨.mk .NODE_WHILE_STATEMENT (.str_val (some "while")) kw.line kw.col .NULL .NULL,
             0, i + (kw :: lp :: cts ++ rp :: bts).length, ss⟩ := by
      intro r hp
      obtain ⟨hn, hl⟩ := parse_while_statement_zero htk hpe hp
      obtain ⟨h1, h2⟩ := state_of_ok hst hp
      have h3 : r.scope_stack = ss := exec_assigns_inactive h2
      obtain ⟨rn, rl, ri, rs⟩ := r
      simp only at hn hl h1 h3
      rw [hn, hl, h1, h3]
    refine ⟨kw, htk, hret, ?_, ?_⟩
    · intro s hb
      rw [hb] at hst
      cases hp : parse_while_statement (g + 2) tokens i ss with
      | error e => rw [hp] at hst; simp [state_of, at_cursor] at hst
      | ok r => rw [hret r hp]
    · intro x hb
      rw [hb] at hst
      cases hp : parse_while_statement (g + 2) tokens i ss with
      | error e =>
        rw [hp] at hst
        simp only [state_of, at_cursor, Except.error.injEq] at hst
        rw [hst]
      | ok r => rw [hp] at hst; simp [state_of, at_cursor] at hst

theorem C32_witness :
    ∃ wt, while_never_entered[0]? = some wt ∧
      parse_while_statement 17 while_never_entered 0 (scope_x 0) =
        .ok ⟨.mk .NODE_WHILE_STATEMENT (.str_val (some "while")) wt.line wt.col .NULL .NULL,
             0, 0 + while_never_entered.length, scope_x 0⟩ :=
  (C32_while_with_false_condition_has_no_effect (.var "x")
    [⟨"x", "=", .lit 7⟩, ⟨"x", "+=", .lit 1⟩] while_never_entered
    (SpellsWhile.mk (tKw "while") (tSep "(") (tSep ")") (.var "x") _ [tId "x"]
      (tSep "\x7b" :: ([tId "x", tOp "=", tInt 7, tSep ";"] ++
        ([tId "x", tOp "+=", tInt 1, tSep ";"] ++ [])) ++ [tSep "\x7d"])
      rfl rfl rfl rfl rfl rfl (Spells.var (tId "x") rfl) trivial
      (SpellsBody.mk (tSep "\x7b") (tSep "\x7d") _ _ rfl rfl rfl rfl
        (SpellsAssigns.cons _ _ _ _
          (SpellsAssign.mk (tId "x") (tOp "=") (tSep ";") (.lit 7) [tInt 7] rfl rfl
            (by decide) (Spells.lit (tInt 7) rfl) trivial rfl rfl)
          (SpellsAssigns.cons _ _ _ _
            (SpellsAssign.mk (tId "x") (tOp "+=") (tSep ";") (.lit 1) [tInt 1] rfl rfl
              (by decide) (Spells.lit (tInt 1) rfl) trivial rfl rfl)
            SpellsAssigns.nil))))
    while_never_entered 0 [] rfl (scope_x 0) rfl 17 (by decide)).elim
    (fun wt hw => ⟨wt, hw.1, hw.2.2.1 (scope_x 0) rfl⟩)

/-! ## The sibling chain under the root -/

/-- C31, evaluated on the code: for the two statements `int x = 0; x = v;`
the sibling chain under the root has three nodes, the declaration, the
assignment and the literal of its right-hand side, which the assignment
node holds in its `right` link.  When a statement follows the assignment
the chain holds the statement nodes only, in source order; a declaration
of three variables gives three declaration nodes, and the statement after
an `if` / `else if` / `else` chain follows the `else` node. -/
theorem C31_assignment_literal_ends_the_sibling_chain :
    (∀ (v : Int) (g : Nat), root_chain (parse (g + 5) (ends_with_assignment v)) =
      .ok [.NODE_VAR_DECL, .NODE_ASSIGNMENT, .NODE_LITERAL_INT]) ∧
    (∀ (v : Int) (g : Nat), parse (g + 5) (ends_with_assignment v) =
      .ok (.mk .NODE_BEGIN (.str_val (some "program")) 0 0
        (.mk .NODE_VAR_DECL (.str_val (some "x")) 1 1 (lit_node 0 1 1)
          (.mk .NODE_ASSIGNMENT (.str_val (some "=")) 1 1
            (.mk .NODE_IDENTIFIER (.str_val (some "x")) 1 1 .NULL .NULL) (lit_node v 1 1)))
        .NULL)) ∧
    (∀ g, root_chain (parse (g + 6) assignment_then_exit) =
      .ok [.NODE_VAR_DECL, .NODE_ASSIGNMENT, .NODE_EXIT_CALL]) ∧
    (∀ g, root_chain (parse (g + 6) three_declarators) =
      .ok [.NODE_VAR_DECL, .NODE_VAR_DECL, .NODE_VAR_DECL, .NODE_EXIT_CALL]) ∧
    (∀ g, root_chain (parse (g + 8) chain_then_exit) =
      .ok [.NODE_IF_STATEMENT, .NODE_ELSE_IF_STATEMENT, .NODE_ELSE_STATEMENT,
           .NODE_EXIT_CALL]) := by
  refine ⟨fun v g => rfl, fun v g => rfl, fun g => rfl, fun g => rfl, fun g => rfl⟩

/-! ## Integer literals -/

theorem char_le_iff (a b : Char) : a ≤ b ↔ a.toNat ≤ b.toNat := by
  rw [Char.le_def]
  exact Iff.rfl

theorem isdigit_range {c : Char} (h : isdigit c = true) : 48 ≤ c.toNat ∧ c.toNat ≤ 57 := by
  simp only [isdigit, Bool.and_eq_true, decide_eq_true_eq] at h
  exact ⟨(char_le_iff _ _).mp h.1, (char_le_iff _ _).mp h.2⟩

theorem dec_to_digit_spec {c : Char} (h : isdigit c = true) :
    dec_to_digit c = digit_by_spec c ∧ 0 ≤ digit_by_spec c ∧ digit_by_spec c ≤ 15 := by
  have hr := isdigit_range h
  have h48 : ('0'.toNat : Int) = 48 := rfl
  simp only [dec_to_digit, digit_by_spec, if_pos hr, h48]
  refine ⟨trivial, ?_, ?_⟩ <;> omega

theorem oct_to_digit_spec {c : Char} (h : is_octal_digit c = true) :
    oct_to_digit c = digit_by_spec c ∧ 0 ≤ digit_by_spec c ∧ digit_by_spec c ≤ 15 := by
  simp only [is_octal_digit, Bool.and_eq_true, decide_eq_true_eq] at h
  have h1 : 48 ≤ c.toNat := (char_le_iff _ _).mp h.1
  have h2 : c.toNat ≤ 55 := (char_le_iff _ _).mp h.2
  have hr : 48 ≤ c.toNat ∧ c.toNat ≤ 57 := ⟨h1, by omega⟩
  have h48 : ('0'.toNat : Int) = 48 := rfl
  simp only [oct_to_digit, digit_by_spec, if_pos hr, h48]
  refine ⟨trivial, ?_, ?_⟩ <;> omega

theorem bin_to_digit_spec {c : Char} (h : is_binary_digit c = true) :
    bin_to_digit c = digit_by_spec c ∧ 0 ≤ digit_by_spec c ∧ digit_by_spec c ≤ 15 := by
  simp only [is_binary_digit, Bool.or_eq_true, decide_eq_true_eq] at h
  rcases h with h | h <;> subst h <;> decide

theorem hex_to_digit_spec {c : Char} (h : is_hex_digit c = true) :
    hex_to_digit c = digit_by_spec c ∧ 0 ≤ digit_by_spec c ∧ digit_by_spec c ≤ 15 := by
  by_cases hd : isdigit c = true
  · have hr := isdigit_range hd
    have h48 : ('0'.toNat : Int) = 48 := rfl
    simp only [hex_to_digit, hd, if_true, digit_by_spec, if_pos hr, h48]
    refine ⟨trivial, ?_, ?_⟩ <;> omega
  · simp only [is_hex_digit, Bool.or_eq_true, Bool.and_eq_true, decide_eq_true_eq] at h
    have hnd : ¬ (48 ≤ c.toNat ∧ c.toNat ≤ 57) := by
      intro hc
      apply hd
      simp only [isdigit, Bool.and_eq_true, decide_eq_true_eq]
      exact ⟨(char_le_iff _ _).mpr hc.1, (char_le_iff _ _).mpr hc.2⟩
    have h97 : ('a'.toNat : Int) = 97 := rfl
    have h65 : ('A'.toNat : Int) = 65 := rfl
    rcases h with (h | h) | h
    · exact absurd h hd
    · have h1 : 97 ≤ c.toNat := (char_le_iff _ _).mp h.1
      have h2 : c.toNat ≤ 102 := (char_le_iff _ _).mp h.2
      have hlow : (decide ('a' ≤ c) && decide (c ≤ 'f')) = true := by simp [h.1, h.2]
      simp only [hex_to_digit, hd, Bool.false_eq_true, if_false, hlow, if_true, digit_by_spec,
        if_neg hnd, if_pos (And.intro h1 h2), h97]
      refine ⟨by omega, ?_, ?_⟩ <;> omega
    · have h1 : 65 ≤ c.toNat := (char_le_iff _ _).mp h.1
      have h2 : c.toNat ≤ 70 := (char_le_iff _ _).mp h.2
      have hlow : ¬ ((decide ('a' ≤ c) && decide (c ≤ 'f')) = true) := by
        simp only [Bool.and_eq_true, decide_eq_true_eq]
        intro hc
        have := (char_le_iff _ _).mp hc.1
        have h97n : 'a'.toNat = 97 := rfl
        omega
      have hn97 : ¬ (97 ≤ c.toNat ∧ c.toNat ≤ 102) := by omega
      simp only [hex_to_digit, hd, Bool.false_eq_true, if_false, hlow, digit_by_spec,
        if_neg hnd, if_neg hn97, if_pos (And.intro h1 h2), h65]
      refine ⟨by omega, ?_, ?_⟩ <;> omega

/-- The loop of `parse_number_in_base` reads the digits up to the end of
the literal, folding each into the number. -/
theorem parse_number_in_base_loop_spec (base : Int) (is_valid : Char → Bool)
    (to_digit : Char → Int) (rest : List Char) (hrest : literal_ends is_valid rest = true) :
    ∀ (ds : List Char) (number col : Int),
      (∀ c ∈ ds, is_valid c = true ∧ to_digit c = digit_by_spec c) →
      ∃ col1, parse_number_in_base_loop base is_valid to_digit (ds ++ rest) number col =
        (ds.foldl (fun n c => wrap32 (n * base + digit_by_spec c)) number, rest, col1) := by
  intro ds
  induction ds with
  | nil =>
    intro number col _
    cases rest with
    | nil => exact ⟨col, rfl⟩
    | cons c r =>
      have hc : is_valid c = false := by simpa [literal_ends] using hrest
      refine ⟨col - 1, ?_⟩
      simp [parse_number_in_base_loop, hc]
  | cons d ds ih =>
    intro number col hds
    have hd := hds d (List.mem_cons_self _ _)
    obtain ⟨col1, h1⟩ := ih (wrap32 (number * base + digit_by_spec d)) (col + 1)
      (fun c hc => hds c (List.mem_cons_of_mem _ hc))
    refine ⟨col1, ?_⟩
    simp only [List.cons_append, parse_number_in_base_loop, hd.1, if_true, hd.2, List.foldl_cons]
    exact h1

theorem parse_number_in_base_spec (base : Int) (is_valid : Char → Bool)
    (to_digit : Char → Int) (d : Char) (ds rest : List Char) (col : Int)
    (hspec : ∀ c, is_valid c = true →
      to_digit c = digit_by_spec c ∧ 0 ≤ digit_by_spec c ∧ digit_by_spec c ≤ 15)
    (hd : is_valid d = true) (hds : ds.all is_valid = true)
    (hrest : literal_ends is_valid rest = true) :
    number_and_rest (.ok (parse_number_in_base (ds ++ rest) col base is_valid to_digit d)) =
      .ok (number_by_spec base (d :: ds), rest) := by
  obtain ⟨col1, h⟩ := parse_number_in_base_loop_spec base is_valid to_digit rest hrest ds
    (to_digit d) col (fun c hc => ⟨List.all_eq_true.mp hds c hc,
      (hspec c (List.all_eq_true.mp hds c hc)).1⟩)
  have h0 := hspec d hd
  have hw : wrap32 (0 * base + digit_by_spec d) = to_digit d := by
    rw [h0.1, zero_mul, zero_add]
    exact wrap32_of_range (by omega) (by omega)
  simp only [parse_number_in_base, h, number_and_rest, number_by_spec, List.foldl_cons, hw]

theorem digit_by_spec_range (c : Char) : 0 ≤ digit_by_spec c ∧ digit_by_spec c ≤ 15 := by
  unfold digit_by_spec
  split
  · constructor <;> omega
  · split
    · constructor <;> omega
    · split
      · constructor <;> omega
      · constructor <;> omega

theorem number_by_spec_exact_aux (base : Int) (hb : 1 ≤ base) :
    ∀ (ds : List Char) (n : Int), 0 ≤ n →
      ds.foldl (fun number c => number * base + digit_by_spec c) n < 2147483648 →
      ds.foldl (fun number c => wrap32 (number * base + digit_by_spec c)) n =
        ds.foldl (fun number c => number * base + digit_by_spec c) n ∧
      n ≤ ds.foldl (fun number c => number * base + digit_by_spec c) n := by
  intro ds
  induction ds with
  | nil => intro n _ _; exact ⟨rfl, le_refl _⟩
  | cons d ds ih =>
    intro n hn h
    simp only [List.foldl_cons] at h ⊢
    have hd := digit_by_spec_range d
    have hmul : n ≤ n * base := by
      have := mul_le_mul_of_nonneg_left hb hn
      simpa using this
    have hn1 : 0 ≤ n * base + digit_by_spec d := by omega
    obtain ⟨h1, h2⟩ := ih (n * base + digit_by_spec d) hn1 h
    have hw : wrap32 (n * base + digit_by_spec d) = n * base + digit_by_spec d :=
      wrap32_of_range (by omega) (by omega)
    rw [hw]
    exact ⟨h1, by omega⟩

theorem octal_not_prefix {c : Char} (h : is_octal_digit c = true) :
    (c = 'x' || c = 'X') = false ∧ (c = 'b' || c = 'B') = false := by
  simp only [is_octal_digit, Bool.and_eq_true, decide_eq_true_eq] at h
  have h2 : c.toNat ≤ 55 := (char_le_iff _ _).mp h.2
  have ne : ∀ k : Char, 55 < k.toNat → c ≠ k := by
    intro k hk hc; subst hc; omega
  have a := ne 'x' (by decide)
  have b := ne 'X' (by decide)
  have c1 := ne 'b' (by decide)
  have d := ne 'B' (by decide)
  simp [a, b, c1, d]

/-- C38: for a hexadecimal, binary, octal or decimal spelling that ends at
the end of the file or before a character that is no digit of its base,
`generate_number` returns the value of the digits after the prefix, folded
from the left as `number * base + digit` in 32-bit arithmetic, and leaves
what follows the literal in the file; a `0` that is followed neither by
`x`, `X`, `b`, `B` nor by an octal digit gives 0.  The 32-bit value is the
positional value of the digits when that is below 2^31.  `0x1F` gives 31,
`0b101` gives 5, `017` gives 15 and `123` gives 123. -/
theorem C38_generate_number_reads_digits_in_base (d : Char) (ds rest : List Char)
    (col : Int) :
    (∀ x : Char, x = 'x' ∨ x = 'X' → is_hex_digit d = true → ds.all is_hex_digit = true →
      literal_ends is_hex_digit rest = true →
      number_and_rest (generate_number '0' (x :: d :: (ds ++ rest)) col) =
        .ok (number_by_spec 16 (d :: ds), rest)) ∧
    (∀ x : Char, x = 'b' ∨ x = 'B' → is_binary_digit d = true →
      ds.all is_binary_digit = true → literal_ends is_binary_digit rest = true →
      number_and_rest (generate_number '0' (x :: d :: (ds ++ rest)) col) =
        .ok (number_by_spec 2 (d :: ds), rest)) ∧
    (is_octal_digit d = true → ds.all is_octal_digit = true →
      literal_ends is_octal_digit rest = true →
      number_and_rest (generate_number '0' (d :: (ds ++ rest)) col) =
        .ok (number_by_spec 8 (d :: ds), rest)) ∧
    (isdigit d = true → d ≠ '0' → ds.all isdigit = true → literal_ends isdigit rest = true →
      number_and_rest (generate_number d (ds ++ rest) col) =
        .ok (number_by_spec 10 (d :: ds), rest)) ∧
    (literal_ends (fun c => c = 'x' || c = 'X' || c = 'b' || c = 'B' || is_octal_digit c)
        rest = true →
      number_and_rest (generate_number '0' rest col) = .ok (0, rest)) ∧
    (∀ base : Int, 1 ≤ base → positional_value base (d :: ds) < 2147483648 →
      number_by_spec base (d :: ds) = positional_value base (d :: ds)) ∧
    number_and_rest (generate_number '0' ['x', '1', 'F', ';'] col) = .ok (31, [';']) ∧
    number_and_rest (generate_number '0' ['b', '1', '0', '1'] col) = .ok (5, []) ∧
    number_and_rest (generate_number '0' ['1', '7', ' '] col) = .ok (15, [' ']) ∧
    number_and_rest (generate_number '1' ['2', '3', ')'] col) = .ok (123, [')']) ∧
    number_and_rest (generate_number '0' [';'] col) = .ok (0, [';']) := by
  refine ⟨?_, ?_, ?_, ?_, ?_, ?_, rfl, rfl, rfl, rfl, rfl⟩
  · intro x hx hd hds hrest
    have hx1 : (x = 'x' || x = 'X') = true := by
      rcases hx with h | h <;> simp [h]
    unfold generate_number
    simp only [if_true, hx1, hd, Bool.not_true, Bool.false_eq_true, if_false]
    exact parse_number_in_base_spec 16 is_hex_digit hex_to_digit d ds rest _
      (fun c hc => hex_to_digit_spec hc) hd hds hrest
  · intro x hx hd hds hrest
    have hx0 : (x = 'x' || x = 'X') = false := by
      rcases hx with h | h <;> subst h <;> decide
    have hx1 : (x = 'b' || x = 'B') = true := by
      rcases hx with h | h <;> simp [h]
    unfold generate_number
    simp only [if_true, hx0, hx1, hd, Bool.not_true, Bool.false_eq_true, if_false]
    exact parse_number_in_base_spec 2 is_binary_digit bin_to_digit d ds rest _
      (fun c hc => bin_to_digit_spec hc) hd hds hrest
  · intro hd hds hrest
    obtain ⟨h1, h2⟩ := octal_not_prefix hd
    unfold generate_number
    simp only [if_true, h1, h2, hd, Bool.false_eq_true, if_false]
    exact parse_number_in_base_spec 8 is_octal_digit oct_to_digit d ds rest _
      (fun c hc => oct_to_digit_spec hc) hd hds hrest
  · intro hd hne hds hrest
    unfold generate_number
    rw [if_neg hne]
    exact parse_number_in_base_spec 10 is_decimal_digit dec_to_digit d ds rest _
      (fun c hc => dec_to_digit_spec hc) hd hds hrest
  · intro hrest
    unfold generate_number
    cases rest with
    | nil => simp [number_and_rest]
    | cons c r =>
      simp only [literal_ends, Bool.not_eq_true', Bool.or_eq_false_iff] at hrest
      obtain ⟨⟨⟨⟨h1, h2⟩, h3⟩, h4⟩, h5⟩ := hrest
      have hx : (c = 'x' || c = 'X') = false := by simp [h1, h2]
      have hb : (c = 'b' || c = 'B') = false := by simp [h3, h4]
      simp only [if_true, hx, hb, h5, Bool.false_eq_true, if_false, number_and_rest]
  · intro base hb h
    exact (number_by_spec_exact_aux base hb (d :: ds) 0 (le_refl _) h).1

theorem C38_witness :
    number_and_rest (generate_number '0' ('x' :: '1' :: (['F'] ++ [';'])) 5) =
      .ok (number_by_spec 16 ('1' :: ['F']), [';']) ∧
    number_and_rest (generate_number '0' ('1' :: (['7'] ++ [' '])) 5) =
      .ok (number_by_spec 8 ('1' :: ['7']), [' ']) ∧
    number_and_rest (generate_number '1' (['2', '3'] ++ [')']) 5) =
      .ok (number_by_spec 10 ('1' :: ['2', '3']), [')']) :=
  ⟨(C38_generate_number_reads_digits_in_base '1' ['F'] [';'] 5).1 'x' (Or.inl rfl)
      (by decide) (by decide) (by decide),
   (C38_generate_number_reads_digits_in_base '1' ['7'] [' '] 5).2.2.1
      (by decide) (by decide) (by decide),
   (C38_generate_number_reads_digits_in_base '1' ['2', '3'] [')'] 5).2.2.2.1
      (by decide) (by decide) (by decide) (by decide)⟩

end Toycc
